import Mathlib

/-! # Lightmetrica: light-transport engine

A shallow embedding of parts of the renderer, with the properties of its
specification stated over it.

Conventions of the embedding.

* `Math::Float` is embedded as `ℚ`: arithmetic is exact.  Where the source divides,
  the theorems carry (or derive) the fact that the divisor is non-zero.
* `size_t` is embedded as `Nat` with an explicit reduction modulo `2 ^ 64`.
* `std::vector<T>` is embedded as `List T`.
-/

namespace Lightmetrica

/-! ## `math.distribution.h` : `DiscreteDistribution1D` -/

/-- The class `DiscreteDistribution1D`: its only member is the vector `cdf`. -/
structure DiscreteDistribution1D where
  cdf : List ℚ
  deriving DecidableEq, Repr

namespace DiscreteDistribution1D

/-- The width of `size_t`. -/
def sizeBits : Nat := 64

/-- The value of `cdf.back()`; the vector is never empty once constructed. -/
def back (d : DiscreteDistribution1D) : ℚ := d.cdf.getLastD 0

/-- The member `Clear()`: `cdf.clear(); cdf.push_back(0)`. -/
def Clear (_d : DiscreteDistribution1D) : DiscreteDistribution1D := ⟨[0]⟩

/-- The constructor `DiscreteDistribution1D() { Clear(); }`. -/
def new : DiscreteDistribution1D := Clear ⟨[]⟩

/-- The member `Add(v)`: `cdf.push_back(cdf.back() + v)`. -/
def Add (d : DiscreteDistribution1D) (v : ℚ) : DiscreteDistribution1D :=
  ⟨d.cdf ++ [d.back + v]⟩

/-- The member `Normalize()`: when the last entry is positive every entry is multiplied
by its inverse. -/
def Normalize (d : DiscreteDistribution1D) : DiscreteDistribution1D :=
  let sum := d.back
  if sum > 0 then
    let invSum := 1 / sum
    ⟨d.cdf.map (fun v => v * invSum)⟩
  else d

/-- The loop of `std::upper_bound` on the range `[first, first + len)` of `cdf`
(halving search); `fuel` bounds the number of iterations. -/
def upper_bound_loop (cdf : List ℚ) (u : ℚ) : Nat → Nat → Nat → Nat
  | 0, first, _ => first
  | fuel + 1, first, len =>
    if len = 0 then first
    else
      let half := len / 2
      let middle := first + half
      if u < cdf.getD middle 0 then upper_bound_loop cdf u fuel first half
      else upper_bound_loop cdf u fuel (middle + 1) (len - half - 1)

/-- The call `std::upper_bound(cdf.begin(), cdf.end(), u) - cdf.begin()`. -/
def upper_bound (cdf : List ℚ) (u : ℚ) : Nat :=
  upper_bound_loop cdf u cdf.length 0 cdf.length

/-- The helper `Math::Clamp<size_t>(v, lo, hi)`. -/
def Clamp (v lo hi : Nat) : Nat := min (max v lo) hi

/-- The member `Sample(u)`; the subtractions are those of `size_t`. -/
def Sample (d : DiscreteDistribution1D) (u : ℚ) : Nat :=
  let v := (upper_bound d.cdf u + 2 ^ sizeBits - 1) % 2 ^ sizeBits
  Clamp v 0 ((d.cdf.length + 2 ^ sizeBits - 2) % 2 ^ sizeBits)

/-- The greatest value `INT_MAX` of the 32-bit type `int`. -/
def intMax : Int := 2147483647

/-- The least value `INT_MIN` of the 32-bit type `int`. -/
def intMin : Int := -2147483648

/-- The conversion `static_cast<int>(n)` of a `size_t`: the value of `int` that is
congruent to `n` modulo `2 ^ 32`. -/
def toInt (n : Nat) : Int := ((n : Int) + 2147483648) % 4294967296 - 2147483648

/-- The member `EvaluatePDF(i)` for an argument `i` of the type `int`:
`(i < 0 || i + 1 >= static_cast<int>(cdf.size())) ? 0 : cdf[i + 1] - cdf[i]`.  The result
is `none` when `i` is not a value of `int`, and when `i` is `INT_MAX`: the addition
`i + 1`, which is evaluated for every `i >= 0`, then overflows, and the behaviour of the
source is undefined. -/
def EvaluatePDF (d : DiscreteDistribution1D) (i : Int) : Option ℚ :=
  if i < intMin ∨ intMax < i then none
  else if i < 0 then some 0
  else if i = intMax then none
  else if i + 1 ≥ toInt d.cdf.length then some 0
  else some (d.cdf.getD (i + 1).toNat 0 - d.cdf.getD i.toNat 0)

/-- The sequence of calls `Add(w_0); ...; Add(w_{n-1})` on a fresh distribution. -/
def addAll (ws : List ℚ) : DiscreteDistribution1D := ws.foldl Add new

end DiscreteDistribution1D

/-! ## `math.vector.h` : vectors -/

/-- The type `Math::Vec2`. -/
structure Vec2 where
  x : ℚ
  y : ℚ
  deriving DecidableEq, Repr

/-- The type `Math::Vec3`. -/
structure Vec3 where
  x : ℚ
  y : ℚ
  z : ℚ
  deriving DecidableEq, Repr

namespace Vec3

/-- The default constructor `Math::Vec3()`: the zero vector. -/
instance : Zero Vec3 := ⟨⟨0, 0, 0⟩⟩

/-- The constructor `Math::Vec3(v)`: every component is `v`. -/
def splat (v : ℚ) : Vec3 := ⟨v, v, v⟩

instance : One Vec3 := ⟨splat 1⟩

instance : Add Vec3 := ⟨fun a b => ⟨a.x + b.x, a.y + b.y, a.z + b.z⟩⟩

instance : Sub Vec3 := ⟨fun a b => ⟨a.x - b.x, a.y - b.y, a.z - b.z⟩⟩

instance : Neg Vec3 := ⟨fun a => ⟨-a.x, -a.y, -a.z⟩⟩

/-- The component-wise product `operator*(const TVec3&, const TVec3&)`. -/
instance : Mul Vec3 := ⟨fun a b => ⟨a.x * b.x, a.y * b.y, a.z * b.z⟩⟩

/-- The product with a scalar `operator*(const TVec3&, const T&)`. -/
instance : HMul Vec3 ℚ Vec3 := ⟨fun a s => ⟨a.x * s, a.y * s, a.z * s⟩⟩

/-- The quotient by a scalar `operator/(const TVec3&, const T&)`. -/
instance : HDiv Vec3 ℚ Vec3 := ⟨fun a s => ⟨a.x / s, a.y / s, a.z / s⟩⟩

/-- The component-wise quotient `operator/(const TVec3&, const TVec3&)`. -/
instance instDiv : Div Vec3 := ⟨fun a b => ⟨a.x / b.x, a.y / b.y, a.z / b.z⟩⟩

/-- The indexed access `operator[](int)`; indices other than 0 and 1 give `z`. -/
def get (v : Vec3) (i : Nat) : ℚ := if i = 0 then v.x else if i = 1 then v.y else v.z

/-- The function `Math::Dot`. -/
def Dot (a b : Vec3) : ℚ := a.x * b.x + a.y * b.y + a.z * b.z

/-- The function `Math::Length`; the square root `Math::Sqrt` is a parameter. -/
def Length (sqrt : ℚ → ℚ) (v : Vec3) : ℚ := sqrt (Dot v v)

/-- The function `Math::Normalize`: the vector divided by its length. -/
def Normalize (sqrt : ℚ → ℚ) (v : Vec3) : Vec3 := v / Length sqrt v

/-- The function `Math::IsZero`: every component is zero. -/
def IsZero (v : Vec3) : Bool := decide (v.x = 0) && decide (v.y = 0) && decide (v.z = 0)

end Vec3

/-- The type `Math::Mat3`, by its rows. -/
structure Mat3 where
  r0 : Vec3
  r1 : Vec3
  r2 : Vec3
  deriving DecidableEq, Repr

/-- The identity matrix `Math::Mat3::Identity()`. -/
instance : One Mat3 := ⟨⟨⟨1, 0, 0⟩, ⟨0, 1, 0⟩, ⟨0, 0, 1⟩⟩⟩

/-- The product `operator*(const TMat3&, const TVec3&)`. -/
def Mat3.mulVec3 (m : Mat3) (v : Vec3) : Vec3 := ⟨Vec3.Dot m.r0 v, Vec3.Dot m.r1 v, Vec3.Dot m.r2 v⟩

/-! ## Bidirectional path tracing: the data of `bpt.subpath.cpp` and `bpt.fullpath.cpp` -/

/-- The enumeration `TransportDirection`; `EL` is index 0 and `LE` index 1 of the
two-element arrays `pdfD`. -/
inductive TransportDirection where
  | EL
  | LE
  deriving DecidableEq, Repr

/-- The expression `TransportDirection(1 - transportDir)`. -/
def TransportDirection.opposite : TransportDirection → TransportDirection
  | .EL => .LE
  | .LE => .EL

/-- The enumeration `Math::ProbabilityMeasure`. -/
inductive ProbabilityMeasure where
  | None
  | SolidAngle
  | ProjectedSolidAngle
  | Area
  | Discrete
  deriving DecidableEq, Repr

/-- The structure `Math::PDFEval`: a value and its measure. -/
structure PDFEval where
  v : ℚ
  measure : ProbabilityMeasure
  deriving DecidableEq, Repr

/-- The structure `SurfaceGeometry`, with the members the embedded code reads. -/
structure SurfaceGeometry where
  degenerated : Bool
  p : Vec3
  gn : Vec3
  sn : Vec3
  worldToShading : Mat3
  shadingToWorld : Mat3
  deriving DecidableEq, Repr

/-- The structure `Ray`. -/
structure Ray where
  o : Vec3
  d : Vec3
  minT : ℚ
  maxT : ℚ
  deriving DecidableEq, Repr

/-- The bit masks of the enumeration `GeneralizedBSDFType` that the embedded code names;
the header that fixes their values is not part of the sources, so they are parameters. -/
structure GeneralizedBSDFType where
  All : Nat
  AllEmitter : Nat
  LightDirection : Nat
  EyeDirection : Nat
  NonDeltaEyeDirection : Nat
  AllBSDF : Nat
  Specular : Nat
  SpecularReflection : Nat
  SpecularTransmission : Nat
  deriving DecidableEq, Repr

/-- The structure `GeneralizedBSDFEvaluateQuery`. -/
structure GeneralizedBSDFEvaluateQuery where
  type : Nat
  transportDir : TransportDirection
  wi : Vec3
  wo : Vec3
  deriving DecidableEq, Repr

/-- The structure `GeneralizedBSDFSampleQuery`. -/
structure GeneralizedBSDFSampleQuery where
  sample : Vec2
  uComp : ℚ
  type : Nat
  transportDir : TransportDirection
  wi : Vec3
  deriving DecidableEq, Repr

/-- The structure `GeneralizedBSDFSampleResult`. -/
structure GeneralizedBSDFSampleResult where
  wo : Vec3
  sampledType : Nat
  pdf : PDFEval
  deriving DecidableEq, Repr

/-- The constructor `GeneralizedBSDFEvaluateQuery(query, result)` from a sampling query
and its result; the header is not part of the sources, and the members are taken over by
name: the sampled type, the transport direction and `wi` of the query, `wo` of the
result. -/
def GeneralizedBSDFEvaluateQuery.ofSample (query : GeneralizedBSDFSampleQuery)
    (result : GeneralizedBSDFSampleResult) : GeneralizedBSDFEvaluateQuery :=
  { type := result.sampledType, transportDir := query.transportDir, wi := query.wi,
    wo := result.wo }

/-- The class `Random`, whose header is not part of the sources: a generator of uniform
numbers, as the sequence of its outputs and the number of outputs drawn so far. -/
structure Random where
  seq : Nat → ℚ
  index : Nat

/-- The member `Next()`: the number drawn and the generator after the call. -/
def Random.Next (rng : Random) : ℚ × Random :=
  (rng.seq rng.index, { rng with index := rng.index + 1 })

/-- The member `NextVec2()`: two numbers drawn in a row. -/
def Random.NextVec2 (rng : Random) : Vec2 × Random :=
  (⟨rng.seq rng.index, rng.seq (rng.index + 1)⟩, { rng with index := rng.index + 2 })

/-- The interface `GeneralizedBSDF`: the virtual functions the embedded code calls.
`SampleDirection` gives `none` when it returns false and the value written to `result`
otherwise. -/
structure GeneralizedBSDF where
  EvaluateDirection : GeneralizedBSDFEvaluateQuery → SurfaceGeometry → Vec3
  EvaluateDirectionPDF : GeneralizedBSDFEvaluateQuery → SurfaceGeometry → PDFEval
  SampleDirection : GeneralizedBSDFSampleQuery → SurfaceGeometry →
    Option GeneralizedBSDFSampleResult
  BSDFTypes : Nat

/-- The interface `Emitter`, a `GeneralizedBSDF` with a positional component.
`SamplePosition(sample, geom, pdf)` gives the values written to `geom` and `pdf`. -/
structure Emitter extends GeneralizedBSDF where
  EvaluatePosition : SurfaceGeometry → Vec3
  EvaluatePositionPDF : SurfaceGeometry → PDFEval
  SamplePosition : Vec2 → SurfaceGeometry × PDFEval

/-- The interface `Light`. -/
structure Light extends Emitter

/-- The interface `Camera`; `RayToRasterPosition` gives its boolean result together with
the value it writes to `rasterPos`. -/
structure Camera extends Emitter where
  RayToRasterPosition : Vec3 → Vec3 → Bool × Vec2

/-- A non-null `const Emitter*`: it points to a light or to a camera. -/
inductive EmitterRef where
  | light (l : Light)
  | camera (c : Camera)

/-- The emitter interface of the object pointed to. -/
def EmitterRef.toEmitter : EmitterRef → Emitter
  | .light l => l.toEmitter
  | .camera c => c.toEmitter

/-- The expression `dynamic_cast<const Camera*>(emitter)`. -/
def EmitterRef.asCamera : EmitterRef → Option Camera
  | .light _ => none
  | .camera c => some c

/-- The enumeration `BPTPathVertexType`. -/
inductive BPTPathVertexType where
  | None
  | EndPoint
  | IntermediatePoint
  deriving DecidableEq, Repr

/-- The structure `BPTPathVertex`.  The pointers `emitter`, `areaLight` and `areaCamera`
may be null; `bsdf` is set by `BPTSubpath::Sample` on every vertex before the vertex is
stored in a subpath. -/
structure BPTPathVertex where
  type : BPTPathVertexType
  transportDir : TransportDirection
  geom : SurfaceGeometry
  wi : Vec3
  wo : Vec3
  pdfP : PDFEval
  pdfD : TransportDirection → PDFEval
  pdfRR : PDFEval
  emitter : Option EmitterRef
  bsdf : GeneralizedBSDF
  areaLight : Option Light
  areaCamera : Option Camera

/-- The class `BPTSubpath`: the transport direction and the vertices. -/
structure BPTSubpath where
  transportDir : TransportDirection
  vertices : List BPTPathVertex

namespace BPTSubpath

/-- The member `NumVertices()`. -/
def NumVertices (sp : BPTSubpath) : Nat := sp.vertices.length

/-- The body of the loop of `EvaluateSubpathAlpha` for the vertex `v`:
`alpha *= fs / v->pdfD[transportDir].v; alpha /= v->pdfRR.v`. -/
def alphaStep (T : GeneralizedBSDFType) (transportDir : TransportDirection) (alpha : Vec3)
    (v : BPTPathVertex) : Vec3 :=
  let fs := v.bsdf.EvaluateDirection ⟨T.All, transportDir, v.wi, v.wo⟩ v.geom
  let alpha := alpha * (fs / (v.pdfD transportDir).v)
  alpha / v.pdfRR.v

/-- The loop `for (int i = 0; i < vs - 1; i++)` of `EvaluateSubpathAlpha`, from index `i`
with `n` iterations left; `none` when `vertices[i]` is out of range. -/
def alphaLoop (T : GeneralizedBSDFType) (sp : BPTSubpath) : Nat → Nat → Vec3 → Option Vec3
  | 0, _, alpha => some alpha
  | n + 1, i, alpha =>
    match sp.vertices[i]? with
    | none => none
    | some v => alphaLoop T sp n (i + 1) (alphaStep T sp.transportDir alpha v)

/-- The member `EvaluateSubpathAlpha(vs, rasterPosition)`: the returned vector and the
final value of `rasterPosition`; `none` when the code dereferences a null pointer or reads
outside `vertices`. -/
def EvaluateSubpathAlpha (T : GeneralizedBSDFType) (sp : BPTSubpath) (vs : Nat)
    (rasterPosition : Vec2) : Option (Vec3 × Vec2) :=
  if vs = 0 then some (Vec3.splat 1, rasterPosition)
  else
    match sp.vertices[0]? with
    | none => none
    | some v =>
      match v.emitter with
      | none => none
      | some e =>
        let visible : Option (Bool × Vec2) :=
          if sp.transportDir = TransportDirection.EL then
            match e.asCamera with
            | none => none
            | some c => some (c.RayToRasterPosition v.geom.p v.wo)
          else some (true, rasterPosition)
        match visible with
        | none => none
        | some (true, rp) =>
          match alphaLoop T sp (vs - 1) 0 (e.toEmitter.EvaluatePosition v.geom / v.pdfP.v) with
          | none => none
          | some alpha => some (alpha, rp)
        | some (false, rp) => some (0, rp)

end BPTSubpath

/-- The members of `Intersection` that the embedded code reads: `geom` and, of the
primitive hit, `primitive->bsdf`, `primitive->light` and `primitive->camera`. -/
structure Intersection where
  geom : SurfaceGeometry
  bsdf : GeneralizedBSDF
  light : Option Light
  camera : Option Camera

/-- The parts of `Scene` that the embedded code uses.  `Query ray` stands for the member
`Intersect(ray, isect)`: `none` when it returns false, and the value written to `isect`
otherwise.  `SampleLightSelection(sample, pdf)` gives the light returned and the value
written to `pdf`. -/
structure Scene where
  Query : Ray → Option Intersection
  MainCamera : Camera
  SampleLightSelection : Vec2 → Light × PDFEval

/-- The boolean returned by the member `Intersect(ray, isect)`. -/
def Scene.Intersect (scene : Scene) (ray : Ray) : Bool := (scene.Query ray).isSome

/-- The functions and constants of headers outside the sources that the embedded code
uses: `Math::Sqrt`, `Math::Constants::Eps()`, `RenderUtils::GeneralizedGeometryTerm`, the
masks of `GeneralizedBSDFType`, `Math::Constants::Inf()` (a number stands for it) and
`Math::Luminance`. -/
structure RenderEnv where
  Sqrt : ℚ → ℚ
  Eps : ℚ
  GeneralizedGeometryTerm : SurfaceGeometry → SurfaceGeometry → ℚ
  T : GeneralizedBSDFType
  Inf : ℚ
  Luminance : Vec3 → ℚ

/-- The class `BPTFullPath`: the split `(s, t)` and the two subpaths. -/
structure BPTFullPath where
  s : Nat
  t : Nat
  lightSubpath : BPTSubpath
  eyeSubpath : BPTSubpath

namespace BPTFullPath

/-- The shadow ray of the branch `s > 0 && t > 0`, from `vL->geom.p` toward `vE->geom.p`. -/
def shadowRay (env : RenderEnv) (vL vE : BPTPathVertex) : Ray :=
  let pLpE := vE.geom.p - vL.geom.p
  let pLpE_Length := Vec3.Length env.Sqrt pLpE
  { d := pLpE / pLpE_Length
    o := vL.geom.p
    minT := env.Eps
    maxT := pLpE_Length * (1 - env.Eps) }

/-- The block "Evaluate c_{s,t}" of `EvaluateUnweightContribution`: the connection factor
`cst` and the final value of `rasterPosition`; `none` when a vertex index is out of
range. -/
def EvaluateCst (env : RenderEnv) (scene : Scene) (fp : BPTFullPath) (rasterPosition : Vec2) :
    Option (Vec3 × Vec2) :=
  if fp.s = 0 ∧ fp.t > 0 then
    match fp.eyeSubpath.vertices[fp.t - 1]? with
    | none => none
    | some v =>
      match v.areaLight with
      | some light =>
        let cst := light.EvaluatePosition v.geom
        let cst := cst * light.EvaluateDirection
          ⟨env.T.AllEmitter, TransportDirection.LE, 0, v.wi⟩ v.geom
        some (cst, rasterPosition)
      | none => some (0, rasterPosition)
  else if fp.s > 0 ∧ fp.t = 0 then
    match fp.lightSubpath.vertices[fp.s - 1]? with
    | none => none
    | some v =>
      match v.areaCamera with
      | some camera =>
        match camera.RayToRasterPosition v.geom.p v.wi with
        | (true, rp) =>
          let cst := camera.EvaluatePosition v.geom
          let cst := cst * camera.EvaluateDirection
            ⟨env.T.AllEmitter, TransportDirection.EL, 0, v.wi⟩ v.geom
          some (cst, rp)
        | (false, rp) => some (0, rp)
      | none => some (0, rasterPosition)
  else if fp.s > 0 ∧ fp.t > 0 then
    match fp.lightSubpath.vertices[fp.s - 1]?, fp.eyeSubpath.vertices[fp.t - 1]? with
    | some vL, some vE =>
      let ray := shadowRay env vL vE
      let vis : Bool × Vec2 :=
        if fp.t = 1 then scene.MainCamera.RayToRasterPosition vE.geom.p (-ray.d)
        else (true, rasterPosition)
      if vis.1 && !scene.Intersect ray then
        let fsL := vL.bsdf.EvaluateDirection ⟨env.T.All, TransportDirection.LE, vL.wi, ray.d⟩ vL.geom
        let fsE := vE.bsdf.EvaluateDirection ⟨env.T.All, TransportDirection.EL, vE.wi, -ray.d⟩
          vE.geom
        let G := env.GeneralizedGeometryTerm vL.geom vE.geom
        some (fsL * G * fsE, vis.2)
      else some (0, vis.2)
    | _, _ => none
  else some (0, rasterPosition)

/-- The member `EvaluateUnweightContribution(scene, rasterPosition)`: the returned vector
and the final value of `rasterPosition`. -/
def EvaluateUnweightContribution (env : RenderEnv) (scene : Scene) (fp : BPTFullPath)
    (rasterPosition : Vec2) : Option (Vec3 × Vec2) :=
  match fp.lightSubpath.EvaluateSubpathAlpha env.T fp.s rasterPosition with
  | none => none
  | some (alphaL, rp1) =>
    if Vec3.IsZero alphaL then some (0, rp1)
    else
      match fp.eyeSubpath.EvaluateSubpathAlpha env.T fp.t rp1 with
      | none => none
      | some (alphaE, rp2) =>
        if Vec3.IsZero alphaE then some (0, rp2)
        else
          match EvaluateCst env scene fp rp2 with
          | none => none
          | some (cst, rp3) =>
            if Vec3.IsZero cst then some (0, rp3)
            else some (alphaL * cst * alphaE, rp3)

end BPTFullPath

/-- The factor of the vertex `v` in the subpath alpha: the value of the directional
component divided by the directional density and the survival probability. -/
def BPTSubpath.alphaFactor (T : GeneralizedBSDFType) (transportDir : TransportDirection)
    (v : BPTPathVertex) : Vec3 :=
  v.bsdf.EvaluateDirection ⟨T.All, transportDir, v.wi, v.wo⟩ v.geom
    / ((v.pdfD transportDir).v * v.pdfRR.v)


/-! ## `perspectivecamera.cpp` : the pinhole camera -/

/-- The type `Math::Vec4`. -/
structure Vec4 where
  x : ℚ
  y : ℚ
  z : ℚ
  w : ℚ
  deriving DecidableEq, Repr

/-- The type `Math::Mat4`, as the matrix of its entries by row and column.  (The source
stores columns: `m[c][r]` there is the entry of row `r` and column `c` here.) -/
abbrev Mat4 := Matrix (Fin 4) (Fin 4) ℚ

/-- The product `operator*(const TMat4&, const TVec4&)`. -/
def Mat4.mulVec4 (m : Mat4) (v : Vec4) : Vec4 :=
  ⟨m 0 0 * v.x + m 0 1 * v.y + m 0 2 * v.z + m 0 3 * v.w,
   m 1 0 * v.x + m 1 1 * v.y + m 1 2 * v.z + m 1 3 * v.w,
   m 2 0 * v.x + m 2 1 * v.y + m 2 2 * v.z + m 2 3 * v.w,
   m 3 0 * v.x + m 3 1 * v.y + m 3 2 * v.z + m 3 3 * v.w⟩

/-- The constructor `Math::Vec4(v, w)` from a `Vec3` and a scalar. -/
def Vec4.ofVec3 (v : Vec3) (w : ℚ) : Vec4 := ⟨v.x, v.y, v.z, w⟩

/-- The conversion `Math::Vec3(v)` of a `Vec4`: the first three components. -/
def Vec4.toVec3 (v : Vec4) : Vec3 := ⟨v.x, v.y, v.z⟩

namespace Math

/-- The function `Math::Perspective(fovy, aspect, zNear, zFar)`; its first argument here is
`t = tan(radians(fovy) / 2)`. -/
def Perspective (t aspect zNear zFar : ℚ) : Mat4 :=
  fun r c =>
    if r = 0 ∧ c = 0 then 1 / (aspect * t)
    else if r = 1 ∧ c = 1 then 1 / t
    else if r = 2 ∧ c = 2 then -(zFar + zNear) / (zFar - zNear)
    else if r = 3 ∧ c = 2 then -1
    else if r = 2 ∧ c = 3 then -(2 * zFar * zNear) / (zFar - zNear)
    else 0

/-- The function `Math::CosThetaZUp`: the cosine of the angle to the `z` axis of a unit
vector. -/
def CosThetaZUp (v : Vec3) : ℚ := v.z

end Math

/-- The data members of the class `PerspectiveCamera` (the film apart). -/
structure PerspectiveCamera where
  invA : ℚ
  position : Vec3
  viewMatrix : Mat4
  invViewMatrix : Mat4
  projectionMatrix : Mat4
  invProjectionMatrix : Mat4

namespace PerspectiveCamera

/-- The member `BSDFTypes()`. -/
def BSDFTypes (T : GeneralizedBSDFType) : Nat := T.NonDeltaEyeDirection

/-- The member `EvaluateImportance(cosTheta)`; `EpsLarge` is `Math::Constants::EpsLarge()`. -/
def EvaluateImportance (cam : PerspectiveCamera) (EpsLarge : ℚ) (cosTheta : ℚ) : ℚ :=
  if cosTheta ≤ 0 then 0
  else
    let cosTheta := if |cosTheta - 1| < EpsLarge then 1 else cosTheta
    let invCosTheta := 1 / cosTheta
    cam.invA * invCosTheta * invCosTheta * invCosTheta

/-- The member `SampleDirection(query, geom, result)`: `none` when it returns false, the
value written to `result` otherwise.  `Math::Sqrt` and `Math::Constants::EpsLarge()` are
parameters. -/
def SampleDirection (cam : PerspectiveCamera) (T : GeneralizedBSDFType) (sqrt : ℚ → ℚ)
    (EpsLarge : ℚ) (query : GeneralizedBSDFSampleQuery) (_geom : SurfaceGeometry) :
    Option GeneralizedBSDFSampleResult :=
  if query.type &&& BSDFTypes T = 0 ∨ query.transportDir ≠ TransportDirection.EL then none
  else
    let ndcRasterPos : Vec3 := ⟨query.sample.x * 2 - 1, query.sample.y * 2 - 1, 0⟩
    let dirTCam4 := cam.invProjectionMatrix.mulVec4 (Vec4.ofVec3 ndcRasterPos 1)
    let dirTCam3 := Vec3.Normalize sqrt (dirTCam4.toVec3 / dirTCam4.w)
    some
      { sampledType := T.NonDeltaEyeDirection
        wo := Vec3.Normalize sqrt (cam.invViewMatrix.mulVec4 (Vec4.ofVec3 dirTCam3 0)).toVec3
        pdf := ⟨cam.EvaluateImportance EpsLarge (-Math.CosThetaZUp dirTCam3),
          ProbabilityMeasure.ProjectedSolidAngle⟩ }

/-- The member `RayToRasterPosition(p, d, rasterPos)`: the boolean returned and the value
written to `rasterPos`. -/
def RayToRasterPosition (cam : PerspectiveCamera) (p d : Vec3) : Bool × Vec2 :=
  let refCam4 := cam.viewMatrix.mulVec4 (Vec4.ofVec3 (p + d) 1)
  let refNdc4 := cam.projectionMatrix.mulVec4 refCam4
  let refNdc3 := refNdc4.toVec3 / refNdc4.w
  let rasterPos : Vec2 := ⟨(refNdc3.x + 1) / 2, (refNdc3.y + 1) / 2⟩
  if rasterPos.x < 0 ∨ rasterPos.x > 1 ∨ rasterPos.y < 0 ∨ rasterPos.y > 1 then
    (false, rasterPos)
  else (true, rasterPos)

/-- The block "Calculate area of the sensor" of `Load`: the value of `A`, from
`invProjectionMatrix`. -/
def sensorArea (invProjectionMatrix : Mat4) : ℚ :=
  let ndcP1 : Vec3 := ⟨-1, -1, 0⟩
  let ndcP2 : Vec3 := ⟨1, 1, 0⟩
  let camP1_4 := invProjectionMatrix.mulVec4 (Vec4.ofVec3 ndcP1 1)
  let camP2_4 := invProjectionMatrix.mulVec4 (Vec4.ofVec3 ndcP2 1)
  let camP1 := camP1_4.toVec3 / camP1_4.w
  let camP2 := camP2_4.toVec3 / camP1_4.w
  let camP1 := camP1 / Vec3.splat camP1.z
  let camP2 := camP2 / Vec3.splat camP2.z
  (camP2.x - camP1.x) * (camP2.y - camP1.y)

/-- The last block of `Load`: the projection matrix, its inverse and `invA`.  The first
argument is `Math::Inverse`, and `t` is `tan(radians(fovy) / 2)`, as for
`Math.Perspective`. -/
def LoadProjection (Inverse : Mat4 → Mat4) (t aspect : ℚ) (cam : PerspectiveCamera) :
    PerspectiveCamera :=
  let projectionMatrix := Math.Perspective t aspect 1 1000
  let invProjectionMatrix := Inverse projectionMatrix
  { cam with
    projectionMatrix := projectionMatrix
    invProjectionMatrix := invProjectionMatrix
    invA := 1 / sensorArea invProjectionMatrix }

end PerspectiveCamera

/-! ## `aabb.h` and `triaccel.h` : boxes and triangles -/

/-- Modelled from the spec: the axis-aligned box `AABB` of section 3 ("`min`/`max`,
supporting union, surface area, longest-axis query, and indexed corner lookup");
`aabb.h` is not part of the sources.  The default-constructed box, whose `min` is `+Inf`
and whose `max` is `-Inf`, is the constructor `empty`. -/
inductive AABB where
  | empty
  | box (min max : Vec3)
  deriving DecidableEq, Repr

namespace AABB

/-- The constructor `AABB(p)`: the box of one point. -/
def ofPoint (p : Vec3) : AABB := box p p

/-- The constructor `AABB(p1, p2)`: the box spanned by two points. -/
def ofPoints (p1 p2 : Vec3) : AABB :=
  box ⟨min p1.x p2.x, min p1.y p2.y, min p1.z p2.z⟩ ⟨max p1.x p2.x, max p1.y p2.y, max p1.z p2.z⟩

/-- The member `Union(const AABB&)`. -/
def Union : AABB → AABB → AABB
  | empty, b => b
  | a, empty => a
  | box lo1 hi1, box lo2 hi2 =>
    box ⟨min lo1.x lo2.x, min lo1.y lo2.y, min lo1.z lo2.z⟩
      ⟨max hi1.x hi2.x, max hi1.y hi2.y, max hi1.z hi2.z⟩

/-- The member `Union(const Vec3&)`. -/
def UnionPoint (a : AABB) (p : Vec3) : AABB := a.Union (ofPoint p)

/-- The member `SurfaceArea()`.  The value on the empty box is read only while building
an empty range, where every count that multiplies it is zero. -/
def SurfaceArea : AABB → ℚ
  | empty => 0
  | box lo hi =>
    let d := hi - lo
    2 * (d.x * d.y + d.y * d.z + d.z * d.x)

/-- The member `LongestAxis()`.  On the empty box the three extents are equal. -/
def LongestAxis : AABB → Nat
  | empty => 2
  | box lo hi =>
    let d := hi - lo
    if d.x > d.y ∧ d.x > d.z then 0 else if d.y > d.z then 1 else 2

/-- The indexed corner `operator[](i)` of a non-empty box: `min` for `i = 0`, else `max`. -/
def corner (lo hi : Vec3) (i : Nat) : Vec3 := if i = 0 then lo else hi

/-- The test `min[axis] == max[axis]`; on the empty box `+Inf == -Inf` is false. -/
def degenerated : AABB → Nat → Bool
  | empty, _ => false
  | box lo hi, axis => decide (lo.get axis = hi.get axis)

/-- The coordinate `min[axis]`; on the empty box it is read only by loops over an empty
range. -/
def minAt : AABB → Nat → ℚ
  | empty, _ => 0
  | box lo _, axis => lo.get axis

/-- The coordinate `max[axis]`; on the empty box it is read only by loops over an empty
range. -/
def maxAt : AABB → Nat → ℚ
  | empty, _ => 0
  | box _ hi, axis => hi.get axis

/-- The point `p` lies in the box. -/
def Contains : AABB → Vec3 → Prop
  | empty, _ => False
  | box lo hi, p =>
    lo.x ≤ p.x ∧ p.x ≤ hi.x ∧ lo.y ≤ p.y ∧ p.y ≤ hi.y ∧ lo.z ≤ p.z ∧ p.z ≤ hi.z

end AABB

/-- Modelled from the spec: the per-triangle record `TriAccel` of section 3 ("per-triangle
precomputed intersection data (Wald-style); records the owning primitive index and the
triangle index within that primitive's mesh"); `triaccel.h` is not part of the sources.
The data precomputed by `Load(p1, p2, p3)` is kept as the three vertices. -/
structure TriAccel where
  shapeIndex : Nat
  primIndex : Nat
  p1 : Vec3
  p2 : Vec3
  p3 : Vec3
  deriving DecidableEq, Repr

namespace TriAccel

/-- The function `Math::Cross`. -/
def Cross (a b : Vec3) : Vec3 :=
  ⟨a.y * b.z - a.z * b.y, a.z * b.x - a.x * b.z, a.x * b.y - a.y * b.x⟩

/-- Modelled from the spec: the solution `(u, v, t)` of
`o + t d = p1 + u (p2 - p1) + v (p3 - p1)`, which the Wald test computes; in exact
arithmetic it is unique, and it is written here by Cramer's rule.  There is none when the
ray is parallel to the plane of the triangle or the triangle is degenerate. -/
def solve (tri : TriAccel) (ray : Ray) : Option (ℚ × ℚ × ℚ) :=
  let e1 := tri.p2 - tri.p1
  let e2 := tri.p3 - tri.p1
  let pvec := Cross ray.d e2
  let det := Vec3.Dot e1 pvec
  if det = 0 then none
  else
    let s := ray.o - tri.p1
    let qvec := Cross s e1
    some (Vec3.Dot s pvec / det, Vec3.Dot ray.d qvec / det, Vec3.Dot e2 qvec / det)

/-- Modelled from the spec: the member `Intersect(ray, mint, maxt, u, v, t)`: the triangle
is hit when the parameter `t` lies in the closed interval `[mint, maxt]` of section 3 and
the barycentric coordinates satisfy `u >= 0`, `v >= 0`, `u + v <= 1`; the values written
to `u`, `v` and `t` are returned. -/
def Intersect (tri : TriAccel) (ray : Ray) (mint maxt : ℚ) : Option (ℚ × ℚ × ℚ) :=
  match tri.solve ray with
  | none => none
  | some (u, v, t) =>
    if t < mint ∨ t > maxt then none
    else if u ≥ 0 ∧ v ≥ 0 ∧ u + v ≤ 1 then some (u, v, t)
    else none

end TriAccel

/-! ## `bvhscene.cpp` : the bounding-volume hierarchy -/

/-- The structure `BVHNode`: a leaf over the range `[begin, end)` of `bvhTriIndices`, or an
internal node. -/
inductive BVHNode where
  | leaf (begin «end» : Nat) (bound : AABB)
  | internal (splitAxis : Nat) (left right : BVHNode) (bound : AABB)
  deriving DecidableEq, Repr

namespace BVHNode

/-- The member `bound`. -/
def bound : BVHNode → AABB
  | leaf _ _ b => b
  | internal _ _ _ b => b

/-- The constructor of an internal node: `bound = left->bound.Union(right->bound)`. -/
def mkInternal (splitAxis : Nat) (left right : BVHNode) : BVHNode :=
  internal splitAxis left right (left.bound.Union right.bound)

end BVHNode

/-- The structure `BVHBuildData`. -/
structure BVHBuildData where
  triBounds : List AABB
  triBoundCentroids : List Vec3
  deriving Repr

/-- The conversion `Math::Cast<int>` of a `Math::Float`: truncation toward zero. -/
def castInt (x : ℚ) : Int := if 0 ≤ x then Rat.floor x else -Rat.floor (-x)

/-- The bucket of a centroid coordinate `c` in `[lo, hi]`, as computed in `Build` and in
`CompareToBucket::operator()`. -/
def bucketIndex (numBuckets : Int) (c lo hi : ℚ) : Int :=
  let bucketIdx := castInt ((numBuckets : ℚ) * ((c - lo) / (hi - lo)))
  min bucketIdx (numBuckets - 1)

/-- The class `CompareToBucket`: its call operator on the triangle index `i`. -/
def CompareToBucket (splitAxis : Nat) (numBuckets minCostIdx : Int) (data : BVHBuildData)
    (centroidBound : AABB) (i : Nat) : Bool :=
  let bucketIdx := bucketIndex numBuckets ((data.triBoundCentroids.getD i 0).get splitAxis)
    (centroidBound.minAt splitAxis) (centroidBound.maxAt splitAxis)
  decide (bucketIdx ≤ minCostIdx)

/-- A cost of the surface-area heuristic: `none` stands for the value that is not a
number, which the division by a zero surface area gives; every comparison with it is
false. -/
abbrev Cost := Option ℚ

/-- The comparison `a > b` of two costs. -/
def Cost.gt : Cost → Cost → Bool
  | some x, some y => decide (x > y)
  | _, _ => false

/-- The comparison `a < n` of a cost with a number. -/
def Cost.lt : Cost → ℚ → Bool
  | some x, n => decide (x < n)
  | none, _ => false

namespace BVHScene

/-- The constant `maxTriInNode`. -/
def maxTriInNode : Nat := 255

/-- The constant `numBuckets`. -/
def numBuckets : Nat := 12

/-- The slice `[begin, end)` of `bvhTriIndices`. -/
def slice (idx : List Nat) (b e : Nat) : List Nat := (idx.drop b).take (e - b)

/-- The loop `for (i = begin; i < end; i++) bound = bound.Union(data.triBounds[bvhTriIndices[i]])`. -/
def rangeBound (data : BVHBuildData) (idx : List Nat) (b e : Nat) : AABB :=
  (slice idx b e).foldl (fun bound k => bound.Union (data.triBounds.getD k AABB.empty)) AABB.empty

/-- The loop that unions the centroids of the range into `centroidBound`. -/
def rangeCentroidBound (data : BVHBuildData) (idx : List Nat) (b e : Nat) : AABB :=
  (slice idx b e).foldl (fun bound k => bound.UnionPoint (data.triBoundCentroids.getD k 0))
    AABB.empty

/-- The loop that fills `bucketTriCount` and `bucketTriBound`. -/
def fillBuckets (data : BVHBuildData) (idx : List Nat) (b e : Nat) (splitAxis : Nat)
    (centroidBound : AABB) : List Nat × List AABB :=
  (slice idx b e).foldl
    (fun (acc : List Nat × List AABB) k =>
      let bucketIdx := (bucketIndex numBuckets
        ((data.triBoundCentroids.getD k 0).get splitAxis)
        (centroidBound.minAt splitAxis) (centroidBound.maxAt splitAxis)).toNat
      (acc.1.set bucketIdx (acc.1.getD bucketIdx 0 + 1),
        acc.2.set bucketIdx ((acc.2.getD bucketIdx AABB.empty).Union
          (data.triBounds.getD k AABB.empty))))
    (List.replicate numBuckets 0, List.replicate numBuckets AABB.empty)

/-- The cost `costs[i]` of the partition between bucket `i` and bucket `i + 1`. -/
def partitionCost (bucketTriCount : List Nat) (bucketTriBound : List AABB) (bound : AABB)
    (i : Nat) : Cost :=
  let b1 := (bucketTriBound.take (i + 1)).foldl AABB.Union AABB.empty
  let count1 := (bucketTriCount.take (i + 1)).sum
  let b2 := (bucketTriBound.drop (i + 1)).foldl AABB.Union AABB.empty
  let count2 := (bucketTriCount.drop (i + 1)).sum
  if bound.SurfaceArea = 0 then none
  else some (1 / 8 + ((count1 : ℚ) * b1.SurfaceArea + (count2 : ℚ) * b2.SurfaceArea)
    / bound.SurfaceArea)

/-- The loop "Find minimum partition": the pair `(minCostIdx, minCost)`. -/
def findMinCost (costs : List Cost) : Nat × Cost :=
  (List.range (numBuckets - 1)).foldl
    (fun (acc : Nat × Cost) i =>
      if i = 0 then acc
      else if Cost.gt acc.2 (costs.getD i none) then (i, costs.getD i none) else acc)
    (0, costs.getD 0 none)

/-- The call `std::partition(&bvhTriIndices[begin], &bvhTriIndices[end - 1] + 1, pred)`:
the new `bvhTriIndices` and the index `mid` of the first element of the second group.  The
elements of each group keep their order (section 4.D: "stable"). -/
def partition (idx : List Nat) (b e : Nat) (pred : Nat → Bool) : List Nat × Nat :=
  let seg := slice idx b e
  (idx.take b ++ seg.filter pred ++ seg.filter (fun k => !pred k) ++ idx.drop e,
    b + (seg.filter pred).length)

/-- The recursive member `Build(data, begin, end)`: the node and the final
`bvhTriIndices`.  The first argument bounds the depth of the recursion; `none` when it is
exhausted. -/
def BuildNode (data : BVHBuildData) : Nat → List Nat → Nat → Nat → Option (BVHNode × List Nat)
  | 0, _, _, _ => none
  | fuel + 1, idx, b, e =>
    let bound := rangeBound data idx b e
    let numPrimitives := e - b
    if numPrimitives = 1 then some (BVHNode.leaf b e bound, idx)
    else
      let centroidBound := rangeCentroidBound data idx b e
      let splitAxis := centroidBound.LongestAxis
      if centroidBound.degenerated splitAxis then some (BVHNode.leaf b e bound, idx)
      else
        let buckets := fillBuckets data idx b e splitAxis centroidBound
        let costs := (List.range (numBuckets - 1)).map
          (partitionCost buckets.1 buckets.2 bound)
        let m := findMinCost costs
        if Cost.lt m.2 numPrimitives ∨ numPrimitives > maxTriInNode then
          let p := partition idx b e
            (CompareToBucket splitAxis numBuckets m.1 data centroidBound)
          match BuildNode data fuel p.1 b p.2 with
          | none => none
          | some (left, idx1) =>
            match BuildNode data fuel idx1 p.2 e with
            | none => none
            | some (right, idx2) => some (BVHNode.mkInternal splitAxis left right, idx2)
        else some (BVHNode.leaf b e bound, idx)

end BVHScene

/-- The part of `TriangleMesh` that `Build` reads: the flat arrays `Positions()` and
`Faces()`. -/
structure TriangleMesh where
  positions : List ℚ
  faces : List Nat
  deriving Repr

/-- The part of `Primitive` that `Build` reads. -/
structure Primitive where
  transform : Mat4
  mesh : Option TriangleMesh

/-- The data members of `BVHScene::Impl` after `Build`. -/
structure BVHScene where
  bvhTriIndices : List Nat
  root : BVHNode
  triAccels : List TriAccel
  deriving DecidableEq, Repr

namespace BVHScene

/-- The world-space vertex number `i` of the mesh of a primitive:
`Vec3(transform * Vec4(positions[3*i], positions[3*i+1], positions[3*i+2], 1))`. -/
def vertex (transform : Mat4) (positions : List ℚ) (i : Nat) : Vec3 :=
  (transform.mulVec4 ⟨positions.getD (3 * i) 0, positions.getD (3 * i + 1) 0,
    positions.getD (3 * i + 2) 0, 1⟩).toVec3

/-- The triaccels of the primitive number `i`: one per face `j < NumFaces() / 3`. -/
def primitiveTriAccels (i : Nat) (p : Primitive) : List TriAccel :=
  match p.mesh with
  | none => []
  | some mesh =>
    (List.range (mesh.faces.length / 3)).map (fun j =>
      { shapeIndex := j
        primIndex := i
        p1 := vertex p.transform mesh.positions (mesh.faces.getD (3 * j) 0)
        p2 := vertex p.transform mesh.positions (mesh.faces.getD (3 * j + 1) 0)
        p3 := vertex p.transform mesh.positions (mesh.faces.getD (3 * j + 2) 0) })

/-- The first block of `Build()`: the triaccels of all primitives, in order. -/
def createTriAccels (primitives : List Primitive) : List TriAccel :=
  (primitives.enum.map (fun ip => primitiveTriAccels ip.1 ip.2)).flatten

/-- The bound `triBound` of a triangle: `AABB(p1, p2).Union(p3)`. -/
def triBound (tri : TriAccel) : AABB := (AABB.ofPoints tri.p1 tri.p2).UnionPoint tri.p3

/-- The centroid `(triBound.min + triBound.max) * 0.5` of the bound of a triangle. -/
def triBoundCentroid (tri : TriAccel) : Vec3 :=
  match triBound tri with
  | AABB.empty => 0
  | AABB.box lo hi => (lo + hi) * (1 / 2 : ℚ)

/-- The build data of a list of triaccels. -/
def buildData (triAccels : List TriAccel) : BVHBuildData :=
  ⟨triAccels.map triBound, triAccels.map triBoundCentroid⟩

/-- The member `Build()`: the triaccels, the initial indices `0, 1, ...` and the tree. -/
def Build (primitives : List Primitive) (fuel : Nat) : Option BVHScene :=
  let triAccels := createTriAccels primitives
  match BuildNode (buildData triAccels) fuel (List.range triAccels.length) 0 triAccels.length with
  | none => none
  | some (root, idx) => some ⟨idx, root, triAccels⟩

end BVHScene

/-- The type `Math::Vec3i`. -/
structure Vec3i where
  x : Nat
  y : Nat
  z : Nat
  deriving DecidableEq, Repr

/-- The indexed access `operator[](int)` of `Vec3i`. -/
def Vec3i.get (v : Vec3i) (i : Nat) : Nat := if i = 0 then v.x else if i = 1 then v.y else v.z

/-- A value of `Math::Float` in the slab test, where the reciprocal of a zero component
of the direction is an infinity: a number, one of the two infinities, or the value that is
not a number, which zero times an infinity gives. -/
inductive ExtFloat where
  | num (q : ℚ)
  | posInf
  | negInf
  | nan
  deriving DecidableEq, Repr

namespace ExtFloat

/-- The quotient `Math::Float(1) / d`.  The zero of the exact arithmetic stands for the
positive zero, whose reciprocal is the positive infinity. -/
def recip (d : ℚ) : ExtFloat := if d = 0 then posInf else num (1 / d)

/-- The product `a * v` of a number `a` and a value `v`: an infinity keeps or changes its
sign with the sign of `a`, and zero times an infinity is not a number. -/
def scale (a : ℚ) : ExtFloat → ExtFloat
  | num q => num (a * q)
  | posInf => if a > 0 then posInf else if a < 0 then negInf else nan
  | negInf => if a > 0 then negInf else if a < 0 then posInf else nan
  | nan => nan

/-- The comparison `a < b`; it is false when one of the two is not a number. -/
def lt : ExtFloat → ExtFloat → Bool
  | num a, num b => decide (a < b)
  | num _, posInf => true
  | negInf, num _ => true
  | negInf, posInf => true
  | _, _ => false

/-- The comparison `a > b`; it is false when one of the two is not a number. -/
def gt (a b : ExtFloat) : Bool := lt b a

end ExtFloat

/-- A `Math::Vec3` of such values, the type of `invRayDir`. -/
structure ExtVec3 where
  x : ExtFloat
  y : ExtFloat
  z : ExtFloat
  deriving DecidableEq, Repr

/-- The structure `BVHTraversalData`. -/
structure BVHTraversalData where
  ray : Ray
  rayDirNegative : Vec3i
  invRayDir : ExtVec3
  intersectedTriIdx : Nat
  intersectedTriB : Vec2
  deriving DecidableEq, Repr

/-- The constructor `BVHTraversalData(ray)`; the two members filled on intersection start
at zero.  The member `invRayDir` holds the reciprocals `1 / ray.d[i]`, an infinity for a
zero component of the direction. -/
def BVHTraversalData.new (ray : Ray) : BVHTraversalData :=
  { ray := ray
    invRayDir := ⟨ExtFloat.recip ray.d.x, ExtFloat.recip ray.d.y, ExtFloat.recip ray.d.z⟩
    rayDirNegative := ⟨if ray.d.x < 0 then 1 else 0, if ray.d.y < 0 then 1 else 0,
      if ray.d.z < 0 then 1 else 0⟩
    intersectedTriIdx := 0
    intersectedTriB := ⟨0, 0⟩ }

namespace BVHScene

/-- The member `Intersect(const AABB& bound, BVHTraversalData& data)`: the slab test.  On
the empty box, `min = +Inf > max = -Inf`, the first comparison returns false.  The six
parameters are products of a number and a member of `invRayDir`; each comparison is false
when one of its sides is not a number. -/
def IntersectAABB (bound : AABB) (data : BVHTraversalData) : Bool :=
  match bound with
  | AABB.empty => false
  | AABB.box lo hi =>
    let rayDirNegative := data.rayDirNegative
    let invRayDir := data.invRayDir
    let ray := data.ray
    let tmin := ExtFloat.scale ((AABB.corner lo hi rayDirNegative.x).x - ray.o.x) invRayDir.x
    let tmax :=
      ExtFloat.scale ((AABB.corner lo hi (1 - rayDirNegative.x)).x - ray.o.x) invRayDir.x
    let tymin := ExtFloat.scale ((AABB.corner lo hi rayDirNegative.y).y - ray.o.y) invRayDir.y
    let tymax :=
      ExtFloat.scale ((AABB.corner lo hi (1 - rayDirNegative.y)).y - ray.o.y) invRayDir.y
    if tmin.gt tymax || tymin.gt tmax then false
    else
      let tmin := if tymin.gt tmin then tymin else tmin
      let tmax := if tymax.lt tmax then tymax else tmax
      let tzmin :=
        ExtFloat.scale ((AABB.corner lo hi rayDirNegative.z).z - ray.o.z) invRayDir.z
      let tzmax :=
        ExtFloat.scale ((AABB.corner lo hi (1 - rayDirNegative.z)).z - ray.o.z) invRayDir.z
      if tmin.gt tzmax || tzmin.gt tmax then false
      else
        let tmin := if tzmin.gt tmin then tzmin else tmin
        let tmax := if tzmax.lt tmax then tzmax else tmax
        tmin.lt (ExtFloat.num ray.maxT) && tmax.gt (ExtFloat.num ray.minT)

/-- The body of the loop of the leaf branch for the position `i` of `bvhTriIndices`: the
flag `intersected` and the traversal data after it.  A position or triangle index outside
the vectors, which the source never produces, tests no triangle. -/
def leafStep (triAccels : List TriAccel) (idx : List Nat) (i : Nat)
    (st : Bool × BVHTraversalData) : Bool × BVHTraversalData :=
  match idx[i]? with
  | none => st
  | some k =>
    match triAccels[k]? with
    | none => st
    | some tri =>
      match tri.Intersect st.2.ray st.2.ray.minT st.2.ray.maxT with
      | some (u, v, t) =>
        (true, { st.2 with
          ray := { st.2.ray with maxT := t }
          intersectedTriIdx := k
          intersectedTriB := ⟨u, v⟩ })
      | none => st

/-- The member `Intersect(const std::shared_ptr<BVHNode>& node, BVHTraversalData& data)`:
the boolean returned and the final traversal data. -/
def IntersectNode (triAccels : List TriAccel) (idx : List Nat) :
    BVHNode → BVHTraversalData → Bool × BVHTraversalData
  | BVHNode.leaf b e bound, data =>
    if IntersectAABB bound data then
      (List.range' b (e - b)).foldl (fun st i => leafStep triAccels idx i st) (false, data)
    else (false, data)
  | BVHNode.internal splitAxis left right bound, data =>
    if IntersectAABB bound data then
      if data.rayDirNegative.get splitAxis ≠ 0 then
        let r1 := IntersectNode triAccels idx right data
        let r2 := IntersectNode triAccels idx left r1.2
        (r1.1 || r2.1, r2.2)
      else
        let r1 := IntersectNode triAccels idx left data
        let r2 := IntersectNode triAccels idx right r1.2
        (r1.1 || r2.1, r2.2)
    else (false, data)

/-- The arguments with which `Intersect` calls `StoreIntersectionFromBarycentricCoords`,
a member of the base class that is not part of the sources: they stand for the
intersection record it fills. -/
structure StoredIntersection where
  primIndex : Nat
  shapeIndex : Nat
  ray : Ray
  b : Vec2
  deriving DecidableEq, Repr

/-- The member `Intersect(Ray& ray, Intersection& isect)`: the boolean returned, the ray
after the call and, when the scene is hit, the intersection stored. -/
def Intersect (scene : BVHScene) (ray : Ray) : Bool × Ray × Option StoredIntersection :=
  let r := IntersectNode scene.triAccels scene.bvhTriIndices scene.root (BVHTraversalData.new ray)
  if r.1 then
    match scene.triAccels[r.2.intersectedTriIdx]? with
    | some triAccel =>
      (true, r.2.ray,
        some ⟨triAccel.primIndex, triAccel.shapeIndex, r.2.ray, r.2.intersectedTriB⟩)
    | none => (true, r.2.ray, none)
  else (false, r.2.ray, none)

end BVHScene

/-! ## Predicates of the hierarchy and of its traversal -/

namespace AABB

/-- Every point of the first box lies in the second. -/
def Subset (a b : AABB) : Prop := ∀ p, a.Contains p → b.Contains p

/-- The coordinate `c` is that of one of the two faces of the box across the axis. -/
def isFace : AABB → Nat → ℚ → Bool
  | empty, _, _ => false
  | box lo hi, axis, c => decide (lo.get axis = c) || decide (hi.get axis = c)

end AABB

namespace ExtFloat

/-- The value does not exceed the number `t` in the comparisons of the slab test: it is
not the positive infinity and, when it is a number, it is at most `t`. -/
def Lower : ExtFloat → ℚ → Prop
  | num a, t => a ≤ t
  | posInf, _ => False
  | negInf, _ => True
  | nan, _ => True

/-- The number `t` does not exceed the value in the comparisons of the slab test: the
value is not the negative infinity and, when it is a number, it is at least `t`. -/
def Upper : ExtFloat → ℚ → Prop
  | num b, t => t ≤ b
  | posInf, _ => True
  | negInf, _ => False
  | nan, _ => True

end ExtFloat

namespace TriAccel

/-- The ray hits the triangle at the parameter `t`, with barycentric coordinates
`(u, v)`, whatever the parametric interval. -/
def Hits (tri : TriAccel) (ray : Ray) (u v t : ℚ) : Prop :=
  tri.solve ray = some (u, v, t) ∧ u ≥ 0 ∧ v ≥ 0 ∧ u + v ≤ 1

end TriAccel

/-- The point `o + t d` of a ray. -/
def Ray.at (ray : Ray) (t : ℚ) : Vec3 :=
  ⟨ray.o.x + t * ray.d.x, ray.o.y + t * ray.d.y, ray.o.z + t * ray.d.z⟩

namespace BVHScene

/-- The traversal data belongs to the ray `ray0`: origin, direction and `minT` are those of
`ray0`, and the precomputed members are those of the constructor. -/
def DataOf (ray0 : Ray) (data : BVHTraversalData) : Prop :=
  data.ray.o = ray0.o ∧ data.ray.d = ray0.d ∧ data.ray.minT = ray0.minT ∧
    data.invRayDir = (BVHTraversalData.new ray0).invRayDir ∧
    data.rayDirNegative = (BVHTraversalData.new ray0).rayDirNegative

end BVHScene

/-- The triangle number `k` of `triAccels` is hit by the ray at the parameter `t`. -/
def HitsAt (triAccels : List TriAccel) (ray0 : Ray) (k : Nat) (t : ℚ) : Prop :=
  ∃ tri u v, triAccels[k]? = some tri ∧ tri.Hits ray0 u v t

/-- Testing the triangles of the set `S` against the interval `[minT, m]`, with the flag
`f` telling whether a triangle was hit before, leaves the flag `f'` and the bound `m'`:
`m'` is the least hit parameter of `S` within the interval, or `m` if there is none, and
`f'` tells whether a triangle was hit before or is hit in `S`. -/
def Covered (triAccels : List TriAccel) (ray0 : Ray) (S : Nat → Prop) (f : Bool) (m : ℚ)
    (f' : Bool) (m' : ℚ) : Prop :=
  m' ≤ m ∧
    (∀ k t, S k → HitsAt triAccels ray0 k t → ray0.minT ≤ t → t ≤ m → m' ≤ t) ∧
    (m' = m ∨ ∃ k t, S k ∧ HitsAt triAccels ray0 k t ∧ ray0.minT ≤ t ∧ t ≤ m ∧ m' = t) ∧
    (f' = true ↔ (f = true ∨ ∃ k t, S k ∧ HitsAt triAccels ray0 k t ∧ ray0.minT ≤ t ∧ t ≤ m))

/-- The index `k` is stored at a position of the range `[b, e)` of `idx`. -/
def InRange (idx : List Nat) (b e k : Nat) : Prop := ∃ i, b ≤ i ∧ i < e ∧ idx[i]? = some k

/-- The node covers the range `[b, e)` of `idx`: its leaves split the range, and the bound
of every node holds the bounds of its children and of the triangles of its leaves. -/
def NodeOK (data : BVHBuildData) (idx : List Nat) : BVHNode → Nat → Nat → Prop
  | BVHNode.leaf b' e' bound, b, e =>
    b' = b ∧ e' = e ∧
      ∀ k, InRange idx b e k → AABB.Subset (data.triBounds.getD k AABB.empty) bound
  | BVHNode.internal _ left right bound, b, e =>
    ∃ mid, b ≤ mid ∧ mid ≤ e ∧ NodeOK data idx left b mid ∧ NodeOK data idx right mid e ∧
      AABB.Subset left.bound bound ∧ AABB.Subset right.bound bound

/-- The traversal data records a hit: the triangle `intersectedTriIdx` is hit by the ray
`ray0` within its interval at the parameter `data.ray.maxT`, with the barycentric
coordinates `intersectedTriB`. -/
def Recorded (triAccels : List TriAccel) (ray0 : Ray) (data : BVHTraversalData) : Prop :=
  ∃ tri u v, triAccels[data.intersectedTriIdx]? = some tri ∧
    tri.Intersect ray0 ray0.minT ray0.maxT = some (u, v, data.ray.maxT) ∧
    data.intersectedTriB = ⟨u, v⟩

/-! ## Multiple importance sampling -/

/-- Modelled from the spec: the power-heuristic weight of section 4.F,
`w_{s,t} = p_s² / ∑_i p_i²` (the sources hold neither `bpt.mis.power.cpp` nor
`BPTFullPath::EvaluateFullpathPDF`).  The list `p` holds, for one geometric path of
length `n`, the density `p_i` with which the split `i` samples it, for every split
`i = 0, ..., n` with `s = i` light vertices and `t = n - i` eye vertices. -/
def misWeight (p : List ℚ) (s : Nat) : ℚ :=
  (p.getD s 0) ^ 2 / (p.map (fun x => x ^ 2)).sum

/-! ### Sample data -/

namespace Sample

def types : GeneralizedBSDFType :=
  { All := 255, AllEmitter := 192, LightDirection := 64, EyeDirection := 128,
    NonDeltaEyeDirection := 128, AllBSDF := 63, Specular := 12, SpecularReflection := 4,
    SpecularTransmission := 8 }

def geom (p : Vec3) : SurfaceGeometry := ⟨false, p, ⟨0, 0, 1⟩, ⟨0, 0, 1⟩, 1, 1⟩

def bsdf : GeneralizedBSDF :=
  ⟨fun _ _ => Vec3.splat (1 / 2), fun _ _ => ⟨1, ProbabilityMeasure.ProjectedSolidAngle⟩,
    fun _ _ => some ⟨⟨0, 0, 1⟩, 1, ⟨1, ProbabilityMeasure.ProjectedSolidAngle⟩⟩, 1⟩

def light : Light :=
  ⟨⟨bsdf, fun _ => Vec3.splat 2, fun _ => ⟨1, ProbabilityMeasure.Area⟩,
    fun _ => (geom ⟨0, 0, 2⟩, ⟨1, ProbabilityMeasure.Area⟩)⟩⟩

def camera (inside : Bool) : Camera :=
  ⟨⟨bsdf, fun _ => Vec3.splat 1, fun _ => ⟨1, ProbabilityMeasure.Area⟩,
    fun _ => (⟨true, ⟨3, 0, 4⟩, 0, 0, 1, 1⟩, ⟨1, ProbabilityMeasure.Area⟩)⟩,
    fun _ _ => (inside, ⟨1 / 2, 1 / 2⟩)⟩

def pdfD (_ : TransportDirection) : PDFEval := ⟨1 / 4, ProbabilityMeasure.ProjectedSolidAngle⟩

def y0 : BPTPathVertex :=
  { type := BPTPathVertexType.EndPoint, transportDir := TransportDirection.LE,
    geom := geom ⟨0, 0, 2⟩, wi := 0, wo := ⟨0, 0, -1⟩,
    pdfP := ⟨4, ProbabilityMeasure.Area⟩, pdfD := pdfD,
    pdfRR := ⟨1, ProbabilityMeasure.Discrete⟩,
    emitter := some (EmitterRef.light light), bsdf := bsdf,
    areaLight := some light, areaCamera := none }

def y1 : BPTPathVertex :=
  { type := BPTPathVertexType.IntermediatePoint, transportDir := TransportDirection.LE,
    geom := geom ⟨0, 0, 0⟩, wi := ⟨0, 0, 1⟩, wo := ⟨0, 0, 1⟩,
    pdfP := ⟨0, ProbabilityMeasure.Area⟩, pdfD := pdfD,
    pdfRR := ⟨1 / 2, ProbabilityMeasure.Discrete⟩,
    emitter := none, bsdf := bsdf, areaLight := none, areaCamera := none }

def z0 (inside : Bool) : BPTPathVertex :=
  { type := BPTPathVertexType.EndPoint, transportDir := TransportDirection.EL,
    geom := ⟨true, ⟨3, 0, 4⟩, 0, 0, 1, 1⟩, wi := 0, wo := ⟨0, 0, -1⟩,
    pdfP := ⟨1, ProbabilityMeasure.Area⟩, pdfD := pdfD,
    pdfRR := ⟨1, ProbabilityMeasure.Discrete⟩,
    emitter := some (EmitterRef.camera (camera inside)), bsdf := bsdf,
    areaLight := none, areaCamera := none }

def lightSubpath : BPTSubpath := ⟨TransportDirection.LE, [y0, y1]⟩

def eyeSubpath (inside : Bool) : BPTSubpath := ⟨TransportDirection.EL, [z0 inside]⟩

/-- A rational square root, exact on squares of rationals: a stand-in for `Math::Sqrt`
in the sample environment. -/
def sqrt (x : ℚ) : ℚ := (Nat.sqrt x.num.toNat : ℚ) / (Nat.sqrt x.den : ℚ)

def env : RenderEnv :=
  { Sqrt := sqrt, Eps := 1 / 1000, GeneralizedGeometryTerm := fun _ _ => 1 / 25, T := types,
    Inf := 1000000,
    Luminance := fun v => 2126 / 10000 * v.x + 7152 / 10000 * v.y + 722 / 10000 * v.z }

def scene (occluded : Bool) : Scene :=
  ⟨fun _ => if occluded then some ⟨geom 0, bsdf, none, none⟩ else none, camera true,
    fun _ => (light, ⟨1, ProbabilityMeasure.Discrete⟩)⟩

def fullPath : BPTFullPath := ⟨2, 1, lightSubpath, eyeSubpath true⟩

/-- A camera at the origin looking down the negative `z` axis, with `tan(fovy/2) = 1` and
aspect ratio `3/2`. -/
def perspectiveCamera : PerspectiveCamera :=
  { invA := 1 / 6
    position := 0
    viewMatrix := 1
    invViewMatrix := 1
    projectionMatrix := Math.Perspective 1 (3 / 2) 1 1000
    invProjectionMatrix := fun r c =>
      if r = 0 ∧ c = 0 then 3 / 2
      else if r = 1 ∧ c = 1 then 1
      else if r = 2 ∧ c = 3 then -1
      else if r = 3 ∧ c = 2 then -999 / 2000
      else if r = 3 ∧ c = 3 then 1001 / 2000
      else 0 }

/-- A primitive of one triangle, in the plane `z = 0`. -/
def flatTri : Primitive :=
  { transform := 1
    mesh := some { positions := [0, 0, 0, 1, 0, 0, 0, 1, 0], faces := [0, 1, 2] } }

/-- A primitive of one triangle, in the plane `z = -1`. -/
def lowTri : Primitive :=
  { transform := 1
    mesh := some { positions := [0, 0, -1, 1, 0, -1, 0, 1, -1], faces := [0, 1, 2] } }

/-- The scene that `Build` returns for `[flatTri, lowTri]`. -/
def twoScene : BVHScene :=
  { bvhTriIndices := [1, 0]
    root := BVHNode.internal 2 (BVHNode.leaf 0 1 (AABB.box ⟨0, 0, -1⟩ ⟨1, 1, -1⟩))
      (BVHNode.leaf 1 2 (AABB.box ⟨0, 0, 0⟩ ⟨1, 1, 0⟩)) (AABB.box ⟨0, 0, -1⟩ ⟨1, 1, 0⟩)
    triAccels := [⟨0, 0, ⟨0, 0, 0⟩, ⟨1, 0, 0⟩, ⟨0, 1, 0⟩⟩,
      ⟨0, 1, ⟨0, 0, -1⟩, ⟨1, 0, -1⟩, ⟨0, 1, -1⟩⟩] }

/-- A ray that starts on `flatTri`, which it meets exactly at its `minT = 0`, and meets
`lowTri` at `t = 9 / 8`. -/
def startRay : Ray := ⟨⟨1 / 8, 1 / 8, 0⟩, ⟨1 / 9, 4 / 9, -8 / 9⟩, 0, 20⟩

/-- A ray along the axis `z`, as the rays of `SceneIntersectionTest`, that meets `flatTri`
at `t = 1` and `lowTri` at `t = 2`, both within `(minT, maxT)`. -/
def downRay : Ray := ⟨⟨1 / 4, 1 / 4, 1⟩, ⟨0, 0, -1⟩, 0, 20⟩

/-- A ray along the axis `z` in the plane `x = 0`, which holds a face of the bound of
`flatTri`; it meets `flatTri` on its edge, at `(0, 1/4, 0)` and `t = 1`. -/
def faceRay : Ray := ⟨⟨0, 1 / 4, 1⟩, ⟨0, 0, -1⟩, 0, 20⟩

/-- A primitive of one triangle, in the plane `z = -1`, that extends to both sides of the
plane `x = 0`. -/
def wideTri : Primitive :=
  { transform := 1
    mesh := some { positions := [-1, 0, -1, 1, 0, -1, 0, 1, -1], faces := [0, 1, 2] } }

/-- The scene that `Build` returns for `[flatTri, wideTri]`. -/
def wideScene : BVHScene :=
  { bvhTriIndices := [1, 0]
    root := BVHNode.internal 2 (BVHNode.leaf 0 1 (AABB.box ⟨-1, 0, -1⟩ ⟨1, 1, -1⟩))
      (BVHNode.leaf 1 2 (AABB.box ⟨0, 0, 0⟩ ⟨1, 1, 0⟩)) (AABB.box ⟨-1, 0, -1⟩ ⟨1, 1, 0⟩)
    triAccels := [⟨0, 0, ⟨0, 0, 0⟩, ⟨1, 0, 0⟩, ⟨0, 1, 0⟩⟩,
      ⟨0, 1, ⟨-1, 0, -1⟩, ⟨1, 0, -1⟩, ⟨0, 1, -1⟩⟩] }

def sampleQuery : GeneralizedBSDFSampleQuery :=
  { sample := ⟨1 / 4, 3 / 4⟩, uComp := 0, type := 255, transportDir := TransportDirection.EL,
    wi := 0 }

end Sample

namespace Math

/-- Modelled from the spec: the helper `Math::ReflectZUp` (its header is not part of the
sources; section 1 assumes the linear-algebra helpers "with the conventional semantics"):
the mirror image of a direction about the `z` axis of the shading frame. -/
def ReflectZUp (wi : Vec3) : Vec3 := ⟨-wi.x, -wi.y, wi.z⟩

/-- Modelled from the spec: the helper `Math::LInfinityNorm` (its header is not part of the
sources), with the conventional semantics: the largest absolute value of a component. -/
def LInfinityNorm (v : Vec3) : ℚ := max |v.x| (max |v.y| |v.z|)

/-- Modelled from the spec: the helper `Math::AbsCosThetaZUp` (its header is not part of
the sources): the absolute value of `CosThetaZUp`. -/
def AbsCosThetaZUp (v : Vec3) : ℚ := |v.z|

end Math

/-! ## `mirror.cpp` : the perfect mirror -/

/-- The class `PerfectMirrorBSDF`: its data member is the specular reflectance `R`. -/
structure PerfectMirrorBSDF where
  R : Vec3
  deriving DecidableEq, Repr

namespace PerfectMirrorBSDF

/-- The member `BSDFTypes()`. -/
def BSDFTypes (T : GeneralizedBSDFType) : Nat := T.SpecularReflection

/-- The member `SampleDirection(query, geom, result)`: `none` when it returns false, the
value written to `result` otherwise. -/
def SampleDirection (_bsdf : PerfectMirrorBSDF) (T : GeneralizedBSDFType)
    (query : GeneralizedBSDFSampleQuery) (geom : SurfaceGeometry) :
    Option GeneralizedBSDFSampleResult :=
  let localWi := geom.worldToShading.mulVec3 query.wi
  if query.type &&& T.SpecularReflection = 0 ∨ Math.CosThetaZUp localWi ≤ 0 then none
  else
    let localWo := Math.ReflectZUp localWi
    some
      { wo := geom.shadingToWorld.mulVec3 localWo
        sampledType := T.SpecularReflection
        pdf := ⟨1 / Math.CosThetaZUp localWo, ProbabilityMeasure.ProjectedSolidAngle⟩ }

/-- The member `EvaluateDirection(query, geom)`.  `EpsLarge` is
`Math::Constants::EpsLarge()`, and `ShadingNormalCorrectionFactor` is the member of the base
class `BSDF`, which is not part of the sources; `Math::IsZero` of its value is the test
for zero. -/
def EvaluateDirection (bsdf : PerfectMirrorBSDF) (T : GeneralizedBSDFType) (EpsLarge : ℚ)
    (ShadingNormalCorrectionFactor :
      TransportDirection → SurfaceGeometry → Vec3 → Vec3 → Vec3 → Vec3 → ℚ)
    (query : GeneralizedBSDFEvaluateQuery) (geom : SurfaceGeometry) : Vec3 :=
  let localWi := geom.worldToShading.mulVec3 query.wi
  let localWo := geom.worldToShading.mulVec3 query.wo
  if query.type &&& T.SpecularReflection = 0 ∨ Math.CosThetaZUp localWi ≤ 0 ∨
      Math.CosThetaZUp localWo ≤ 0 then 0
  else if Math.LInfinityNorm (Math.ReflectZUp localWi - localWo) > EpsLarge then 0
  else
    let sf := ShadingNormalCorrectionFactor query.transportDir geom localWi localWo query.wi
      query.wo
    if sf = 0 then 0
    else bsdf.R * (sf / Math.CosThetaZUp localWi)

end PerfectMirrorBSDF

namespace Sample

/-- A mirror of reflectance one. -/
def mirror : PerfectMirrorBSDF := ⟨Vec3.splat 1⟩

/-- A sampling query for the specular reflection of the direction `(3/5, 0, 4/5)`. -/
def mirrorQuery : GeneralizedBSDFSampleQuery :=
  { sample := ⟨0, 0⟩, uComp := 0, type := 4, transportDir := TransportDirection.EL,
    wi := ⟨3 / 5, 0, 4 / 5⟩ }

/-- An evaluation query for the direction `(3/5, 0, 4/5)` and its mirror direction. -/
def mirrorEvalQuery : GeneralizedBSDFEvaluateQuery :=
  { type := 4, transportDir := TransportDirection.EL, wi := ⟨3 / 5, 0, 4 / 5⟩,
    wo := ⟨-3 / 5, 0, 4 / 5⟩ }

end Sample

/-! ## `pm.cpp` : photon mapping -/

/-- Modelled from the spec: the helper `Math::Length2` (its header is not part of the
sources), with the conventional semantics: the squared length of a vector. -/
def Math.Length2 (v : Vec3) : ℚ := Vec3.Dot v v

/-- The structure `Photon`. -/
structure Photon where
  p : Vec3
  throughput : Vec3
  wi : Vec3
  deriving DecidableEq, Repr

instance : Inhabited Photon := ⟨⟨0, 0, 0⟩⟩

/-- The class `NaivePhotonMap`: its data member is the vector `photons`. -/
structure NaivePhotonMap where
  photons : List Photon
  deriving DecidableEq, Repr

namespace NaivePhotonMap

/-- The member `Build(photons)`. -/
def Build (photons : List Photon) : NaivePhotonMap := ⟨photons⟩

/-- The expression `Math::Length2(photons[v].p - p)` of the comparator of
`CollectPhotons`; an index outside the vector, which the code never forms, gives zero. -/
def dist2 (map : NaivePhotonMap) (p : Vec3) (v : Nat) : ℚ :=
  match map.photons[v]? with
  | some photon => Math.Length2 (photon.p - p)
  | none => 0

/-- The vector `photonIdx` after `std::sort` with the comparator
`Length2(photons[v1].p - p) < Length2(photons[v2].p - p)`.  The sort is embedded as an
insertion sort: `v1` may stand before `v2` unless the comparator puts `v2` first.
(`std::sort` leaves the order of equidistant photons open.) -/
def sortedIdx (map : NaivePhotonMap) (p : Vec3) : List Nat :=
  (List.range map.photons.length).insertionSort
    (fun v1 v2 => ¬ map.dist2 p v2 < map.dist2 p v1)

/-- The loop `for (size_t i : photonIdx)` of `CollectPhotons`, with the current values of
`found` and `collectedPhotons`; `none` when `photons.at(i)` throws. -/
def collectLoop (map : NaivePhotonMap) (n : Int) : List Nat → Int → List Photon →
    Option (List Photon)
  | [], _, collectedPhotons => some collectedPhotons
  | i :: rest, found, collectedPhotons =>
    match map.photons[i]? with
    | none => none
    | some photon =>
      let collectedPhotons := collectedPhotons ++ [photon]
      let found := found + 1
      if found ≥ n then some collectedPhotons
      else collectLoop map n rest found collectedPhotons

/-- The member `CollectPhotons(n, p, collectedPhotons, maxDist2)`: the final values of
`collectedPhotons` and `maxDist2`; `none` when `collectedPhotons.back()` is called on an
empty vector. -/
def CollectPhotons (map : NaivePhotonMap) (n : Int) (p : Vec3)
    (collectedPhotons : List Photon) : Option (List Photon × ℚ) :=
  match map.collectLoop n (map.sortedIdx p) 0 collectedPhotons with
  | none => none
  | some collectedPhotons =>
    match collectedPhotons.getLast? with
    | none => none
    | some back => some (collectedPhotons, Math.Length2 (back.p - p))

end NaivePhotonMap

namespace PhotonMappingRenderer

/-- The member `EvaluatePhotonDensityEstimationKernel(p, photon, queryDist2)`; `InvPi` is
`Math::Constants::InvPi()`. -/
def EvaluatePhotonDensityEstimationKernel (InvPi : ℚ) (p : Vec3) (photon : Photon)
    (queryDist2 : ℚ) : ℚ :=
  let s := 1 - Math.Length2 (photon.p - p) / queryDist2
  3 * InvPi * s * s

end PhotonMappingRenderer

namespace Sample

/-- Three photons at the distances `2`, `1` and `3` from the origin. -/
def photonMap : NaivePhotonMap :=
  ⟨[⟨⟨2, 0, 0⟩, 1, 0⟩, ⟨⟨0, 1, 0⟩, 1, 0⟩, ⟨⟨0, 0, 3⟩, 1, 0⟩]⟩

end Sample

/-- The data members of `PhotonMappingRenderer` that `Configure` reads from the
configuration and that the embedded code uses. -/
structure PhotonMappingRenderer where
  numSamples : Int
  numPhotonTraceSamples : Int
  maxPhotons : Int
  maxPhotonTraceDepth : Int
  numNNQueryPhotons : Int

namespace PhotonMappingRenderer

/-- The lines of `Configure` that set the members above: each value of the configuration
node, or the default of `ChildValueOrDefault` when the node lacks it. -/
def Configure (num_samples num_photon_trace_samples max_photons max_photon_trace_depth
    num_nn_query_photons : Option Int) : PhotonMappingRenderer :=
  { numSamples := num_samples.getD 1
    numPhotonTraceSamples := num_photon_trace_samples.getD 1
    maxPhotons := max_photons.getD 1
    maxPhotonTraceDepth := max_photon_trace_depth.getD (-1)
    numNNQueryPhotons := num_nn_query_photons.getD 50 }

/-- The local variables of one iteration of the loop over `sample` in `TracePhotons`,
with the vector `photons` and the generator. -/
structure PhotonPath where
  throughput : Vec3
  currGeom : SurfaceGeometry
  currWi : Vec3
  currBsdf : GeneralizedBSDF
  depth : Int
  photons : List Photon
  rng : Random

/-- One iteration of the loop `while (true)` of `TracePhotons`: the state after it, and
whether the loop goes on (`false` stands for `break`). -/
def tracePhotonStep (env : RenderEnv) (scene : Scene) (r : PhotonMappingRenderer)
    (st : PhotonPath) : PhotonPath × Bool :=
  let s := st.rng.NextVec2
  let u := s.2.Next
  let bsdfSQ : GeneralizedBSDFSampleQuery :=
    { sample := s.1, uComp := u.1, transportDir := TransportDirection.LE, type := env.T.All,
      wi := st.currWi }
  let st := { st with rng := u.2 }
  match st.currBsdf.SampleDirection bsdfSQ st.currGeom with
  | none => (st, false)
  | some bsdfSR =>
    let fs := st.currBsdf.EvaluateDirection
      (GeneralizedBSDFEvaluateQuery.ofSample bsdfSQ bsdfSR) st.currGeom
    if Vec3.IsZero fs then (st, false)
    else
      let nextThroughput := st.throughput * fs / bsdfSR.pdf.v
      let rr : Option PhotonPath :=
        if st.depth ≥ 1 then
          let continueProb :=
            min 1 (env.Luminance nextThroughput / env.Luminance st.throughput)
          let x := st.rng.Next
          if x.1 > continueProb then none
          else some { st with rng := x.2, throughput := nextThroughput / continueProb }
        else some { st with throughput := nextThroughput }
      match rr with
      | none => ({ st with rng := st.rng.Next.2 }, false)
      | some st =>
        let ray : Ray :=
          { d := bsdfSR.wo, o := st.currGeom.p, minT := env.Eps, maxT := env.Inf }
        match scene.Query ray with
        | none => (st, false)
        | some isect =>
          let store := decide (isect.bsdf.BSDFTypes &&& env.T.Specular = 0)
          let st :=
            if store then
              { st with photons := st.photons ++
                  [{ p := isect.geom.p, throughput := st.throughput, wi := -ray.d }] }
            else st
          if store && decide ((st.photons.length : Int) = r.maxPhotons) then (st, false)
          else
            ({ st with
                currGeom := isect.geom
                currWi := -ray.d
                currBsdf := isect.bsdf
                depth := st.depth + 1 }, true)

/-- The loop `while (true)` of `TracePhotons`: the state when it is left.  The first
argument bounds the number of iterations; `none` when it is exhausted. -/
def tracePhotonPath (env : RenderEnv) (scene : Scene) (r : PhotonMappingRenderer) :
    Nat → PhotonPath → Option PhotonPath
  | 0, _ => none
  | fuel + 1, st =>
    match tracePhotonStep env scene r st with
    | (st, false) => some st
    | (st, true) => tracePhotonPath env scene r fuel st

/-- The body of the loop over `sample` of `TracePhotons` up to the loop `while (true)`:
the state with which that loop starts. -/
def startPhotonPath (scene : Scene) (photons : List Photon) (rng : Random) : PhotonPath :=
  let lightSampleP := rng.NextVec2
  let sel := scene.SampleLightSelection lightSampleP.1
  let light := sel.1
  let pos := light.SamplePosition lightSampleP.1
  let geomL := pos.1
  let pdfPL : PDFEval := { pos.2 with v := pos.2.v * sel.2.v }
  let positionalLe := light.EvaluatePosition geomL
  { throughput := positionalLe / pdfPL.v
    currGeom := geomL
    currWi := 0
    currBsdf := light.toGeneralizedBSDF
    depth := 0
    photons := photons
    rng := lightSampleP.2 }

/-- The loop over `sample` of `TracePhotons`, with `n` samples left: the final values of
`photons` and `tracedPaths`, and the final depth counter of every path traced.  The
argument `fuel` bounds the iterations of each loop `while (true)`. -/
def tracePhotonsLoop (env : RenderEnv) (scene : Scene) (r : PhotonMappingRenderer)
    (fuel : Nat) : Nat → List Photon → Int → Random → List Int →
      Option (List Photon × Int × List Int)
  | 0, photons, tracedPaths, _, depths => some (photons, tracedPaths, depths)
  | n + 1, photons, tracedPaths, rng, depths =>
    if (photons.length : Int) < r.maxPhotons then
      match tracePhotonPath env scene r fuel (startPhotonPath scene photons rng) with
      | none => none
      | some st =>
        tracePhotonsLoop env scene r fuel n st.photons (tracedPaths + 1) st.rng
          (depths ++ [st.depth])
    else some (photons, tracedPaths, depths)

/-- The member `TracePhotons(scene, photons, tracedPaths)`: the final values of `photons`
and `tracedPaths`, together with the final value of the counter `depth` of every path.
The generator `rng`, seeded from the clock in the source, is an argument. -/
def TracePhotons (env : RenderEnv) (scene : Scene) (r : PhotonMappingRenderer) (fuel : Nat)
    (rng : Random) (photons : List Photon) (tracedPaths : Int) :
    Option (List Photon × Int × List Int) :=
  tracePhotonsLoop env scene r fuel r.numPhotonTraceSamples.toNat photons tracedPaths rng []

end PhotonMappingRenderer

namespace Sample

/-- A generator that always returns `1/2`. -/
def rngHalf : Random := ⟨fun _ => 1 / 2, 0⟩

/-- A renderer configured with `max_photon_trace_depth = 1`, one light path and at most
five photons. -/
def pmRenderer : PhotonMappingRenderer :=
  PhotonMappingRenderer.Configure (some 1) (some 1) (some 5) (some 1) none

end Sample

/-! ## `pssmlt.cpp` : primary-sample-space Metropolis light transport -/

/-- The interface `PSSMLTSampler`, whose header is not part of the sources: the member
`Next()` of a sampler with states of type `σ` gives the number drawn and the state after
the call. -/
structure PSSMLTSampler (σ : Type) where
  Next : σ → ℚ × σ

/-- Modelled from the spec: the member `NextVec2()` of a sampler (section 4.H:
"`next() -> u`, `nextVec2() -> (u,v)`: sequential-coordinate consumption"): two numbers
drawn in a row. -/
def PSSMLTSampler.NextVec2 {σ : Type} (S : PSSMLTSampler σ) (s : σ) : Vec2 × σ :=
  let a := S.Next s
  let b := S.Next a.2
  (⟨a.1, b.1⟩, b.2)

/-- Modelled from the spec: the restorable sampler `PSSMLTRestorableSampler` of section
4.H ("keeps the full byte-sequence of consumed RNG outputs; `setIndex(i)` rewinds the
stream to after `i` draws; `index()` returns the current count"): the stream of the
outputs of its generator and the number of outputs consumed. -/
structure PSSMLTRestorableSampler where
  stream : Nat → ℚ
  index : Nat

namespace PSSMLTRestorableSampler

/-- The member `Next()`. -/
def Next (s : PSSMLTRestorableSampler) : ℚ × PSSMLTRestorableSampler :=
  (s.stream s.index, { s with index := s.index + 1 })

/-- The member `Index()`, an `int`. -/
def Index (s : PSSMLTRestorableSampler) : Int := s.index

/-- The member `SetIndex(i)`. -/
def SetIndex (s : PSSMLTRestorableSampler) (i : Int) : PSSMLTRestorableSampler :=
  { s with index := i.toNat }

/-- The restorable sampler as a `PSSMLTSampler`. -/
def sampler : PSSMLTSampler PSSMLTRestorableSampler := ⟨Next⟩

end PSSMLTRestorableSampler

/-- The structure `PSSMLTPathSeed`. -/
structure PSSMLTPathSeed where
  index : Int
  I : ℚ
  deriving DecidableEq, Repr

/-- The structure `PSSMLTPathSampleRecord`. -/
structure PSSMLTPathSampleRecord where
  rasterPos : Vec2
  L : Vec3
  deriving DecidableEq, Repr

/-- The enumeration `PSSMLTEstimatorMode`. -/
inductive PSSMLTEstimatorMode where
  | Normal
  | MeanValueSubstitution
  | MeanValueSubstitution_LargeStepMIS
  deriving DecidableEq, Repr

/-- The data members of `PSSMLTRenderer::Impl` that `Configure` sets and the embedded
code reads. -/
structure PSSMLTRenderer where
  numSamples : Int
  rrDepth : Int
  numThreads : Int
  estimatorMode : PSSMLTEstimatorMode
  numSeedSamples : Int
  largeStepProb : ℚ
  deriving DecidableEq, Repr

/-- A member call received by the generator `rng` or by the sampler `sampler` of a thread
context. -/
inductive PSSMLTCall where
  | RngNext
  | SamplerNext
  | SetLargeStep (enableLargeStep : Bool)
  | Accept
  | Reject
  deriving DecidableEq, Repr

/-- The structure `PSSMLTThreadContext`.  The classes of `rng` and of `sampler` are not
part of the sources, and the sampler draws from the generator it was given by `SetRng`:
the two objects are represented by the sequence `calls` of the member calls they have
received.  The film is represented by the sequence of the calls of
`AccumulateContribution(rasterPos, contrb)` it has received, `records[0]` and `records[1]`
are `record0` and `record1`, and `current` is `0` or `1`. -/
structure PSSMLTThreadContext where
  calls : List PSSMLTCall
  film : List (Vec2 × Vec3)
  record0 : PSSMLTPathSampleRecord
  record1 : PSSMLTPathSampleRecord
  current : Fin 2
  deriving DecidableEq, Repr

namespace PSSMLTThreadContext

/-- The expression `records[i]`. -/
def records (ctx : PSSMLTThreadContext) (i : Fin 2) : PSSMLTPathSampleRecord :=
  if i = 0 then ctx.record0 else ctx.record1

/-- The assignment of the record `records[i]`. -/
def setRecord (ctx : PSSMLTThreadContext) (i : Fin 2) (r : PSSMLTPathSampleRecord) :
    PSSMLTThreadContext :=
  if i = 0 then { ctx with record0 := r } else { ctx with record1 := r }

/-- The call `rng->Next()`: `oracle` gives the number that the generator returns after
the calls received so far. -/
def rngNext (oracle : List PSSMLTCall → ℚ) (ctx : PSSMLTThreadContext) :
    ℚ × PSSMLTThreadContext :=
  (oracle ctx.calls, { ctx with calls := ctx.calls ++ [PSSMLTCall.RngNext] })

/-- The sampler of a thread context as a `PSSMLTSampler`: `oracle` gives the number that
`sampler->Next()` returns after the calls received so far. -/
def sampler (oracle : List PSSMLTCall → ℚ) : PSSMLTSampler PSSMLTThreadContext :=
  ⟨fun ctx => (oracle ctx.calls, { ctx with calls := ctx.calls ++ [PSSMLTCall.SamplerNext] })⟩

/-- The call `film->AccumulateContribution(rasterPos, contrb)`. -/
def accumulate (ctx : PSSMLTThreadContext) (rasterPos : Vec2) (contrb : Vec3) :
    PSSMLTThreadContext :=
  { ctx with film := ctx.film ++ [(rasterPos, contrb)] }

end PSSMLTThreadContext

namespace PSSMLTRenderer

/-- The local variables `ray`, `L`, `throughput` and `depth` of
`SampleAndEvaluatePath`. -/
structure PathState where
  ray : Ray
  L : Vec3
  throughput : Vec3
  depth : Int
  deriving DecidableEq, Repr

/-- One iteration of the loop `while (true)` of `SampleAndEvaluatePath`: the variables and
the sampler after it, and whether the loop goes on (`false` stands for `break`).  The
members of the queries that the source leaves unset are zero. -/
def pathStep {σ : Type} (env : RenderEnv) (scene : Scene) (r : PSSMLTRenderer)
    (S : PSSMLTSampler σ) (ps : PathState) (s : σ) : PathState × σ × Bool :=
  match scene.Query ps.ray with
  | none => (ps, s, false)
  | some isect =>
    let ps : PathState :=
      match isect.light with
      | some light =>
        let LeD := light.EvaluateDirection
          ⟨env.T.LightDirection, TransportDirection.LE, 0, -ps.ray.d⟩ isect.geom
        let LeP := light.EvaluatePosition isect.geom
        { ps with L := ps.L + ps.throughput * LeD * LeP }
      | none => ps
    let d := S.NextVec2 s
    let bsdfSQ : GeneralizedBSDFSampleQuery :=
      { sample := d.1, uComp := 0, type := env.T.AllBSDF,
        transportDir := TransportDirection.EL, wi := -ps.ray.d }
    match isect.bsdf.SampleDirection bsdfSQ isect.geom with
    | none => (ps, d.2, false)
    | some bsdfSR =>
      let bsdf := isect.bsdf.EvaluateDirection
        (GeneralizedBSDFEvaluateQuery.ofSample bsdfSQ bsdfSR) isect.geom
      if Vec3.IsZero bsdf then (ps, d.2, false)
      else
        let throughput := ps.throughput * (bsdf / bsdfSR.pdf.v)
        let ps : PathState :=
          { ps with
            throughput := throughput
            ray := { d := bsdfSR.wo, o := isect.geom.p, minT := env.Eps, maxT := env.Inf }
            depth := ps.depth + 1 }
        if ps.depth ≥ r.rrDepth then
          let p := min (1 / 2) (env.Luminance throughput)
          let e := S.Next d.2
          if e.1 > p then (ps, e.2, false)
          else ({ ps with throughput := throughput / p }, e.2, true)
        else (ps, d.2, true)

/-- The loop `while (true)` of `SampleAndEvaluatePath`: the variables and the sampler when
it is left.  The first argument bounds the number of iterations; `none` when it is
exhausted. -/
def pathLoop {σ : Type} (env : RenderEnv) (scene : Scene) (r : PSSMLTRenderer)
    (S : PSSMLTSampler σ) : Nat → PathState → σ → Option (PathState × σ)
  | 0, _, _ => none
  | fuel + 1, ps, s =>
    match pathStep env scene r S ps s with
    | (ps, s, false) => some (ps, s)
    | (ps, s, true) => pathLoop env scene r S fuel ps s

/-- The member `SampleAndEvaluatePath(scene, sampler, L, rasterPos)`: the values written
to `L` and `rasterPos`, and the sampler after the call.  The result is `none` when the
bound `fuel` on the iterations of the loop is exhausted, and when the camera samples no
direction (the source ignores the boolean and reads the unset result). -/
def SampleAndEvaluatePath {σ : Type} (env : RenderEnv) (scene : Scene) (r : PSSMLTRenderer)
    (fuel : Nat) (S : PSSMLTSampler σ) (s : σ) : Option (Vec3 × Vec2 × σ) :=
  let rasterPos := S.NextVec2 s
  let sampleP := S.NextVec2 rasterPos.2
  let pos := scene.MainCamera.SamplePosition sampleP.1
  let geomE := pos.1
  let pdfP := pos.2
  let bsdfSQ : GeneralizedBSDFSampleQuery :=
    { sample := rasterPos.1, uComp := 0, transportDir := TransportDirection.EL,
      type := env.T.EyeDirection, wi := 0 }
  match scene.MainCamera.SampleDirection bsdfSQ geomE with
  | none => none
  | some bsdfSR =>
    let ray : Ray := { o := geomE.p, d := bsdfSR.wo, minT := 0, maxT := env.Inf }
    let We := scene.MainCamera.EvaluatePosition geomE *
      scene.MainCamera.EvaluateDirection
        (GeneralizedBSDFEvaluateQuery.ofSample bsdfSQ bsdfSR) geomE
    let throughput := We / bsdfSR.pdf.v / pdfP.v
    match pathLoop env scene r S fuel ⟨ray, 0, throughput, 0⟩ sampleP.2 with
    | none => none
    | some (ps, s) => some (ps.L, rasterPos.1, s)

/-- The acceptance ratio `a` of a mutation step, from the luminances of the current and of
the proposed path. -/
def acceptanceRatio (currentI proposedI : ℚ) : ℚ :=
  if currentI > 0 then min 1 (proposedI / currentI) else 1

/-- The block of a mutation step that draws `rng->Next()` and accepts or rejects the
proposal with the acceptance ratio `a`. -/
def decideStep (oracle : List PSSMLTCall → ℚ) (a : ℚ) (context : PSSMLTThreadContext) :
    PSSMLTThreadContext :=
  let y := context.rngNext oracle
  if y.1 < a then
    { y.2 with
      calls := y.2.calls ++ [PSSMLTCall.Accept]
      current := 1 - y.2.current }
  else { y.2 with calls := y.2.calls ++ [PSSMLTCall.Reject] }

/-- The block "Accumulate contribution" of a mutation step; `current` and `proposed` are
the records that the references of these names denote, those of before the decision. -/
def accumulateStep (env : RenderEnv) (r : PSSMLTRenderer) (B : ℚ) (enableLargeStep : Bool)
    (a : ℚ) (current proposed : PSSMLTPathSampleRecord) (context : PSSMLTThreadContext) :
    PSSMLTThreadContext :=
  let currentI := env.Luminance current.L
  let proposedI := env.Luminance proposed.L
  match r.estimatorMode with
  | PSSMLTEstimatorMode.MeanValueSubstitution =>
    let context := context.accumulate current.rasterPos
      (current.L * (1 - a) * B / currentI)
    context.accumulate proposed.rasterPos (proposed.L * a * B / proposedI)
  | PSSMLTEstimatorMode.MeanValueSubstitution_LargeStepMIS =>
    let context := context.accumulate current.rasterPos
      (current.L * (1 - a) / (currentI / B + r.largeStepProb))
    context.accumulate proposed.rasterPos
      (proposed.L * (a + (if enableLargeStep then 1 else 0))
        / (proposedI / B + r.largeStepProb))
  | PSSMLTEstimatorMode.Normal =>
    let current := context.records context.current
    let currentI := env.Luminance current.L
    context.accumulate current.rasterPos (current.L * B / currentI)

/-- The body of the loop over `sample` of `Render` (one mutation step) on the context of
a thread; `B` is the value computed by `GenerateAndSampleSeeds`.  The result is `none`
when `SampleAndEvaluatePath` gives none. -/
def mutationStep (env : RenderEnv) (scene : Scene) (r : PSSMLTRenderer) (B : ℚ)
    (oracle : List PSSMLTCall → ℚ) (fuel : Nat) (context : PSSMLTThreadContext) :
    Option PSSMLTThreadContext :=
  let cur := context.current
  let x := context.rngNext oracle
  let enableLargeStep := decide (x.1 < r.largeStepProb)
  let context : PSSMLTThreadContext :=
    { x.2 with calls := x.2.calls ++ [PSSMLTCall.SetLargeStep enableLargeStep] }
  match SampleAndEvaluatePath env scene r fuel (PSSMLTThreadContext.sampler oracle) context with
  | none => none
  | some (L, rasterPos, context) =>
    let context := context.setRecord (1 - cur) ⟨rasterPos, L⟩
    let current := context.records cur
    let proposed := context.records (1 - cur)
    let a := acceptanceRatio (env.Luminance current.L) (env.Luminance proposed.L)
    let context := decideStep oracle a context
    some (accumulateStep env r B enableLargeStep a current proposed context)

end PSSMLTRenderer

namespace PSSMLTThreadContext

/-- The second context is the first one after further calls of `sampler->Next()`. -/
def Drawn (ctx ctx' : PSSMLTThreadContext) : Prop :=
  ∃ k, ctx' = { ctx with calls := ctx.calls ++ List.replicate k PSSMLTCall.SamplerNext }

end PSSMLTThreadContext

namespace Sample

/-- A scene in which every ray hits a diffuse surface of the sample light. -/
def litScene : Scene :=
  ⟨fun _ => some ⟨geom 0, bsdf, some light, none⟩, camera true,
    fun _ => (light, ⟨1, ProbabilityMeasure.Discrete⟩)⟩

/-- A renderer with `rr_depth = 1`, two seed samples, one thread and
`large_step_prob = 1/10`. -/
def pssmlt (mode : PSSMLTEstimatorMode) : PSSMLTRenderer :=
  { numSamples := 1, rrDepth := 1, numThreads := 1, estimatorMode := mode,
    numSeedSamples := 2, largeStepProb := 1 / 10 }

/-- A generator and a sampler that return `0` on their first call and `3/4` afterwards. -/
def pssmltOracle (calls : List PSSMLTCall) : ℚ := if calls.length = 0 then 0 else 3 / 4

/-- A thread context whose current record has the radiance one. -/
def threadContext : PSSMLTThreadContext :=
  { calls := [], film := [], record0 := ⟨⟨0, 0⟩, Vec3.splat 1⟩, record1 := ⟨⟨0, 0⟩, 0⟩,
    current := 0 }

end Sample

namespace PSSMLTRenderer

/-- The loop over `sample` of `GenerateAndSampleSeeds`, with `n` samples left and the
current values of `sumI` and `candidates`; `none` when `SampleAndEvaluatePath` gives
none. -/
def seedCandidatesLoop (env : RenderEnv) (scene : Scene) (r : PSSMLTRenderer) (fuel : Nat) :
    Nat → PSSMLTRestorableSampler → ℚ → List PSSMLTPathSeed →
      Option (ℚ × List PSSMLTPathSeed × PSSMLTRestorableSampler)
  | 0, restorableSampler, sumI, candidates => some (sumI, candidates, restorableSampler)
  | n + 1, restorableSampler, sumI, candidates =>
    let index := restorableSampler.Index
    match SampleAndEvaluatePath env scene r fuel PSSMLTRestorableSampler.sampler
        restorableSampler with
    | none => none
    | some (L, _, restorableSampler) =>
      if !Vec3.IsZero L then
        let I := env.Luminance L
        seedCandidatesLoop env scene r fuel n restorableSampler (sumI + I)
          (candidates ++ [⟨index, I⟩])
      else seedCandidatesLoop env scene r fuel n restorableSampler sumI candidates

/-- The blocks "Create CDF" and "Normalize" of `GenerateAndSampleSeeds`. -/
def seedCdf (candidates : List PSSMLTPathSeed) : List ℚ :=
  let cdf := candidates.foldl (fun cdf candidate => cdf ++ [cdf.getLastD 0 + candidate.I]) [0]
  let sum := cdf.getLastD 0
  cdf.map (fun v => v / sum)

/-- The helper `Math::Clamp` on `int`. -/
def clampInt (v lo hi : Int) : Int := min (max v lo) hi

/-- The loop "Sample seeds for each thread" of `GenerateAndSampleSeeds`, with `n` threads
left; `none` when `candidates[idx]` is out of range. -/
def sampleSeedsLoop (candidates : List PSSMLTPathSeed) (cdf : List ℚ) :
    Nat → PSSMLTRestorableSampler → List PSSMLTPathSeed →
      Option (List PSSMLTPathSeed × PSSMLTRestorableSampler)
  | 0, restorableSampler, seeds => some (seeds, restorableSampler)
  | n + 1, restorableSampler, seeds =>
    let u := restorableSampler.Next
    let idx := clampInt ((DiscreteDistribution1D.upper_bound cdf u.1 : Int) - 1) 0
      ((cdf.length : Int) - 1)
    match candidates[idx.toNat]? with
    | none => none
    | some candidate => sampleSeedsLoop candidates cdf n u.2 (seeds ++ [candidate])

/-- The member `GenerateAndSampleSeeds(scene, restorableSampler, B, seeds)`: the values
written to `B` and `seeds`, and the sampler after the call. -/
def GenerateAndSampleSeeds (env : RenderEnv) (scene : Scene) (r : PSSMLTRenderer)
    (fuel : Nat) (restorableSampler : PSSMLTRestorableSampler) :
    Option (ℚ × List PSSMLTPathSeed × PSSMLTRestorableSampler) :=
  match seedCandidatesLoop env scene r fuel r.numSeedSamples.toNat restorableSampler 0 [] with
  | none => none
  | some (sumI, candidates, restorableSampler) =>
    let B := sumI / (r.numSeedSamples : ℚ)
    let cdf := seedCdf candidates
    match sampleSeedsLoop candidates cdf r.numThreads.toNat restorableSampler [] with
    | none => none
    | some (seeds, restorableSampler) => some (B, seeds, restorableSampler)

/-- The `numSeedSamples` light paths that `GenerateAndSampleSeeds` samples one after the
other: for each, the value of `restorableSampler.Index()` before the path is sampled and
the radiance of the path; with the sampler after the last path. -/
def seedSamples (env : RenderEnv) (scene : Scene) (r : PSSMLTRenderer) (fuel : Nat) :
    Nat → PSSMLTRestorableSampler → Option (List (Int × Vec3) × PSSMLTRestorableSampler)
  | 0, s => some ([], s)
  | n + 1, s =>
    match SampleAndEvaluatePath env scene r fuel PSSMLTRestorableSampler.sampler s with
    | none => none
    | some (L, _, s') =>
      match seedSamples env scene r fuel n s' with
      | none => none
      | some (rest, s'') => some ((s.Index, L) :: rest, s'')

end PSSMLTRenderer

namespace PSSMLTRestorableSampler

/-- Two restorable samplers in the same stream state: as many outputs consumed, and the
same outputs to come. -/
def SameState (s1 s2 : PSSMLTRestorableSampler) : Prop :=
  s1.index = s2.index ∧ ∀ i, s1.index ≤ i → s1.stream i = s2.stream i

end PSSMLTRestorableSampler

namespace Sample

/-- A restorable sampler whose stream is `3/4, 3/4, ...`. -/
def restorableSampler : PSSMLTRestorableSampler := ⟨fun _ => 3 / 4, 0⟩

/-- A restorable sampler in the same stream state after seven outputs, with other
outputs before. -/
def restorableSampler7 (past : ℚ) : PSSMLTRestorableSampler :=
  ⟨fun i => if i < 7 then past else 3 / 4, 7⟩

end Sample

/-! ## `bpt.subpath.cpp` : `BPTSubpath::Sample` -/

/-- The members of `BPTConfig` that `BPTSubpath::Sample` reads; the header of the class is
not part of the sources. -/
structure BPTConfig where
  rrDepth : Int
  enableExperimentalMode : Bool
  maxSubpathNumVertices : Int
  deriving DecidableEq, Repr

/-- A vertex that one iteration of the loop of `BPTSubpath::Sample` constructs, with a
record of what the iteration did: `roulette` is the number `rng.Next()` that the block
"Apply RR" compared with `p`, when the block drew one; `scattered` is the query and the
result of `SampleDirection`, when the call returned true; `appended` tells whether the
iteration reached a statement `vertices.push_back(v)`. -/
structure BPTSampledVertex where
  vertex : BPTPathVertex
  roulette : Option ℚ
  scattered : Option (GeneralizedBSDFSampleQuery × GeneralizedBSDFSampleResult)
  appended : Bool

namespace BPTSubpath

/-- The local variable `rrDepthT` of `Sample`.  The block under
`LM_ENABLE_BPT_EXPERIMENTAL` is kept: with `enableExperimentalMode` false it does nothing,
as when the block is compiled out. -/
def rrDepthT (config : BPTConfig) : Int :=
  if config.enableExperimentalMode then max config.rrDepth config.maxSubpathNumVertices
  else config.rrDepth

/-- The part of `Sample` before the loop: the initial vertex and the generator after it.
The argument `init` stands for the vertex that `pool.Construct()` returns, and `pdfEval0`
for `Math::PDFEval()`; the members of the query that the source leaves unset are zero.
The result is `none` when the emitter samples no direction (the source ignores the boolean
and reads the unset result). -/
def initialVertex (env : RenderEnv) (scene : Scene) (transportDir : TransportDirection)
    (init : BPTPathVertex) (pdfEval0 : PDFEval) (rng : Random) :
    Option (BPTPathVertex × Random) :=
  let v : BPTPathVertex :=
    { init with
      type := BPTPathVertexType.EndPoint
      transportDir := transportDir
      emitter := none
      areaLight := none
      areaCamera := none }
  let s := rng.NextVec2
  let v : BPTPathVertex :=
    match transportDir with
    | TransportDirection.EL =>
      let pos := scene.MainCamera.SamplePosition s.1
      { v with
        emitter := some (EmitterRef.camera scene.MainCamera)
        geom := pos.1
        pdfP := pos.2
        areaCamera := if !pos.1.degenerated then some scene.MainCamera else none
        bsdf := scene.MainCamera.toGeneralizedBSDF }
    | TransportDirection.LE =>
      let sel := scene.SampleLightSelection s.1
      let pos := sel.1.SamplePosition s.1
      { v with
        emitter := some (EmitterRef.light sel.1)
        geom := pos.1
        pdfP := { pos.2 with v := pos.2.v * sel.2.v }
        areaLight := if !pos.1.degenerated then some sel.1 else none
        bsdf := sel.1.toGeneralizedBSDF }
  let d := s.2.NextVec2
  let bsdfSQE : GeneralizedBSDFSampleQuery :=
    { sample := d.1, uComp := 0, transportDir := transportDir, type := env.T.AllEmitter,
      wi := 0 }
  match v.bsdf.SampleDirection bsdfSQE v.geom with
  | none => none
  | some bsdfSRE =>
    some
      ({ v with
          pdfD := Function.update (Function.update v.pdfD transportDir bsdfSRE.pdf)
            transportDir.opposite pdfEval0
          wo := bsdfSRE.wo
          pdfRR := ⟨1, ProbabilityMeasure.Discrete⟩ }, d.2)

/-- The part of an iteration of the loop of `Sample` from "Sample generalized BSDF" to the
end, for the vertex `v` after the block "Apply RR" and the previous vertex `pv`: the vertex
with its record, the generator, and whether the loop goes on (`false` stands for
`break`). -/
def scatter (env : RenderEnv) (transportDir : TransportDirection) (pv v : BPTPathVertex)
    (roulette : Option ℚ) (rng : Random) : BPTSampledVertex × Random × Bool :=
  let s := rng.NextVec2
  let u := s.2.Next
  let bsdfSQ : GeneralizedBSDFSampleQuery :=
    { sample := s.1, uComp := u.1, transportDir := transportDir, type := env.T.All,
      wi := -pv.wo }
  match v.bsdf.SampleDirection bsdfSQ v.geom with
  | none => (⟨v, roulette, none, true⟩, u.2, false)
  | some bsdfSR =>
    let v : BPTPathVertex :=
      { v with wo := bsdfSR.wo, pdfD := Function.update v.pdfD transportDir bsdfSR.pdf }
    if !pv.geom.degenerated then
      if bsdfSR.sampledType &&& env.T.Specular ≠ 0 then
        if bsdfSR.sampledType &&& env.T.SpecularReflection ≠ 0 then
          (⟨{ v with
              pdfD := Function.update v.pdfD transportDir.opposite (v.pdfD transportDir) },
            roulette, some (bsdfSQ, bsdfSR), true⟩, u.2, true)
        else if bsdfSR.sampledType &&& env.T.SpecularTransmission ≠ 0 then
          let localWi := v.geom.worldToShading.mulVec3 v.wi
          let localWo := v.geom.worldToShading.mulVec3 v.wo
          (⟨{ v with
              pdfD := Function.update v.pdfD transportDir.opposite
                ⟨(v.pdfD transportDir).v *
                    (Math.AbsCosThetaZUp localWi / Math.AbsCosThetaZUp localWo),
                  ProbabilityMeasure.ProjectedSolidAngle⟩ },
            roulette, some (bsdfSQ, bsdfSR), true⟩, u.2, true)
        else (⟨v, roulette, some (bsdfSQ, bsdfSR), false⟩, u.2, false)
      else
        let bsdfEQ : GeneralizedBSDFEvaluateQuery :=
          { type := bsdfSR.sampledType, transportDir := transportDir.opposite,
            wi := bsdfSR.wo, wo := bsdfSQ.wi }
        (⟨{ v with
            pdfD := Function.update v.pdfD transportDir.opposite
              (v.bsdf.EvaluateDirectionPDF bsdfEQ v.geom) },
          roulette, some (bsdfSQ, bsdfSR), true⟩, u.2, true)
    else
      (⟨{ v with
          pdfD := Function.update v.pdfD transportDir.opposite
            ⟨0, ProbabilityMeasure.ProjectedSolidAngle⟩ },
        roulette, some (bsdfSQ, bsdfSR), true⟩, u.2, true)

/-- The vertex that an iteration of the loop of `Sample` creates for the intersection
`isect`, up to the block "Apply RR"; `init` stands for the vertex that `pool.Construct()`
returns and `pv` is the previous vertex. -/
def intersectionVertex (transportDir : TransportDirection) (init pv : BPTPathVertex)
    (isect : Intersection) : BPTPathVertex :=
  let v : BPTPathVertex :=
    { init with
      type := BPTPathVertexType.IntermediatePoint
      transportDir := transportDir
      emitter := none
      bsdf := isect.bsdf
      geom := isect.geom
      wi := -pv.wo
      areaLight := isect.light
      areaCamera := isect.camera }
  let v : BPTPathVertex :=
    match v.areaLight with
    | some l => { v with emitter := some (EmitterRef.light l) }
    | none => v
  let v : BPTPathVertex :=
    match v.areaCamera with
    | some c => { v with emitter := some (EmitterRef.camera c) }
    | none => v
  match v.emitter with
  | some e => { v with pdfP := e.toEmitter.EvaluatePositionPDF v.geom }
  | none => { v with pdfP := ⟨0, ProbabilityMeasure.Area⟩ }

/-- One iteration of the loop `while (true)` of `Sample`, with the value `depth` of the
counter before the iteration and the previous vertex `pv`: the vertex constructed with its
record (`none` when the ray meets nothing), the generator, and whether the loop goes on
(`false` stands for `break`). -/
def sampleStep (env : RenderEnv) (config : BPTConfig) (scene : Scene)
    (transportDir : TransportDirection) (init : BPTPathVertex) (depth : Int)
    (pv : BPTPathVertex) (rng : Random) : Option BPTSampledVertex × Random × Bool :=
  let ray : Ray := { d := pv.wo, o := pv.geom.p, minT := env.Eps, maxT := env.Inf }
  match scene.Query ray with
  | none => (none, rng, false)
  | some isect =>
    let v := intersectionVertex transportDir init pv isect
    if depth + 1 ≥ rrDepthT config then
      let p : ℚ := 1 / 2
      let x := rng.Next
      if x.1 > p then (some ⟨v, some x.1, none, true⟩, x.2, false)
      else
        let r := scatter env transportDir pv
          { v with pdfRR := ⟨p, ProbabilityMeasure.Discrete⟩ } (some x.1) x.2
        (some r.1, r.2)
    else
      let r := scatter env transportDir pv
        { v with pdfRR := ⟨1, ProbabilityMeasure.Discrete⟩ } none rng
      (some r.1, r.2)

/-- The loop `while (true)` of `Sample`, from the current `vertices` and counter `depth`:
the final `vertices`, the vertices constructed by the iterations with their records, and
the generator.  The first argument bounds the number of iterations; `none` when it is
exhausted. -/
def sampleLoop (env : RenderEnv) (config : BPTConfig) (scene : Scene)
    (transportDir : TransportDirection) (init : BPTPathVertex) :
    Nat → List BPTPathVertex → List BPTSampledVertex → Int → Random →
      Option (List BPTPathVertex × List BPTSampledVertex × Random)
  | 0, _, _, _, _ => none
  | fuel + 1, vertices, constructed, depth, rng =>
    match vertices.getLast? with
    | none => none
    | some pv =>
      match sampleStep env config scene transportDir init depth pv rng with
      | (none, rng, _) => some (vertices, constructed, rng)
      | (some e, rng, continues) =>
        let vertices := if e.appended then vertices ++ [e.vertex] else vertices
        if continues then
          sampleLoop env config scene transportDir init fuel vertices (constructed ++ [e])
            (depth + 1) rng
        else some (vertices, constructed ++ [e], rng)

/-- The member `Sample(config, scene, rng, pool)` of a subpath with no vertices and the
transport direction `transportDir`: the final `vertices`, the vertices constructed by the
iterations of the loop with their records, and the generator after the call. -/
def Sample (env : RenderEnv) (config : BPTConfig) (scene : Scene)
    (transportDir : TransportDirection) (init : BPTPathVertex) (pdfEval0 : PDFEval)
    (fuel : Nat) (rng : Random) :
    Option (List BPTPathVertex × List BPTSampledVertex × Random) :=
  match initialVertex env scene transportDir init pdfEval0 rng with
  | none => none
  | some (v, rng) => sampleLoop env config scene transportDir init fuel [v] [] 1 rng

end BPTSubpath

namespace Sample

end Sample

namespace Sample

/-- A vertex like `y1`, at the distance `1/2000` from it. -/
def nearVertex : BPTPathVertex := { y1 with geom := geom ⟨0, 0, 1 / 2000⟩ }

end Sample

/-- The data members of `PSSMLTRenderer::Impl` set by `Configure`: those of
`PSSMLTRenderer` and the remaining ones. -/
structure PSSMLTRendererConfig extends PSSMLTRenderer where
  samplesPerBlock : Int
  rngType : String
  kernelSizeS1 : ℚ
  kernelSizeS2 : ℚ
  deriving DecidableEq, Repr

/-- The configuration node that `PSSMLTRenderer::Impl::Configure` reads (the class
`ConfigNode` is not part of the sources): the attribute `type` and, for every child
element read, its value, or `none` when the node has no such child. -/
structure PSSMLTConfigNode where
  type : String
  num_samples : Option Int
  rr_depth : Option Int
  num_threads : Option Int
  samples_per_block : Option Int
  rng : Option String
  estimator_mode : Option String
  num_seed_samples : Option Int
  large_step_prob : Option ℚ
  kernel_size_s1 : Option ℚ
  kernel_size_s2 : Option ℚ
  deriving DecidableEq, Repr

namespace PSSMLTRenderer

/-- The block "Estimator mode" of `Configure`: the mode selected, or `none` when the
block returns false. -/
def configureEstimatorMode (estimator_mode : Option String) : Option PSSMLTEstimatorMode :=
  match estimator_mode with
  | none => some PSSMLTEstimatorMode.MeanValueSubstitution_LargeStepMIS
  | some v =>
    if v = "normal" then some PSSMLTEstimatorMode.Normal
    else if v = "mvs" then some PSSMLTEstimatorMode.MeanValueSubstitution
    else if v = "mvs_mis" then some PSSMLTEstimatorMode.MeanValueSubstitution_LargeStepMIS
    else none

/-- The member `Configure(node, assets)`: `none` when it returns false, the data members
set otherwise.  `selfType` is `self->Type()`, `hardware_concurrency` is
`static_cast<int>(std::thread::hardware_concurrency())` and `CheckSupport` is
`RandomFactory::CheckSupport`; the block under `LM_EXPERIMENTAL_MODE` is compiled out. -/
def Configure (selfType : String) (hardware_concurrency : Int) (CheckSupport : String → Bool)
    (node : PSSMLTConfigNode) : Option PSSMLTRendererConfig :=
  if node.type ≠ selfType then none
  else
    let numSamples := node.num_samples.getD 1
    let rrDepth := node.rr_depth.getD 1
    let numThreads := node.num_threads.getD hardware_concurrency
    let numThreads :=
      if numThreads ≤ 0 then max 1 (hardware_concurrency + numThreads) else numThreads
    let samplesPerBlock := node.samples_per_block.getD 100
    if samplesPerBlock ≤ 0 then none
    else
      let rngType := node.rng.getD ("sfmt")
      if !CheckSupport rngType then none
      else
        match configureEstimatorMode node.estimator_mode with
        | none => none
        | some estimatorMode =>
          some
            { numSamples := numSamples
              rrDepth := rrDepth
              numThreads := numThreads
              estimatorMode := estimatorMode
              numSeedSamples := node.num_seed_samples.getD 1
              largeStepProb := node.large_step_prob.getD (1 / 10)
              samplesPerBlock := samplesPerBlock
              rngType := rngType
              kernelSizeS1 := node.kernel_size_s1.getD (1 / 1024)
              kernelSizeS2 := node.kernel_size_s2.getD (1 / 64) }

end PSSMLTRenderer

namespace Sample

/-- A configuration node with `num_samples = 10`, `num_threads = -2`,
`samples_per_block = 4` and no estimator mode. -/
def pssmltNode : PSSMLTConfigNode :=
  { type := "pssmlt", num_samples := some 10, rr_depth := none, num_threads := some (-2),
    samples_per_block := some 4, rng := none, estimator_mode := none,
    num_seed_samples := none, large_step_prob := none, kernel_size_s1 := none,
    kernel_size_s2 := none }

/-- A generator factory that supports `sfmt` only. -/
def checkSupport (rngType : String) : Bool := decide (rngType = "sfmt")

/-- The configuration that `Configure` makes of `pssmltNode` on a machine with eight
hardware threads. -/
def pssmltConfig : PSSMLTRendererConfig :=
  { numSamples := 10, rrDepth := 1, numThreads := 6,
    estimatorMode := PSSMLTEstimatorMode.MeanValueSubstitution_LargeStepMIS,
    numSeedSamples := 1, largeStepProb := 1 / 10, samplesPerBlock := 4, rngType := "sfmt",
    kernelSizeS1 := 1 / 1024, kernelSizeS2 := 1 / 64 }

end Sample

/-- The structure `GeneralizedBSDFSampleBidirResult`, whose header is not part of the
sources: the members that `SampleAndEstimateDirectionBidir` writes. -/
structure GeneralizedBSDFSampleBidirResult where
  wo : Vec3
  sampledType : Nat
  pdf : TransportDirection → PDFEval
  weight : TransportDirection → Vec3

namespace PerfectMirrorBSDF

/-- The member `EvaluateDirectionPDF(query, geom)`. -/
def EvaluateDirectionPDF (_bsdf : PerfectMirrorBSDF) (T : GeneralizedBSDFType) (EpsLarge : ℚ)
    (query : GeneralizedBSDFEvaluateQuery) (geom : SurfaceGeometry) : PDFEval :=
  let localWi := geom.worldToShading.mulVec3 query.wi
  let localWo := geom.worldToShading.mulVec3 query.wo
  if query.type &&& T.SpecularReflection = 0 ∨ Math.CosThetaZUp localWi ≤ 0 ∨
      Math.CosThetaZUp localWo ≤ 0 then ⟨0, ProbabilityMeasure.ProjectedSolidAngle⟩
  else if Math.LInfinityNorm (Math.ReflectZUp localWi - localWo) > EpsLarge then
    ⟨0, ProbabilityMeasure.ProjectedSolidAngle⟩
  else ⟨1 / Math.CosThetaZUp localWi, ProbabilityMeasure.ProjectedSolidAngle⟩

/-- The member `SampleAndEstimateDirection(query, geom, result)`: the vector returned, and
the value written to `result` (`none` when the function returns before writing it). -/
def SampleAndEstimateDirection (bsdf : PerfectMirrorBSDF) (T : GeneralizedBSDFType)
    (ShadingNormalCorrectionFactor :
      TransportDirection → SurfaceGeometry → Vec3 → Vec3 → Vec3 → Vec3 → ℚ)
    (query : GeneralizedBSDFSampleQuery) (geom : SurfaceGeometry) :
    Vec3 × Option GeneralizedBSDFSampleResult :=
  let localWi := geom.worldToShading.mulVec3 query.wi
  if query.type &&& T.SpecularReflection = 0 ∨ Math.CosThetaZUp localWi ≤ 0 then (0, none)
  else
    let localWo := Math.ReflectZUp localWi
    let result : GeneralizedBSDFSampleResult :=
      { wo := geom.shadingToWorld.mulVec3 localWo
        sampledType := T.SpecularReflection
        pdf := ⟨1 / Math.CosThetaZUp localWo, ProbabilityMeasure.ProjectedSolidAngle⟩ }
    let sf := ShadingNormalCorrectionFactor query.transportDir geom localWi localWo query.wi
      result.wo
    if sf = 0 then (0, some result)
    else (bsdf.R * sf, some result)

/-- The member `SampleAndEstimateDirectionBidir(query, geom, result)`: `none` when it
returns false, the value written to `result` otherwise. -/
def SampleAndEstimateDirectionBidir (bsdf : PerfectMirrorBSDF) (T : GeneralizedBSDFType)
    (ShadingNormalCorrectionFactor :
      TransportDirection → SurfaceGeometry → Vec3 → Vec3 → Vec3 → Vec3 → ℚ)
    (query : GeneralizedBSDFSampleQuery) (geom : SurfaceGeometry) :
    Option GeneralizedBSDFSampleBidirResult :=
  let localWi := geom.worldToShading.mulVec3 query.wi
  if query.type &&& T.SpecularReflection = 0 ∨ Math.CosThetaZUp localWi ≤ 0 then none
  else
    let localWo := Math.ReflectZUp localWi
    let wo := geom.shadingToWorld.mulVec3 localWo
    let pdf : PDFEval :=
      ⟨1 / Math.CosThetaZUp localWo, ProbabilityMeasure.ProjectedSolidAngle⟩
    let sf := ShadingNormalCorrectionFactor query.transportDir geom localWi localWo query.wi wo
    if sf = 0 then none
    else
      let sfInv := ShadingNormalCorrectionFactor query.transportDir geom localWi localWo
        query.wi wo
      if sfInv = 0 then none
      else
        some
          { wo := wo
            sampledType := T.SpecularReflection
            pdf := fun t => if t = query.transportDir then pdf else pdf
            weight := fun t => if t = query.transportDir then bsdf.R * sf else bsdf.R * sfInv }

end PerfectMirrorBSDF

namespace Sample

/-- A mirror of reflectance zero. -/
def blackMirror : PerfectMirrorBSDF := ⟨0⟩

/-- A shading-normal correction factor that is always one. -/
def noCorrection (_ : TransportDirection) (_ : SurfaceGeometry) (_ _ _ _ : Vec3) : ℚ := 1

end Sample

namespace PSSMLTRenderer

/-- The loop over `sample` of `Render` on the context of a thread: `n` mutation steps in
a row; `none` when one of them gives none. -/
def mutationSteps (env : RenderEnv) (scene : Scene) (r : PSSMLTRenderer) (B : ℚ)
    (oracle : List PSSMLTCall → ℚ) (fuel : Nat) :
    Nat → PSSMLTThreadContext → Option PSSMLTThreadContext
  | 0, context => some context
  | n + 1, context =>
    match mutationStep env scene r B oracle fuel context with
    | none => none
    | some context => mutationSteps env scene r B oracle fuel n context

end PSSMLTRenderer

namespace Sample

end Sample

/-! ## `lighttrace.cpp` : light tracing -/

/-- The data members of `LighttraceRenderer::Impl` that `Configure` sets. -/
structure LighttraceRenderer where
  numSamples : Int
  rrDepth : Int
  numThreads : Int
  samplesPerBlock : Int
  deriving DecidableEq, Repr

namespace LighttraceRenderer

/-- The local variables of one iteration of the loop over `sample` of `Render`, with the
film of the thread, as the sequence of the calls of
`AccumulateContribution(rasterPos, contrb)` it has received, and the generator. -/
structure LightPath where
  throughput : Vec3
  currGeom : SurfaceGeometry
  currWi : Vec3
  currBsdf : GeneralizedBSDF
  depth : Int
  film : List (Vec2 × Vec3)
  rng : Random

/-- The first part of an iteration of the loop `while (true)` of `Render`: the connection
of the current vertex to the camera.  `width` and `height` are `film->Width()` and
`film->Height()`; the members of the queries that the source leaves unset are zero. -/
def connectToCamera (env : RenderEnv) (scene : Scene) (r : LighttraceRenderer)
    (width height : Int) (st : LightPath) : LightPath :=
  let s := st.rng.NextVec2
  let pos := scene.MainCamera.SamplePosition s.1
  let geomE := pos.1
  let pdfPE := pos.2
  let ppE := geomE.p - st.currGeom.p
  let ppEL := Vec3.Length env.Sqrt ppE
  let shadowRay : Ray :=
    { d := ppE / ppEL, o := st.currGeom.p, minT := env.Eps, maxT := ppEL * (1 - env.Eps) }
  let st := { st with rng := s.2 }
  if !scene.Intersect shadowRay then
    match scene.MainCamera.RayToRasterPosition geomE.p st.currGeom.gn with
    | (true, rasterPos) =>
      let fsL := st.currBsdf.EvaluateDirection
        ⟨env.T.LightDirection, TransportDirection.LE, 0, -shadowRay.d⟩ st.currGeom
      let fsE := st.currBsdf.EvaluateDirection
        ⟨env.T.All, TransportDirection.EL, st.currWi, shadowRay.d⟩ geomE
      let G := env.GeneralizedGeometryTerm st.currGeom geomE
      let positionalWe := scene.MainCamera.EvaluatePosition geomE
      let contrb := st.throughput * fsL * G * fsE * positionalWe / pdfPE.v
      { st with
        film := st.film ++
          [(rasterPos, contrb * ((width * height : Int) : ℚ) / (r.numSamples : ℚ))] }
    | (false, _) => st
  else st

/-- The second part of an iteration, from "Sample generalized BSDF" on, for the state
after the Russian roulette: the state after it and whether the loop goes on (`false`
stands for `break`). -/
def scatterStep (env : RenderEnv) (scene : Scene) (st : LightPath) : LightPath × Bool :=
  let s := st.rng.NextVec2
  let bsdfSQ : GeneralizedBSDFSampleQuery :=
    { sample := s.1, uComp := 0, transportDir := TransportDirection.LE, type := env.T.All,
      wi := st.currWi }
  let st := { st with rng := s.2 }
  match st.currBsdf.SampleDirection bsdfSQ st.currGeom with
  | none => (st, false)
  | some bsdfSR =>
    let fs := st.currBsdf.EvaluateDirection
      (GeneralizedBSDFEvaluateQuery.ofSample bsdfSQ bsdfSR) st.currGeom
    if Vec3.IsZero fs then (st, false)
    else
      let throughput :=
        if bsdfSR.pdf.measure = ProbabilityMeasure.SolidAngle then
          st.throughput * (fs * Vec3.Dot st.currGeom.gn bsdfSR.wo / bsdfSR.pdf.v)
        else if bsdfSR.pdf.measure = ProbabilityMeasure.ProjectedSolidAngle then
          st.throughput * (fs / bsdfSR.pdf.v)
        else st.throughput
      let st := { st with throughput := throughput }
      let ray : Ray :=
        { d := bsdfSR.wo, o := st.currGeom.p, minT := env.Eps, maxT := env.Inf }
      match scene.Query ray with
      | none => (st, false)
      | some isect =>
        ({ st with
            currGeom := isect.geom
            currWi := -ray.d
            currBsdf := isect.bsdf
            depth := st.depth + 1 }, true)

/-- One iteration of the loop `while (true)` of `Render`: the state after it, the survival
probability `p` of the Russian roulette when the iteration makes a roulette decision
(`none` when it makes none), and whether the loop goes on (`false` stands for `break`). -/
def pathStep (env : RenderEnv) (scene : Scene) (r : LighttraceRenderer) (width height : Int)
    (st : LightPath) : LightPath × Option ℚ × Bool :=
  let st := connectToCamera env scene r width height st
  let st := { st with depth := st.depth + 1 }
  if st.depth ≥ r.rrDepth then
    let p := min (1 / 2) (env.Luminance st.throughput)
    let x := st.rng.Next
    let st := { st with rng := x.2 }
    if x.1 > p then (st, some p, false)
    else
      let s := scatterStep env scene { st with throughput := st.throughput / p }
      (s.1, some p, s.2)
  else
    let s := scatterStep env scene st
    (s.1, none, s.2)

/-- The loop `while (true)` of `Render`: the state when it is left, and for every
iteration the roulette decision it made, if any.  The first argument bounds the number of
iterations; `none` when it is exhausted. -/
def tracePath (env : RenderEnv) (scene : Scene) (r : LighttraceRenderer) (width height : Int) :
    Nat → LightPath → List (Option ℚ) → Option (LightPath × List (Option ℚ))
  | 0, _, _ => none
  | fuel + 1, st, roulettes =>
    match pathStep env scene r width height st with
    | (st, roulette, false) => some (st, roulettes ++ [roulette])
    | (st, roulette, true) =>
      tracePath env scene r width height fuel st (roulettes ++ [roulette])

/-- The body of the loop over `sample` of `Render` up to the loop `while (true)`: the state
with which that loop starts; the local `currWi`, which the source leaves unset, is
zero. -/
def startPath (scene : Scene) (film : List (Vec2 × Vec3)) (rng : Random) : LightPath :=
  let lightSampleP := rng.NextVec2
  let sel := scene.SampleLightSelection lightSampleP.1
  let light := sel.1
  let pos := light.SamplePosition lightSampleP.1
  let geomL := pos.1
  let pdfPL : PDFEval := { pos.2 with v := pos.2.v * sel.2.v }
  let positionalLe := light.EvaluatePosition geomL
  { throughput := positionalLe / pdfPL.v
    currGeom := geomL
    currWi := 0
    currBsdf := light.toGeneralizedBSDF
    depth := 0
    film := film
    rng := lightSampleP.2 }

/-- The body of the loop over `sample` of `Render`: one light path. -/
def samplePath (env : RenderEnv) (scene : Scene) (r : LighttraceRenderer) (width height : Int)
    (fuel : Nat) (film : List (Vec2 × Vec3)) (rng : Random) :
    Option (LightPath × List (Option ℚ)) :=
  tracePath env scene r width height fuel (startPath scene film rng) []

end LighttraceRenderer

namespace Sample

/-- A generator that always returns `3/4`. -/
def rngThreeQuarters : Random := ⟨fun _ => 3 / 4, 0⟩

/-- A light tracer configured with `rr_depth = 3`. -/
def lighttrace : LighttraceRenderer := ⟨1, 3, 1, 100⟩

end Sample

namespace BVHNode

/-- The ranges `[begin, end)` of the leaves of a tree, from left to right. -/
def leafRanges : BVHNode → List (Nat × Nat)
  | leaf b e _ => [(b, e)]
  | internal _ left right _ => left.leafRanges ++ right.leafRanges

/-- The nodes of a tree: the node itself and the nodes below it. -/
def nodes : BVHNode → List BVHNode
  | leaf b e bound => [leaf b e bound]
  | internal splitAxis left right bound =>
    internal splitAxis left right bound :: (left.nodes ++ right.nodes)

end BVHNode

/-- The ranges split `[b, e)` into consecutive non-empty pieces, from left to right. -/
def Tiles : List (Nat × Nat) → Nat → Nat → Prop
  | [], b, e => b = e
  | r :: rs, b, e => r.1 = b ∧ r.1 < r.2 ∧ Tiles rs r.2 e

namespace BVHScene

/-- The local array `costs` of `Build(data, begin, end)` for the range `[b, e)`: the cost of
each of the `numBuckets - 1` partitions of the buckets along the longest axis of the
centroid bound. -/
def splitCosts (data : BVHBuildData) (idx : List Nat) (b e : Nat) : List Cost :=
  let bound := rangeBound data idx b e
  let centroidBound := rangeCentroidBound data idx b e
  let splitAxis := centroidBound.LongestAxis
  let buckets := fillBuckets data idx b e splitAxis centroidBound
  (List.range (numBuckets - 1)).map (partitionCost buckets.1 buckets.2 bound)

end BVHScene

namespace Sample

/-- A primitive of one triangle whose three vertices are the point `(0, 0, 0)`. -/
def pointTri0 : Primitive :=
  { transform := 1
    mesh := some { positions := [0, 0, 0], faces := [0, 0, 0] } }

/-- A primitive of one triangle whose three vertices are the point `(1, 0, 0)`. -/
def pointTri1 : Primitive :=
  { transform := 1
    mesh := some { positions := [1, 0, 0], faces := [0, 0, 0] } }

/-- The build data of the two triangles of `twoScene`. -/
def twoData : BVHBuildData := BVHScene.buildData twoScene.triAccels

end Sample

/-! # Properties -/

/-! ## `DiscreteDistribution1D` -/

namespace DiscreteDistribution1D

theorem foldl_Add_cdf (ws : List ℚ) : ∀ (pre : List ℚ) (a : ℚ),
    (ws.foldl Add ⟨pre ++ [a]⟩).cdf = pre ++ List.scanl (· + ·) a ws := by
  induction ws with
  | nil => intro pre a; simp
  | cons w ws ih =>
    intro pre a
    have h : Add ⟨pre ++ [a]⟩ w = ⟨(pre ++ [a]) ++ [a + w]⟩ := by
      simp [Add, back]
    rw [List.foldl_cons, h, ih (pre ++ [a]) (a + w)]
    simp

theorem addAll_cdf (ws : List ℚ) : (addAll ws).cdf = List.scanl (· + ·) 0 ws := by
  have := foldl_Add_cdf ws [] 0
  simpa [addAll, new, Clear] using this

theorem scanl_getD (ws : List ℚ) : ∀ (a : ℚ) (i : Nat), i ≤ ws.length →
    (List.scanl (· + ·) a ws).getD i 0 = a + (ws.take i).sum := by
  induction ws with
  | nil => intro a i hi; simp at hi; subst hi; simp
  | cons w ws ih =>
    intro a i hi
    cases i with
    | zero => simp
    | succ i =>
      simp only [List.scanl_cons, List.take_succ_cons, List.sum_cons]
      have := ih (a + w) i (by simpa using hi)
      rw [List.singleton_append, List.getD_cons_succ, this]; ring

theorem scanl_getLastD (ws : List ℚ) : ∀ (a : ℚ),
    (List.scanl (· + ·) a ws).getLastD 0 = a + ws.sum := by
  induction ws with
  | nil => intro a; simp
  | cons w ws ih =>
    intro a
    have := ih (a + w)
    simp only [List.scanl_cons, List.sum_cons]
    rw [← add_assoc, ← this]
    cases h : List.scanl (· + ·) (a + w) ws with
    | nil => cases ws <;> simp [List.scanl] at h
    | cons x xs => simp

theorem addAll_back (ws : List ℚ) : (addAll ws).back = ws.sum := by
  unfold back
  rw [addAll_cdf, scanl_getLastD, zero_add]

theorem normalize_cdf (ws : List ℚ) (hpos : 0 < ws.sum) :
    (Normalize (addAll ws)).cdf = (List.scanl (· + ·) 0 ws).map (fun v => v * (1 / ws.sum)) := by
  simp only [Normalize, addAll_back, gt_iff_lt, hpos, if_true, addAll_cdf]

theorem normalize_length (ws : List ℚ) (hpos : 0 < ws.sum) :
    (Normalize (addAll ws)).cdf.length = ws.length + 1 := by
  rw [normalize_cdf ws hpos, List.length_map, List.length_scanl]

theorem normalize_getD (ws : List ℚ) (hpos : 0 < ws.sum) (i : Nat) (hi : i ≤ ws.length) :
    (Normalize (addAll ws)).cdf.getD i 0 = (ws.take i).sum / ws.sum := by
  rw [normalize_cdf ws hpos]
  have h := List.getD_map (l := List.scanl (· + ·) 0 ws) (d := (0:ℚ)) (n := i)
    (fun v => v * (1 / ws.sum))
  simp only [zero_mul] at h
  rw [h, scanl_getD ws 0 i hi]
  ring

theorem toInt_eq (n : Nat) (h : n < 2 ^ 31) : toInt n = (n : Int) := by
  unfold toInt
  omega

/-- At the index `INT_MAX` the addition `i + 1` of `EvaluatePDF` overflows, whatever the
distribution. -/
theorem evaluatePDF_intMax (d : DiscreteDistribution1D) : d.EvaluatePDF intMax = none := by
  unfold EvaluatePDF intMax intMin
  simp

theorem evaluatePDF_inside (ws : List ℚ) (hpos : 0 < ws.sum) (hsz : ws.length + 1 < 2 ^ 31)
    (i : Nat) (hi : i < ws.length) :
    (Normalize (addAll ws)).EvaluatePDF (i : Int) = some (ws[i] / ws.sum) := by
  unfold EvaluatePDF intMax intMin
  rw [normalize_length ws hpos, toInt_eq _ hsz]
  have h1 : ¬ ((i : Int) < -2147483648 ∨ 2147483647 < (i : Int)) := by omega
  have h2 : ¬ ((i : Int) < 0) := by omega
  have h3 : ¬ ((i : Int) = 2147483647) := by omega
  have h4 : ¬ ((i : Int) + 1 ≥ ((ws.length + 1 : Nat) : Int)) := by
    push_cast; omega
  rw [if_neg h1, if_neg h2, if_neg h3, if_neg h4]
  have e1 : ((i : Int) + 1).toNat = i + 1 := by omega
  have e2 : (i : Int).toNat = i := by omega
  rw [e1, e2, normalize_getD ws hpos (i + 1) (by omega), normalize_getD ws hpos i (by omega),
    List.sum_take_succ ws i hi]
  congr 1
  ring

theorem evaluatePDF_outside (ws : List ℚ) (hpos : 0 < ws.sum) (hsz : ws.length + 1 < 2 ^ 31)
    (i : Int) (hlo : intMin ≤ i) (hhi : i < intMax) (hi : i < 0 ∨ (ws.length : Int) ≤ i) :
    (Normalize (addAll ws)).EvaluatePDF i = some 0 := by
  unfold intMin at hlo
  unfold intMax at hhi
  unfold EvaluatePDF intMax intMin
  rw [normalize_length ws hpos, toInt_eq _ hsz]
  have h1 : ¬ (i < -2147483648 ∨ 2147483647 < i) := by omega
  rw [if_neg h1]
  by_cases h2 : i < 0
  · rw [if_pos h2]
  · have h3 : ¬ (i = 2147483647) := by omega
    have h4 : i + 1 ≥ ((ws.length + 1 : Nat) : Int) := by
      push_cast; omega
    rw [if_neg h2, if_neg h3, if_pos h4]

theorem sum_evaluatePDF (ws : List ℚ) (hpos : 0 < ws.sum) (hsz : ws.length + 1 < 2 ^ 31) :
    ∑ i in Finset.range ws.length,
      ((Normalize (addAll ws)).EvaluatePDF (i : Int)).getD 0 = 1 := by
  have h : ∀ n, n ≤ ws.length →
      ∑ i in Finset.range n, ((Normalize (addAll ws)).EvaluatePDF (i : Int)).getD 0
        = (ws.take n).sum / ws.sum := by
    intro n
    induction n with
    | zero => intro _; simp
    | succ n ih =>
      intro hn
      rw [Finset.sum_range_succ, ih (by omega), evaluatePDF_inside ws hpos hsz n (by omega),
        List.sum_take_succ ws n (by omega), Option.getD_some]
      ring
  rw [h ws.length le_rfl, List.take_length]
  exact div_self (ne_of_gt hpos)

/-- The sum of `n` weights equal to one. -/
theorem sum_replicate_one (n : Nat) : (List.replicate n (1 : ℚ)).sum = (n : ℚ) := by
  rw [List.sum_replicate, nsmul_eq_mul, mul_one]

/-- When `static_cast<int>` converts the size of `cdf` to a value that is not positive,
the test `i + 1 >= static_cast<int>(cdf.size())` succeeds for every index `i >= 0` and
`EvaluatePDF` never returns a non-zero value. -/
theorem evaluatePDF_wrapped (ws : List ℚ) (hpos : 0 < ws.sum)
    (hw : toInt (ws.length + 1) ≤ 0) (i : Int) :
    ((Normalize (addAll ws)).EvaluatePDF i).getD 0 = 0 := by
  unfold EvaluatePDF intMax intMin
  rw [normalize_length _ hpos]
  split_ifs with h1 h2 h3 h4
  · rfl
  · rfl
  · rfl
  · rfl
  · omega

theorem evaluatePDF_wrapped_zero (ws : List ℚ) (hpos : 0 < ws.sum)
    (hw : toInt (ws.length + 1) ≤ 0) : (Normalize (addAll ws)).EvaluatePDF 0 = some 0 := by
  unfold EvaluatePDF intMax intMin
  rw [normalize_length _ hpos]
  have h1 : ¬ ((0 : Int) < -2147483648 ∨ (2147483647 : Int) < 0) := by omega
  have h2 : ¬ ((0 : Int) < 0) := by omega
  have h3 : ¬ ((0 : Int) = 2147483647) := by omega
  have h4 : (0 : Int) + 1 ≥ toInt (ws.length + 1) := by omega
  rw [if_neg h1, if_neg h2, if_neg h3, if_pos h4]

/-- The first interval of the normalized `cdf` of `n >= 1` weights equal to one has the
length `1 / n`. -/
theorem cdf_step_replicate (n : Nat) (hn : 1 ≤ n) :
    (Normalize (addAll (List.replicate n (1 : ℚ)))).cdf.getD 1 0 -
      (Normalize (addAll (List.replicate n (1 : ℚ)))).cdf.getD 0 0 = 1 / (n : ℚ) := by
  have hpos : 0 < (List.replicate n (1 : ℚ)).sum := by
    rw [sum_replicate_one]
    exact_mod_cast hn
  rw [normalize_getD _ hpos 1 (by rw [List.length_replicate]; omega),
    normalize_getD _ hpos 0 (Nat.zero_le _), List.take_replicate, sum_replicate_one,
    sum_replicate_one, Nat.min_eq_left hn]
  simp

theorem toInt_wrapped : toInt (2147483647 + 1) ≤ 0 := by
  unfold toInt
  omega

theorem getD_mono {l : List ℚ} (hs : l.Pairwise (· ≤ ·)) {j k : Nat} (hjk : j ≤ k)
    (hk : k < l.length) : l.getD j 0 ≤ l.getD k 0 := by
  rw [List.getD_eq_getElem l 0 hk, List.getD_eq_getElem l 0 (lt_of_le_of_lt hjk hk)]
  rcases Nat.eq_or_lt_of_le hjk with h | h
  · subst h; exact le_rfl
  · exact (List.pairwise_iff_getElem.mp hs) j k _ hk h

theorem upper_bound_loop_spec (l : List ℚ) (u : ℚ) (hs : l.Pairwise (· ≤ ·)) :
    ∀ (fuel first len : Nat), len ≤ fuel → first + len ≤ l.length →
      (∀ j, j < first → l.getD j 0 ≤ u) →
      (∀ j, first + len ≤ j → j < l.length → u < l.getD j 0) →
      (upper_bound_loop l u fuel first len ≤ l.length ∧
        (∀ j, j < upper_bound_loop l u fuel first len → l.getD j 0 ≤ u) ∧
        (∀ j, upper_bound_loop l u fuel first len ≤ j → j < l.length → u < l.getD j 0)) := by
  intro fuel
  induction fuel with
  | zero =>
    intro first len hf hb hlo hhi
    have : len = 0 := by omega
    subst this
    exact ⟨by simpa [upper_bound_loop] using hb, by simpa [upper_bound_loop] using hlo,
      by simpa [upper_bound_loop] using hhi⟩
  | succ fuel ih =>
    intro first len hf hb hlo hhi
    unfold upper_bound_loop
    by_cases h0 : len = 0
    · subst h0
      simp only [if_true]
      exact ⟨by simpa using hb, hlo, by simpa using hhi⟩
    · simp only [if_neg h0]
      have hhalf : len / 2 < len := Nat.div_lt_self (Nat.pos_of_ne_zero h0) (by decide)
      by_cases hu : u < l.getD (first + len / 2) 0
      · simp only [if_pos hu]
        refine ih first (len / 2) (by omega) (by omega) hlo ?_
        intro j hj hjl
        exact lt_of_lt_of_le hu (getD_mono hs hj hjl)
      · simp only [if_neg hu]
        refine ih (first + len / 2 + 1) (len - len / 2 - 1) (by omega) (by omega) ?_ ?_
        · intro j hj
          exact le_trans (getD_mono hs (by omega) (by omega)) (not_lt.mp hu)
        · intro j hj hjl
          exact hhi j (by omega) hjl

theorem upper_bound_spec (l : List ℚ) (u : ℚ) (hs : l.Pairwise (· ≤ ·)) :
    upper_bound l u ≤ l.length ∧
      (∀ j, j < upper_bound l u → l.getD j 0 ≤ u) ∧
      (∀ j, upper_bound l u ≤ j → j < l.length → u < l.getD j 0) := by
  unfold upper_bound
  exact upper_bound_loop_spec l u hs l.length 0 l.length le_rfl (by omega)
    (by intro j hj; omega) (by intro j hj hjl; omega)

theorem sum_take_mono (ws : List ℚ) (hnn : ∀ w ∈ ws, 0 ≤ w) :
    ∀ (j i : Nat), i ≤ j → j ≤ ws.length → (ws.take i).sum ≤ (ws.take j).sum := by
  intro j
  induction j with
  | zero => intro i hi _; have : i = 0 := by omega
            subst this; exact le_rfl
  | succ j ih =>
    intro i hi hj
    rcases Nat.eq_or_lt_of_le hi with h | h
    · subst h; exact le_rfl
    · have h1 := ih i (by omega) (by omega)
      rw [List.sum_take_succ ws j (by omega)]
      have h2 : 0 ≤ ws[j] := hnn _ (List.getElem_mem _)
      linarith

theorem normalize_sorted (ws : List ℚ) (hnn : ∀ w ∈ ws, 0 ≤ w) (hpos : 0 < ws.sum) :
    (Normalize (addAll ws)).cdf.Pairwise (· ≤ ·) := by
  rw [List.pairwise_iff_getElem]
  intro i j hi hj hij
  rw [normalize_length ws hpos] at hi hj
  rw [← List.getD_eq_getElem _ 0, ← List.getD_eq_getElem _ 0,
    normalize_getD ws hpos i (by omega), normalize_getD ws hpos j (by omega)]
  exact div_le_div_of_nonneg_right (sum_take_mono ws hnn j i (by omega) (by omega)) (le_of_lt hpos)

theorem sample_spec (ws : List ℚ) (hnn : ∀ w ∈ ws, 0 ≤ w) (hpos : 0 < ws.sum)
    (hsz : ws.length + 1 < 2 ^ 64) (u : ℚ) (hu0 : 0 ≤ u) (hu1 : u < 1) :
    (Normalize (addAll ws)).Sample u < ws.length ∧
      (Normalize (addAll ws)).cdf.getD ((Normalize (addAll ws)).Sample u) 0 ≤ u ∧
      u < (Normalize (addAll ws)).cdf.getD ((Normalize (addAll ws)).Sample u + 1) 0 := by
  have hs := normalize_sorted ws hnn hpos
  have hlen := normalize_length ws hpos
  obtain ⟨hub, hlo, hhi⟩ := upper_bound_spec _ u hs
  set d := Normalize (addAll ws) with hd
  have h0 : d.cdf.getD 0 0 = 0 := by
    rw [hd, normalize_getD ws hpos 0 (by omega)]; simp
  have hn : d.cdf.getD ws.length 0 = 1 := by
    rw [hd, normalize_getD ws hpos ws.length le_rfl, List.take_length]
    exact div_self (ne_of_gt hpos)
  have hub1 : 1 ≤ upper_bound d.cdf u := by
    by_contra hc
    have hz : upper_bound d.cdf u = 0 := by omega
    have := hhi 0 (by omega) (by omega)
    rw [h0] at this
    exact absurd this (not_lt.mpr hu0)
  have hubn : upper_bound d.cdf u ≤ ws.length := by
    by_contra hc
    have := hlo ws.length (by omega)
    rw [hn] at this
    exact absurd hu1 (not_lt.mpr this)
  have hS : d.Sample u = upper_bound d.cdf u - 1 := by
    unfold Sample Clamp sizeBits
    rw [hlen]
    have e1 : (upper_bound d.cdf u + 2 ^ 64 - 1) % 2 ^ 64 = upper_bound d.cdf u - 1 := by
      omega
    have e2 : (ws.length + 1 + 2 ^ 64 - 2) % 2 ^ 64 = ws.length - 1 := by
      omega
    simp only [e1, e2]
    omega
  rw [hS]
  refine ⟨by omega, hlo _ (by omega), ?_⟩
  have : upper_bound d.cdf u - 1 + 1 = upper_bound d.cdf u := by omega
  rw [this]
  exact hhi _ le_rfl (by omega)

/-- Claim C8, as stated, fails.  The index `INT_MAX` lies outside `[0, 2)`, and for the
weights `1, 3` the call `EvaluatePDF(INT_MAX)` does not return 0: the addition `i + 1`
overflows and the behaviour is undefined.  For `2 ^ 31 - 1` weights equal to one, whose
sum is `2 ^ 31 - 1`, the size `2 ^ 31` of `cdf` is converted to `INT_MIN` and
`EvaluatePDF(0)` returns 0, which is not `w_0 / sum(w)`. -/
theorem EvaluatePDF_fails_at_INT_MAX :
    (Normalize (addAll [1, 3])).EvaluatePDF 2147483647 = none ∧
      (List.replicate 2147483647 (1 : ℚ)).sum = 2147483647 ∧
      (Normalize (addAll (List.replicate 2147483647 (1 : ℚ)))).EvaluatePDF 0 = some 0 :=
  ⟨evaluatePDF_intMax _, (sum_replicate_one 2147483647).trans (by norm_num),
    evaluatePDF_wrapped_zero _
      ((sum_replicate_one 2147483647).symm ▸ (by norm_num : (0 : ℚ) < (2147483647 : Nat)))
      ((List.length_replicate 2147483647 (1 : ℚ)).symm ▸ toInt_wrapped)⟩

/-- Claim C8, amended: for every non-empty sequence of `n < 2 ^ 31 - 1` non-negative
weights with positive sum, so that the size `n + 1` of `cdf` is a value of `int`, after
`Add(w_i)` for each `i` followed by `Normalize`, `EvaluatePDF(i)` is `w_i / sum(w)` for
every `i` in `[0, n)`, these values sum to one, and `EvaluatePDF` is zero for every index
of type `int` outside `[0, n)` other than `INT_MAX`. -/
theorem normalize_evaluatePDF (ws : List ℚ) (_hne : ws ≠ []) (_hnn : ∀ w ∈ ws, 0 ≤ w)
    (hpos : 0 < ws.sum) (hsz : ws.length + 1 < 2 ^ 31) :
    (∀ (i : Nat) (hi : i < ws.length),
        (Normalize (addAll ws)).EvaluatePDF (i : Int) = some (ws[i] / ws.sum)) ∧
      (∑ i in Finset.range ws.length,
        ((Normalize (addAll ws)).EvaluatePDF (i : Int)).getD 0 = 1) ∧
      (∀ i : Int, intMin ≤ i → i < intMax → (i < 0 ∨ (ws.length : Int) ≤ i) →
        (Normalize (addAll ws)).EvaluatePDF i = some 0) :=
  ⟨fun i hi => evaluatePDF_inside ws hpos hsz i hi, sum_evaluatePDF ws hpos hsz,
    fun i hlo hhi hi => evaluatePDF_outside ws hpos hsz i hlo hhi hi⟩

/-- The weights `1, 3` satisfy the hypotheses of `normalize_evaluatePDF`. -/
theorem normalize_evaluatePDF_witness :
    (∀ (i : Nat) (hi : i < [(1 : ℚ), 3].length),
        (Normalize (addAll [1, 3])).EvaluatePDF (i : Int)
          = some ([(1 : ℚ), 3][i] / [(1 : ℚ), 3].sum)) ∧
      (∑ i in Finset.range [(1 : ℚ), 3].length,
        ((Normalize (addAll [1, 3])).EvaluatePDF (i : Int)).getD 0 = 1) ∧
      (∀ i : Int, intMin ≤ i → i < intMax → (i < 0 ∨ (([(1 : ℚ), 3].length : Nat) : Int) ≤ i) →
        (Normalize (addAll [1, 3])).EvaluatePDF i = some 0) :=
  normalize_evaluatePDF [1, 3] (by simp) (by intro w hw; simp at hw; rcases hw with h | h <;> subst h <;> norm_num)
    (by norm_num) (by norm_num)

/-- Claim C9, as stated, fails for `n = 2 ^ 31 - 1` weights equal to one: the size
`2 ^ 31` of `cdf` is converted to `INT_MIN` by `static_cast<int>`, so that `EvaluatePDF`
returns a non-zero value for no index, while the interval `[cdf[0], cdf[1])` of the
samples that return the index 0 has the length `1 / (2 ^ 31 - 1)`. -/
theorem EvaluatePDF_zero_for_large_cdf :
    (List.replicate 2147483647 (1 : ℚ)).sum = 2147483647 ∧
      (∀ i : Int,
        ((Normalize (addAll (List.replicate 2147483647 (1 : ℚ)))).EvaluatePDF i).getD 0 = 0) ∧
      (Normalize (addAll (List.replicate 2147483647 (1 : ℚ)))).cdf.getD 1 0 -
        (Normalize (addAll (List.replicate 2147483647 (1 : ℚ)))).cdf.getD 0 0
          = 1 / 2147483647 :=
  ⟨(sum_replicate_one 2147483647).trans (by norm_num),
    evaluatePDF_wrapped _
      ((sum_replicate_one 2147483647).symm ▸ (by norm_num : (0 : ℚ) < (2147483647 : Nat)))
      ((List.length_replicate 2147483647 (1 : ℚ)).symm ▸ toInt_wrapped),
    (cdf_step_replicate 2147483647 (by norm_num)).trans (by norm_num)⟩

/-- Claim C9, amended: for every distribution normalized from `1 <= n < 2 ^ 31 - 1`
non-negative weights of positive sum, so that the size `n + 1` of `cdf` is a value of
`int`, and every `u` in `[0, 1)`, `Sample(u)` is an index `i` in `[0, n)` with
`cdf[i] <= u < cdf[i+1]`; hence `EvaluatePDF(Sample(u))` is strictly positive, and for
every index `j` the samples `u` that return `j` are exactly those of the interval
`[cdf[j], cdf[j+1])`, whose length is `EvaluatePDF(j)`. -/
theorem sample_in_cdf_interval (ws : List ℚ) (hnn : ∀ w ∈ ws, 0 ≤ w) (hpos : 0 < ws.sum)
    (hsz : ws.length + 1 < 2 ^ 31) (u : ℚ) (hu0 : 0 ≤ u) (hu1 : u < 1) :
    (Normalize (addAll ws)).Sample u < ws.length ∧
      (Normalize (addAll ws)).cdf.getD ((Normalize (addAll ws)).Sample u) 0 ≤ u ∧
      u < (Normalize (addAll ws)).cdf.getD ((Normalize (addAll ws)).Sample u + 1) 0 ∧
      (∃ p, (Normalize (addAll ws)).EvaluatePDF (toInt ((Normalize (addAll ws)).Sample u))
        = some p ∧ 0 < p) ∧
      (∀ j : Nat, j < ws.length →
        ((Normalize (addAll ws)).Sample u = j ↔
          ((Normalize (addAll ws)).cdf.getD j 0 ≤ u ∧
            u < (Normalize (addAll ws)).cdf.getD (j + 1) 0)) ∧
        (Normalize (addAll ws)).EvaluatePDF (j : Int) =
          some ((Normalize (addAll ws)).cdf.getD (j + 1) 0
            - (Normalize (addAll ws)).cdf.getD j 0)) := by
  obtain ⟨h1, h2, h3⟩ := sample_spec ws hnn hpos (by omega) u hu0 hu1
  have hs := normalize_sorted ws hnn hpos
  have hlen := normalize_length ws hpos
  have hpdf : ∀ j : Nat, j < ws.length → (Normalize (addAll ws)).EvaluatePDF (j : Int) =
      some ((Normalize (addAll ws)).cdf.getD (j + 1) 0
        - (Normalize (addAll ws)).cdf.getD j 0) := by
    intro j hj
    unfold EvaluatePDF intMax intMin
    rw [hlen, toInt_eq _ hsz]
    have c1 : ¬ ((j : Int) < -2147483648 ∨ 2147483647 < (j : Int)) := by omega
    have c2 : ¬ ((j : Int) < 0) := by omega
    have c3 : ¬ ((j : Int) = 2147483647) := by omega
    have c4 : ¬ ((j : Int) + 1 ≥ ((ws.length + 1 : Nat) : Int)) := by
      push_cast; omega
    have e1 : ((j : Int) + 1).toNat = j + 1 := by omega
    have e2 : (j : Int).toNat = j := by omega
    rw [if_neg c1, if_neg c2, if_neg c3, if_neg c4, e1, e2]
  refine ⟨h1, h2, h3, ?_, ?_⟩
  · rw [toInt_eq _ (by omega), hpdf _ h1]
    exact ⟨_, rfl, by linarith⟩
  · intro j hj
    refine ⟨⟨fun h => by rw [← h]; exact ⟨h2, h3⟩, fun h => ?_⟩, hpdf j hj⟩
    rcases Nat.lt_trichotomy ((Normalize (addAll ws)).Sample u) j with hlt | heq | hgt
    · have := getD_mono hs (j := (Normalize (addAll ws)).Sample u + 1) (k := j) (by omega)
        (by omega)
      linarith [h.1]
    · exact heq
    · have := getD_mono hs (j := j + 1) (k := (Normalize (addAll ws)).Sample u) (by omega)
        (by omega)
      linarith [h.2]

/-- The weights `1, 3` and the sample `1/2` satisfy the hypotheses of
`sample_in_cdf_interval`: the index returned is `1`. -/
theorem sample_in_cdf_interval_witness :
    (Normalize (addAll [1, 3])).Sample (1 / 2) < [(1 : ℚ), 3].length ∧
      (Normalize (addAll [1, 3])).Sample (1 / 2) = 1 :=
  ⟨(sample_in_cdf_interval [1, 3]
      (by intro w hw; simp at hw; rcases hw with h | h <;> subst h <;> norm_num)
      (by norm_num) (by norm_num) (1 / 2) (by norm_num) (by norm_num)).1,
    by norm_num [Sample, upper_bound, upper_bound_loop, Clamp, sizeBits, Normalize, addAll,
      new, Clear, Add, back]⟩

end DiscreteDistribution1D

/-! ## Vectors -/

namespace Vec3

@[ext] theorem vec3_ext {a b : Vec3} (hx : a.x = b.x) (hy : a.y = b.y) (hz : a.z = b.z) : a = b := by
  cases a; cases b; simp_all

@[simp] theorem zero_x : (0 : Vec3).x = 0 := rfl
@[simp] theorem zero_y : (0 : Vec3).y = 0 := rfl
@[simp] theorem zero_z : (0 : Vec3).z = 0 := rfl
@[simp] theorem one_x : (1 : Vec3).x = 1 := rfl
@[simp] theorem one_y : (1 : Vec3).y = 1 := rfl
@[simp] theorem one_z : (1 : Vec3).z = 1 := rfl
@[simp] theorem mul_x (a b : Vec3) : (a * b).x = a.x * b.x := rfl
@[simp] theorem mul_y (a b : Vec3) : (a * b).y = a.y * b.y := rfl
@[simp] theorem mul_z (a b : Vec3) : (a * b).z = a.z * b.z := rfl
@[simp] theorem smul_x (a : Vec3) (s : ℚ) : (a * s).x = a.x * s := rfl
@[simp] theorem smul_y (a : Vec3) (s : ℚ) : (a * s).y = a.y * s := rfl
@[simp] theorem smul_z (a : Vec3) (s : ℚ) : (a * s).z = a.z * s := rfl
@[simp] theorem sdiv_x (a : Vec3) (s : ℚ) : (a / s).x = a.x / s := rfl
@[simp] theorem sdiv_y (a : Vec3) (s : ℚ) : (a / s).y = a.y / s := rfl
@[simp] theorem sdiv_z (a : Vec3) (s : ℚ) : (a / s).z = a.z / s := rfl

theorem mul_def (a b : Vec3) : a * b = ⟨a.x * b.x, a.y * b.y, a.z * b.z⟩ := rfl

theorem smul_def (a : Vec3) (s : ℚ) : a * s = ⟨a.x * s, a.y * s, a.z * s⟩ := rfl

theorem sdiv_def (a : Vec3) (s : ℚ) : a / s = ⟨a.x / s, a.y / s, a.z / s⟩ := rfl

theorem add_def (a b : Vec3) : a + b = ⟨a.x + b.x, a.y + b.y, a.z + b.z⟩ := rfl

theorem sub_def (a b : Vec3) : a - b = ⟨a.x - b.x, a.y - b.y, a.z - b.z⟩ := rfl

theorem neg_def (a : Vec3) : -a = ⟨-a.x, -a.y, -a.z⟩ := rfl

theorem zero_def : (0 : Vec3) = ⟨0, 0, 0⟩ := rfl

theorem one_def : (1 : Vec3) = ⟨1, 1, 1⟩ := rfl

theorem mul_assoc' (a b c : Vec3) : a * b * c = a * (b * c) := by
  ext <;> simp [mul_assoc]

theorem mul_one' (a : Vec3) : a * 1 = a := by ext <;> simp

theorem zero_mul' (a : Vec3) : (0 : Vec3) * a = 0 := by ext <;> simp

theorem mul_zero' (a : Vec3) : a * (0 : Vec3) = 0 := by ext <;> simp

theorem isZero_iff (v : Vec3) : IsZero v = true ↔ v = 0 := by
  constructor
  · intro h
    simp [IsZero] at h
    ext <;> simp [h]
  · intro h; subst h; simp [IsZero]

end Vec3

/-! ## `BPTSubpath::EvaluateSubpathAlpha` -/

namespace BPTSubpath

theorem alphaStep_eq (T : GeneralizedBSDFType) (dir : TransportDirection) (alpha : Vec3)
    (v : BPTPathVertex) : alphaStep T dir alpha v = alpha * alphaFactor T dir v := by
  unfold alphaStep alphaFactor
  ext <;> simp [div_div, mul_div_assoc]

theorem alphaLoop_eq (T : GeneralizedBSDFType) (sp : BPTSubpath) :
    ∀ (n i : Nat) (alpha : Vec3), i + n ≤ sp.vertices.length →
      alphaLoop T sp n i alpha
        = some (alpha * (((sp.vertices.drop i).take n).map (alphaFactor T sp.transportDir)).prod) := by
  intro n
  induction n with
  | zero => intro i alpha _; simp [alphaLoop, Vec3.mul_one']
  | succ n ih =>
    intro i alpha h
    have hi : i < sp.vertices.length := by omega
    have hd : sp.vertices.drop i = sp.vertices[i] :: sp.vertices.drop (i + 1) :=
      List.drop_eq_getElem_cons hi
    simp only [alphaLoop, List.getElem?_eq_getElem hi]
    rw [ih (i + 1) _ (by omega), hd, List.take_succ_cons, List.map_cons, List.prod_cons,
      alphaStep_eq, Vec3.mul_assoc']

/-- The value of `EvaluateSubpathAlpha` on a light subpath. -/
theorem EvaluateSubpathAlpha_light (T : GeneralizedBSDFType) (sp : BPTSubpath) (rp : Vec2)
    (vs : Nat) (v0 : BPTPathVertex) (e : EmitterRef) (h1 : 1 ≤ vs) (h2 : vs ≤ sp.NumVertices)
    (hv0 : sp.vertices[0]? = some v0) (he : v0.emitter = some e)
    (hdir : sp.transportDir = TransportDirection.LE) :
    sp.EvaluateSubpathAlpha T vs rp = some
      (e.toEmitter.EvaluatePosition v0.geom / v0.pdfP.v
        * ((sp.vertices.take (vs - 1)).map (alphaFactor T sp.transportDir)).prod, rp) := by
  have hvs : ¬ vs = 0 := by omega
  have hloop := alphaLoop_eq T sp (vs - 1) 0 (e.toEmitter.EvaluatePosition v0.geom / v0.pdfP.v)
    (by unfold NumVertices at h2; omega)
  rw [List.drop_zero] at hloop
  unfold EvaluateSubpathAlpha
  rw [if_neg hvs]
  simp only [hv0, he]
  have hne : ¬ sp.transportDir = TransportDirection.EL := by rw [hdir]; decide
  rw [if_neg hne]
  simp only [hloop]

/-- The value of `EvaluateSubpathAlpha` on an eye subpath whose first direction projects
into the raster. -/
theorem EvaluateSubpathAlpha_eye_inside (T : GeneralizedBSDFType) (sp : BPTSubpath) (rp : Vec2)
    (vs : Nat) (v0 : BPTPathVertex) (e : EmitterRef) (c : Camera) (q : Vec2) (h1 : 1 ≤ vs)
    (h2 : vs ≤ sp.NumVertices) (hv0 : sp.vertices[0]? = some v0) (he : v0.emitter = some e)
    (hdir : sp.transportDir = TransportDirection.EL) (hc : e.asCamera = some c)
    (hr : c.RayToRasterPosition v0.geom.p v0.wo = (true, q)) :
    sp.EvaluateSubpathAlpha T vs rp = some
      (e.toEmitter.EvaluatePosition v0.geom / v0.pdfP.v
        * ((sp.vertices.take (vs - 1)).map (alphaFactor T sp.transportDir)).prod, q) := by
  have hvs : ¬ vs = 0 := by omega
  have hloop := alphaLoop_eq T sp (vs - 1) 0 (e.toEmitter.EvaluatePosition v0.geom / v0.pdfP.v)
    (by unfold NumVertices at h2; omega)
  rw [List.drop_zero] at hloop
  unfold EvaluateSubpathAlpha
  rw [if_neg hvs]
  simp only [hv0, he]
  rw [if_pos hdir]
  simp only [hc, hr, hloop]

/-- The value of `EvaluateSubpathAlpha` on an eye subpath whose first direction does not
project into the raster. -/
theorem EvaluateSubpathAlpha_eye_outside (T : GeneralizedBSDFType) (sp : BPTSubpath) (rp : Vec2)
    (vs : Nat) (v0 : BPTPathVertex) (e : EmitterRef) (c : Camera) (q : Vec2) (h1 : 1 ≤ vs)
    (hv0 : sp.vertices[0]? = some v0) (he : v0.emitter = some e)
    (hdir : sp.transportDir = TransportDirection.EL) (hc : e.asCamera = some c)
    (hr : c.RayToRasterPosition v0.geom.p v0.wo = (false, q)) :
    sp.EvaluateSubpathAlpha T vs rp = some (0, q) := by
  have hvs : ¬ vs = 0 := by omega
  unfold EvaluateSubpathAlpha
  rw [if_neg hvs]
  simp only [hv0, he]
  rw [if_pos hdir]
  simp only [hc, hr]


/-- Claim C7. `EvaluateSubpathAlpha(0)` returns `(1,1,1)`.  For `1 <= vs <= NumVertices`, on
a light subpath, and on an eye subpath whose first direction the camera projects into the
raster, it returns `EvaluatePosition(v_0) / pdfP(v_0)` multiplied, for every `i` in
`0..vs-2`, by `EvaluateDirection(v_i; wi_i, wo_i) / (pdfD_i[transportDir] * pdfRR_i)`; on an
eye subpath whose first direction does not project into the raster it returns the zero
vector. -/
theorem EvaluateSubpathAlpha_value (T : GeneralizedBSDFType) (sp : BPTSubpath) (rp : Vec2) :
    sp.EvaluateSubpathAlpha T 0 rp = some (Vec3.splat 1, rp) ∧
      (∀ (vs : Nat) (v0 : BPTPathVertex) (e : EmitterRef), 1 ≤ vs → vs ≤ sp.NumVertices →
        sp.vertices[0]? = some v0 → v0.emitter = some e →
        (sp.transportDir = TransportDirection.LE →
          sp.EvaluateSubpathAlpha T vs rp = some
            (e.toEmitter.EvaluatePosition v0.geom / v0.pdfP.v
              * ((sp.vertices.take (vs - 1)).map (alphaFactor T sp.transportDir)).prod, rp)) ∧
        (sp.transportDir = TransportDirection.EL → ∀ (c : Camera) (q : Vec2),
          e.asCamera = some c → c.RayToRasterPosition v0.geom.p v0.wo = (true, q) →
          sp.EvaluateSubpathAlpha T vs rp = some
            (e.toEmitter.EvaluatePosition v0.geom / v0.pdfP.v
              * ((sp.vertices.take (vs - 1)).map (alphaFactor T sp.transportDir)).prod, q)) ∧
        (sp.transportDir = TransportDirection.EL → ∀ (c : Camera) (q : Vec2),
          e.asCamera = some c → c.RayToRasterPosition v0.geom.p v0.wo = (false, q) →
          sp.EvaluateSubpathAlpha T vs rp = some (0, q))) := by
  refine ⟨by simp [EvaluateSubpathAlpha], ?_⟩
  intro vs v0 e h1 h2 hv0 he
  exact ⟨fun hdir => EvaluateSubpathAlpha_light T sp rp vs v0 e h1 h2 hv0 he hdir,
    fun hdir c q hc hr => EvaluateSubpathAlpha_eye_inside T sp rp vs v0 e c q h1 h2 hv0 he hdir hc hr,
    fun hdir c q hc hr => EvaluateSubpathAlpha_eye_outside T sp rp vs v0 e c q h1 hv0 he hdir hc hr⟩

/-- The sample light subpath, evaluated with two vertices, satisfies the hypotheses of
`EvaluateSubpathAlpha_value`. -/
theorem EvaluateSubpathAlpha_value_witness :
    Sample.lightSubpath.EvaluateSubpathAlpha Sample.types 2 ⟨0, 0⟩
      = some (Sample.light.EvaluatePosition Sample.y0.geom / Sample.y0.pdfP.v
          * ((Sample.lightSubpath.vertices.take (2 - 1)).map
              (alphaFactor Sample.types Sample.lightSubpath.transportDir)).prod, ⟨0, 0⟩) :=
  ((EvaluateSubpathAlpha_value Sample.types Sample.lightSubpath ⟨0, 0⟩).2 2 Sample.y0
    (EmitterRef.light Sample.light) (by decide) (by decide) rfl rfl).1 rfl

end BPTSubpath

/-! ## `BPTFullPath::EvaluateUnweightContribution` -/

namespace BPTFullPath

/-- The contribution is the product of the two subpath alphas and the connection factor,
whichever return statement is taken. -/
theorem EvaluateUnweightContribution_eq (env : RenderEnv) (scene : Scene)
    (fp : BPTFullPath) (rp rp1 rp2 rp3 : Vec2) (alphaL alphaE cst : Vec3)
    (hL : fp.lightSubpath.EvaluateSubpathAlpha env.T fp.s rp = some (alphaL, rp1))
    (hE : fp.eyeSubpath.EvaluateSubpathAlpha env.T fp.t rp1 = some (alphaE, rp2))
    (hC : EvaluateCst env scene fp rp2 = some (cst, rp3)) :
    ∃ q, fp.EvaluateUnweightContribution env scene rp = some (alphaL * cst * alphaE, q) := by
  unfold EvaluateUnweightContribution
  rw [hL]
  by_cases h1 : Vec3.IsZero alphaL = true
  · have := (Vec3.isZero_iff _).mp h1
    subst this
    simp only [h1, if_true, Vec3.zero_mul']
    exact ⟨_, rfl⟩
  · simp only [h1, hE]
    by_cases h2 : Vec3.IsZero alphaE = true
    · have := (Vec3.isZero_iff _).mp h2
      subst this
      simp only [h2, if_true, Vec3.mul_zero']
      exact ⟨_, rfl⟩
    · simp only [h2, hC]
      by_cases h3 : Vec3.IsZero cst = true
      · have := (Vec3.isZero_iff _).mp h3
        subst this
        simp only [h3, if_true, Vec3.mul_zero', Vec3.zero_mul']
        exact ⟨_, rfl⟩
      · simp only [h3]
        exact ⟨_, rfl⟩

/-- The connection block in the branch `s > 0 && t > 0`. -/
theorem EvaluateCst_connect (env : RenderEnv) (scene : Scene) (fp : BPTFullPath) (rp : Vec2)
    (vL vE : BPTPathVertex) (hs : 0 < fp.s) (ht : 0 < fp.t)
    (hvL : fp.lightSubpath.vertices[fp.s - 1]? = some vL)
    (hvE : fp.eyeSubpath.vertices[fp.t - 1]? = some vE) :
    EvaluateCst env scene fp rp =
      (if ((if fp.t = 1 then
              scene.MainCamera.RayToRasterPosition vE.geom.p (-(shadowRay env vL vE).d)
            else (true, rp)).1 && !scene.Intersect (shadowRay env vL vE)) = true then
        some (vL.bsdf.EvaluateDirection
              ⟨env.T.All, TransportDirection.LE, vL.wi, (shadowRay env vL vE).d⟩ vL.geom
            * env.GeneralizedGeometryTerm vL.geom vE.geom
            * vE.bsdf.EvaluateDirection
              ⟨env.T.All, TransportDirection.EL, vE.wi, -(shadowRay env vL vE).d⟩ vE.geom,
            (if fp.t = 1 then
              scene.MainCamera.RayToRasterPosition vE.geom.p (-(shadowRay env vL vE).d)
            else (true, rp)).2)
      else some (0, (if fp.t = 1 then
              scene.MainCamera.RayToRasterPosition vE.geom.p (-(shadowRay env vL vE).d)
            else (true, rp)).2)) := by
  have hc1 : ¬ (fp.s = 0 ∧ fp.t > 0) := by omega
  have hc2 : ¬ (fp.s > 0 ∧ fp.t = 0) := by omega
  have hc3 : fp.s > 0 ∧ fp.t > 0 := ⟨hs, ht⟩
  unfold EvaluateCst
  rw [if_neg hc1, if_neg hc2, if_pos hc3]
  simp only [hvL, hvE]

/-- Claim C5. For every `s`, `t` with `s + t >= 2`, `EvaluateUnweightContribution` returns
the component-wise product `alphaL * cst * alphaE` of the light subpath alpha, the
connection factor and the eye subpath alpha; whenever one of the three is zero (the early
returns) the value returned is zero, which is that product. -/
theorem EvaluateUnweightContribution_product (env : RenderEnv) (scene : Scene)
    (fp : BPTFullPath) (rp rp1 rp2 rp3 : Vec2) (alphaL alphaE cst : Vec3)
    (_hst : 2 ≤ fp.s + fp.t)
    (hL : fp.lightSubpath.EvaluateSubpathAlpha env.T fp.s rp = some (alphaL, rp1))
    (hE : fp.eyeSubpath.EvaluateSubpathAlpha env.T fp.t rp1 = some (alphaE, rp2))
    (hC : EvaluateCst env scene fp rp2 = some (cst, rp3)) :
    (∃ q, fp.EvaluateUnweightContribution env scene rp = some (alphaL * cst * alphaE, q)) ∧
      (alphaL = 0 ∨ alphaE = 0 ∨ cst = 0 →
        alphaL * cst * alphaE = 0 ∧
          ∃ q, fp.EvaluateUnweightContribution env scene rp = some (0, q)) := by
  have key := EvaluateUnweightContribution_eq env scene fp rp rp1 rp2 rp3 alphaL alphaE cst
    hL hE hC
  refine ⟨key, ?_⟩
  intro h
  have hz : alphaL * cst * alphaE = 0 := by
    rcases h with h | h | h <;> subst h <;> simp [Vec3.mul_zero', Vec3.zero_mul']
  obtain ⟨q, hq⟩ := key
  exact ⟨hz, q, by rw [hq, hz]⟩

/-- Claim C6. For `s > 0` and `t > 0`, `EvaluateUnweightContribution` returns zero whenever
the shadow ray from `y_{s-1}` toward `z_{t-1}` intersects the scene and, when `t = 1`,
whenever the camera's `RayToRasterPosition` of the connection direction returns false;
otherwise the connection factor is `fsL * G(y_{s-1}, z_{t-1}) * fsE`, with `fsL` evaluated
in direction `LE` and `fsE` in direction `EL`. -/
theorem EvaluateUnweightContribution_connection (env : RenderEnv) (scene : Scene)
    (fp : BPTFullPath) (rp rp1 rp2 : Vec2) (alphaL alphaE : Vec3) (vL vE : BPTPathVertex)
    (hs : 0 < fp.s) (ht : 0 < fp.t)
    (hL : fp.lightSubpath.EvaluateSubpathAlpha env.T fp.s rp = some (alphaL, rp1))
    (hE : fp.eyeSubpath.EvaluateSubpathAlpha env.T fp.t rp1 = some (alphaE, rp2))
    (hvL : fp.lightSubpath.vertices[fp.s - 1]? = some vL)
    (hvE : fp.eyeSubpath.vertices[fp.t - 1]? = some vE) :
    (scene.Intersect (shadowRay env vL vE) = true →
        ∃ q, fp.EvaluateUnweightContribution env scene rp = some (0, q)) ∧
      (fp.t = 1 →
        (scene.MainCamera.RayToRasterPosition vE.geom.p (-(shadowRay env vL vE).d)).1 = false →
        ∃ q, fp.EvaluateUnweightContribution env scene rp = some (0, q)) ∧
      (scene.Intersect (shadowRay env vL vE) = false →
        (fp.t = 1 →
          (scene.MainCamera.RayToRasterPosition vE.geom.p (-(shadowRay env vL vE).d)).1 = true) →
        ∃ q, EvaluateCst env scene fp rp2 = some
          (vL.bsdf.EvaluateDirection
              ⟨env.T.All, TransportDirection.LE, vL.wi, (shadowRay env vL vE).d⟩ vL.geom
            * env.GeneralizedGeometryTerm vL.geom vE.geom
            * vE.bsdf.EvaluateDirection
              ⟨env.T.All, TransportDirection.EL, vE.wi, -(shadowRay env vL vE).d⟩ vE.geom, q)) := by
  have hcst := EvaluateCst_connect env scene fp rp2 vL vE hs ht hvL hvE
  have hzero : ∀ q, EvaluateCst env scene fp rp2 = some (0, q) →
      ∃ q, fp.EvaluateUnweightContribution env scene rp = some (0, q) := by
    intro q hq
    obtain ⟨q', hq'⟩ := EvaluateUnweightContribution_eq env scene fp rp rp1 rp2 q alphaL
      alphaE 0 hL hE hq
    refine ⟨q', ?_⟩
    rw [hq', Vec3.mul_zero', Vec3.zero_mul']
  refine ⟨?_, ?_, ?_⟩
  · intro hI
    refine hzero (if fp.t = 1 then
        scene.MainCamera.RayToRasterPosition vE.geom.p (-(shadowRay env vL vE).d)
      else (true, rp2)).2 ?_
    rw [hcst, hI]
    simp
  · intro ht1 hv
    refine hzero (if fp.t = 1 then
        scene.MainCamera.RayToRasterPosition vE.geom.p (-(shadowRay env vL vE).d)
      else (true, rp2)).2 ?_
    rw [hcst]
    simp only [ht1, if_true, hv, Bool.false_and, Bool.false_eq_true, if_false]
  · intro hI hv
    rw [hcst, hI]
    by_cases ht1 : fp.t = 1
    · simp only [ht1, if_true, hv ht1, Bool.not_false, Bool.and_self]
      exact ⟨_, rfl⟩
    · simp only [ht1, if_false, Bool.not_false, Bool.and_self, if_true]
      exact ⟨_, rfl⟩

end BPTFullPath

/-! ### The sample path -/

namespace Sample

theorem sqrt_25 : sqrt 25 = 5 := by
  have h1 : Nat.sqrt 25 = 5 := Nat.sqrt_eq 5
  have h2 : Nat.sqrt 1 = 1 := Nat.sqrt_eq 1
  have h3 : (25 : ℚ).num.toNat = 25 := by norm_num; rfl
  have h4 : (25 : ℚ).den = 1 := by norm_num
  unfold sqrt
  rw [h3, h4, h1, h2]
  norm_num

theorem alphaL : lightSubpath.EvaluateSubpathAlpha types 2 ⟨0, 0⟩ = some (Vec3.splat 1, ⟨0, 0⟩) := by
  rw [BPTSubpath.EvaluateSubpathAlpha_light types lightSubpath ⟨0, 0⟩ 2 y0 (EmitterRef.light light)
    (by decide) (by decide) rfl rfl rfl]
  norm_num [lightSubpath, BPTSubpath.alphaFactor, y0, light, bsdf, pdfD, types, geom,
    EmitterRef.toEmitter, Vec3.splat, Vec3.sdiv_def, Vec3.mul_def, Vec3.one_def]

theorem alphaE (q : Vec2) :
    (eyeSubpath true).EvaluateSubpathAlpha types 1 q = some (Vec3.splat 1, ⟨1 / 2, 1 / 2⟩) := by
  rw [BPTSubpath.EvaluateSubpathAlpha_eye_inside types (eyeSubpath true) q 1 (z0 true)
    (EmitterRef.camera (camera true)) (camera true) ⟨1 / 2, 1 / 2⟩
    (by decide) (by decide) rfl rfl rfl rfl rfl]
  norm_num [eyeSubpath, BPTSubpath.alphaFactor, z0, camera, bsdf, pdfD, types,
    EmitterRef.toEmitter, Vec3.splat, Vec3.sdiv_def, Vec3.mul_def, Vec3.one_def]

theorem shadowRay_y1_z0 : BPTFullPath.shadowRay env y1 (z0 true)
    = ⟨⟨0, 0, 0⟩, ⟨3 / 5, 0, 4 / 5⟩, 1 / 1000, 999 / 200⟩ := by
  have h : Vec3.Length sqrt ⟨3, 0, 4⟩ = 5 := by
    unfold Vec3.Length Vec3.Dot
    norm_num
    exact sqrt_25
  unfold BPTFullPath.shadowRay
  simp only [z0, y1, geom, env, Vec3.sub_def]
  norm_num [h, Vec3.sdiv_def]

theorem cst_visible : BPTFullPath.EvaluateCst env (scene false) fullPath ⟨1 / 2, 1 / 2⟩
    = some (Vec3.splat (1 / 100), ⟨1 / 2, 1 / 2⟩) := by
  rw [BPTFullPath.EvaluateCst_connect env (scene false) fullPath ⟨1 / 2, 1 / 2⟩ y1 (z0 true)
    (by decide) (by decide) rfl rfl]
  norm_num [fullPath, scene, Scene.Intersect, camera, y1, z0, bsdf, env, Vec3.splat,
    Vec3.mul_def, Vec3.smul_def]

end Sample

namespace BPTFullPath

/-- The sample full path `(s, t) = (2, 1)` satisfies the hypotheses of
`EvaluateUnweightContribution_product`: its contribution is `1 * (1/100) * 1`. -/
theorem EvaluateUnweightContribution_product_witness :
    ∃ q, Sample.fullPath.EvaluateUnweightContribution Sample.env (Sample.scene false) ⟨0, 0⟩
      = some (Vec3.splat 1 * Vec3.splat (1 / 100) * Vec3.splat 1, q) :=
  (EvaluateUnweightContribution_product Sample.env (Sample.scene false) Sample.fullPath
    ⟨0, 0⟩ ⟨0, 0⟩ ⟨1 / 2, 1 / 2⟩ ⟨1 / 2, 1 / 2⟩ (Vec3.splat 1) (Vec3.splat 1)
    (Vec3.splat (1 / 100)) (by decide) Sample.alphaL (Sample.alphaE ⟨0, 0⟩)
    Sample.cst_visible).1

/-- The sample full path with an occluded connection satisfies the hypotheses of
`EvaluateUnweightContribution_connection`: its contribution is zero. -/
theorem EvaluateUnweightContribution_connection_witness :
    ∃ q, Sample.fullPath.EvaluateUnweightContribution Sample.env (Sample.scene true) ⟨0, 0⟩
      = some (0, q) :=
  (EvaluateUnweightContribution_connection Sample.env (Sample.scene true) Sample.fullPath
    ⟨0, 0⟩ ⟨0, 0⟩ ⟨1 / 2, 1 / 2⟩ (Vec3.splat 1) (Vec3.splat 1) Sample.y1 (Sample.z0 true)
    (by decide) (by decide) Sample.alphaL (Sample.alphaE ⟨0, 0⟩) rfl rfl).1 rfl

end BPTFullPath

/-! ## `PerspectiveCamera` : the raster round trip -/

theorem Vec4.vec4_ext {a b : Vec4} (hx : a.x = b.x) (hy : a.y = b.y) (hz : a.z = b.z)
    (hw : a.w = b.w) : a = b := by
  cases a; cases b; simp_all

namespace Mat4

theorem mulVec4_mul (A B : Mat4) (v : Vec4) : mulVec4 (A * B) v = A.mulVec4 (B.mulVec4 v) := by
  apply Vec4.vec4_ext <;> simp only [mulVec4, Matrix.mul_apply, Fin.sum_univ_four] <;> ring

theorem one_mulVec4 (v : Vec4) : mulVec4 (1 : Mat4) v = v := by
  apply Vec4.vec4_ext <;> simp [mulVec4, Matrix.one_apply]

theorem mulVec4_inv {A B : Mat4} (h : A * B = 1) (v : Vec4) : A.mulVec4 (B.mulVec4 v) = v := by
  rw [← mulVec4_mul, h, one_mulVec4]

theorem mulVec4_lincomb (A : Mat4) (a b : Vec4) (c : ℚ) :
    A.mulVec4 ⟨a.x + c * b.x, a.y + c * b.y, a.z + c * b.z, a.w + c * b.w⟩
      = ⟨(A.mulVec4 a).x + c * (A.mulVec4 b).x, (A.mulVec4 a).y + c * (A.mulVec4 b).y,
          (A.mulVec4 a).z + c * (A.mulVec4 b).z, (A.mulVec4 a).w + c * (A.mulVec4 b).w⟩ := by
  apply Vec4.vec4_ext <;> simp only [mulVec4] <;> ring

/-- The last row of the inverse of an affine matrix is `(0, 0, 0, 1)`. -/
theorem inv_lastRow {A B : Mat4} (h : A * B = 1)
    (hrow : A 3 0 = 0 ∧ A 3 1 = 0 ∧ A 3 2 = 0 ∧ A 3 3 = 1) :
    B 3 0 = 0 ∧ B 3 1 = 0 ∧ B 3 2 = 0 ∧ B 3 3 = 1 := by
  obtain ⟨h0, h1, h2, h3⟩ := hrow
  have key : ∀ j, B 3 j = (1 : Mat4) 3 j := by
    intro j
    rw [← h, Matrix.mul_apply, Fin.sum_univ_four, h0, h1, h2, h3]
    ring
  refine ⟨?_, ?_, ?_, ?_⟩
  · rw [key 0]; simp
  · rw [key 1]; simp
  · rw [key 2]; simp
  · rw [key 3]; simp

end Mat4

theorem Math.Perspective_mulVec4 (t aspect zNear zFar : ℚ) (v : Vec4) :
    Mat4.mulVec4 (Math.Perspective t aspect zNear zFar) v
      = ⟨1 / (aspect * t) * v.x, 1 / t * v.y,
          -(zFar + zNear) / (zFar - zNear) * v.z + -(2 * zFar * zNear) / (zFar - zNear) * v.w,
          -v.z⟩ := by
  apply Vec4.vec4_ext <;> simp [Mat4.mulVec4, Math.Perspective]


theorem Vec3.dot_self_pos_of_z {v : Vec3} (h : v.z ≠ 0) : 0 < Vec3.Dot v v := by
  unfold Vec3.Dot
  have := mul_self_pos.mpr h
  nlinarith [mul_self_nonneg v.x, mul_self_nonneg v.y]

theorem Vec3.eq_zero_of_dot_self {v : Vec3} (h : ¬ 0 < Vec3.Dot v v) :
    v.x = 0 ∧ v.y = 0 ∧ v.z = 0 := by
  unfold Vec3.Dot at h
  have hx := mul_self_nonneg v.x
  have hy := mul_self_nonneg v.y
  have hz := mul_self_nonneg v.z
  refine ⟨?_, ?_, ?_⟩ <;> (apply mul_self_eq_zero.mp; nlinarith)

namespace PerspectiveCamera

theorem raster_scalar (c qx w L1 L2 x : ℚ) (hw : w ≠ 0) (hL1 : L1 ≠ 0) (hL2 : L2 ≠ 0)
    (e : c * qx = x) :
    c * (0 + L2⁻¹ * (qx / w / L1)) / (-(0 + L2⁻¹ * (-1 / w / L1))) = x := by
  rw [← e]
  field_simp

/-- Claim C10. For every direction sample `r` in `[0,1]^2`, if `SampleDirection` (transport
direction `EL`) returns the direction `wo`, then `RayToRasterPosition(position, wo)` returns
true with raster position `r`.  The projection matrix is the one `Load` builds,
`Perspective(fovy, aspect, 1, 1000)`; the view matrix is affine, `invViewMatrix` and
`invProjectionMatrix` are the exact inverses, `position` is the image of the origin under
`invViewMatrix`, and `Math::Sqrt` is positive on positive numbers. -/
theorem RayToRasterPosition_SampleDirection (cam : PerspectiveCamera) (T : GeneralizedBSDFType)
    (sqrt : ℚ → ℚ) (EpsLarge : ℚ) (query : GeneralizedBSDFSampleQuery) (geom : SurfaceGeometry)
    (result : GeneralizedBSDFSampleResult) (t aspect : ℚ)
    (hP : cam.projectionMatrix = Math.Perspective t aspect 1 1000)
    (hPinv : cam.projectionMatrix * cam.invProjectionMatrix = 1)
    (hV : cam.viewMatrix * cam.invViewMatrix = 1)
    (hrow : cam.viewMatrix 3 0 = 0 ∧ cam.viewMatrix 3 1 = 0 ∧ cam.viewMatrix 3 2 = 0 ∧
      cam.viewMatrix 3 3 = 1)
    (hpos : cam.position = (cam.invViewMatrix.mulVec4 ⟨0, 0, 0, 1⟩).toVec3)
    (hsqrt : ∀ x, 0 < x → 0 < sqrt x)
    (hx0 : 0 ≤ query.sample.x) (hx1 : query.sample.x ≤ 1)
    (hy0 : 0 ≤ query.sample.y) (hy1 : query.sample.y ≤ 1)
    (hS : cam.SampleDirection T sqrt EpsLarge query geom = some result) :
    cam.RayToRasterPosition cam.position result.wo = (true, query.sample) := by
  -- the direction returned by `SampleDirection`
  unfold SampleDirection at hS
  split at hS
  · exact absurd hS (by simp)
  · have hres := (Option.some.inj hS).symm
    clear hS
    -- the point of the sensor in camera coordinates
    set q4 := cam.invProjectionMatrix.mulVec4
      (Vec4.ofVec3 ⟨query.sample.x * 2 - 1, query.sample.y * 2 - 1, 0⟩ 1) with hq4def
    have hq4 := Mat4.mulVec4_inv hPinv
      (Vec4.ofVec3 ⟨query.sample.x * 2 - 1, query.sample.y * 2 - 1, 0⟩ 1)
    rw [← hq4def, hP, Math.Perspective_mulVec4] at hq4
    simp only [Vec4.ofVec3, Vec4.mk.injEq] at hq4
    obtain ⟨e1, e2, e3, e4⟩ := hq4
    have hz : q4.z = -1 := by linarith
    have hw : q4.w = 1001 / 2000 := by
      rw [hz] at e3
      norm_num at e3
      linarith
    have hw0 : q4.w ≠ 0 := by rw [hw]; norm_num
    set q : Vec3 := q4.toVec3 / q4.w with hqdef
    have hqz : q.z = -1 / q4.w := by
      simp [hqdef, Vec4.toVec3, Vec3.sdiv_z, hz]
    have hqz0 : q.z ≠ 0 := by
      rw [hqz]; exact div_ne_zero (by norm_num) hw0
    have hL1 : 0 < Vec3.Length sqrt q := hsqrt _ (Vec3.dot_self_pos_of_z hqz0)
    set L1 := Vec3.Length sqrt q with hL1def
    set d : Vec3 := Vec3.Normalize sqrt q with hddef
    have hdx : d.x = q4.x / q4.w / L1 := rfl
    have hdy : d.y = q4.y / q4.w / L1 := rfl
    have hdz : d.z = -1 / q4.w / L1 := by
      have h : d.z = q4.z / q4.w / L1 := rfl
      rw [h, hz]
    have hdz0 : d.z ≠ 0 := by
      rw [hdz]; exact div_ne_zero (div_ne_zero (by norm_num) hw0) (ne_of_gt hL1)
    -- the direction in world coordinates
    set u4 := cam.invViewMatrix.mulVec4 (Vec4.ofVec3 d 0) with hu4def
    have hu := Mat4.mulVec4_inv hV (Vec4.ofVec3 d 0)
    rw [← hu4def] at hu
    obtain ⟨b0, b1, b2, b3⟩ := Mat4.inv_lastRow hV hrow
    have hu4w : u4.w = 0 := by
      simp [hu4def, Mat4.mulVec4, Vec4.ofVec3, b0, b1, b2]
    have huu : 0 < Vec3.Dot u4.toVec3 u4.toVec3 := by
      by_contra hc
      obtain ⟨z1, z2, z3⟩ := Vec3.eq_zero_of_dot_self hc
      simp only [Vec4.toVec3] at z1 z2 z3
      have hu' : cam.viewMatrix.mulVec4 u4 = ⟨0, 0, 0, 0⟩ := by
        apply Vec4.vec4_ext <;> simp [Mat4.mulVec4, z1, z2, z3, hu4w]
      rw [hu] at hu'
      simp only [Vec4.ofVec3, Vec4.mk.injEq] at hu'
      exact hdz0 hu'.2.2.1
    have hL2 : 0 < Vec3.Length sqrt u4.toVec3 := hsqrt _ huu
    set L2 := Vec3.Length sqrt u4.toVec3 with hL2def
    -- the camera position
    set p4 := cam.invViewMatrix.mulVec4 ⟨0, 0, 0, 1⟩ with hp4def
    have hp := Mat4.mulVec4_inv hV ⟨0, 0, 0, 1⟩
    rw [← hp4def] at hp
    have hp4w : p4.w = 1 := by
      simp [hp4def, Mat4.mulVec4, b3]
    -- the reference point in camera coordinates
    have hwo : result.wo = u4.toVec3 / L2 := by
      rw [hres]
      rfl
    have harg : Vec4.ofVec3 (cam.position + result.wo) 1
        = ⟨p4.x + L2⁻¹ * u4.x, p4.y + L2⁻¹ * u4.y, p4.z + L2⁻¹ * u4.z, p4.w + L2⁻¹ * u4.w⟩ := by
      rw [hwo, hpos, hu4w, hp4w]
      apply Vec4.vec4_ext <;> simp [Vec4.ofVec3, Vec4.toVec3, Vec3.add_def, Vec3.sdiv_def,
        div_eq_inv_mul]
    have hcam : cam.viewMatrix.mulVec4 (Vec4.ofVec3 (cam.position + result.wo) 1)
        = ⟨0 + L2⁻¹ * d.x, 0 + L2⁻¹ * d.y, 0 + L2⁻¹ * d.z, 1 + L2⁻¹ * 0⟩ := by
      rw [harg, Mat4.mulVec4_lincomb, hp, hu]
      rfl
    have hL10 : L1 ≠ 0 := ne_of_gt hL1
    have hL20 : L2 ≠ 0 := ne_of_gt hL2
    have hrx := raster_scalar (1 / (aspect * t)) q4.x q4.w L1 L2 _ hw0 hL10 hL20 e1
    have hry := raster_scalar (1 / t) q4.y q4.w L1 L2 _ hw0 hL10 hL20 e2
    simp only [RayToRasterPosition, hcam, hP, Math.Perspective_mulVec4, Vec4.toVec3,
      Vec3.sdiv_x, Vec3.sdiv_y, hdx, hdy, hdz, hrx, hry]
    have ex : (query.sample.x * 2 - 1 + 1) / 2 = query.sample.x := by ring
    have ey : (query.sample.y * 2 - 1 + 1) / 2 = query.sample.y := by ring
    rw [ex, ey]
    have hc : ¬ (query.sample.x < 0 ∨ query.sample.x > 1 ∨ query.sample.y < 0 ∨
        query.sample.y > 1) := by
      intro h
      rcases h with h | h | h | h <;> linarith
    rw [if_neg hc]

end PerspectiveCamera

namespace Sample

theorem sqrt_pos (x : ℚ) (h : 0 < x) : 0 < sqrt x := by
  unfold sqrt
  apply div_pos
  · have h1 : 0 < x.num := Rat.num_pos.mpr h
    have h2 : 0 < x.num.toNat := by omega
    exact Nat.cast_pos.mpr (Nat.sqrt_pos.mpr h2)
  · exact Nat.cast_pos.mpr (Nat.sqrt_pos.mpr x.den_pos)

theorem perspectiveCamera_inv :
    perspectiveCamera.projectionMatrix * perspectiveCamera.invProjectionMatrix = 1 := by
  ext i j
  fin_cases i <;> fin_cases j <;>
    simp [Matrix.mul_apply, Fin.sum_univ_four, Math.Perspective, perspectiveCamera,
      Matrix.one_apply] <;> norm_num

end Sample

namespace PerspectiveCamera

/-- The sample camera and the sample `(1/4, 3/4)` satisfy the hypotheses of
`RayToRasterPosition_SampleDirection`. -/
theorem RayToRasterPosition_SampleDirection_witness :
    ∃ result, Sample.perspectiveCamera.SampleDirection Sample.types Sample.sqrt (1 / 1000)
        Sample.sampleQuery (Sample.geom 0) = some result ∧
      Sample.perspectiveCamera.RayToRasterPosition Sample.perspectiveCamera.position result.wo
        = (true, ⟨1 / 4, 3 / 4⟩) := by
  have h : ∃ r, Sample.perspectiveCamera.SampleDirection Sample.types Sample.sqrt (1 / 1000)
      Sample.sampleQuery (Sample.geom 0) = some r := by
    unfold SampleDirection
    rw [if_neg (by simp [Sample.sampleQuery, Sample.types, BSDFTypes])]
    exact ⟨_, rfl⟩
  obtain ⟨r, hr⟩ := h
  refine ⟨r, hr, ?_⟩
  exact RayToRasterPosition_SampleDirection Sample.perspectiveCamera Sample.types Sample.sqrt
    (1 / 1000) Sample.sampleQuery (Sample.geom 0) r 1 (3 / 2) rfl
    Sample.perspectiveCamera_inv (by simp [Sample.perspectiveCamera])
    (by simp [Sample.perspectiveCamera])
    (by simp [Sample.perspectiveCamera, Mat4.one_mulVec4, Vec4.toVec3, Vec3.zero_def])
    Sample.sqrt_pos (by norm_num [Sample.sampleQuery]) (by norm_num [Sample.sampleQuery])
    (by norm_num [Sample.sampleQuery]) (by norm_num [Sample.sampleQuery]) hr

end PerspectiveCamera

/-! ## Multiple importance sampling -/

theorem sum_sq_getD (p : List ℚ) :
    ∑ i in Finset.range p.length, (p.getD i 0) ^ 2 = (p.map (fun x => x ^ 2)).sum := by
  induction p with
  | nil => simp
  | cons a p ih =>
    rw [List.length_cons, Finset.sum_range_succ', List.map_cons, List.sum_cons, ← ih]
    simp only [List.getD_cons_succ, List.getD_cons_zero]
    ring

theorem sum_sq_pos (p : List ℚ) (s : Nat) (hs : s < p.length) (hp : p.getD s 0 ≠ 0) :
    0 < (p.map (fun x => x ^ 2)).sum := by
  rw [← sum_sq_getD]
  have h1 : (p.getD s 0) ^ 2 ≤ ∑ i in Finset.range p.length, (p.getD i 0) ^ 2 :=
    Finset.single_le_sum (f := fun i => (p.getD i 0) ^ 2) (fun i _ => sq_nonneg _)
      (Finset.mem_range.mpr hs)
  have h2 : 0 < (p.getD s 0) ^ 2 := by positivity
  linarith

/-- Claim C3. For a full path of length `n` whose sampling split `s` has non-zero density
(as a path with non-zero unweighted contribution has), the power-heuristic weights
`w_{s,t} = p_s² / ∑_i p_i²`, summed over all splits with non-zero `p_s`, equal one. -/
theorem misWeight_sum_eq_one (p : List ℚ) (s : Nat) (hs : s < p.length)
    (hp : p.getD s 0 ≠ 0) :
    ∑ i in (Finset.range p.length).filter (fun i => p.getD i 0 ≠ 0), misWeight p i = 1 := by
  have hpos := sum_sq_pos p s hs hp
  have hfilter : ∑ i in (Finset.range p.length).filter (fun i => p.getD i 0 ≠ 0), misWeight p i
      = ∑ i in Finset.range p.length, misWeight p i := by
    apply Finset.sum_filter_of_ne
    intro i _ hi hz
    apply hi
    unfold misWeight
    rw [hz]
    simp
  rw [hfilter]
  unfold misWeight
  rw [← Finset.sum_div, sum_sq_getD]
  exact div_self (ne_of_gt hpos)

/-- The densities `1, 0, 2` satisfy the hypotheses of `misWeight_sum_eq_one`. -/
theorem misWeight_sum_eq_one_witness :
    ∑ i in (Finset.range [(1 : ℚ), 0, 2].length).filter (fun i => [(1 : ℚ), 0, 2].getD i 0 ≠ 0),
      misWeight [1, 0, 2] i = 1 :=
  misWeight_sum_eq_one [1, 0, 2] 2 (by decide) (by norm_num)

/-! ## The bounding-volume hierarchy -/

namespace AABB

theorem Subset.refl (a : AABB) : Subset a a := fun _ h => h

theorem Subset.trans {a b c : AABB} (h1 : Subset a b) (h2 : Subset b c) : Subset a c :=
  fun p h => h2 p (h1 p h)

theorem subset_union_left (a b : AABB) : Subset a (a.Union b) := by
  intro p hp
  cases a with
  | empty => exact absurd hp (by simp [Contains])
  | box lo1 hi1 =>
    cases b with
    | empty => exact hp
    | box lo2 hi2 =>
      simp only [Union, Contains] at hp ⊢
      obtain ⟨h1, h2, h3, h4, h5, h6⟩ := hp
      exact ⟨le_trans (min_le_left _ _) h1, le_trans h2 (le_max_left _ _),
        le_trans (min_le_left _ _) h3, le_trans h4 (le_max_left _ _),
        le_trans (min_le_left _ _) h5, le_trans h6 (le_max_left _ _)⟩

theorem subset_union_right (a b : AABB) : Subset b (a.Union b) := by
  intro p hp
  cases b with
  | empty => exact absurd hp (by simp [Contains])
  | box lo2 hi2 =>
    cases a with
    | empty => exact hp
    | box lo1 hi1 =>
      simp only [Union, Contains] at hp ⊢
      obtain ⟨h1, h2, h3, h4, h5, h6⟩ := hp
      exact ⟨le_trans (min_le_right _ _) h1, le_trans h2 (le_max_right _ _),
        le_trans (min_le_right _ _) h3, le_trans h4 (le_max_right _ _),
        le_trans (min_le_right _ _) h5, le_trans h6 (le_max_right _ _)⟩

/-- A fold of unions contains its starting box and every box that is folded in. -/
theorem subset_foldl_union {α : Type} (f : α → AABB) (l : List α) :
    ∀ (acc : AABB), Subset acc (l.foldl (fun bound k => bound.Union (f k)) acc) ∧
      ∀ k ∈ l, Subset (f k) (l.foldl (fun bound k => bound.Union (f k)) acc) := by
  induction l with
  | nil => intro acc; exact ⟨Subset.refl _, by simp⟩
  | cons a l ih =>
    intro acc
    obtain ⟨h1, h2⟩ := ih (acc.Union (f a))
    refine ⟨Subset.trans (subset_union_left _ _) h1, ?_⟩
    intro k hk
    rcases List.mem_cons.mp hk with h | h
    · subst h
      exact Subset.trans (subset_union_right _ _) h1
    · exact h2 k h

end AABB

namespace TriAccel

theorem Intersect_eq_some (tri : TriAccel) (ray : Ray) (mint maxt u v t : ℚ) :
    tri.Intersect ray mint maxt = some (u, v, t) ↔
      tri.Hits ray u v t ∧ mint ≤ t ∧ t ≤ maxt := by
  unfold Intersect Hits
  cases hs : tri.solve ray with
  | none => simp
  | some r =>
    obtain ⟨u', v', t'⟩ := r
    simp only []
    by_cases h1 : t' < mint ∨ t' > maxt
    · rw [if_pos h1]
      constructor
      · intro h; exact absurd h (by simp)
      · rintro ⟨⟨h, _⟩, h2, h3⟩
        simp only [Option.some.injEq, Prod.mk.injEq] at h
        obtain ⟨_, _, rfl⟩ := h
        rcases h1 with h1 | h1 <;> linarith
    · rw [if_neg h1]
      by_cases h2 : u' ≥ 0 ∧ v' ≥ 0 ∧ u' + v' ≤ 1
      · rw [if_pos h2]
        constructor
        · intro h
          simp only [Option.some.injEq, Prod.mk.injEq] at h
          obtain ⟨rfl, rfl, rfl⟩ := h
          push_neg at h1
          exact ⟨⟨rfl, h2⟩, h1.1, h1.2⟩
        · rintro ⟨⟨h, _⟩, _⟩
          exact h
      · rw [if_neg h2]
        constructor
        · intro h; exact absurd h (by simp)
        · rintro ⟨⟨h, h3⟩, _⟩
          simp only [Option.some.injEq, Prod.mk.injEq] at h
          obtain ⟨rfl, rfl, rfl⟩ := h
          exact absurd h3 h2

/-- The solution of `solve` is a point of the ray and of the plane of the triangle:
`o + t d = p1 + u (p2 - p1) + v (p3 - p1)`. -/
theorem solve_point (tri : TriAccel) (ray : Ray) (u v t : ℚ)
    (h : tri.solve ray = some (u, v, t)) :
    ray.o.x + t * ray.d.x = tri.p1.x + u * (tri.p2.x - tri.p1.x) + v * (tri.p3.x - tri.p1.x) ∧
    ray.o.y + t * ray.d.y = tri.p1.y + u * (tri.p2.y - tri.p1.y) + v * (tri.p3.y - tri.p1.y) ∧
    ray.o.z + t * ray.d.z = tri.p1.z + u * (tri.p2.z - tri.p1.z) + v * (tri.p3.z - tri.p1.z) := by
  unfold solve at h
  simp only [] at h
  split at h
  · exact absurd h (by simp)
  · rename_i hdet
    simp only [Option.some.injEq, Prod.mk.injEq] at h
    obtain ⟨rfl, rfl, rfl⟩ := h
    simp only [Vec3.Dot, Cross, Vec3.sub_def] at hdet ⊢
    refine ⟨?_, ?_, ?_⟩ <;> field_simp <;> ring

end TriAccel

theorem convex_between (a b c u v lo hi : ℚ) (hu : 0 ≤ u) (hv : 0 ≤ v) (huv : u + v ≤ 1)
    (ha : lo ≤ a ∧ a ≤ hi) (hb : lo ≤ b ∧ b ≤ hi) (hc : lo ≤ c ∧ c ≤ hi) :
    lo ≤ a + u * (b - a) + v * (c - a) ∧ a + u * (b - a) + v * (c - a) ≤ hi := by
  have hw : 0 ≤ 1 - u - v := by linarith
  constructor
  · nlinarith [mul_nonneg hu (sub_nonneg.mpr hb.1), mul_nonneg hv (sub_nonneg.mpr hc.1),
      mul_nonneg hw (sub_nonneg.mpr ha.1)]
  · nlinarith [mul_nonneg hu (sub_nonneg.mpr hb.2), mul_nonneg hv (sub_nonneg.mpr hc.2),
      mul_nonneg hw (sub_nonneg.mpr ha.2)]

namespace BVHScene

/-- A triangle hit at the parameter `t` is hit at a point of its bound. -/
theorem hit_in_triBound (tri : TriAccel) (ray : Ray) (u v t : ℚ) (h : tri.Hits ray u v t) :
    (triBound tri).Contains (ray.at t) := by
  obtain ⟨hs, hu, hv, huv⟩ := h
  obtain ⟨ex, ey, ez⟩ := TriAccel.solve_point tri ray u v t hs
  simp only [triBound, AABB.ofPoints, AABB.UnionPoint, AABB.ofPoint, AABB.Union, AABB.Contains,
    Ray.at]
  rw [ex, ey, ez]
  have hx := convex_between tri.p1.x tri.p2.x tri.p3.x u v
    (min (min tri.p1.x tri.p2.x) tri.p3.x) (max (max tri.p1.x tri.p2.x) tri.p3.x) hu hv huv
    ⟨le_trans (min_le_left _ _) (min_le_left _ _), le_trans (le_max_left _ _) (le_max_left _ _)⟩
    ⟨le_trans (min_le_left _ _) (min_le_right _ _), le_trans (le_max_right _ _) (le_max_left _ _)⟩
    ⟨min_le_right _ _, le_max_right _ _⟩
  have hy := convex_between tri.p1.y tri.p2.y tri.p3.y u v
    (min (min tri.p1.y tri.p2.y) tri.p3.y) (max (max tri.p1.y tri.p2.y) tri.p3.y) hu hv huv
    ⟨le_trans (min_le_left _ _) (min_le_left _ _), le_trans (le_max_left _ _) (le_max_left _ _)⟩
    ⟨le_trans (min_le_left _ _) (min_le_right _ _), le_trans (le_max_right _ _) (le_max_left _ _)⟩
    ⟨min_le_right _ _, le_max_right _ _⟩
  have hz := convex_between tri.p1.z tri.p2.z tri.p3.z u v
    (min (min tri.p1.z tri.p2.z) tri.p3.z) (max (max tri.p1.z tri.p2.z) tri.p3.z) hu hv huv
    ⟨le_trans (min_le_left _ _) (min_le_left _ _), le_trans (le_max_left _ _) (le_max_left _ _)⟩
    ⟨le_trans (min_le_left _ _) (min_le_right _ _), le_trans (le_max_right _ _) (le_max_left _ _)⟩
    ⟨min_le_right _ _, le_max_right _ _⟩
  exact ⟨hx.1, hx.2, hy.1, hy.2, hz.1, hz.2⟩

end BVHScene

namespace ExtFloat

theorem lt_of_bounds {x y : ExtFloat} {t : ℚ} (hx : x.Lower t) (hy : y.Upper t) :
    y.lt x = false := by
  cases x <;> cases y <;> simp only [Lower, Upper] at hx hy <;> simp only [lt]
  rw [decide_eq_false_iff_not]
  intro h
  linarith

theorem gt_of_bounds {x y : ExtFloat} {t : ℚ} (hx : x.Lower t) (hy : y.Upper t) :
    x.gt y = false :=
  lt_of_bounds hx hy

theorem lower_sup {x y : ExtFloat} {t : ℚ} (hx : x.Lower t) (hy : y.Lower t) :
    (if y.gt x = true then y else x).Lower t := by
  split_ifs <;> assumption

theorem upper_inf {x y : ExtFloat} {t : ℚ} (hx : x.Upper t) (hy : y.Upper t) :
    (if y.lt x = true then y else x).Upper t := by
  split_ifs <;> assumption

theorem ne_nan_sup {x y : ExtFloat} (hx : x ≠ nan) :
    (if y.gt x = true then y else x) ≠ nan := by
  split_ifs with h
  · intro hy
    rw [hy] at h
    cases x <;> simp [gt, lt] at h
  · exact hx

theorem ne_nan_inf {x y : ExtFloat} (hx : x ≠ nan) :
    (if y.lt x = true then y else x) ≠ nan := by
  split_ifs with h
  · intro hy
    rw [hy] at h
    cases x <;> simp [lt] at h
  · exact hx

theorem lt_num_of_lower {x : ExtFloat} {t m : ℚ} (hx : x.Lower t) (hn : x ≠ nan)
    (h : t < m) : x.lt (num m) = true := by
  cases x with
  | num a =>
    simp only [Lower] at hx
    simp only [lt, decide_eq_true_eq]
    linarith
  | posInf => exact absurd hx (by simp [Lower])
  | negInf => rfl
  | nan => exact absurd rfl hn

theorem gt_num_of_upper {x : ExtFloat} {t a : ℚ} (hx : x.Upper t) (hn : x ≠ nan)
    (h : a < t) : x.gt (num a) = true := by
  cases x with
  | num b =>
    simp only [Upper] at hx
    simp only [gt, lt, decide_eq_true_eq]
    linarith
  | posInf => rfl
  | negInf => exact absurd hx (by simp [Upper])
  | nan => exact absurd rfl hn

end ExtFloat

namespace BVHNode

theorem self_mem_nodes (n : BVHNode) : n ∈ n.nodes := by
  cases n <;> simp [nodes]

theorem mem_nodes_left {ax : Nat} {left right : BVHNode} {bound : AABB} {n : BVHNode}
    (h : n ∈ left.nodes) : n ∈ (internal ax left right bound).nodes := by
  simp only [nodes, List.mem_cons, List.mem_append]
  exact Or.inr (Or.inl h)

theorem mem_nodes_right {ax : Nat} {left right : BVHNode} {bound : AABB} {n : BVHNode}
    (h : n ∈ right.nodes) : n ∈ (internal ax left right bound).nodes := by
  simp only [nodes, List.mem_cons, List.mem_append]
  exact Or.inr (Or.inr h)

end BVHNode

namespace BVHScene

/-- One slab of the test with a non-zero component of the direction: for a point of the
ray inside the slab `[lo, hi]`, the parameter lies between the entry and the exit
parameters that the test computes. -/
theorem slab_axis_num (lo hi o d t : ℚ) (hd : d ≠ 0) (h1 : lo ≤ o + t * d)
    (h2 : o + t * d ≤ hi) :
    ((if (if d < 0 then 1 else 0) = 0 then lo else hi) - o) * (1 / d) ≤ t ∧
      t ≤ ((if 1 - (if d < 0 then 1 else 0) = 0 then lo else hi) - o) * (1 / d) := by
  by_cases hneg : d < 0
  · simp only [hneg, if_true, one_ne_zero, if_false, Nat.sub_self]
    constructor
    · rw [mul_one_div, div_le_iff_of_neg hneg]; linarith
    · rw [mul_one_div, le_div_iff_of_neg hneg]; linarith
  · have hpos : 0 < d := lt_of_le_of_ne (not_lt.mp hneg) (Ne.symm hd)
    simp only [hneg, if_false, if_true, Nat.sub_zero, one_ne_zero]
    constructor
    · rw [mul_one_div, div_le_iff₀ hpos]; linarith
    · rw [mul_one_div, le_div_iff₀ hpos]; linarith

/-- One slab of the test: for a point of the ray inside the slab `[lo, hi]`, the entry
parameter that the test computes does not exceed the parameter of the point, which does
not exceed the exit parameter; and both are numbers or infinities unless the component of
the direction is zero and the origin lies on a face of the slab. -/
theorem slab_axis (lo hi o d t : ℚ) (h1 : lo ≤ o + t * d) (h2 : o + t * d ≤ hi) :
    (ExtFloat.scale ((if (if d < 0 then 1 else 0) = 0 then lo else hi) - o)
        (ExtFloat.recip d)).Lower t ∧
      (ExtFloat.scale ((if 1 - (if d < 0 then 1 else 0) = 0 then lo else hi) - o)
        (ExtFloat.recip d)).Upper t ∧
      ((d = 0 → lo ≠ o ∧ hi ≠ o) →
        ExtFloat.scale ((if (if d < 0 then 1 else 0) = 0 then lo else hi) - o)
            (ExtFloat.recip d) ≠ ExtFloat.nan ∧
          ExtFloat.scale ((if 1 - (if d < 0 then 1 else 0) = 0 then lo else hi) - o)
            (ExtFloat.recip d) ≠ ExtFloat.nan) := by
  by_cases hd : d = 0
  · subst hd
    rw [mul_zero, add_zero] at h1 h2
    simp only [lt_irrefl, if_false, if_true, Nat.sub_zero, one_ne_zero, ExtFloat.recip,
      ExtFloat.scale]
    have a1 : ¬ (lo - o > 0) := by
      intro h; linarith
    have a2 : ¬ (hi - o < 0) := by
      intro h; linarith
    rw [if_neg a1]
    refine ⟨?_, ?_, ?_⟩
    · split_ifs <;> trivial
    · split_ifs <;> trivial
    · intro hne
      obtain ⟨n1, n2⟩ := hne trivial
      have b1 : lo - o < 0 := lt_of_le_of_ne (by linarith) (sub_ne_zero.mpr n1)
      have b2 : hi - o > 0 := lt_of_le_of_ne (by linarith) (Ne.symm (sub_ne_zero.mpr n2))
      rw [if_pos b1, if_pos b2]
      exact ⟨by simp, by simp⟩
  · have hs := slab_axis_num lo hi o d t hd h1 h2
    simp only [ExtFloat.recip, if_neg hd, ExtFloat.scale]
    exact ⟨hs.1, hs.2, fun _ => ⟨by simp, by simp⟩⟩

theorem corner_x (lo hi : Vec3) (i : Nat) :
    (AABB.corner lo hi i).x = if i = 0 then lo.x else hi.x := by
  unfold AABB.corner; split <;> rfl

theorem corner_y (lo hi : Vec3) (i : Nat) :
    (AABB.corner lo hi i).y = if i = 0 then lo.y else hi.y := by
  unfold AABB.corner; split <;> rfl

theorem corner_z (lo hi : Vec3) (i : Nat) :
    (AABB.corner lo hi i).z = if i = 0 then lo.z else hi.z := by
  unfold AABB.corner; split <;> rfl

/-- The final comparisons of the slab test, on the six entry and exit parameters. -/
theorem slab_combine (t a m : ℚ) (x0 x1 y0 y1 z0 z1 : ExtFloat)
    (hx0 : x0.Lower t) (nx0 : x0 ≠ ExtFloat.nan) (hx1 : x1.Upper t) (nx1 : x1 ≠ ExtFloat.nan)
    (hy0 : y0.Lower t) (hy1 : y1.Upper t) (hz0 : z0.Lower t) (hz1 : z1.Upper t)
    (ha : a < t) (hm : t < m) :
    (if (x0.gt y1 || y0.gt x1) = true then false
      else
        if ((if y0.gt x0 = true then y0 else x0).gt z1 ||
            z0.gt (if y1.lt x1 = true then y1 else x1)) = true then false
        else
          (if z0.gt (if y0.gt x0 = true then y0 else x0) = true then z0
              else (if y0.gt x0 = true then y0 else x0)).lt (ExtFloat.num m) &&
            (if z1.lt (if y1.lt x1 = true then y1 else x1) = true then z1
              else (if y1.lt x1 = true then y1 else x1)).gt (ExtFloat.num a)) = true := by
  have c1 : ¬ ((x0.gt y1 || y0.gt x1) = true) := by
    rw [Bool.or_eq_true, ExtFloat.gt_of_bounds hx0 hy1, ExtFloat.gt_of_bounds hy0 hx1]
    simp
  rw [if_neg c1]
  have e1 := ExtFloat.lower_sup hx0 hy0
  have n1 := ExtFloat.ne_nan_sup (y := y0) nx0
  have e2 := ExtFloat.upper_inf hx1 hy1
  have n2 := ExtFloat.ne_nan_inf (y := y1) nx1
  have c2 : ¬ (((if y0.gt x0 = true then y0 else x0).gt z1 ||
      z0.gt (if y1.lt x1 = true then y1 else x1)) = true) := by
    rw [Bool.or_eq_true, ExtFloat.gt_of_bounds e1 hz1, ExtFloat.gt_of_bounds hz0 e2]
    simp
  rw [if_neg c2]
  have e3 := ExtFloat.lower_sup e1 hz0
  have n3 := ExtFloat.ne_nan_sup (y := z0) n1
  have e4 := ExtFloat.upper_inf e2 hz1
  have n4 := ExtFloat.ne_nan_inf (y := z1) n2
  rw [Bool.and_eq_true]
  exact ⟨ExtFloat.lt_num_of_lower e3 n3 hm, ExtFloat.gt_num_of_upper e4 n4 ha⟩

/-- The slab test accepts a box that holds a point of the ray strictly inside the
parametric interval, unless the component `x` of the direction is zero and the origin lies
in the plane of one of the two faces of the box across the axis `x`. -/
theorem IntersectAABB_of_contains (bound : AABB) (ray0 : Ray) (data : BVHTraversalData)
    (hdata : DataOf ray0 data) (hface : ray0.d.x = 0 → bound.isFace 0 ray0.o.x = false)
    (t : ℚ) (hc : bound.Contains (ray0.at t)) (h1 : data.ray.minT < t)
    (h2 : t < data.ray.maxT) : IntersectAABB bound data = true := by
  cases bound with
  | empty => exact absurd hc (by simp [AABB.Contains])
  | box lo hi =>
    obtain ⟨ho, _, _, hinv, hneg⟩ := hdata
    simp only [AABB.Contains, Ray.at] at hc
    obtain ⟨cx0, cx1, cy0, cy1, cz0, cz1⟩ := hc
    have sx := slab_axis lo.x hi.x ray0.o.x ray0.d.x t cx0 cx1
    have sy := slab_axis lo.y hi.y ray0.o.y ray0.d.y t cy0 cy1
    have sz := slab_axis lo.z hi.z ray0.o.z ray0.d.z t cz0 cz1
    have nx := sx.2.2 (fun h0 => by
      have hf := hface h0
      simp only [AABB.isFace, Vec3.get, if_true, Bool.or_eq_false_iff,
        decide_eq_false_iff_not] at hf
      exact hf)
    unfold IntersectAABB
    simp only [hinv, hneg, ho, BVHTraversalData.new, corner_x, corner_y, corner_z]
    exact slab_combine t data.ray.minT data.ray.maxT _ _ _ _ _ _ sx.1 nx.1 sx.2.1 nx.2
      sy.1 sy.2.1 sz.1 sz.2.1 h1 h2

end BVHScene

namespace Covered

variable {triAccels : List TriAccel} {ray0 : Ray}

theorem comp {S1 S2 : Nat → Prop} {f f1 f2 : Bool} {m m1 m2 : ℚ}
    (h1 : Covered triAccels ray0 S1 f m f1 m1) (h2 : Covered triAccels ray0 S2 f1 m1 f2 m2) :
    Covered triAccels ray0 (fun k => S1 k ∨ S2 k) f m f2 m2 := by
  obtain ⟨a1, a2, a3, a4⟩ := h1
  obtain ⟨b1, b2, b3, b4⟩ := h2
  refine ⟨le_trans b1 a1, ?_, ?_, ?_⟩
  · intro k t hS hk h0 hm
    rcases hS with hS | hS
    · exact le_trans b1 (a2 k t hS hk h0 hm)
    · by_cases hle : t ≤ m1
      · exact b2 k t hS hk h0 hle
      · exact le_trans b1 (le_of_lt (not_le.mp hle))
  · rcases b3 with e | ⟨k, t, hS, hk, h0, hm, e⟩
    · rcases a3 with e' | ⟨k, t, hS, hk, h0, hm, e'⟩
      · exact Or.inl (by rw [e, e'])
      · exact Or.inr ⟨k, t, Or.inl hS, hk, h0, hm, by rw [e, e']⟩
    · exact Or.inr ⟨k, t, Or.inr hS, hk, h0, le_trans hm a1, e⟩
  · rw [b4, a4]
    constructor
    · rintro ((h | ⟨k, t, hS, hk, h0, hm⟩) | ⟨k, t, hS, hk, h0, hm⟩)
      · exact Or.inl h
      · exact Or.inr ⟨k, t, Or.inl hS, hk, h0, hm⟩
      · exact Or.inr ⟨k, t, Or.inr hS, hk, h0, le_trans hm a1⟩
    · rintro (h | ⟨k, t, hS | hS, hk, h0, hm⟩)
      · exact Or.inl (Or.inl h)
      · exact Or.inl (Or.inr ⟨k, t, hS, hk, h0, hm⟩)
      · by_cases hle : t ≤ m1
        · exact Or.inr ⟨k, t, hS, hk, h0, hle⟩
        · rcases a3 with e' | ⟨k', t', hS', hk', h0', hm', _⟩
          · exact absurd (by rw [e']; exact hm) hle
          · exact Or.inl (Or.inr ⟨k', t', hS', hk', h0', hm'⟩)

theorem skip {S : Nat → Prop} {f : Bool} {m : ℚ}
    (h : ∀ k t, S k → HitsAt triAccels ray0 k t → ray0.minT ≤ t → t ≤ m → t = m ∧ f = true) :
    Covered triAccels ray0 S f m f m := by
  refine ⟨le_rfl, ?_, Or.inl rfl, ?_⟩
  · intro k t hS hk h0 hm
    exact le_of_eq (h k t hS hk h0 hm).1.symm
  · constructor
    · intro hf; exact Or.inl hf
    · rintro (hf | ⟨k, t, hS, hk, h0, hm⟩)
      · exact hf
      · exact (h k t hS hk h0 hm).2

theorem congr {S S' : Nat → Prop} {f f' : Bool} {m m' : ℚ} (hS : ∀ k, S k ↔ S' k)
    (h : Covered triAccels ray0 S f m f' m') : Covered triAccels ray0 S' f m f' m' := by
  obtain ⟨a1, a2, a3, a4⟩ := h
  refine ⟨a1, ?_, ?_, ?_⟩
  · intro k t hk; exact a2 k t ((hS k).mpr hk)
  · rcases a3 with e | ⟨k, t, hk, r⟩
    · exact Or.inl e
    · exact Or.inr ⟨k, t, (hS k).mp hk, r⟩
  · rw [a4]
    constructor
    · rintro (h | ⟨k, t, hk, r⟩)
      · exact Or.inl h
      · exact Or.inr ⟨k, t, (hS k).mp hk, r⟩
    · rintro (h | ⟨k, t, hk, r⟩)
      · exact Or.inl h
      · exact Or.inr ⟨k, t, (hS k).mpr hk, r⟩

end Covered

theorem InRange.split {idx : List Nat} {b e k : Nat} (mid : Nat) (h : InRange idx b e k) :
    InRange idx b mid k ∨ InRange idx mid e k := by
  obtain ⟨i, h1, h2, h3⟩ := h
  by_cases hi : i < mid
  · exact Or.inl ⟨i, h1, hi, h3⟩
  · exact Or.inr ⟨i, not_lt.mp hi, h2, h3⟩

theorem NodeOK.bound_subset {data : BVHBuildData} {idx : List Nat} :
    ∀ {node : BVHNode} {b e : Nat}, NodeOK data idx node b e →
      ∀ k, InRange idx b e k → AABB.Subset (data.triBounds.getD k AABB.empty) node.bound := by
  intro node
  induction node with
  | leaf b' e' bound =>
    intro b e h k hk
    exact h.2.2 k hk
  | internal ax left right bound ihl ihr =>
    intro b e h k hk
    obtain ⟨mid, _, _, hl, hr, sl, sr⟩ := h
    rcases hk.split mid with h1 | h1
    · exact AABB.Subset.trans (ihl hl k h1) sl
    · exact AABB.Subset.trans (ihr hr k h1) sr

namespace TriAccel

theorem solve_congr (tri : TriAccel) {r1 r2 : Ray} (ho : r1.o = r2.o) (hd : r1.d = r2.d) :
    tri.solve r1 = tri.solve r2 := by
  unfold solve; rw [ho, hd]

theorem Intersect_congr (tri : TriAccel) {r1 r2 : Ray} (ho : r1.o = r2.o) (hd : r1.d = r2.d)
    (a m : ℚ) : tri.Intersect r1 a m = tri.Intersect r2 a m := by
  unfold Intersect; rw [solve_congr tri ho hd]

theorem Hits.coords_eq {tri : TriAccel} {ray : Ray} {u v t u' v' t' : ℚ}
    (h : tri.Hits ray u v t) (h' : tri.Hits ray u' v' t') : u = u' ∧ v = v' ∧ t = t' := by
  have := h.1.symm.trans h'.1
  simp only [Option.some.injEq, Prod.mk.injEq] at this
  exact this

end TriAccel

theorem HitsAt.param_eq {triAccels : List TriAccel} {ray0 : Ray} {k : Nat} {t t' : ℚ}
    (h : HitsAt triAccels ray0 k t) (h' : HitsAt triAccels ray0 k t') : t = t' := by
  obtain ⟨tri, u, v, h1, h2⟩ := h
  obtain ⟨tri', u', v', h1', h2'⟩ := h'
  rw [h1] at h1'
  cases h1'
  exact (h2.coords_eq h2').2.2

namespace BVHScene

/-- One iteration of the loop of a leaf tests the triangle at the position `i`. -/
theorem leafStep_covered (triAccels : List TriAccel) (idx : List Nat) (ray0 : Ray) (i : Nat)
    (st : Bool × BVHTraversalData) (hd : DataOf ray0 st.2) :
    DataOf ray0 (leafStep triAccels idx i st).2 ∧
      Covered triAccels ray0 (fun k => idx[i]? = some k) st.1 st.2.ray.maxT
        (leafStep triAccels idx i st).1 (leafStep triAccels idx i st).2.ray.maxT := by
  obtain ⟨ho, hdd, hmin, hinv, hneg⟩ := hd
  cases hi : idx[i]? with
  | none =>
    have e : leafStep triAccels idx i st = st := by simp only [leafStep, hi]
    rw [e]
    refine ⟨⟨ho, hdd, hmin, hinv, hneg⟩, Covered.skip ?_⟩
    intro k t hS
    exact absurd hS (by simp)
  | some k =>
    cases hk : triAccels[k]? with
    | none =>
      have e : leafStep triAccels idx i st = st := by simp only [leafStep, hi, hk]
      rw [e]
      refine ⟨⟨ho, hdd, hmin, hinv, hneg⟩, Covered.skip ?_⟩
      intro k' t hS hh
      simp only [Option.some.injEq] at hS
      subst hS
      obtain ⟨tri, _, _, h1, _⟩ := hh
      rw [hk] at h1
      exact absurd h1 (by simp)
    | some tri =>
      have hcongr := TriAccel.Intersect_congr tri ho hdd st.2.ray.minT st.2.ray.maxT
      rw [hmin] at hcongr
      cases hI : tri.Intersect ray0 ray0.minT st.2.ray.maxT with
      | none =>
        have e : leafStep triAccels idx i st = st := by
          simp only [leafStep, hi, hk, hmin, hcongr, hI]
        rw [e]
        refine ⟨⟨ho, hdd, hmin, hinv, hneg⟩, Covered.skip ?_⟩
        intro k' t hS hh h0 hm
        simp only [Option.some.injEq] at hS
        subst hS
        obtain ⟨tri', u, v, h1, h2⟩ := hh
        rw [hk] at h1
        cases h1
        have := (TriAccel.Intersect_eq_some tri ray0 ray0.minT st.2.ray.maxT u v t).mpr
          ⟨h2, h0, hm⟩
        rw [hI] at this
        exact absurd this (by simp)
      | some r =>
        obtain ⟨u, v, t⟩ := r
        have e : leafStep triAccels idx i st = (true, { st.2 with
            ray := { st.2.ray with maxT := t }
            intersectedTriIdx := k
            intersectedTriB := ⟨u, v⟩ }) := by
          simp only [leafStep, hi, hk, hmin, hcongr, hI]
        rw [e]
        obtain ⟨hh, h0, hm⟩ :=
          (TriAccel.Intersect_eq_some tri ray0 ray0.minT st.2.ray.maxT u v t).mp hI
        have hat : HitsAt triAccels ray0 k t := ⟨tri, u, v, hk, hh⟩
        refine ⟨⟨ho, hdd, hmin, hinv, hneg⟩, hm, ?_, ?_, ?_⟩
        · intro k' t' hS hh' _ _
          simp only [Option.some.injEq] at hS
          subst hS
          exact le_of_eq (hat.param_eq hh')
        · exact Or.inr ⟨k, t, rfl, hat, h0, hm, rfl⟩
        · simp only [true_iff]
          exact Or.inr ⟨k, t, rfl, hat, h0, hm⟩

/-- The loop of a leaf over a list of positions tests the triangles at these positions. -/
theorem leafLoop_covered (triAccels : List TriAccel) (idx : List Nat) (ray0 : Ray) :
    ∀ (l : List Nat) (st : Bool × BVHTraversalData), DataOf ray0 st.2 →
      DataOf ray0 (l.foldl (fun st i => leafStep triAccels idx i st) st).2 ∧
        Covered triAccels ray0 (fun k => ∃ i ∈ l, idx[i]? = some k) st.1 st.2.ray.maxT
          (l.foldl (fun st i => leafStep triAccels idx i st) st).1
          (l.foldl (fun st i => leafStep triAccels idx i st) st).2.ray.maxT := by
  intro l
  induction l with
  | nil =>
    intro st hd
    refine ⟨hd, Covered.skip ?_⟩
    intro k t hS
    obtain ⟨i, hi, _⟩ := hS
    exact absurd hi (by simp)
  | cons i l ih =>
    intro st hd
    obtain ⟨hd1, c1⟩ := leafStep_covered triAccels idx ray0 i st hd
    obtain ⟨hd2, c2⟩ := ih (leafStep triAccels idx i st) hd1
    refine ⟨hd2, Covered.congr ?_ (Covered.comp c1 c2)⟩
    intro k
    constructor
    · rintro (h | ⟨j, hj, h⟩)
      · exact ⟨i, List.mem_cons_self _ _, h⟩
      · exact ⟨j, List.mem_cons_of_mem _ hj, h⟩
    · rintro ⟨j, hj, h⟩
      rcases List.mem_cons.mp hj with e | e
      · subst e; exact Or.inl h
      · exact Or.inr ⟨j, e, h⟩

end BVHScene

namespace BVHScene

theorem buildData_triBounds_getD (triAccels : List TriAccel) (k : Nat) (tri : TriAccel)
    (h : triAccels[k]? = some tri) :
    (buildData triAccels).triBounds.getD k AABB.empty = triBound tri := by
  simp [buildData, List.getD, List.getElem?_map, h]

/-- A node whose bound fails the slab test holds no triangle that is hit strictly inside
the parametric interval, unless the component `x` of the direction is zero and the origin
lies in the plane of a face of the bound across the axis `x`. -/
theorem pruned_hit (triAccels : List TriAccel) (idx : List Nat) (ray0 : Ray)
    (node : BVHNode) (b e : Nat) (hok : NodeOK (buildData triAccels) idx node b e)
    (hface : ray0.d.x = 0 → node.bound.isFace 0 ray0.o.x = false)
    (data : BVHTraversalData) (hd : DataOf ray0 data)
    (hbox : IntersectAABB node.bound data = false)
    (k : Nat) (t : ℚ) (hk : InRange idx b e k) (hh : HitsAt triAccels ray0 k t)
    (h0 : ray0.minT ≤ t) (hm : t ≤ data.ray.maxT) : t = ray0.minT ∨ t = data.ray.maxT := by
  obtain ⟨tri, u, v, htri, hhit⟩ := hh
  have hsub := hok.bound_subset k hk
  rw [buildData_triBounds_getD triAccels k tri htri] at hsub
  have hc := hsub _ (hit_in_triBound tri ray0 u v t hhit)
  by_contra hne
  push_neg at hne
  have h1 : data.ray.minT < t := by
    rw [hd.2.2.1]; exact lt_of_le_of_ne h0 (Ne.symm hne.1)
  have h2 : t < data.ray.maxT := lt_of_le_of_ne hm hne.2
  have := IntersectAABB_of_contains node.bound ray0 data hd hface t hc h1 h2
  rw [hbox] at this
  exact absurd this (by simp)

theorem mem_range'_iff_inRange (idx : List Nat) (b e k : Nat) :
    (∃ i ∈ List.range' b (e - b), idx[i]? = some k) ↔ InRange idx b e k := by
  constructor
  · rintro ⟨i, hi, h⟩
    rw [List.mem_range'_1] at hi
    exact ⟨i, hi.1, by omega, h⟩
  · rintro ⟨i, h1, h2, h⟩
    exact ⟨i, by rw [List.mem_range'_1]; omega, h⟩

end BVHScene

namespace BVHScene

theorem inRange_iff_mem_slice (idx : List Nat) (b e k : Nat) :
    InRange idx b e k ↔ k ∈ slice idx b e := by
  unfold InRange slice
  rw [List.mem_iff_getElem?]
  constructor
  · rintro ⟨i, h1, h2, h3⟩
    refine ⟨i - b, ?_⟩
    rw [List.getElem?_take_of_lt (by omega), List.getElem?_drop]
    rw [show b + (i - b) = i by omega]
    exact h3
  · rintro ⟨j, hj⟩
    by_cases hlt : j < e - b
    · rw [List.getElem?_take_of_lt hlt, List.getElem?_drop] at hj
      exact ⟨b + j, by omega, by omega, hj⟩
    · rw [List.getElem?_take_eq_none (by omega)] at hj
      exact absurd hj (by simp)

/-- A leaf over a range, bounded by the union of the bounds of its triangles. -/
theorem leaf_ok (data : BVHBuildData) (idx : List Nat) (b e : Nat) :
    NodeOK data idx (BVHNode.leaf b e (rangeBound data idx b e)) b e := by
  refine ⟨rfl, rfl, ?_⟩
  intro k hk
  rw [inRange_iff_mem_slice] at hk
  exact (AABB.subset_foldl_union (fun k => data.triBounds.getD k AABB.empty)
    (slice idx b e) AABB.empty).2 k hk

/-- Whether a node covers a range depends on the positions of the range only. -/
theorem NodeOK.frame (data : BVHBuildData) (idx idx2 : List Nat) :
    ∀ (node : BVHNode) (b e : Nat), (∀ i, b ≤ i → i < e → idx2[i]? = idx[i]?) →
      NodeOK data idx node b e → NodeOK data idx2 node b e := by
  intro node
  induction node with
  | leaf b' e' bound =>
    intro b e hag hok
    obtain ⟨h1, h2, h3⟩ := hok
    refine ⟨h1, h2, ?_⟩
    intro k hk
    apply h3
    obtain ⟨i, a1, a2, a3⟩ := hk
    exact ⟨i, a1, a2, by rw [← hag i a1 a2]; exact a3⟩
  | internal ax left right bound ihl ihr =>
    intro b e hag hok
    obtain ⟨mid, h1, h2, hl, hr, s1, s2⟩ := hok
    refine ⟨mid, h1, h2, ihl b mid ?_ hl, ihr mid e ?_ hr, s1, s2⟩
    · intro i a1 a2
      exact hag i a1 (by omega)
    · intro i a1 a2
      exact hag i (by omega) a2

theorem slice_length (idx : List Nat) (b e : Nat) (he : e ≤ idx.length) :
    (slice idx b e).length = e - b := by
  unfold slice
  rw [List.length_take, List.length_drop]
  omega

theorem split_slice (idx : List Nat) (b e : Nat) (hbe : b ≤ e) :
    idx = idx.take b ++ slice idx b e ++ idx.drop e := by
  unfold slice
  have h1 : idx.drop e = (idx.drop b).drop (e - b) := by
    rw [List.drop_drop]
    congr 1
    omega
  rw [h1, List.append_assoc, List.take_append_drop, List.take_append_drop]

theorem getElem?_middle (A M M' C : List Nat) (hlen : M'.length = M.length) (i : Nat)
    (hi : i < A.length ∨ A.length + M.length ≤ i) :
    (A ++ M' ++ C)[i]? = (A ++ M ++ C)[i]? := by
  rcases hi with hi | hi
  · rw [List.append_assoc, List.append_assoc, List.getElem?_append_left hi,
      List.getElem?_append_left hi]
  · rw [List.getElem?_append_right (by simp; omega),
      List.getElem?_append_right (by simp; omega)]
    simp [hlen]

theorem partition_mid (idx : List Nat) (b e : Nat) (pred : Nat → Bool) (hbe : b ≤ e)
    (he : e ≤ idx.length) : b ≤ (partition idx b e pred).2 ∧ (partition idx b e pred).2 ≤ e := by
  unfold partition
  have := slice_length idx b e he
  have h2 := List.length_filter_le pred (slice idx b e)
  simp only
  omega

theorem partition_perm (idx : List Nat) (b e : Nat) (pred : Nat → Bool) (hbe : b ≤ e) :
    (partition idx b e pred).1.Perm idx := by
  unfold partition
  simp only
  nth_rewrite 5 [split_slice idx b e hbe]
  rw [List.append_assoc (idx.take b)]
  exact List.Perm.append_right _ (List.Perm.append_left _
    (List.filter_append_perm pred (slice idx b e)))

theorem partition_frame (idx : List Nat) (b e : Nat) (pred : Nat → Bool) (hbe : b ≤ e)
    (he : e ≤ idx.length) (i : Nat) (hi : i < b ∨ e ≤ i) :
    (partition idx b e pred).1[i]? = idx[i]? := by
  unfold partition
  simp only
  nth_rewrite 5 [split_slice idx b e hbe]
  rw [List.append_assoc (idx.take b)]
  have hl : (idx.take b).length = b := by rw [List.length_take]; omega
  apply getElem?_middle
  · rw [List.length_append]
    have := (List.filter_append_perm pred (slice idx b e)).length_eq
    rw [List.length_append] at this
    exact this
  · rw [hl, slice_length idx b e he]
    omega

/-- The recursive build keeps the indices (as a permutation), leaves the positions outside
its range alone, and returns a node that covers its range. -/
theorem BuildNode_spec (data : BVHBuildData) :
    ∀ (fuel : Nat) (idx : List Nat) (b e : Nat) (node : BVHNode) (idx' : List Nat),
      b ≤ e → e ≤ idx.length → BuildNode data fuel idx b e = some (node, idx') →
      idx'.Perm idx ∧ (∀ i, i < b ∨ e ≤ i → idx'[i]? = idx[i]?) ∧ NodeOK data idx' node b e := by
  intro fuel
  induction fuel with
  | zero =>
    intro idx b e node idx' _ _ h
    simp [BuildNode] at h
  | succ fuel ih =>
    intro idx b e node idx' hbe he h
    have hleaf : ∀ (n : BVHNode) (j : List Nat),
        some (BVHNode.leaf b e (rangeBound data idx b e), idx) = some (n, j) →
        j.Perm idx ∧ (∀ i, i < b ∨ e ≤ i → j[i]? = idx[i]?) ∧ NodeOK data j n b e := by
      intro n j hj
      simp only [Option.some.injEq, Prod.mk.injEq] at hj
      obtain ⟨h1, h2⟩ := hj
      subst h1; subst h2
      exact ⟨List.Perm.refl _, fun _ _ => rfl, leaf_ok data idx b e⟩
    simp only [BuildNode] at h
    split_ifs at h with c1 c2 c3
    · exact hleaf _ _ h
    · exact hleaf _ _ h
    · generalize CompareToBucket _ _ _ data _ = pred at h
      have hmid := partition_mid idx b e pred hbe he
      have hperm := partition_perm idx b e pred hbe
      have hframe := partition_frame idx b e pred hbe he
      generalize partition idx b e pred = p at h hmid hperm hframe
      cases hL : BuildNode data fuel p.1 b p.2 with
      | none => rw [hL] at h; simp at h
      | some rl =>
        obtain ⟨left, idx1⟩ := rl
        rw [hL] at h
        simp only at h
        cases hR : BuildNode data fuel idx1 p.2 e with
        | none => rw [hR] at h; simp at h
        | some rr =>
          obtain ⟨right, idx2⟩ := rr
          rw [hR] at h
          simp only [Option.some.injEq, Prod.mk.injEq] at h
          obtain ⟨h1, h2⟩ := h
          subst h1; subst h2
          have hlen0 : p.1.length = idx.length := hperm.length_eq
          obtain ⟨pl, fl, okl⟩ := ih p.1 b p.2 left idx1 hmid.1 (by omega) hL
          have hlen1 : idx1.length = p.1.length := pl.length_eq
          obtain ⟨pr, fr, okr⟩ := ih idx1 p.2 e right idx2 hmid.2 (by omega) hR
          refine ⟨pr.trans (pl.trans hperm), ?_, ?_⟩
          · intro i hi
            rw [fr i (by omega), fl i (by omega), hframe i hi]
          · refine ⟨p.2, hmid.1, hmid.2, ?_, okr, AABB.subset_union_left _ _,
              AABB.subset_union_right _ _⟩
            apply NodeOK.frame data idx1 idx2 left b p.2 _ okl
            intro i _ a2
            exact fr i (Or.inl a2)
    · exact hleaf _ _ h

/-- The scene returned by `Build`: its indices are a permutation of the triangle numbers
and its root covers all of them. -/
theorem Build_spec (primitives : List Primitive) (fuel : Nat) (scene : BVHScene)
    (h : Build primitives fuel = some scene) :
    NodeOK (buildData scene.triAccels) scene.bvhTriIndices scene.root 0 scene.triAccels.length ∧
      ∀ k, InRange scene.bvhTriIndices 0 scene.triAccels.length k ↔ k < scene.triAccels.length := by
  unfold Build at h
  simp only at h
  cases hB : BuildNode (buildData (createTriAccels primitives)) fuel
      (List.range (createTriAccels primitives).length) 0 (createTriAccels primitives).length with
  | none => rw [hB] at h; simp at h
  | some r =>
    obtain ⟨root, idx⟩ := r
    rw [hB] at h
    simp only [Option.some.injEq] at h
    subst h
    obtain ⟨hperm, _, hok⟩ := BuildNode_spec _ fuel _ 0 _ root idx (Nat.zero_le _)
      (by rw [List.length_range]) hB
    refine ⟨hok, ?_⟩
    intro k
    simp only
    have hlen : idx.length = (createTriAccels primitives).length := by
      rw [hperm.length_eq, List.length_range]
    rw [inRange_iff_mem_slice]
    have hs : slice idx 0 (createTriAccels primitives).length = idx := by
      unfold slice
      rw [List.drop_zero, Nat.sub_zero, ← hlen, List.take_length]
    rw [hs, hperm.mem_iff, List.mem_range]

end BVHScene

namespace BVHScene

theorem Intersect_fst (scene : BVHScene) (ray : Ray) :
    (Intersect scene ray).1 =
      (IntersectNode scene.triAccels scene.bvhTriIndices scene.root
        (BVHTraversalData.new ray)).1 := by
  unfold Intersect
  simp only
  split_ifs with h
  · split <;> exact h.symm
  · simp only [Bool.not_eq_true] at h
    exact h.symm

theorem Intersect_ray (scene : BVHScene) (ray : Ray) :
    (Intersect scene ray).2.1 =
      (IntersectNode scene.triAccels scene.bvhTriIndices scene.root
        (BVHTraversalData.new ray)).2.ray := by
  unfold Intersect
  simp only
  split_ifs with h
  · split <;> rfl
  · rfl

theorem dataOf_new (ray : Ray) : DataOf ray (BVHTraversalData.new ray) :=
  ⟨rfl, rfl, rfl, rfl, rfl⟩

theorem hitsAt_iff (triAccels : List TriAccel) (ray : Ray) (k : Nat) (t : ℚ) :
    (HitsAt triAccels ray k t ∧ ray.minT ≤ t ∧ t ≤ ray.maxT) ↔
      ∃ tri u v, triAccels[k]? = some tri ∧
        tri.Intersect ray ray.minT ray.maxT = some (u, v, t) := by
  constructor
  · rintro ⟨⟨tri, u, v, h1, h2⟩, h0, hm⟩
    exact ⟨tri, u, v, h1, (TriAccel.Intersect_eq_some tri ray _ _ u v t).mpr ⟨h2, h0, hm⟩⟩
  · rintro ⟨tri, u, v, h1, h2⟩
    obtain ⟨a, b, c⟩ := (TriAccel.Intersect_eq_some tri ray _ _ u v t).mp h2
    exact ⟨⟨tri, u, v, h1, a⟩, b, c⟩

end BVHScene

namespace BVHScene

theorem hit_iff_mem (triAccels : List TriAccel) (ray : Ray) (t : ℚ) :
    (∃ k, k < triAccels.length ∧ HitsAt triAccels ray k t ∧ ray.minT ≤ t ∧ t ≤ ray.maxT) ↔
      ∃ tri ∈ triAccels, ∃ u v, tri.Intersect ray ray.minT ray.maxT = some (u, v, t) := by
  constructor
  · rintro ⟨k, _, h⟩
    obtain ⟨tri, u, v, h1, h2⟩ := (hitsAt_iff triAccels ray k t).mp h
    exact ⟨tri, List.mem_iff_getElem?.mpr ⟨k, h1⟩, u, v, h2⟩
  · rintro ⟨tri, hmem, u, v, h⟩
    obtain ⟨k, hk⟩ := List.mem_iff_getElem?.mp hmem
    have hlt : k < triAccels.length := by
      by_contra hge
      rw [List.getElem?_eq_none (by omega)] at hk
      exact absurd hk (by simp)
    exact ⟨k, hlt, (hitsAt_iff triAccels ray k t).mpr ⟨tri, u, v, hk, h⟩⟩

theorem Build_twoScene : Build [Sample.flatTri, Sample.lowTri] 5 = some Sample.twoScene := by
  decide!

theorem Build_wideScene :
    Build [Sample.flatTri, Sample.wideTri] 5 = some Sample.wideScene := by
  decide!

end BVHScene

namespace BVHScene

/-- The state of the loop of a leaf that started from the data `data`. -/
theorem leafStep_records (triAccels : List TriAccel) (idx : List Nat) (ray0 : Ray)
    (data : BVHTraversalData) (hle : data.ray.maxT ≤ ray0.maxT) (i : Nat)
    (st : Bool × BVHTraversalData)
    (h : DataOf ray0 st.2 ∧ st.2.ray.maxT ≤ data.ray.maxT ∧ (st.1 = false → st.2 = data) ∧
      (st.1 = true → Recorded triAccels ray0 st.2)) :
    DataOf ray0 (leafStep triAccels idx i st).2 ∧
      (leafStep triAccels idx i st).2.ray.maxT ≤ data.ray.maxT ∧
      ((leafStep triAccels idx i st).1 = false → (leafStep triAccels idx i st).2 = data) ∧
      ((leafStep triAccels idx i st).1 = true →
        Recorded triAccels ray0 (leafStep triAccels idx i st).2) := by
  obtain ⟨⟨ho, hdd, hmin, hinv, hneg⟩, hm, hfalse, htrue⟩ := h
  cases hi : idx[i]? with
  | none =>
    have e : leafStep triAccels idx i st = st := by simp only [leafStep, hi]
    rw [e]
    exact ⟨⟨ho, hdd, hmin, hinv, hneg⟩, hm, hfalse, htrue⟩
  | some k =>
    cases hk : triAccels[k]? with
    | none =>
      have e : leafStep triAccels idx i st = st := by simp only [leafStep, hi, hk]
      rw [e]
      exact ⟨⟨ho, hdd, hmin, hinv, hneg⟩, hm, hfalse, htrue⟩
    | some tri =>
      have hcongr := TriAccel.Intersect_congr tri ho hdd st.2.ray.minT st.2.ray.maxT
      rw [hmin] at hcongr
      cases hI : tri.Intersect ray0 ray0.minT st.2.ray.maxT with
      | none =>
        have e : leafStep triAccels idx i st = st := by
          simp only [leafStep, hi, hk, hmin, hcongr, hI]
        rw [e]
        exact ⟨⟨ho, hdd, hmin, hinv, hneg⟩, hm, hfalse, htrue⟩
      | some r =>
        obtain ⟨u, v, t⟩ := r
        have e : leafStep triAccels idx i st = (true, { st.2 with
            ray := { st.2.ray with maxT := t }
            intersectedTriIdx := k
            intersectedTriB := ⟨u, v⟩ }) := by
          simp only [leafStep, hi, hk, hmin, hcongr, hI]
        rw [e]
        obtain ⟨hh, h0, ht⟩ :=
          (TriAccel.Intersect_eq_some tri ray0 ray0.minT st.2.ray.maxT u v t).mp hI
        refine ⟨⟨ho, hdd, hmin, hinv, hneg⟩, le_trans ht hm, ?_, ?_⟩
        · intro hc
          exact absurd hc (by simp)
        · intro _
          exact ⟨tri, u, v, hk,
            (TriAccel.Intersect_eq_some tri ray0 ray0.minT ray0.maxT u v t).mpr
              ⟨hh, h0, le_trans ht (le_trans hm hle)⟩, rfl⟩

theorem leafLoop_records (triAccels : List TriAccel) (idx : List Nat) (ray0 : Ray)
    (data : BVHTraversalData) (hle : data.ray.maxT ≤ ray0.maxT) :
    ∀ (l : List Nat) (st : Bool × BVHTraversalData),
      (DataOf ray0 st.2 ∧ st.2.ray.maxT ≤ data.ray.maxT ∧ (st.1 = false → st.2 = data) ∧
        (st.1 = true → Recorded triAccels ray0 st.2)) →
      DataOf ray0 (l.foldl (fun st i => leafStep triAccels idx i st) st).2 ∧
        (l.foldl (fun st i => leafStep triAccels idx i st) st).2.ray.maxT ≤ data.ray.maxT ∧
        ((l.foldl (fun st i => leafStep triAccels idx i st) st).1 = false →
          (l.foldl (fun st i => leafStep triAccels idx i st) st).2 = data) ∧
        ((l.foldl (fun st i => leafStep triAccels idx i st) st).1 = true →
          Recorded triAccels ray0 (l.foldl (fun st i => leafStep triAccels idx i st) st).2) := by
  intro l
  induction l with
  | nil => intro st h; exact h
  | cons i l ih =>
    intro st h
    rw [List.foldl_cons]
    exact ih _ (leafStep_records triAccels idx ray0 data hle i st h)

/-- The traversal of any node either returns false and leaves the data as they were, or
returns true and leaves a recorded hit, with a bound that did not grow. -/
theorem IntersectNode_records (triAccels : List TriAccel) (idx : List Nat) (ray0 : Ray) :
    ∀ (node : BVHNode) (data : BVHTraversalData), DataOf ray0 data →
      data.ray.maxT ≤ ray0.maxT →
      DataOf ray0 (IntersectNode triAccels idx node data).2 ∧
        (IntersectNode triAccels idx node data).2.ray.maxT ≤ data.ray.maxT ∧
        ((IntersectNode triAccels idx node data).1 = false →
          (IntersectNode triAccels idx node data).2 = data) ∧
        ((IntersectNode triAccels idx node data).1 = true →
          Recorded triAccels ray0 (IntersectNode triAccels idx node data).2) := by
  intro node
  induction node with
  | leaf b e bound =>
    intro data hd hle
    by_cases hbox : IntersectAABB bound data = true
    · have e1 : IntersectNode triAccels idx (BVHNode.leaf b e bound) data
          = (List.range' b (e - b)).foldl (fun st i => leafStep triAccels idx i st)
              (false, data) := by
        simp only [IntersectNode, hbox, if_true]
      rw [e1]
      exact leafLoop_records triAccels idx ray0 data hle _ (false, data)
        ⟨hd, le_rfl, fun _ => rfl, fun hc => absurd hc (by simp)⟩
    · have e1 : IntersectNode triAccels idx (BVHNode.leaf b e bound) data = (false, data) := by
        simp only [IntersectNode, hbox, Bool.false_eq_true, if_false]
      rw [e1]
      exact ⟨hd, le_rfl, fun _ => rfl, fun hc => absurd hc (by simp)⟩
  | internal ax left right bound ihl ihr =>
    intro data hd hle
    have key : ∀ (n1 n2 : BVHNode),
        (∀ (data : BVHTraversalData), DataOf ray0 data → data.ray.maxT ≤ ray0.maxT →
          DataOf ray0 (IntersectNode triAccels idx n1 data).2 ∧
            (IntersectNode triAccels idx n1 data).2.ray.maxT ≤ data.ray.maxT ∧
            ((IntersectNode triAccels idx n1 data).1 = false →
              (IntersectNode triAccels idx n1 data).2 = data) ∧
            ((IntersectNode triAccels idx n1 data).1 = true →
              Recorded triAccels ray0 (IntersectNode triAccels idx n1 data).2)) →
        (∀ (data : BVHTraversalData), DataOf ray0 data → data.ray.maxT ≤ ray0.maxT →
          DataOf ray0 (IntersectNode triAccels idx n2 data).2 ∧
            (IntersectNode triAccels idx n2 data).2.ray.maxT ≤ data.ray.maxT ∧
            ((IntersectNode triAccels idx n2 data).1 = false →
              (IntersectNode triAccels idx n2 data).2 = data) ∧
            ((IntersectNode triAccels idx n2 data).1 = true →
              Recorded triAccels ray0 (IntersectNode triAccels idx n2 data).2)) →
        DataOf ray0 (IntersectNode triAccels idx n2 (IntersectNode triAccels idx n1 data).2).2 ∧
          (IntersectNode triAccels idx n2 (IntersectNode triAccels idx n1 data).2).2.ray.maxT
            ≤ data.ray.maxT ∧
          (((IntersectNode triAccels idx n1 data).1 ||
              (IntersectNode triAccels idx n2 (IntersectNode triAccels idx n1 data).2).1) = false →
            (IntersectNode triAccels idx n2 (IntersectNode triAccels idx n1 data).2).2 = data) ∧
          (((IntersectNode triAccels idx n1 data).1 ||
              (IntersectNode triAccels idx n2 (IntersectNode triAccels idx n1 data).2).1) = true →
            Recorded triAccels ray0
              (IntersectNode triAccels idx n2 (IntersectNode triAccels idx n1 data).2).2) := by
      intro n1 n2 ih1 ih2
      obtain ⟨d1, m1, f1, t1⟩ := ih1 data hd hle
      obtain ⟨d2, m2, f2, t2⟩ := ih2 (IntersectNode triAccels idx n1 data).2 d1
        (le_trans m1 hle)
      refine ⟨d2, le_trans m2 m1, ?_, ?_⟩
      · intro hf
        rw [Bool.or_eq_false_iff] at hf
        rw [f2 hf.2, f1 hf.1]
      · intro ht
        cases h2 : (IntersectNode triAccels idx n2 (IntersectNode triAccels idx n1 data).2).1 with
        | true => exact t2 h2
        | false =>
          rw [h2, Bool.or_false] at ht
          rw [f2 h2]
          exact t1 ht
    by_cases hbox : IntersectAABB bound data = true
    · by_cases hneg : data.rayDirNegative.get ax ≠ 0
      · have e1 : IntersectNode triAccels idx (BVHNode.internal ax left right bound) data
            = ((IntersectNode triAccels idx right data).1 ||
                (IntersectNode triAccels idx left (IntersectNode triAccels idx right data).2).1,
              (IntersectNode triAccels idx left (IntersectNode triAccels idx right data).2).2) := by
          simp only [IntersectNode, hbox, if_true, hneg, ne_eq, not_false_eq_true]
        rw [e1]
        exact key right left ihr ihl
      · have e1 : IntersectNode triAccels idx (BVHNode.internal ax left right bound) data
            = ((IntersectNode triAccels idx left data).1 ||
                (IntersectNode triAccels idx right (IntersectNode triAccels idx left data).2).1,
              (IntersectNode triAccels idx right (IntersectNode triAccels idx left data).2).2) := by
          simp only [IntersectNode, hbox, if_true, hneg, if_false]
        rw [e1]
        exact key left right ihl ihr
    · have e1 : IntersectNode triAccels idx (BVHNode.internal ax left right bound) data
          = (false, data) := by
        simp only [IntersectNode, hbox, Bool.false_eq_true, if_false]
      rw [e1]
      exact ⟨hd, le_rfl, fun _ => rfl, fun hc => absurd hc (by simp)⟩

/-- After the traversal of a node of a built tree, the bound is at most every hit
parameter of the triangles of its range within the interval it started with, when no
triangle is hit exactly at `minT` and, if the component `x` of the direction is zero, the
origin lies in the plane of no face across the axis `x` of the bound of a node. -/
theorem IntersectNode_lower (triAccels : List TriAccel) (idx : List Nat) (ray0 : Ray)
    (hE : ∀ k t, HitsAt triAccels ray0 k t → t ≤ ray0.maxT → t ≠ ray0.minT) :
    ∀ (node : BVHNode) (b e : Nat), NodeOK (buildData triAccels) idx node b e →
      (ray0.d.x = 0 → ∀ n ∈ node.nodes, n.bound.isFace 0 ray0.o.x = false) →
      ∀ (data : BVHTraversalData), DataOf ray0 data → data.ray.maxT ≤ ray0.maxT →
        ∀ k t, InRange idx b e k → HitsAt triAccels ray0 k t → ray0.minT ≤ t →
          t ≤ data.ray.maxT → (IntersectNode triAccels idx node data).2.ray.maxT ≤ t := by
  have hpruned : ∀ (node : BVHNode) (b e : Nat), NodeOK (buildData triAccels) idx node b e →
      (ray0.d.x = 0 → ∀ n ∈ node.nodes, n.bound.isFace 0 ray0.o.x = false) →
      ∀ (data : BVHTraversalData), DataOf ray0 data → data.ray.maxT ≤ ray0.maxT →
        IntersectAABB node.bound data = false →
        ∀ k t, InRange idx b e k → HitsAt triAccels ray0 k t → ray0.minT ≤ t →
          t ≤ data.ray.maxT → data.ray.maxT ≤ t := by
    intro node b e hok hface data hd hle hbox k t hk hh h0 hm
    rcases pruned_hit triAccels idx ray0 node b e hok
      (fun h0 => hface h0 _ (BVHNode.self_mem_nodes _)) data hd hbox k t hk hh h0 hm
      with h | h
    · exact absurd h (hE k t hh (le_trans hm hle))
    · exact le_of_eq h.symm
  intro node
  induction node with
  | leaf b' e' bound =>
    intro b e hok hface data hd hle k t hk hh h0 hm
    by_cases hbox : IntersectAABB bound data = true
    · have e1 : IntersectNode triAccels idx (BVHNode.leaf b' e' bound) data
          = (List.range' b' (e' - b')).foldl (fun st i => leafStep triAccels idx i st)
              (false, data) := by
        simp only [IntersectNode, hbox, if_true]
      rw [e1]
      obtain ⟨hb, he, _⟩ := hok
      subst hb; subst he
      obtain ⟨_, c⟩ := leafLoop_covered triAccels idx ray0 (List.range' b' (e' - b'))
        (false, data) hd
      exact c.2.1 k t ((mem_range'_iff_inRange idx b' e' k).mpr hk) hh h0 hm
    · have hbox' : IntersectAABB bound data = false := by
        cases h : IntersectAABB bound data with
        | true => exact absurd h hbox
        | false => rfl
      have e1 : IntersectNode triAccels idx (BVHNode.leaf b' e' bound) data = (false, data) := by
        simp only [IntersectNode, hbox', Bool.false_eq_true, if_false]
      rw [e1]
      exact hpruned _ b e hok hface data hd hle hbox' k t hk hh h0 hm
  | internal ax left right bound ihl ihr =>
    intro b e hok hface data hd hle k t hk hh h0 hm
    by_cases hbox : IntersectAABB bound data = true
    · obtain ⟨mid, hm1, hm2, hl, hr, _, _⟩ := hok
      by_cases hneg : data.rayDirNegative.get ax ≠ 0
      · have e1 : IntersectNode triAccels idx (BVHNode.internal ax left right bound) data
            = ((IntersectNode triAccels idx right data).1 ||
                (IntersectNode triAccels idx left (IntersectNode triAccels idx right data).2).1,
              (IntersectNode triAccels idx left (IntersectNode triAccels idx right data).2).2) := by
          simp only [IntersectNode, hbox, if_true, hneg, ne_eq, not_false_eq_true]
        rw [e1]
        obtain ⟨d1, m1, _, _⟩ := IntersectNode_records triAccels idx ray0 right data hd hle
        obtain ⟨_, m2, _, _⟩ := IntersectNode_records triAccels idx ray0 left
          (IntersectNode triAccels idx right data).2 d1 (le_trans m1 hle)
        rcases hk.split mid with hk1 | hk2
        · by_cases hlt : t ≤ (IntersectNode triAccels idx right data).2.ray.maxT
          · exact ihl b mid hl (fun h0 n hn => hface h0 n (BVHNode.mem_nodes_left hn)) _ d1
              (le_trans m1 hle) k t hk1 hh h0 hlt
          · exact le_trans m2 (le_of_lt (not_le.mp hlt))
        · exact le_trans m2 (ihr mid e hr
            (fun h0 n hn => hface h0 n (BVHNode.mem_nodes_right hn)) data hd hle k t hk2 hh h0
            hm)
      · have e1 : IntersectNode triAccels idx (BVHNode.internal ax left right bound) data
            = ((IntersectNode triAccels idx left data).1 ||
                (IntersectNode triAccels idx right (IntersectNode triAccels idx left data).2).1,
              (IntersectNode triAccels idx right (IntersectNode triAccels idx left data).2).2) := by
          simp only [IntersectNode, hbox, if_true, hneg, if_false]
        rw [e1]
        obtain ⟨d1, m1, _, _⟩ := IntersectNode_records triAccels idx ray0 left data hd hle
        obtain ⟨_, m2, _, _⟩ := IntersectNode_records triAccels idx ray0 right
          (IntersectNode triAccels idx left data).2 d1 (le_trans m1 hle)
        rcases hk.split mid with hk1 | hk2
        · exact le_trans m2 (ihl b mid hl
            (fun h0 n hn => hface h0 n (BVHNode.mem_nodes_left hn)) data hd hle k t hk1 hh h0
            hm)
        · by_cases hlt : t ≤ (IntersectNode triAccels idx left data).2.ray.maxT
          · exact ihr mid e hr (fun h0 n hn => hface h0 n (BVHNode.mem_nodes_right hn)) _ d1
              (le_trans m1 hle) k t hk2 hh h0 hlt
          · exact le_trans m2 (le_of_lt (not_le.mp hlt))
    · have hbox' : IntersectAABB bound data = false := by
        cases h : IntersectAABB bound data with
        | true => exact absurd h hbox
        | false => rfl
      have e1 : IntersectNode triAccels idx (BVHNode.internal ax left right bound) data
          = (false, data) := by
        simp only [IntersectNode, hbox', Bool.false_eq_true, if_false]
      rw [e1]
      exact hpruned _ b e hok hface data hd hle hbox' k t hk hh h0 hm

/-- The value of `Intersect` when the traversal returns true and recorded the triangle
`tri`. -/
theorem Intersect_stored (scene : BVHScene) (ray : Ray) (tri : TriAccel)
    (h1 : (IntersectNode scene.triAccels scene.bvhTriIndices scene.root
      (BVHTraversalData.new ray)).1 = true)
    (h2 : scene.triAccels[(IntersectNode scene.triAccels scene.bvhTriIndices scene.root
      (BVHTraversalData.new ray)).2.intersectedTriIdx]? = some tri) :
    (Intersect scene ray).2.2 = some ⟨tri.primIndex, tri.shapeIndex,
      (IntersectNode scene.triAccels scene.bvhTriIndices scene.root
        (BVHTraversalData.new ray)).2.ray,
      (IntersectNode scene.triAccels scene.bvhTriIndices scene.root
        (BVHTraversalData.new ray)).2.intersectedTriB⟩ := by
  unfold Intersect
  simp only [h1, if_true, h2]

/-- Claim C2, as stated, fails.  In the scene built from `flatTri` and `lowTri`, the ray
`startRay` meets `flatTri` exactly at its `minT = 0` and `lowTri` at `t = 9 / 8`; the
traversal prunes the leaf of `flatTri`, whose box is flat, and records `lowTri`
(`primIndex = 1`) with `maxT = 9 / 8`, which is not the nearest triangle hit.  In the
scene built from `flatTri` and `wideTri`, the ray `faceRay` along the axis `z`, whose
origin lies in the plane `x = 0` of a face of the box of `flatTri`, meets `flatTri` at
`t = 1` and `wideTri` at `t = 2`; the first parameter of the slab test of the leaf of
`flatTri`, zero times infinity, is not a number, the leaf is pruned, and the traversal
records `wideTri` (`primIndex = 1`) with `maxT = 2`. -/
theorem Intersect_not_nearest_pruned :
    Build [Sample.flatTri, Sample.lowTri] 5 = some Sample.twoScene ∧
      (Intersect Sample.twoScene Sample.startRay).1 = true ∧
      (Intersect Sample.twoScene Sample.startRay).2.1.maxT = 9 / 8 ∧
      (Intersect Sample.twoScene Sample.startRay).2.2 =
        some ⟨1, 0, { Sample.startRay with maxT := 9 / 8 }, ⟨1 / 4, 5 / 8⟩⟩ ∧
      Sample.twoScene.triAccels[0]? = some ⟨0, 0, ⟨0, 0, 0⟩, ⟨1, 0, 0⟩, ⟨0, 1, 0⟩⟩ ∧
      TriAccel.Intersect ⟨0, 0, ⟨0, 0, 0⟩, ⟨1, 0, 0⟩, ⟨0, 1, 0⟩⟩ Sample.startRay
        Sample.startRay.minT Sample.startRay.maxT = some (1 / 8, 1 / 8, 0) ∧
      Build [Sample.flatTri, Sample.wideTri] 5 = some Sample.wideScene ∧
      (Intersect Sample.wideScene Sample.faceRay).1 = true ∧
      (Intersect Sample.wideScene Sample.faceRay).2.1.maxT = 2 ∧
      (Intersect Sample.wideScene Sample.faceRay).2.2 =
        some ⟨1, 0, { Sample.faceRay with maxT := 2 }, ⟨3 / 8, 1 / 4⟩⟩ ∧
      Sample.wideScene.triAccels[0]? = some ⟨0, 0, ⟨0, 0, 0⟩, ⟨1, 0, 0⟩, ⟨0, 1, 0⟩⟩ ∧
      TriAccel.Intersect ⟨0, 0, ⟨0, 0, 0⟩, ⟨1, 0, 0⟩, ⟨0, 1, 0⟩⟩ Sample.faceRay
        Sample.faceRay.minT Sample.faceRay.maxT = some (0, 1 / 4, 1) :=
  ⟨Build_twoScene, by decide!, by decide!, by decide!, by decide!, by decide!,
    Build_wideScene, by decide!, by decide!, by decide!, by decide!, by decide!⟩

/-- Claim C2, amended: when `Intersect` returns true, the triangle recorded as
`intersectedTriIdx` is hit by the ray within `[minT, maxT]` at the parameter that
`ray.maxT` ends with, and the intersection is stored for the `primIndex` and the
`shapeIndex` of that triangle, with the final ray and the barycentric coordinates of the
hit; if moreover the scene was built by `Build`, no triangle is hit exactly at `minT` and,
when the component `x` of the direction is zero, the origin lies in the plane of no face
across the axis `x` of the bound of a node, no triangle is hit within `[minT, maxT]` at a
smaller parameter: the recorded triangle is the nearest one hit.  When `Intersect` returns
false the ray is left unchanged. -/
theorem Intersect_records_nearest (scene : BVHScene) (ray : Ray) :
    ((Intersect scene ray).1 = true →
      ∃ tri u v,
        scene.triAccels[(IntersectNode scene.triAccels scene.bvhTriIndices scene.root
          (BVHTraversalData.new ray)).2.intersectedTriIdx]? = some tri ∧
        tri.Intersect ray ray.minT ray.maxT = some (u, v, (Intersect scene ray).2.1.maxT) ∧
        (Intersect scene ray).2.1 = { ray with maxT := (Intersect scene ray).2.1.maxT } ∧
        (Intersect scene ray).2.2 =
          some ⟨tri.primIndex, tri.shapeIndex, (Intersect scene ray).2.1, ⟨u, v⟩⟩ ∧
        ∀ (primitives : List Primitive) (fuel : Nat),
          Build primitives fuel = some scene →
          (ray.d.x = 0 → ∀ n ∈ scene.root.nodes, n.bound.isFace 0 ray.o.x = false) →
          (∀ tri' ∈ scene.triAccels, ∀ u' v',
            tri'.Intersect ray ray.minT ray.maxT ≠ some (u', v', ray.minT)) →
          ∀ tri' ∈ scene.triAccels, ∀ u' v' t',
            tri'.Intersect ray ray.minT ray.maxT = some (u', v', t') →
              (Intersect scene ray).2.1.maxT ≤ t') ∧
      ((Intersect scene ray).1 = false → (Intersect scene ray).2.1 = ray) := by
  obtain ⟨hd, hm, hfalse, htrue⟩ := IntersectNode_records scene.triAccels scene.bvhTriIndices
    ray scene.root (BVHTraversalData.new ray) (dataOf_new ray) le_rfl
  rw [Intersect_fst, Intersect_ray]
  constructor
  · intro h1
    obtain ⟨tri, u, v, r1, r2, r3⟩ := htrue h1
    refine ⟨tri, u, v, r1, r2, ?_, ?_, ?_⟩
    · obtain ⟨ho, hdd, hmin, _, _⟩ := hd
      generalize (IntersectNode scene.triAccels scene.bvhTriIndices scene.root
        (BVHTraversalData.new ray)).2.ray = r at ho hdd hmin
      obtain ⟨o, d, a, c⟩ := r
      simp only at ho hdd hmin
      subst ho; subst hdd; subst hmin
      rfl
    · rw [Intersect_stored scene ray tri h1 r1, r3]
    · intro primitives fuel hB hface hE tri' hmem u' v' t' ht'
      obtain ⟨hok, hrange⟩ := Build_spec primitives fuel scene hB
      obtain ⟨k, hk, hh, h0, hmx⟩ :=
        (hit_iff_mem scene.triAccels ray t').mpr ⟨tri', hmem, u', v', ht'⟩
      refine IntersectNode_lower scene.triAccels scene.bvhTriIndices ray ?_
        scene.root 0 scene.triAccels.length hok hface (BVHTraversalData.new ray)
        (dataOf_new ray) le_rfl k t' ((hrange k).mpr hk) hh h0 hmx
      intro k2 t2 hh2 hle2 heq
      obtain ⟨tri2, u2, v2, a1, a2⟩ := hh2
      have hI := (TriAccel.Intersect_eq_some tri2 ray ray.minT ray.maxT u2 v2 t2).mpr
        ⟨a2, le_of_eq heq.symm, hle2⟩
      rw [heq] at hI
      exact hE tri2 (List.mem_iff_getElem?.mpr ⟨k2, a1⟩) u2 v2 hI
  · intro h1
    rw [hfalse h1]
    rfl

/-- The scene built from `flatTri` and `lowTri` and the ray `downRay` along the axis `z`
satisfy the hypotheses of `Intersect_records_nearest`: the traversal returns true with
`maxT = 1`, the parameter at which `flatTri` is hit, and no triangle is hit before. -/
theorem Intersect_records_nearest_witness :
    (Intersect Sample.twoScene Sample.downRay).1 = true ∧
      (Intersect Sample.twoScene Sample.downRay).2.1.maxT = 1 ∧
      ∀ tri ∈ Sample.twoScene.triAccels, ∀ u v t,
        tri.Intersect Sample.downRay Sample.downRay.minT Sample.downRay.maxT
            = some (u, v, t) →
          (Intersect Sample.twoScene Sample.downRay).2.1.maxT ≤ t :=
  match (Intersect_records_nearest Sample.twoScene Sample.downRay).1 (by decide!) with
  | ⟨_, _, _, _, _, _, _, h⟩ =>
    ⟨by decide!, by decide!,
      h [Sample.flatTri, Sample.lowTri] 5 Build_twoScene (fun _ => by decide!)
        (by
          intro tri hmem u v ht
          simp only [Sample.twoScene, List.mem_cons, List.mem_singleton, List.not_mem_nil,
            or_false] at hmem
          rcases hmem with h | h
          · subst h
            rw [show TriAccel.Intersect ⟨0, 0, ⟨0, 0, 0⟩, ⟨1, 0, 0⟩, ⟨0, 1, 0⟩⟩
              Sample.downRay Sample.downRay.minT Sample.downRay.maxT
                = some (1 / 4, 1 / 4, 1) by decide!] at ht
            simp only [Option.some.injEq, Prod.mk.injEq] at ht
            exact absurd ht.2.2 (by decide!)
          · subst h
            rw [show TriAccel.Intersect ⟨0, 1, ⟨0, 0, -1⟩, ⟨1, 0, -1⟩, ⟨0, 1, -1⟩⟩
              Sample.downRay Sample.downRay.minT Sample.downRay.maxT
                = some (1 / 4, 1 / 4, 2) by decide!] at ht
            simp only [Option.some.injEq, Prod.mk.injEq] at ht
            exact absurd ht.2.2 (by decide!))⟩

end BVHScene

/-! ## `PerspectiveCamera::EvaluateImportance` -/

theorem Vec3.vdiv_def (a b : Vec3) : a / b = ⟨a.x / b.x, a.y / b.y, a.z / b.z⟩ := rfl

namespace PerspectiveCamera

/-- The inverse projection of an NDC point `(x, y, 0)`: its first three components are
proportional to `(aspect t x, t y, -1)`. -/
theorem invProjection_ndc (t aspect : ℚ) (ht : t ≠ 0) (ha : aspect ≠ 0) (Q : Mat4)
    (h : Math.Perspective t aspect 1 1000 * Q = 1) (x y : ℚ) :
    (Q.mulVec4 ⟨x, y, 0, 1⟩).x = aspect * t * x ∧ (Q.mulVec4 ⟨x, y, 0, 1⟩).y = t * y ∧
      (Q.mulVec4 ⟨x, y, 0, 1⟩).z = -1 ∧ (Q.mulVec4 ⟨x, y, 0, 1⟩).w = 1001 / 2000 := by
  have key := Mat4.mulVec4_inv h ⟨x, y, 0, 1⟩
  rw [Math.Perspective_mulVec4] at key
  have hx := congrArg Vec4.x key
  have hy := congrArg Vec4.y key
  have hz := congrArg Vec4.z key
  have hw := congrArg Vec4.w key
  simp only at hx hy hz hw
  have hz' : (Q.mulVec4 ⟨x, y, 0, 1⟩).z = -1 := by linarith
  refine ⟨?_, ?_, hz', ?_⟩
  · field_simp at hx
    linarith
  · field_simp at hy
    linarith
  · rw [hz'] at hz
    norm_num at hz
    linarith

/-- The sensor area computed by `Load` from the inverse of the projection matrix. -/
theorem sensorArea_eq (t aspect : ℚ) (ht : t ≠ 0) (ha : aspect ≠ 0) (Q : Mat4)
    (h : Math.Perspective t aspect 1 1000 * Q = 1) :
    sensorArea Q = 4 * aspect * t ^ 2 := by
  obtain ⟨x1, y1, z1, w1⟩ := invProjection_ndc t aspect ht ha Q h (-1) (-1)
  obtain ⟨x2, y2, z2, w2⟩ := invProjection_ndc t aspect ht ha Q h 1 1
  simp only [sensorArea, Vec4.ofVec3, Vec4.toVec3, Vec3.sdiv_def, Vec3.vdiv_def, Vec3.splat,
    x1, y1, z1, w1, x2, y2, z2, w2]
  field_simp
  ring

theorem EvaluateImportance_cases (cam : PerspectiveCamera) (EpsLarge c : ℚ) :
    (c ≤ 0 → cam.EvaluateImportance EpsLarge c = 0) ∧
      (0 < c → |c - 1| < EpsLarge → cam.EvaluateImportance EpsLarge c = cam.invA) ∧
      (0 < c → ¬ |c - 1| < EpsLarge →
        cam.EvaluateImportance EpsLarge c = cam.invA * (1 / c) * (1 / c) * (1 / c)) := by
  refine ⟨?_, ?_, ?_⟩
  · intro h
    simp [EvaluateImportance, h]
  · intro h0 h1
    simp [EvaluateImportance, not_le.mpr h0, h1]
  · intro h0 h1
    simp [EvaluateImportance, not_le.mpr h0, h1]

/-- Claim C11: for a camera whose projection was set by `Load` (`t > 0`, `aspect > 0`,
`Math::Inverse` returning the inverse of the projection matrix), with `A` the area at unit
distance of the sensor rectangle obtained by inverse-projecting the NDC corners
`(-1, -1)` and `(1, 1)`: `A` is positive (it is `4 aspect t²`), and
`EvaluateImportance(c)` is `0` for `c <= 0`, `1 / A` when `c > 0` and
`|c - 1| < EpsLarge`, and `1 / (A c³)` otherwise. -/
theorem EvaluateImportance_value (Inverse : Mat4 → Mat4) (t aspect : ℚ)
    (cam0 : PerspectiveCamera) (EpsLarge c : ℚ) (ht : 0 < t) (ha : 0 < aspect)
    (hInv : Math.Perspective t aspect 1 1000 * Inverse (Math.Perspective t aspect 1 1000) = 1) :
    0 < sensorArea (LoadProjection Inverse t aspect cam0).invProjectionMatrix ∧
      sensorArea (LoadProjection Inverse t aspect cam0).invProjectionMatrix
        = 4 * aspect * t ^ 2 ∧
      (c ≤ 0 → (LoadProjection Inverse t aspect cam0).EvaluateImportance EpsLarge c = 0) ∧
      (0 < c → |c - 1| < EpsLarge →
        (LoadProjection Inverse t aspect cam0).EvaluateImportance EpsLarge c
          = 1 / sensorArea (LoadProjection Inverse t aspect cam0).invProjectionMatrix) ∧
      (0 < c → ¬ |c - 1| < EpsLarge →
        (LoadProjection Inverse t aspect cam0).EvaluateImportance EpsLarge c
          = 1 / (sensorArea (LoadProjection Inverse t aspect cam0).invProjectionMatrix
              * c ^ 3)) := by
  have hA := sensorArea_eq t aspect (ne_of_gt ht) (ne_of_gt ha) _ hInv
  obtain ⟨e1, e2, e3⟩ := EvaluateImportance_cases (LoadProjection Inverse t aspect cam0) EpsLarge c
  have hinvA : (LoadProjection Inverse t aspect cam0).invA
      = 1 / sensorArea (LoadProjection Inverse t aspect cam0).invProjectionMatrix := rfl
  have hQ : (LoadProjection Inverse t aspect cam0).invProjectionMatrix
      = Inverse (Math.Perspective t aspect 1 1000) := rfl
  refine ⟨?_, ?_, e1, ?_, ?_⟩
  · rw [hQ, hA]; positivity
  · rw [hQ, hA]
  · intro h0 h1
    rw [e2 h0 h1, hinvA]
  · intro h0 h1
    rw [e3 h0 h1, hinvA]
    field_simp
    ring

/-- The sample camera (`t = 1`, `aspect = 3/2`, sensor area `6`) and `c = 1/2` satisfy the
hypotheses of `EvaluateImportance_value`: the importance is `1 / (6 (1/2)³) = 4/3`. -/
theorem EvaluateImportance_value_witness :
    (LoadProjection (fun _ => Sample.perspectiveCamera.invProjectionMatrix) 1 (3 / 2)
        Sample.perspectiveCamera).EvaluateImportance (1 / 1000) (1 / 2) = 4 / 3 := by
  have h := EvaluateImportance_value (fun _ => Sample.perspectiveCamera.invProjectionMatrix)
    1 (3 / 2) Sample.perspectiveCamera (1 / 1000) (1 / 2) (by norm_num) (by norm_num)
    Sample.perspectiveCamera_inv
  rw [h.2.2.2.2 (by norm_num) (by rw [abs_lt]; norm_num), h.2.1]
  norm_num

end PerspectiveCamera

namespace PerfectMirrorBSDF

/-- Claim C12, as stated, fails: for the incident direction `(3/5, 0, 4/5)` in the
identity shading frame, `SampleDirection` succeeds and returns the PDF value
`1 / (4/5) = 5/4`, not `1`. -/
theorem SampleDirection_pdf_ne_one :
    ∃ result, Sample.mirror.SampleDirection Sample.types Sample.mirrorQuery (Sample.geom 0)
        = some result ∧
      result.pdf = ⟨5 / 4, ProbabilityMeasure.ProjectedSolidAngle⟩ ∧ result.pdf.v ≠ 1 :=
  ⟨⟨⟨-3 / 5, 0, 4 / 5⟩, 4, ⟨5 / 4, ProbabilityMeasure.ProjectedSolidAngle⟩⟩, by decide!,
    rfl, by decide!⟩

/-- Claim C12, amended: for every successful call of `SampleDirection`, the returned PDF
has the measure `ProjectedSolidAngle` and the value `1 / cos θ`, where
`cos θ = CosThetaZUp(localWo)` is the cosine of the reflected direction in the shading
frame; it is positive and equals that of the incident direction `worldToShading * wi`. -/
theorem SampleDirection_pdf (bsdf : PerfectMirrorBSDF) (T : GeneralizedBSDFType)
    (query : GeneralizedBSDFSampleQuery) (geom : SurfaceGeometry)
    (result : GeneralizedBSDFSampleResult)
    (h : bsdf.SampleDirection T query geom = some result) :
    result.pdf.measure = ProbabilityMeasure.ProjectedSolidAngle ∧
      result.pdf.v
        = 1 / Math.CosThetaZUp (Math.ReflectZUp (geom.worldToShading.mulVec3 query.wi)) ∧
      Math.CosThetaZUp (Math.ReflectZUp (geom.worldToShading.mulVec3 query.wi))
        = Math.CosThetaZUp (geom.worldToShading.mulVec3 query.wi) ∧
      0 < Math.CosThetaZUp (geom.worldToShading.mulVec3 query.wi) := by
  unfold SampleDirection at h
  simp only at h
  split_ifs at h with hc
  push_neg at hc
  simp only [Option.some.injEq] at h
  subst h
  exact ⟨rfl, rfl, rfl, hc.2⟩

/-- The sample mirror query satisfies the hypothesis of `SampleDirection_pdf`. -/
theorem SampleDirection_pdf_witness :
    (⟨⟨-3 / 5, 0, 4 / 5⟩, 4, ⟨5 / 4, ProbabilityMeasure.ProjectedSolidAngle⟩⟩ :
        GeneralizedBSDFSampleResult).pdf.v
      = 1 / Math.CosThetaZUp (Math.ReflectZUp
          ((Sample.geom 0).worldToShading.mulVec3 Sample.mirrorQuery.wi)) :=
  (SampleDirection_pdf Sample.mirror Sample.types Sample.mirrorQuery (Sample.geom 0) _
    (by decide!)).2.1

/-- Claim C13, as stated, fails: for the direction `(3/5, 0, 4/5)` and its mirror
direction, in the identity shading frame and with a correction factor of one, the mirror
of reflectance one evaluates to `1 / (4/5) = 5/4` in every channel, not to zero. -/
theorem EvaluateDirection_ne_zero :
    Sample.mirror.EvaluateDirection Sample.types (1 / 1000) (fun _ _ _ _ _ _ => 1)
        Sample.mirrorEvalQuery (Sample.geom 0) = Vec3.splat (5 / 4) ∧
      Sample.mirror.EvaluateDirection Sample.types (1 / 1000) (fun _ _ _ _ _ _ => 1)
        Sample.mirrorEvalQuery (Sample.geom 0) ≠ 0 :=
  ⟨by decide!, by decide!⟩

/-- Claim C13, amended: `EvaluateDirection` returns the zero vector when the component
mask of the query lacks `SpecularReflection`, when `wi` or `wo` is not in the upper
hemisphere of the shading frame, when `wo` is farther than `EpsLarge` (in the maximum
norm) from the mirror direction of `wi`, or when the shading-normal correction factor is
zero; in every other case it returns `R * (sf / cos θ_i)`. -/
theorem EvaluateDirection_value (bsdf : PerfectMirrorBSDF) (T : GeneralizedBSDFType)
    (EpsLarge : ℚ)
    (ShadingNormalCorrectionFactor :
      TransportDirection → SurfaceGeometry → Vec3 → Vec3 → Vec3 → Vec3 → ℚ)
    (query : GeneralizedBSDFEvaluateQuery) (geom : SurfaceGeometry) :
    ((query.type &&& T.SpecularReflection = 0 ∨
        Math.CosThetaZUp (geom.worldToShading.mulVec3 query.wi) ≤ 0 ∨
        Math.CosThetaZUp (geom.worldToShading.mulVec3 query.wo) ≤ 0 ∨
        Math.LInfinityNorm (Math.ReflectZUp (geom.worldToShading.mulVec3 query.wi)
          - geom.worldToShading.mulVec3 query.wo) > EpsLarge ∨
        ShadingNormalCorrectionFactor query.transportDir geom
          (geom.worldToShading.mulVec3 query.wi) (geom.worldToShading.mulVec3 query.wo)
          query.wi query.wo = 0) →
      bsdf.EvaluateDirection T EpsLarge ShadingNormalCorrectionFactor query geom = 0) ∧
    (¬ (query.type &&& T.SpecularReflection = 0 ∨
        Math.CosThetaZUp (geom.worldToShading.mulVec3 query.wi) ≤ 0 ∨
        Math.CosThetaZUp (geom.worldToShading.mulVec3 query.wo) ≤ 0 ∨
        Math.LInfinityNorm (Math.ReflectZUp (geom.worldToShading.mulVec3 query.wi)
          - geom.worldToShading.mulVec3 query.wo) > EpsLarge ∨
        ShadingNormalCorrectionFactor query.transportDir geom
          (geom.worldToShading.mulVec3 query.wi) (geom.worldToShading.mulVec3 query.wo)
          query.wi query.wo = 0) →
      bsdf.EvaluateDirection T EpsLarge ShadingNormalCorrectionFactor query geom
        = bsdf.R * (ShadingNormalCorrectionFactor query.transportDir geom
            (geom.worldToShading.mulVec3 query.wi) (geom.worldToShading.mulVec3 query.wo)
            query.wi query.wo
          / Math.CosThetaZUp (geom.worldToShading.mulVec3 query.wi))) := by
  unfold EvaluateDirection
  simp only
  constructor
  · intro h
    split_ifs with h1 h2 h3
    · rfl
    · rfl
    · rfl
    · exfalso
      rcases h with h | h | h | h | h
      · exact h1 (Or.inl h)
      · exact h1 (Or.inr (Or.inl h))
      · exact h1 (Or.inr (Or.inr h))
      · exact h2 h
      · exact h3 h
  · intro h
    push_neg at h
    obtain ⟨a1, a2, a3, a4, a5⟩ := h
    rw [if_neg (by push_neg; exact ⟨a1, a2, a3⟩), if_neg (not_lt.mpr a4), if_neg a5]

/-- The sample evaluation query satisfies the hypothesis of the second part of
`EvaluateDirection_value`: the value is `R * (1 / (4/5))`. -/
theorem EvaluateDirection_value_witness :
    Sample.mirror.EvaluateDirection Sample.types (1 / 1000) (fun _ _ _ _ _ _ => 1)
        Sample.mirrorEvalQuery (Sample.geom 0)
      = Sample.mirror.R * ((1 : ℚ) / Math.CosThetaZUp
          ((Sample.geom 0).worldToShading.mulVec3 Sample.mirrorEvalQuery.wi)) :=
  (EvaluateDirection_value Sample.mirror Sample.types (1 / 1000) (fun _ _ _ _ _ _ => 1)
    Sample.mirrorEvalQuery (Sample.geom 0)).2 (by decide!)

end PerfectMirrorBSDF

namespace NaivePhotonMap

theorem dist2_of_lt (map : NaivePhotonMap) (p : Vec3) (v : Nat) (h : v < map.photons.length) :
    map.dist2 p v = Math.Length2 ((map.photons[v]?.getD default).p - p) := by
  unfold dist2
  rw [List.getElem?_eq_getElem h]
  rfl

theorem mem_sortedIdx (map : NaivePhotonMap) (p : Vec3) (v : Nat) :
    v ∈ map.sortedIdx p ↔ v < map.photons.length := by
  unfold sortedIdx
  rw [(List.perm_insertionSort _ _).mem_iff, List.mem_range]

theorem sortedIdx_pairwise (map : NaivePhotonMap) (p : Vec3) :
    List.Pairwise (fun v1 v2 => map.dist2 p v1 ≤ map.dist2 p v2) (map.sortedIdx p) := by
  haveI : IsTotal ℕ (fun v1 v2 => ¬ map.dist2 p v2 < map.dist2 p v1) :=
    ⟨fun a b => by
      rcases le_total (map.dist2 p a) (map.dist2 p b) with h | h
      · exact Or.inl (not_lt.mpr h)
      · exact Or.inr (not_lt.mpr h)⟩
  haveI : IsTrans ℕ (fun v1 v2 => ¬ map.dist2 p v2 < map.dist2 p v1) :=
    ⟨fun a b c h1 h2 => not_lt.mpr (le_trans (not_lt.mp h1) (not_lt.mp h2))⟩
  have h := List.sorted_insertionSort (fun v1 v2 => ¬ map.dist2 p v2 < map.dist2 p v1)
    (List.range map.photons.length)
  exact List.Pairwise.imp (fun h => not_lt.mp h) h

theorem map_get_range (photons : List Photon) :
    (List.range photons.length).map (fun i => photons[i]?.getD default) = photons := by
  apply List.ext_getElem?
  intro i
  rw [List.getElem?_map]
  by_cases h : i < photons.length
  · rw [List.getElem?_range h, List.getElem?_eq_getElem h]
    simp [List.getElem?_eq_getElem h]
  · rw [List.getElem?_eq_none (by rw [List.length_range]; omega),
      List.getElem?_eq_none (by omega)]
    rfl

/-- The loop collects the photons of the first `n - found` indices. -/
theorem collectLoop_eq (map : NaivePhotonMap) (n : Int) :
    ∀ (l : List Nat) (found : Int) (acc : List Photon),
      (∀ i ∈ l, i < map.photons.length) → found < n →
      map.collectLoop n l found acc
        = some (acc ++ (l.take (n - found).toNat).map (fun i => map.photons[i]?.getD default)) := by
  intro l
  induction l with
  | nil =>
    intro found acc _ _
    simp [collectLoop]
  | cons i rest ih =>
    intro found acc hl hf
    have hi : i < map.photons.length := hl i (List.mem_cons_self _ _)
    have hget : map.photons[i]? = some (map.photons[i]?.getD default) := by
      rw [List.getElem?_eq_getElem hi]; rfl
    have hk : (n - found).toNat = (n - (found + 1)).toNat + 1 := by omega
    unfold collectLoop
    rw [hget]
    simp only
    by_cases hge : found + 1 ≥ n
    · rw [if_pos hge]
      have h0 : (n - (found + 1)).toNat = 0 := by omega
      rw [hk, h0]
      simp
    · rw [if_neg hge, ih (found + 1) _ (fun j hj => hl j (List.mem_cons_of_mem _ hj))
        (by omega), hk]
      simp

/-- Claim C19: for a photon map with `N >= 1` photons, a query point `p` and `n >= 1`,
`CollectPhotons` appends exactly `min(n, N)` photons of the map (the list `new`; `rest`
holds the uncollected ones), in non-decreasing distance from `p`; no uncollected photon
is strictly closer to `p` than a collected one; and `maxDist2` is the squared distance
from `p` to the last photon collected, which is the farthest.  It is the `R²` of the
kernel `3/π (1 - r²/R²)²`. -/
theorem CollectPhotons_spec (map : NaivePhotonMap) (n : Int) (p : Vec3)
    (collectedPhotons : List Photon) (hN : 1 ≤ map.photons.length) (hn : 1 ≤ n) :
    ∃ (new rest : List Photon) (maxDist2 : ℚ),
      map.CollectPhotons n p collectedPhotons = some (collectedPhotons ++ new, maxDist2) ∧
      (new.length : Int) = min n (map.photons.length : Int) ∧
      (new ++ rest).Perm map.photons ∧
      List.Pairwise (fun a b => Math.Length2 (a.p - p) ≤ Math.Length2 (b.p - p)) new ∧
      (∀ a ∈ new, ∀ b ∈ rest, Math.Length2 (a.p - p) ≤ Math.Length2 (b.p - p)) ∧
      (∃ back, new.getLast? = some back ∧ maxDist2 = Math.Length2 (back.p - p)) ∧
      (∀ a ∈ new, Math.Length2 (a.p - p) ≤ maxDist2) ∧
      (∀ (InvPi : ℚ) (a : Photon),
        PhotonMappingRenderer.EvaluatePhotonDensityEstimationKernel InvPi p a maxDist2
          = 3 * InvPi * (1 - Math.Length2 (a.p - p) / maxDist2) ^ 2) := by
  have hmem := mem_sortedIdx map p
  have hlen : (map.sortedIdx p).length = map.photons.length := by
    unfold sortedIdx
    rw [List.length_insertionSort, List.length_range]
  have hloop := collectLoop_eq map n (map.sortedIdx p) 0 collectedPhotons
    (fun i hi => (hmem i).mp hi) (by omega)
  rw [sub_zero] at hloop
  -- the pairwise order of the photons in sorted order
  have hpw : List.Pairwise (fun a b => Math.Length2 (a.p - p) ≤ Math.Length2 (b.p - p))
      ((map.sortedIdx p).map (fun i => map.photons[i]?.getD default)) := by
    rw [List.pairwise_map]
    refine List.Pairwise.imp_of_mem ?_ (sortedIdx_pairwise map p)
    intro a b ha hb h
    rw [dist2_of_lt map p a ((hmem a).mp ha), dist2_of_lt map p b ((hmem b).mp hb)] at h
    exact h
  rw [← List.take_append_drop n.toNat (map.sortedIdx p), List.map_append,
    List.pairwise_append] at hpw
  obtain ⟨pw1, _, pw3⟩ := hpw
  have hnewlen : ((map.sortedIdx p).take n.toNat).length ≥ 1 := by
    rw [List.length_take, hlen]
    omega
  -- the last photon collected
  have hne : ((map.sortedIdx p).take n.toNat).map (fun i => map.photons[i]?.getD default)
      ≠ [] := by
    intro h
    have := congrArg List.length h
    rw [List.length_map] at this
    simp only [List.length_nil] at this
    omega
  obtain ⟨back, hback⟩ : ∃ back,
      (((map.sortedIdx p).take n.toNat).map
        (fun i => map.photons[i]?.getD default)).getLast? = some back :=
    ⟨_, List.getLast?_eq_getLast _ hne⟩
  have hback2 : (collectedPhotons ++ ((map.sortedIdx p).take n.toNat).map
      (fun i => map.photons[i]?.getD default)).getLast? = some back := by
    rw [List.getLast?_append, hback]
    rfl
  refine ⟨((map.sortedIdx p).take n.toNat).map (fun i => map.photons[i]?.getD default),
    ((map.sortedIdx p).drop n.toNat).map (fun i => map.photons[i]?.getD default),
    Math.Length2 (back.p - p), ?_, ?_, ?_, pw1, pw3, ⟨back, hback, rfl⟩, ?_, ?_⟩
  · unfold CollectPhotons
    rw [hloop]
    simp only [hback2]
  · rw [List.length_map, List.length_take, hlen]
    omega
  · rw [← List.map_append, List.take_append_drop]
    have h1 := (List.perm_insertionSort
      (fun v1 v2 => ¬ map.dist2 p v2 < map.dist2 p v1) (List.range map.photons.length)).map
      (fun i => map.photons[i]?.getD default)
    rw [map_get_range] at h1
    exact h1
  · intro a ha
    obtain ⟨ys, hys⟩ := List.getLast?_eq_some_iff.mp hback
    rw [hys] at ha pw1
    rw [List.pairwise_append] at pw1
    rcases List.mem_append.mp ha with h | h
    · exact pw1.2.2 a h back (List.mem_singleton_self _)
    · rw [List.mem_singleton.mp h]
  · intro InvPi a
    unfold PhotonMappingRenderer.EvaluatePhotonDensityEstimationKernel
    ring

/-- The sample photon map (`N = 3`) and `n = 2` satisfy the hypotheses of
`CollectPhotons_spec`: the photons at the distances `1` and `2` are collected, in this
order, and `maxDist2 = 4`. -/
theorem CollectPhotons_spec_witness :
    Sample.photonMap.CollectPhotons 2 0 []
        = some ([⟨⟨0, 1, 0⟩, 1, 0⟩, ⟨⟨2, 0, 0⟩, 1, 0⟩], 4) ∧
      ∃ (new rest : List Photon) (maxDist2 : ℚ),
        Sample.photonMap.CollectPhotons 2 0 [] = some ([] ++ new, maxDist2) ∧
        (new.length : Int) = min 2 (Sample.photonMap.photons.length : Int) ∧
        (new ++ rest).Perm Sample.photonMap.photons :=
  ⟨by decide!,
    match CollectPhotons_spec Sample.photonMap 2 0 [] (by decide) (by decide) with
    | ⟨new, rest, maxDist2, h1, h2, h3, _⟩ => ⟨new, rest, maxDist2, h1, h2, h3⟩⟩

end NaivePhotonMap

namespace PhotonMappingRenderer

/-- The member `maxPhotonTraceDepth` is not read by one iteration of the loop of
`TracePhotons`. -/
theorem tracePhotonStep_maxPhotonTraceDepth (env : RenderEnv) (scene : Scene)
    (r : PhotonMappingRenderer) (d : Int) (st : PhotonPath) :
    tracePhotonStep env scene { r with maxPhotonTraceDepth := d } st
      = tracePhotonStep env scene r st := rfl

theorem tracePhotonPath_maxPhotonTraceDepth (env : RenderEnv) (scene : Scene)
    (r : PhotonMappingRenderer) (d : Int) :
    ∀ (fuel : Nat) (st : PhotonPath),
      tracePhotonPath env scene { r with maxPhotonTraceDepth := d } fuel st
        = tracePhotonPath env scene r fuel st := by
  intro fuel
  induction fuel with
  | zero => intro st; rfl
  | succ fuel ih =>
    intro st
    unfold tracePhotonPath
    rw [tracePhotonStep_maxPhotonTraceDepth]
    split
    · rfl
    · exact ih _

theorem tracePhotonsLoop_maxPhotonTraceDepth (env : RenderEnv) (scene : Scene)
    (r : PhotonMappingRenderer) (d : Int) (fuel : Nat) :
    ∀ (n : Nat) (photons : List Photon) (tracedPaths : Int) (rng : Random)
      (depths : List Int),
      tracePhotonsLoop env scene { r with maxPhotonTraceDepth := d } fuel n photons
          tracedPaths rng depths
        = tracePhotonsLoop env scene r fuel n photons tracedPaths rng depths := by
  intro n
  induction n with
  | zero => intro photons tracedPaths rng depths; rfl
  | succ n ih =>
    intro photons tracedPaths rng depths
    unfold tracePhotonsLoop
    rw [tracePhotonPath_maxPhotonTraceDepth]
    simp only [ih]

/-- The result of `TracePhotons` does not depend on the configured
`max_photon_trace_depth`. -/
theorem TracePhotons_maxPhotonTraceDepth (env : RenderEnv) (scene : Scene)
    (r : PhotonMappingRenderer) (d : Int) (fuel : Nat) (rng : Random)
    (photons : List Photon) (tracedPaths : Int) :
    TracePhotons env scene { r with maxPhotonTraceDepth := d } fuel rng photons tracedPaths
      = TracePhotons env scene r fuel rng photons tracedPaths := by
  unfold TracePhotons
  exact tracePhotonsLoop_maxPhotonTraceDepth env scene r d fuel _ photons tracedPaths rng []

/-- Claim C20 fails on the code: `TracePhotons` never reads `maxPhotonTraceDepth`.  With
`max_photon_trace_depth = 1`, one light path, at most five photons, a scene in which every
ray hits a diffuse surface and a generator that always returns `1/2`, the single path
stores five photons, one per scattering step, and its counter `depth` ends at `4`. -/
theorem TracePhotons_exceeds_maxPhotonTraceDepth :
    Sample.pmRenderer.maxPhotonTraceDepth = 1 ∧
      TracePhotons Sample.env (Sample.scene true) Sample.pmRenderer 10 Sample.rngHalf [] 0
        = some (List.replicate 5 ⟨0, 1, ⟨0, 0, -1⟩⟩, 1, [4]) :=
  ⟨by decide, by decide!⟩

end PhotonMappingRenderer

namespace PSSMLTThreadContext

theorem records_setRecord_same (ctx : PSSMLTThreadContext) (i : Fin 2)
    (r : PSSMLTPathSampleRecord) : (ctx.setRecord i r).records i = r := by
  unfold records setRecord
  fin_cases i <;> rfl

theorem records_setRecord_other (ctx : PSSMLTThreadContext) (i j : Fin 2)
    (r : PSSMLTPathSampleRecord) (h : j ≠ i) : (ctx.setRecord i r).records j = ctx.records j := by
  unfold records setRecord
  fin_cases i <;> fin_cases j <;> first | exact absurd rfl h | rfl

theorem one_sub_ne (i : Fin 2) : 1 - i ≠ i := by
  fin_cases i <;> decide

theorem one_sub_one_sub (i : Fin 2) : 1 - (1 - i) = i := by
  fin_cases i <;> decide

theorem Drawn.drawn_refl (ctx : PSSMLTThreadContext) : Drawn ctx ctx :=
  ⟨0, by rw [List.replicate_zero, List.append_nil]⟩

theorem Drawn.drawn_trans {a b c : PSSMLTThreadContext} (h1 : Drawn a b) (h2 : Drawn b c) :
    Drawn a c := by
  obtain ⟨k1, e1⟩ := h1
  obtain ⟨k2, e2⟩ := h2
  refine ⟨k1 + k2, ?_⟩
  rw [e2, e1, List.replicate_add, ← List.append_assoc]

theorem Drawn.drawn_next (oracle : List PSSMLTCall → ℚ) (ctx : PSSMLTThreadContext) :
    Drawn ctx ((sampler oracle).Next ctx).2 :=
  ⟨1, rfl⟩

end PSSMLTThreadContext

namespace PSSMLTRenderer

/-- A relation between sampler states that is reflexive, transitive and holds along
`Next()` holds along `NextVec2()`. -/
theorem NextVec2_rel {σ : Type} (S : PSSMLTSampler σ) (R : σ → σ → Prop)
    (htrans : ∀ a b c, R a b → R b c → R a c) (hnext : ∀ s, R s (S.Next s).2) (s : σ) :
    R s (S.NextVec2 s).2 :=
  htrans _ _ _ (hnext s) (hnext _)

theorem pathStep_rel {σ : Type} (env : RenderEnv) (scene : Scene) (r : PSSMLTRenderer)
    (S : PSSMLTSampler σ) (R : σ → σ → Prop) (hrefl : ∀ s, R s s)
    (htrans : ∀ a b c, R a b → R b c → R a c) (hnext : ∀ s, R s (S.Next s).2)
    (ps : PathState) (s : σ) : R s (pathStep env scene r S ps s).2.1 := by
  have h2 := NextVec2_rel S R htrans hnext s
  have h3 := htrans _ _ _ h2 (hnext (S.NextVec2 s).2)
  unfold pathStep
  split
  · exact hrefl s
  · simp only
    split
    · exact h2
    · split_ifs
      · exact h2
      · exact h3
      · exact h3
      · exact h2

theorem pathLoop_rel {σ : Type} (env : RenderEnv) (scene : Scene) (r : PSSMLTRenderer)
    (S : PSSMLTSampler σ) (R : σ → σ → Prop) (hrefl : ∀ s, R s s)
    (htrans : ∀ a b c, R a b → R b c → R a c) (hnext : ∀ s, R s (S.Next s).2) :
    ∀ (fuel : Nat) (ps ps' : PathState) (s s' : σ),
      pathLoop env scene r S fuel ps s = some (ps', s') → R s s' := by
  intro fuel
  induction fuel with
  | zero => intro ps ps' s s' h; simp [pathLoop] at h
  | succ fuel ih =>
    intro ps ps' s s' h
    have hstep := pathStep_rel env scene r S R hrefl htrans hnext ps s
    unfold pathLoop at h
    split at h
    · rename_i ps1 s1 heq
      rw [heq] at hstep
      simp only [Option.some.injEq, Prod.mk.injEq] at h
      rw [← h.2]
      exact hstep
    · rename_i ps1 s1 heq
      rw [heq] at hstep
      exact htrans _ _ _ hstep (ih ps1 ps' s1 s' h)

theorem SampleAndEvaluatePath_rel {σ : Type} (env : RenderEnv) (scene : Scene)
    (r : PSSMLTRenderer) (S : PSSMLTSampler σ) (R : σ → σ → Prop) (hrefl : ∀ s, R s s)
    (htrans : ∀ a b c, R a b → R b c → R a c) (hnext : ∀ s, R s (S.Next s).2)
    (fuel : Nat) (s s' : σ) (L : Vec3) (rasterPos : Vec2)
    (h : SampleAndEvaluatePath env scene r fuel S s = some (L, rasterPos, s')) : R s s' := by
  have h2 := NextVec2_rel S R htrans hnext s
  have h4 := htrans _ _ _ h2 (NextVec2_rel S R htrans hnext (S.NextVec2 s).2)
  unfold SampleAndEvaluatePath at h
  simp only at h
  split at h
  · simp at h
  · split at h
    · simp at h
    · rename_i ps1 s1 heq
      simp only [Option.some.injEq, Prod.mk.injEq] at h
      rw [← h.2.2]
      exact htrans _ _ _ h4 (pathLoop_rel env scene r S R hrefl htrans hnext fuel _ _ _ _ heq)

end PSSMLTRenderer

namespace PSSMLTThreadContext

theorem setRecord_calls (ctx : PSSMLTThreadContext) (i : Fin 2) (r : PSSMLTPathSampleRecord) :
    (ctx.setRecord i r).calls = ctx.calls := by
  unfold setRecord; fin_cases i <;> rfl

theorem setRecord_film (ctx : PSSMLTThreadContext) (i : Fin 2) (r : PSSMLTPathSampleRecord) :
    (ctx.setRecord i r).film = ctx.film := by
  unfold setRecord; fin_cases i <;> rfl

theorem setRecord_current (ctx : PSSMLTThreadContext) (i : Fin 2)
    (r : PSSMLTPathSampleRecord) : (ctx.setRecord i r).current = ctx.current := by
  unfold setRecord; fin_cases i <;> rfl

end PSSMLTThreadContext

namespace PSSMLTRenderer

open PSSMLTThreadContext

theorem decideStep_spec (oracle : List PSSMLTCall → ℚ) (a : ℚ)
    (context : PSSMLTThreadContext) :
    (decideStep oracle a context).calls = context.calls ++ [PSSMLTCall.RngNext] ++
        [if decide (oracle context.calls < a) then PSSMLTCall.Accept else PSSMLTCall.Reject] ∧
      (decideStep oracle a context).current
        = (if decide (oracle context.calls < a) then 1 - context.current
            else context.current) ∧
      (decideStep oracle a context).film = context.film ∧
      ∀ i, (decideStep oracle a context).records i = context.records i := by
  unfold decideStep rngNext
  by_cases h : oracle context.calls < a
  · rw [if_pos h, decide_eq_true h]
    exact ⟨rfl, rfl, rfl, fun _ => rfl⟩
  · rw [if_neg h, decide_eq_false h]
    exact ⟨rfl, rfl, rfl, fun _ => rfl⟩

theorem accumulateStep_spec (env : RenderEnv) (r : PSSMLTRenderer) (B : ℚ) (e : Bool) (a : ℚ)
    (current proposed : PSSMLTPathSampleRecord) (context : PSSMLTThreadContext) :
    (accumulateStep env r B e a current proposed context).calls = context.calls ∧
      (accumulateStep env r B e a current proposed context).current = context.current ∧
      (∀ i, (accumulateStep env r B e a current proposed context).records i
        = context.records i) ∧
      (r.estimatorMode = PSSMLTEstimatorMode.MeanValueSubstitution →
        (accumulateStep env r B e a current proposed context).film = context.film ++
          [(current.rasterPos, current.L * (1 - a) * B / env.Luminance current.L),
            (proposed.rasterPos, proposed.L * a * B / env.Luminance proposed.L)]) ∧
      (r.estimatorMode = PSSMLTEstimatorMode.MeanValueSubstitution_LargeStepMIS →
        (accumulateStep env r B e a current proposed context).film = context.film ++
          [(current.rasterPos,
              current.L * (1 - a) / (env.Luminance current.L / B + r.largeStepProb)),
            (proposed.rasterPos, proposed.L * (a + (if e then 1 else 0))
                / (env.Luminance proposed.L / B + r.largeStepProb))]) ∧
      (r.estimatorMode = PSSMLTEstimatorMode.Normal →
        (accumulateStep env r B e a current proposed context).film = context.film ++
          [((context.records context.current).rasterPos,
              (context.records context.current).L * B
                / env.Luminance (context.records context.current).L)]) := by
  unfold accumulateStep
  cases hm : r.estimatorMode
  · refine ⟨rfl, rfl, fun _ => rfl, ?_, ?_, ?_⟩
    · intro h; cases h
    · intro h; cases h
    · intro _; rfl
  · refine ⟨rfl, rfl, fun _ => rfl, ?_, ?_, ?_⟩
    · intro _
      simp only [accumulate, List.append_assoc, List.singleton_append]
    · intro h; cases h
    · intro h; cases h
  · refine ⟨rfl, rfl, fun _ => rfl, ?_, ?_, ?_⟩
    · intro h; cases h
    · intro _
      simp only [accumulate, List.append_assoc, List.singleton_append]
    · intro h; cases h

/-- What a mutation step that returns has done: the proposal `(L, rasterPos)` was sampled
from the context `mid`, the acceptance ratio is `a`, and the step accepted or not. -/
theorem mutationStep_some (env : RenderEnv) (scene : Scene) (r : PSSMLTRenderer) (B : ℚ)
    (oracle : List PSSMLTCall → ℚ) (fuel : Nat) (context context' : PSSMLTThreadContext)
    (h : mutationStep env scene r B oracle fuel context = some context') :
    ∃ (e : Bool) (L : Vec3) (rasterPos : Vec2) (mid : PSSMLTThreadContext) (a : ℚ)
      (accepted : Bool),
      e = decide (oracle context.calls < r.largeStepProb) ∧
      SampleAndEvaluatePath env scene r fuel (sampler oracle)
          { context with calls := context.calls ++ [PSSMLTCall.RngNext] ++
              [PSSMLTCall.SetLargeStep e] } = some (L, rasterPos, mid) ∧
      Drawn { context with calls := context.calls ++ [PSSMLTCall.RngNext] ++
              [PSSMLTCall.SetLargeStep e] } mid ∧
      a = acceptanceRatio (env.Luminance (context.records context.current).L)
        (env.Luminance L) ∧
      accepted = decide (oracle mid.calls < a) ∧
      context'.calls = mid.calls ++ [PSSMLTCall.RngNext] ++
        [if accepted then PSSMLTCall.Accept else PSSMLTCall.Reject] ∧
      context'.current = (if accepted then 1 - context.current else context.current) ∧
      context'.records context.current = context.records context.current ∧
      context'.records (1 - context.current) = ⟨rasterPos, L⟩ ∧
      (r.estimatorMode = PSSMLTEstimatorMode.MeanValueSubstitution →
        context'.film = context.film ++
          [((context.records context.current).rasterPos,
              (context.records context.current).L * (1 - a) * B
                / env.Luminance (context.records context.current).L),
            (rasterPos, L * a * B / env.Luminance L)]) ∧
      (r.estimatorMode = PSSMLTEstimatorMode.MeanValueSubstitution_LargeStepMIS →
        context'.film = context.film ++
          [((context.records context.current).rasterPos,
              (context.records context.current).L * (1 - a)
                / (env.Luminance (context.records context.current).L / B + r.largeStepProb)),
            (rasterPos, L * (a + (if e then 1 else 0))
                / (env.Luminance L / B + r.largeStepProb))]) ∧
      (r.estimatorMode = PSSMLTEstimatorMode.Normal →
        context'.film = context.film ++
          [((context'.records context'.current).rasterPos,
              (context'.records context'.current).L * B
                / env.Luminance (context'.records context'.current).L)]) := by
  unfold mutationStep at h
  simp only [rngNext] at h
  split at h
  · simp at h
  · rename_i L rasterPos mid heq
    have hd := SampleAndEvaluatePath_rel env scene r (sampler oracle) Drawn
      Drawn.drawn_refl (fun _ _ _ => Drawn.drawn_trans) (Drawn.drawn_next oracle) fuel _ _ L
      rasterPos heq
    refine ⟨_, L, rasterPos, mid, _, _, rfl, heq, hd, rfl, rfl, ?_⟩
    obtain ⟨k, hk⟩ := hd
    have hne := (one_sub_ne context.current).symm
    have hmidrec : ∀ i, mid.records i = context.records i := by
      intro i; rw [hk]; rfl
    have hmidfilm : mid.film = context.film := by rw [hk]
    have hmidcur : mid.current = context.current := by rw [hk]
    simp only [records_setRecord_same, records_setRecord_other _ _ _ _ hne,
      Option.some.injEq] at h
    rw [hmidrec] at h
    obtain ⟨d1, d2, d3, d4⟩ := decideStep_spec oracle
      (acceptanceRatio (env.Luminance (context.records context.current).L) (env.Luminance L))
      (mid.setRecord (1 - context.current) ⟨rasterPos, L⟩)
    obtain ⟨a1, a2, a3, a4, a5, a6⟩ := accumulateStep_spec env r B
      (decide (oracle context.calls < r.largeStepProb))
      (acceptanceRatio (env.Luminance (context.records context.current).L) (env.Luminance L))
      (context.records context.current) ⟨rasterPos, L⟩
      (decideStep oracle
        (acceptanceRatio (env.Luminance (context.records context.current).L)
          (env.Luminance L))
        (mid.setRecord (1 - context.current) ⟨rasterPos, L⟩))
    rw [h] at a1 a2 a3 a4 a5 a6
    rw [setRecord_calls] at d1 d2
    rw [setRecord_current, hmidcur] at d2
    rw [setRecord_film, hmidfilm] at d3
    have hrec : ∀ i, context'.records i
        = (mid.setRecord (1 - context.current) ⟨rasterPos, L⟩).records i := by
      intro i; rw [a3, d4]
    refine ⟨?_, ?_, ?_, ?_, ?_, ?_, ?_⟩
    · rw [a1, d1]
    · rw [a2, d2]
    · rw [hrec, records_setRecord_other _ _ _ _ hne, hmidrec]
    · rw [hrec, records_setRecord_same]
    · intro hm; rw [a4 hm, d3]
    · intro hm; rw [a5 hm, d3]
    · intro hm
      rw [a6 hm, d3, ← a2, ← a3]

/-- Claim C16: in every mutation step (one that returns), with `L` the radiance of the
proposal sampled from the context `mid`, the acceptance ratio is
`a = min(1, I_proposed / I_current)` when `I_current > 0` and `a = 1` when
`I_current = 0`, so `0 <= a <= 1` for non-negative luminances; the calls received in the
step end with `rng->Next()` followed by exactly one of `sampler->Accept()` and
`sampler->Reject()`, and there is no other call of either; on accept the index `current`
flips and the current record is the proposed one, on reject the index and the current
record are unchanged. -/
theorem mutationStep_accept_reject (env : RenderEnv) (scene : Scene) (r : PSSMLTRenderer)
    (B : ℚ) (oracle : List PSSMLTCall → ℚ) (fuel : Nat)
    (context context' : PSSMLTThreadContext)
    (h : mutationStep env scene r B oracle fuel context = some context') :
    ∃ (L : Vec3) (rasterPos : Vec2) (mid : PSSMLTThreadContext) (a : ℚ),
      SampleAndEvaluatePath env scene r fuel (sampler oracle)
          { context with calls := context.calls ++ [PSSMLTCall.RngNext] ++
              [PSSMLTCall.SetLargeStep (decide (oracle context.calls < r.largeStepProb))] }
        = some (L, rasterPos, mid) ∧
      (env.Luminance (context.records context.current).L > 0 →
        a = min 1 (env.Luminance L / env.Luminance (context.records context.current).L)) ∧
      (env.Luminance (context.records context.current).L = 0 → a = 1) ∧
      (0 ≤ env.Luminance (context.records context.current).L → 0 ≤ env.Luminance L →
        0 ≤ a ∧ a ≤ 1) ∧
      ((oracle mid.calls < a ∧
          context'.calls = mid.calls ++ [PSSMLTCall.RngNext, PSSMLTCall.Accept] ∧
          context'.current = 1 - context.current ∧
          context'.records context'.current = ⟨rasterPos, L⟩) ∨
        (¬ oracle mid.calls < a ∧
          context'.calls = mid.calls ++ [PSSMLTCall.RngNext, PSSMLTCall.Reject] ∧
          context'.current = context.current ∧
          context'.records context'.current = context.records context.current)) ∧
      (context'.calls.drop context.calls.length).count PSSMLTCall.Accept
        + (context'.calls.drop context.calls.length).count PSSMLTCall.Reject = 1 := by
  obtain ⟨e, L, rasterPos, mid, a, accepted, he, hs, hd, ha, hacc, c1, c2, c3, c4, _⟩ :=
    mutationStep_some env scene r B oracle fuel context context' h
  subst he
  refine ⟨L, rasterPos, mid, a, hs, ?_, ?_, ?_, ?_, ?_⟩
  · intro hpos
    rw [ha, acceptanceRatio, if_pos hpos]
  · intro hz
    rw [ha, acceptanceRatio, if_neg (by rw [hz]; exact lt_irrefl 0)]
  · intro h0 h1
    rw [ha]
    unfold acceptanceRatio
    split_ifs with hpos
    · exact ⟨le_min zero_le_one (div_nonneg h1 h0), min_le_left _ _⟩
    · exact ⟨zero_le_one, le_refl 1⟩
  · by_cases hlt : oracle mid.calls < a
    · left
      rw [hacc, decide_eq_true hlt] at c1 c2
      simp only [if_true] at c1 c2
      refine ⟨hlt, by rw [c1, List.append_assoc]; rfl, c2, ?_⟩
      rw [c2, c4]
    · right
      rw [hacc, decide_eq_false hlt] at c1 c2
      simp only [Bool.false_eq_true, if_false] at c1 c2
      refine ⟨hlt, by rw [c1, List.append_assoc]; rfl, c2, ?_⟩
      rw [c2, c3]
  · obtain ⟨k, hk⟩ := hd
    have hmid : mid.calls = context.calls ++ ([PSSMLTCall.RngNext] ++
        [PSSMLTCall.SetLargeStep (decide (oracle context.calls < r.largeStepProb))] ++
        List.replicate k PSSMLTCall.SamplerNext) := by
      rw [hk]
      simp only [List.append_assoc]
    rw [c1, hmid, List.append_assoc, List.append_assoc, List.drop_left]
    cases accepted <;>
      simp [List.count_append, List.count_replicate, List.count_cons]

/-- Claim C17: in every mutation step (one that returns), with `(L, rasterPos)` the
proposal and `a` the acceptance ratio, the film receives: in normal mode, `L * B / I` of
the record that is current after the decision, at its raster position; in
mean-value-substitution mode, `L_cur * (1 - a) * B / I_cur` at the raster position of the
record that was current before the decision and `L_prop * a * B / I_prop` at the proposed
raster position; in the mode with large-step MIS, `L_cur * (1 - a) / (I_cur / B +
largeStepProb)` and `L_prop * (a + e) / (I_prop / B + largeStepProb)` with `e = 1` on a
large step and `e = 0` otherwise. -/
theorem mutationStep_film (env : RenderEnv) (scene : Scene) (r : PSSMLTRenderer)
    (B : ℚ) (oracle : List PSSMLTCall → ℚ) (fuel : Nat)
    (context context' : PSSMLTThreadContext)
    (h : mutationStep env scene r B oracle fuel context = some context') :
    ∃ (L : Vec3) (rasterPos : Vec2) (mid : PSSMLTThreadContext) (a : ℚ),
      SampleAndEvaluatePath env scene r fuel (sampler oracle)
          { context with calls := context.calls ++ [PSSMLTCall.RngNext] ++
              [PSSMLTCall.SetLargeStep (decide (oracle context.calls < r.largeStepProb))] }
        = some (L, rasterPos, mid) ∧
      a = acceptanceRatio (env.Luminance (context.records context.current).L)
        (env.Luminance L) ∧
      (r.estimatorMode = PSSMLTEstimatorMode.Normal →
        context'.film = context.film ++
          [((context'.records context'.current).rasterPos,
              (context'.records context'.current).L * B
                / env.Luminance (context'.records context'.current).L)]) ∧
      (r.estimatorMode = PSSMLTEstimatorMode.MeanValueSubstitution →
        context'.film = context.film ++
          [((context.records context.current).rasterPos,
              (context.records context.current).L * (1 - a) * B
                / env.Luminance (context.records context.current).L),
            (rasterPos, L * a * B / env.Luminance L)]) ∧
      (r.estimatorMode = PSSMLTEstimatorMode.MeanValueSubstitution_LargeStepMIS →
        context'.film = context.film ++
          [((context.records context.current).rasterPos,
              (context.records context.current).L * (1 - a)
                / (env.Luminance (context.records context.current).L / B + r.largeStepProb)),
            (rasterPos,
              L * (a + (if oracle context.calls < r.largeStepProb then 1 else 0))
                / (env.Luminance L / B + r.largeStepProb))]) := by
  obtain ⟨e, L, rasterPos, mid, a, accepted, he, hs, _, ha, _, _, _, _, _, f1, f2, f3⟩ :=
    mutationStep_some env scene r B oracle fuel context context' h
  subst he
  refine ⟨L, rasterPos, mid, a, hs, ha, f3, f1, ?_⟩
  intro hm
  rw [f2 hm]
  simp only [decide_eq_true_eq]

end PSSMLTRenderer

namespace PSSMLTRenderer

/-- The sample mutation step (normal mode) satisfies the hypothesis of
`mutationStep_accept_reject`: it returns, with one call of `Reject` and none of
`Accept`. -/
theorem mutationStep_accept_reject_witness :
    ∃ context', mutationStep Sample.env Sample.litScene
        (Sample.pssmlt PSSMLTEstimatorMode.Normal) 2 Sample.pssmltOracle 5
        Sample.threadContext = some context' ∧
      (context'.calls.drop Sample.threadContext.calls.length).count PSSMLTCall.Accept
        + (context'.calls.drop Sample.threadContext.calls.length).count PSSMLTCall.Reject
        = 1 :=
  match Option.isSome_iff_exists.mp
    (by decide! : (mutationStep Sample.env Sample.litScene
      (Sample.pssmlt PSSMLTEstimatorMode.Normal) 2 Sample.pssmltOracle 5
      Sample.threadContext).isSome = true) with
  | ⟨c, hc⟩ =>
    ⟨c, hc,
      match mutationStep_accept_reject Sample.env Sample.litScene
        (Sample.pssmlt PSSMLTEstimatorMode.Normal) 2 Sample.pssmltOracle 5
        Sample.threadContext c hc with
      | ⟨_, _, _, _, _, _, _, _, _, h⟩ => h⟩

/-- The sample mutation step (mean-value substitution) satisfies the hypothesis of
`mutationStep_film`: it returns, and the film receives two contributions. -/
theorem mutationStep_film_witness :
    ∃ context', mutationStep Sample.env Sample.litScene
        (Sample.pssmlt PSSMLTEstimatorMode.MeanValueSubstitution) 2 Sample.pssmltOracle 5
        Sample.threadContext = some context' ∧
      context'.film.length = 2 :=
  match Option.isSome_iff_exists.mp
    (by decide! : (mutationStep Sample.env Sample.litScene
      (Sample.pssmlt PSSMLTEstimatorMode.MeanValueSubstitution) 2 Sample.pssmltOracle 5
      Sample.threadContext).isSome = true) with
  | ⟨c, hc⟩ =>
    ⟨c, hc,
      match mutationStep_film Sample.env Sample.litScene
        (Sample.pssmlt PSSMLTEstimatorMode.MeanValueSubstitution) 2 Sample.pssmltOracle 5
        Sample.threadContext c hc with
      | ⟨_, _, _, _, _, _, _, h, _⟩ => by rw [h rfl]; rfl⟩

end PSSMLTRenderer

namespace PSSMLTRenderer

theorem NextVec2_sim {σ : Type} (S : PSSMLTSampler σ) (R : σ → σ → Prop)
    (hN : ∀ a b, R a b → (S.Next a).1 = (S.Next b).1 ∧ R (S.Next a).2 (S.Next b).2)
    (a b : σ) (h : R a b) :
    (S.NextVec2 a).1 = (S.NextVec2 b).1 ∧ R (S.NextVec2 a).2 (S.NextVec2 b).2 := by
  obtain ⟨h1, h2⟩ := hN a b h
  obtain ⟨h3, h4⟩ := hN _ _ h2
  unfold PSSMLTSampler.NextVec2
  simp only [h1, h3]
  exact ⟨trivial, h4⟩

/-- One iteration of the path loop on two samplers in related states: the same variables
and the same decision, and the samplers stay related. -/
theorem pathStep_sim {σ : Type} (env : RenderEnv) (scene : Scene) (r : PSSMLTRenderer)
    (S : PSSMLTSampler σ) (R : σ → σ → Prop)
    (hN : ∀ a b, R a b → (S.Next a).1 = (S.Next b).1 ∧ R (S.Next a).2 (S.Next b).2)
    (ps : PathState) (a b : σ) (h : R a b) :
    (pathStep env scene r S ps a).1 = (pathStep env scene r S ps b).1 ∧
      (pathStep env scene r S ps a).2.2 = (pathStep env scene r S ps b).2.2 ∧
      R (pathStep env scene r S ps a).2.1 (pathStep env scene r S ps b).2.1 := by
  obtain ⟨hv, hR2⟩ := NextVec2_sim S R hN a b h
  obtain ⟨he, hR3⟩ := hN _ _ hR2
  unfold pathStep
  cases hq : scene.Query ps.ray with
  | none => exact ⟨rfl, rfl, h⟩
  | some isect =>
    simp only [hv, he]
    cases hsd : isect.bsdf.SampleDirection _ isect.geom with
    | none => exact ⟨rfl, rfl, hR2⟩
    | some bsdfSR =>
      simp only
      split_ifs
      · exact ⟨rfl, rfl, hR2⟩
      · exact ⟨rfl, rfl, hR3⟩
      · exact ⟨rfl, rfl, hR3⟩
      · exact ⟨rfl, rfl, hR2⟩

theorem pathLoop_sim {σ : Type} (env : RenderEnv) (scene : Scene) (r : PSSMLTRenderer)
    (S : PSSMLTSampler σ) (R : σ → σ → Prop)
    (hN : ∀ a b, R a b → (S.Next a).1 = (S.Next b).1 ∧ R (S.Next a).2 (S.Next b).2) :
    ∀ (fuel : Nat) (ps ps' : PathState) (a a' b : σ), R a b →
      pathLoop env scene r S fuel ps a = some (ps', a') →
      ∃ b', pathLoop env scene r S fuel ps b = some (ps', b') ∧ R a' b' := by
  intro fuel
  induction fuel with
  | zero => intro ps ps' a a' b _ h; simp [pathLoop] at h
  | succ fuel ih =>
    intro ps ps' a a' b hR h
    obtain ⟨e1, e2, e3⟩ := pathStep_sim env scene r S R hN ps a b hR
    unfold pathLoop at h ⊢
    revert h e1 e2 e3
    generalize pathStep env scene r S ps a = ra
    generalize pathStep env scene r S ps b = rb
    obtain ⟨p1, t1, c1⟩ := ra
    obtain ⟨p2, t2, c2⟩ := rb
    intro e1 e2 e3 h
    simp only at e1 e2 e3
    subst e1; subst e2
    cases c1 with
    | false =>
      simp only [Option.some.injEq, Prod.mk.injEq] at h ⊢
      obtain ⟨h1, h2⟩ := h
      subst h1; subst h2
      exact ⟨t2, ⟨rfl, rfl⟩, e3⟩
    | true =>
      simp only at h ⊢
      exact ih p1 ps' t1 a' t2 e3 h

theorem SampleAndEvaluatePath_sim {σ : Type} (env : RenderEnv) (scene : Scene)
    (r : PSSMLTRenderer) (S : PSSMLTSampler σ) (R : σ → σ → Prop)
    (hN : ∀ a b, R a b → (S.Next a).1 = (S.Next b).1 ∧ R (S.Next a).2 (S.Next b).2)
    (fuel : Nat) (a a' b : σ) (L : Vec3) (rasterPos : Vec2) (hR : R a b)
    (h : SampleAndEvaluatePath env scene r fuel S a = some (L, rasterPos, a')) :
    ∃ b', SampleAndEvaluatePath env scene r fuel S b = some (L, rasterPos, b') ∧ R a' b' := by
  obtain ⟨hv1, hR1⟩ := NextVec2_sim S R hN a b hR
  obtain ⟨hv2, hR2⟩ := NextVec2_sim S R hN _ _ hR1
  unfold SampleAndEvaluatePath at h ⊢
  simp only [hv1, hv2] at h ⊢
  cases hsd : scene.MainCamera.SampleDirection _ (scene.MainCamera.SamplePosition _).1 with
  | none => rw [hsd] at h; simp at h
  | some bsdfSR =>
    rw [hsd] at h
    simp only at h ⊢
    split at h
    · simp at h
    · rename_i ps1 s1 heq
      obtain ⟨b', hb, hRb⟩ := pathLoop_sim env scene r S R hN fuel _ _ _ _ _ hR2 heq
      simp only [Option.some.injEq, Prod.mk.injEq] at h
      obtain ⟨h1, h2, h3⟩ := h
      subst h1; subst h2; subst h3
      exact ⟨b', by rw [hb], hRb⟩

end PSSMLTRenderer

namespace PSSMLTRestorableSampler

theorem SameState.sameState_symm {s1 s2 : PSSMLTRestorableSampler} (h : SameState s1 s2) :
    SameState s2 s1 :=
  ⟨h.1.symm, fun i hi => (h.2 i (by rw [h.1]; exact hi)).symm⟩

theorem SameState.sameState_next (s1 s2 : PSSMLTRestorableSampler) (h : SameState s1 s2) :
    (sampler.Next s1).1 = (sampler.Next s2).1 ∧
      SameState (sampler.Next s1).2 (sampler.Next s2).2 := by
  obtain ⟨h1, h2⟩ := h
  refine ⟨?_, ?_, ?_⟩
  · show s1.stream s1.index = s2.stream s2.index
    rw [← h1]; exact h2 _ (le_refl _)
  · show s1.index + 1 = s2.index + 1
    rw [h1]
  · intro i hi
    exact h2 i (Nat.le_of_succ_le hi)

end PSSMLTRestorableSampler

namespace PSSMLTRenderer

open PSSMLTRestorableSampler

/-- The accumulators of the candidate loop, in terms of the list of the samples. -/
theorem seedCandidatesLoop_eq (env : RenderEnv) (scene : Scene) (r : PSSMLTRenderer)
    (fuel : Nat) :
    ∀ (n : Nat) (s : PSSMLTRestorableSampler) (sumI : ℚ) (candidates : List PSSMLTPathSeed),
      seedCandidatesLoop env scene r fuel n s sumI candidates
        = (seedSamples env scene r fuel n s).map (fun x =>
            (sumI + ((x.1.filter (fun y => !Vec3.IsZero y.2)).map
                (fun y => env.Luminance y.2)).sum,
              candidates ++ (x.1.filter (fun y => !Vec3.IsZero y.2)).map
                (fun y => (⟨y.1, env.Luminance y.2⟩ : PSSMLTPathSeed)),
              x.2)) := by
  intro n
  induction n with
  | zero =>
    intro s sumI candidates
    simp [seedCandidatesLoop, seedSamples]
  | succ n ih =>
    intro s sumI candidates
    unfold seedCandidatesLoop seedSamples
    cases hs : SampleAndEvaluatePath env scene r fuel PSSMLTRestorableSampler.sampler s with
    | none => rfl
    | some res =>
      obtain ⟨L, rp, s'⟩ := res
      simp only
      cases hz : Vec3.IsZero L with
      | true =>
        simp only [Bool.not_true, Bool.false_eq_true, if_false]
        rw [ih]
        cases seedSamples env scene r fuel n s' with
        | none => rfl
        | some x =>
          obtain ⟨rest, s''⟩ := x
          simp [List.filter_cons, hz]
      | false =>
        simp only [Bool.not_false, if_true]
        rw [ih]
        cases seedSamples env scene r fuel n s' with
        | none => rfl
        | some x =>
          obtain ⟨rest, s''⟩ := x
          simp [List.filter_cons, hz, add_assoc]

/-- The seeds sampled for the threads are candidates, one per thread. -/
theorem sampleSeedsLoop_mem (candidates : List PSSMLTPathSeed) (cdf : List ℚ) :
    ∀ (n : Nat) (s s' : PSSMLTRestorableSampler) (seeds0 seeds : List PSSMLTPathSeed),
      sampleSeedsLoop candidates cdf n s seeds0 = some (seeds, s') →
      ∃ new, seeds = seeds0 ++ new ∧ new.length = n ∧ ∀ x ∈ new, x ∈ candidates := by
  intro n
  induction n with
  | zero =>
    intro s s' seeds0 seeds h
    simp only [sampleSeedsLoop, Option.some.injEq, Prod.mk.injEq] at h
    exact ⟨[], by rw [← h.1, List.append_nil], rfl, by simp⟩
  | succ n ih =>
    intro s s' seeds0 seeds h
    unfold sampleSeedsLoop at h
    simp only at h
    split at h
    · simp at h
    · rename_i candidate hc
      obtain ⟨new, h1, h2, h3⟩ := ih _ _ _ _ h
      refine ⟨candidate :: new, by rw [h1, List.append_assoc]; rfl, by simp [h2], ?_⟩
      intro x hx
      rcases List.mem_cons.mp hx with hx | hx
      · rw [hx]
        exact List.mem_iff_getElem?.mpr ⟨_, hc⟩
      · exact h3 x hx

theorem seedSamples_sim (env : RenderEnv) (scene : Scene) (r : PSSMLTRenderer) (fuel : Nat) :
    ∀ (n : Nat) (s1 s2 s1' : PSSMLTRestorableSampler) (samples : List (Int × Vec3)),
      SameState s1 s2 → seedSamples env scene r fuel n s1 = some (samples, s1') →
      ∃ s2', seedSamples env scene r fuel n s2 = some (samples, s2') ∧ SameState s1' s2' := by
  intro n
  induction n with
  | zero =>
    intro s1 s2 s1' samples hS h
    simp only [seedSamples, Option.some.injEq, Prod.mk.injEq] at h ⊢
    obtain ⟨h1, h2⟩ := h
    subst h1; subst h2
    exact ⟨s2, ⟨rfl, rfl⟩, hS⟩
  | succ n ih =>
    intro s1 s2 s1' samples hS h
    unfold seedSamples at h ⊢
    cases hs : SampleAndEvaluatePath env scene r fuel PSSMLTRestorableSampler.sampler s1 with
    | none => rw [hs] at h; simp at h
    | some res =>
      obtain ⟨L, rp, t1⟩ := res
      rw [hs] at h
      obtain ⟨t2, ht2, hT⟩ := SampleAndEvaluatePath_sim env scene r
        PSSMLTRestorableSampler.sampler SameState SameState.sameState_next fuel s1 t1 s2 L rp
        hS hs
      rw [ht2]
      simp only at h ⊢
      cases hrest : seedSamples env scene r fuel n t1 with
      | none => rw [hrest] at h; simp at h
      | some x =>
        obtain ⟨rest, u1⟩ := x
        rw [hrest] at h
        obtain ⟨u2, hu2, hU⟩ := ih t1 t2 u1 rest hT hrest
        rw [hu2]
        simp only [Option.some.injEq, Prod.mk.injEq] at h ⊢
        obtain ⟨h1, h2⟩ := h
        subst h1; subst h2
        refine ⟨u2, ⟨?_, rfl⟩, hU⟩
        unfold Index
        rw [hS.1]

theorem sampleSeedsLoop_sim (candidates : List PSSMLTPathSeed) (cdf : List ℚ) :
    ∀ (n : Nat) (s1 s2 s1' : PSSMLTRestorableSampler) (seeds0 seeds : List PSSMLTPathSeed),
      SameState s1 s2 → sampleSeedsLoop candidates cdf n s1 seeds0 = some (seeds, s1') →
      ∃ s2', sampleSeedsLoop candidates cdf n s2 seeds0 = some (seeds, s2') ∧
        SameState s1' s2' := by
  intro n
  induction n with
  | zero =>
    intro s1 s2 s1' seeds0 seeds hS h
    simp only [sampleSeedsLoop, Option.some.injEq, Prod.mk.injEq] at h ⊢
    obtain ⟨h1, h2⟩ := h
    subst h1; subst h2
    exact ⟨s2, ⟨rfl, rfl⟩, hS⟩
  | succ n ih =>
    intro s1 s2 s1' seeds0 seeds hS h
    obtain ⟨hv, hN⟩ := SameState.sameState_next s1 s2 hS
    unfold sampleSeedsLoop at h ⊢
    have hv' : s1.Next.1 = s2.Next.1 := hv
    simp only [hv'] at h ⊢
    split at h
    · simp at h
    · exact ih _ _ _ _ _ hN h

/-- Claim C18: `GenerateAndSampleSeeds` is a function of the scene and of the stream state
of the restorable sampler: a run from a sampler in the same stream state (as many outputs
consumed, the same outputs to come) returns the same `B` and the same seeds, and leaves
the samplers in the same stream state.  `B` is the sum of the luminances of the non-zero
samples among the `numSeedSamples` light paths sampled, divided by `numSeedSamples`;
there is one seed per thread, and every seed holds the luminance of a non-zero sample and
the value of `Index()` just before that sample was drawn. -/
theorem GenerateAndSampleSeeds_deterministic (env : RenderEnv) (scene : Scene)
    (r : PSSMLTRenderer) (fuel : Nat) (s1 s2 s1' : PSSMLTRestorableSampler) (B : ℚ)
    (seeds : List PSSMLTPathSeed) (hS : SameState s1 s2)
    (h : GenerateAndSampleSeeds env scene r fuel s1 = some (B, seeds, s1')) :
    (∃ s2', GenerateAndSampleSeeds env scene r fuel s2 = some (B, seeds, s2') ∧
        SameState s1' s2') ∧
      ∃ (samples : List (Int × Vec3)) (mid : PSSMLTRestorableSampler),
        seedSamples env scene r fuel r.numSeedSamples.toNat s1 = some (samples, mid) ∧
        B = ((samples.filter (fun x => !Vec3.IsZero x.2)).map
              (fun x => env.Luminance x.2)).sum / (r.numSeedSamples : ℚ) ∧
        seeds.length = r.numThreads.toNat ∧
        ∀ seed ∈ seeds, ∃ x ∈ samples, Vec3.IsZero x.2 = false ∧
          seed = ⟨x.1, env.Luminance x.2⟩ := by
  unfold GenerateAndSampleSeeds at h
  rw [seedCandidatesLoop_eq] at h
  cases hs : seedSamples env scene r fuel r.numSeedSamples.toNat s1 with
  | none => rw [hs] at h; simp at h
  | some x =>
    obtain ⟨samples, mid⟩ := x
    rw [hs] at h
    simp only [Option.map_some', zero_add, List.nil_append] at h
    split at h
    · simp at h
    · rename_i seeds' t1 hloop
      simp only [Option.some.injEq, Prod.mk.injEq] at h
      obtain ⟨hB, hseeds, ht⟩ := h
      subst hseeds; subst ht
      obtain ⟨mid2, hs2, hM⟩ := seedSamples_sim env scene r fuel _ s1 s2 mid samples hS hs
      obtain ⟨t2, hloop2, hT⟩ := sampleSeedsLoop_sim _ _ _ mid mid2 t1 [] seeds' hM hloop
      obtain ⟨new, hnew, hlen, hmem⟩ := sampleSeedsLoop_mem _ _ _ _ _ _ _ hloop
      rw [List.nil_append] at hnew
      subst hnew
      refine ⟨⟨t2, ?_, hT⟩, samples, mid, rfl, hB.symm, hlen, ?_⟩
      · unfold GenerateAndSampleSeeds
        rw [seedCandidatesLoop_eq, hs2]
        simp only [Option.map_some', zero_add, List.nil_append, hloop2, hB]
      · intro seed hseed
        obtain ⟨x, hx, hxe⟩ := List.mem_map.mp (hmem seed hseed)
        obtain ⟨hx1, hx2⟩ := List.mem_filter.mp hx
        refine ⟨x, hx1, ?_, hxe.symm⟩
        simpa using hx2

/-- Two sample samplers in the same stream state after seven outputs, with different
outputs before, satisfy the hypotheses of `GenerateAndSampleSeeds_deterministic`. -/
theorem GenerateAndSampleSeeds_deterministic_witness :
    ∃ (B : ℚ) (seeds : List PSSMLTPathSeed) (s1' s2' : PSSMLTRestorableSampler),
      GenerateAndSampleSeeds Sample.env Sample.litScene
          (Sample.pssmlt PSSMLTEstimatorMode.Normal) 5 (Sample.restorableSampler7 0)
        = some (B, seeds, s1') ∧
      GenerateAndSampleSeeds Sample.env Sample.litScene
          (Sample.pssmlt PSSMLTEstimatorMode.Normal) 5 (Sample.restorableSampler7 1)
        = some (B, seeds, s2') :=
  match Option.isSome_iff_exists.mp
    (by decide! : (GenerateAndSampleSeeds Sample.env Sample.litScene
      (Sample.pssmlt PSSMLTEstimatorMode.Normal) 5 (Sample.restorableSampler7 0)).isSome
        = true) with
  | ⟨(B, seeds, s1'), hc⟩ =>
    match (GenerateAndSampleSeeds_deterministic Sample.env Sample.litScene
      (Sample.pssmlt PSSMLTEstimatorMode.Normal) 5 (Sample.restorableSampler7 0)
      (Sample.restorableSampler7 1) s1' B seeds
      ⟨rfl, fun i hi => by
        have h7 : ¬ i < 7 := not_lt.mpr hi
        simp only [Sample.restorableSampler7, h7, if_false]⟩ hc).1 with
    | ⟨s2', h2, _⟩ => ⟨B, seeds, s1', s2', hc, h2⟩

end PSSMLTRenderer

namespace BPTSubpath

end BPTSubpath

namespace Math

end Math

namespace BPTSubpath

end BPTSubpath

namespace Sample

theorem sqrt_near : sqrt (1 / 4000000) = 1 / 2000 := by
  have h1 : Nat.sqrt 4000000 = 2000 := Nat.sqrt_eq 2000
  have h2 : Nat.sqrt 1 = 1 := Nat.sqrt_eq 1
  have h3 : (1 / 4000000 : ℚ).num.toNat = 1 := by decide!
  have h4 : (1 / 4000000 : ℚ).den = 4000000 := by decide!
  unfold sqrt
  rw [h3, h4, h1, h2]
  norm_num

end Sample

namespace BPTFullPath

/-- Claim C21 fails for close connection vertices: for the vertices `y1` at the origin
and `nearVertex` at the distance `1/2000`, with `Eps = 1/1000`, the shadow ray has
`minT = 1/1000` and `maxT = 999/2000000`, so `maxT < minT`. -/
theorem shadowRay_maxT_lt_minT :
    (shadowRay Sample.env Sample.y1 Sample.nearVertex).minT = 1 / 1000 ∧
      (shadowRay Sample.env Sample.y1 Sample.nearVertex).maxT = 999 / 2000000 ∧
      ¬ ((shadowRay Sample.env Sample.y1 Sample.nearVertex).minT
        < (shadowRay Sample.env Sample.y1 Sample.nearVertex).maxT) := by
  have h : Vec3.Length Sample.sqrt ⟨0, 0, 1 / 2000⟩ = 1 / 2000 := by
    unfold Vec3.Length Vec3.Dot
    norm_num
    exact Sample.sqrt_near
  have hr : shadowRay Sample.env Sample.y1 Sample.nearVertex
      = ⟨⟨0, 0, 0⟩, ⟨0, 0, 1⟩, 1 / 1000, 999 / 2000000⟩ := by
    unfold shadowRay
    simp only [Sample.nearVertex, Sample.y1, Sample.geom, Sample.env, Vec3.sub_def]
    norm_num [h, Vec3.sdiv_def]
  rw [hr]
  norm_num

/-- Claim C21, amended: the shadow ray built for the connection vertices `vL = y_{s-1}` and
`vE = z_{t-1}` has `minT = Eps` and `maxT = |z - y| (1 - Eps)`, where `|z - y|` is the
length that `Math::Length` computes; with `0 < Eps < 1`, `0 <= minT` holds, `minT < maxT`
holds exactly when that length exceeds `Eps / (1 - Eps)`, and `maxT <= minT` holds for
every other pair of vertices. -/
theorem shadowRay_invariant (env : RenderEnv) (vL vE : BPTPathVertex) (h0 : 0 < env.Eps)
    (h1 : env.Eps < 1) :
    (shadowRay env vL vE).minT = env.Eps ∧
      (shadowRay env vL vE).maxT
        = Vec3.Length env.Sqrt (vE.geom.p - vL.geom.p) * (1 - env.Eps) ∧
      0 ≤ (shadowRay env vL vE).minT ∧
      ((shadowRay env vL vE).minT < (shadowRay env vL vE).maxT ↔
        env.Eps / (1 - env.Eps) < Vec3.Length env.Sqrt (vE.geom.p - vL.geom.p)) ∧
      ((shadowRay env vL vE).maxT ≤ (shadowRay env vL vE).minT ↔
        Vec3.Length env.Sqrt (vE.geom.p - vL.geom.p) ≤ env.Eps / (1 - env.Eps)) := by
  have hpos : 0 < 1 - env.Eps := by linarith
  have key : (shadowRay env vL vE).minT < (shadowRay env vL vE).maxT ↔
      env.Eps / (1 - env.Eps) < Vec3.Length env.Sqrt (vE.geom.p - vL.geom.p) := by
    show env.Eps < Vec3.Length env.Sqrt (vE.geom.p - vL.geom.p) * (1 - env.Eps) ↔ _
    rw [div_lt_iff₀ hpos]
  refine ⟨rfl, rfl, le_of_lt h0, key, ?_⟩
  rw [← not_lt, ← not_lt, key]

/-- The vertices `y1` at the origin and `z0` at `(3, 0, 4)`, whose computed distance is
`5`, and `Eps = 1/1000` satisfy the hypotheses of `shadowRay_invariant`. -/
theorem shadowRay_invariant_witness :
    (shadowRay Sample.env Sample.y1 (Sample.z0 true)).minT
      < (shadowRay Sample.env Sample.y1 (Sample.z0 true)).maxT :=
  have hd : Vec3.Dot ((Sample.z0 true).geom.p - Sample.y1.geom.p)
      ((Sample.z0 true).geom.p - Sample.y1.geom.p) = 25 := by
    simp only [Sample.z0, Sample.y1, Sample.geom, Vec3.sub_def, Vec3.Dot]
    norm_num
  have hs : Sample.env.Sqrt 25 = 5 := Sample.sqrt_25
  (shadowRay_invariant Sample.env Sample.y1 (Sample.z0 true)
    (by norm_num [Sample.env]) (by norm_num [Sample.env])).2.2.2.1.mpr
    (by unfold Vec3.Length; rw [hd, hs]; norm_num [Sample.env])

end BPTFullPath

namespace PSSMLTRenderer

theorem configureEstimatorMode_none (estimator_mode : Option String) :
    configureEstimatorMode estimator_mode = none ↔
      ∃ v, estimator_mode = some v ∧ v ≠ "normal" ∧ v ≠ "mvs" ∧ v ≠ "mvs_mis" := by
  unfold configureEstimatorMode
  cases estimator_mode with
  | none => simp
  | some v =>
    simp only [Option.some.injEq, exists_eq_left']
    split_ifs <;> simp_all

/-- Claim C22: `Configure` returns false if and only if the attribute `type` differs from
the type of the renderer, or `samples_per_block` (default 100) is not positive, or the
generator type (default `sfmt`) is not supported, or `estimator_mode` is present with a
value other than `normal`, `mvs` and `mvs_mis`.  When it returns true, `numThreads >= 1`:
a configured value `n > 0` is kept and a value `n <= 0` becomes
`max(1, hardware_concurrency + n)`; and a missing `estimator_mode` selects mean-value
substitution with large-step MIS. -/
theorem Configure_spec (selfType : String) (hardware_concurrency : Int)
    (CheckSupport : String → Bool) (node : PSSMLTConfigNode) :
    (Configure selfType hardware_concurrency CheckSupport node = none ↔
        (node.type ≠ selfType ∨ node.samples_per_block.getD 100 ≤ 0 ∨
          CheckSupport (node.rng.getD ("sfmt")) = false ∨
          ∃ v, node.estimator_mode = some v ∧ v ≠ "normal" ∧ v ≠ "mvs" ∧ v ≠ "mvs_mis")) ∧
      ∀ r, Configure selfType hardware_concurrency CheckSupport node = some r →
        r.numThreads ≥ 1 ∧ r.samplesPerBlock > 0 ∧
        (∀ n, node.num_threads = some n → 0 < n → r.numThreads = n) ∧
        (∀ n, node.num_threads = some n → n ≤ 0 →
          r.numThreads = max 1 (hardware_concurrency + n)) ∧
        (node.estimator_mode = none →
          r.estimatorMode = PSSMLTEstimatorMode.MeanValueSubstitution_LargeStepMIS) := by
  constructor
  · unfold Configure
    simp only
    by_cases h1 : node.type ≠ selfType
    · simp [h1]
    · by_cases h2 : node.samples_per_block.getD 100 ≤ 0
      · simp [h2]
      · by_cases h3 : CheckSupport (node.rng.getD ("sfmt")) = false
        · simp [h3]
        · rw [if_neg h1, if_neg h2]
          have h3' : CheckSupport (node.rng.getD ("sfmt")) = true := by
            simpa using h3
          simp only [h3', Bool.not_true, Bool.false_eq_true, if_false]
          rw [← configureEstimatorMode_none]
          cases configureEstimatorMode node.estimator_mode with
          | none => simp
          | some m => simp [h1, h2]
  · intro r hr
    unfold Configure at hr
    simp only at hr
    by_cases h1 : node.type ≠ selfType
    · rw [if_pos h1] at hr
      cases hr
    · rw [if_neg h1] at hr
      by_cases h2 : node.samples_per_block.getD 100 ≤ 0
      · rw [if_pos h2] at hr
        cases hr
      · rw [if_neg h2] at hr
        by_cases h3 : (!CheckSupport (node.rng.getD ("sfmt"))) = true
        · rw [if_pos h3] at hr
          cases hr
        · rw [if_neg h3] at hr
          cases hm : configureEstimatorMode node.estimator_mode with
          | none => rw [hm] at hr; simp at hr
          | some m =>
            rw [hm] at hr
            simp only [Option.some.injEq] at hr
            subst hr
            simp only
            refine ⟨?_, ?_, ?_, ?_, ?_⟩
            · split_ifs with h4
              · exact le_max_left _ _
              · omega
            · omega
            · intro n hn hpos
              rw [hn]
              simp only [Option.getD_some]
              rw [if_neg (by omega)]
            · intro n hn hle
              rw [hn]
              simp only [Option.getD_some]
              rw [if_pos hle]
            · intro hnone
              rw [hnone] at hm
              simp only [configureEstimatorMode, Option.some.injEq] at hm
              exact hm.symm

/-- The sample node is accepted, with six threads on a machine with eight hardware
threads and with the default estimator mode. -/
theorem Configure_spec_witness :
    Configure ("pssmlt") 8 Sample.checkSupport Sample.pssmltNode = some Sample.pssmltConfig ∧
      Sample.pssmltConfig.numThreads = max 1 (8 + (-2)) :=
  have h : Configure ("pssmlt") 8 Sample.checkSupport Sample.pssmltNode
      = some Sample.pssmltConfig := by decide!
  ⟨h, ((Configure_spec ("pssmlt") 8 Sample.checkSupport Sample.pssmltNode).2
    Sample.pssmltConfig h).2.2.2.1 (-2) rfl (by decide)⟩

end PSSMLTRenderer

theorem Mat3.one_mulVec3 (v : Vec3) : (1 : Mat3).mulVec3 v = v := by
  show (⟨⟨1, 0, 0⟩, ⟨0, 1, 0⟩, ⟨0, 0, 1⟩⟩ : Mat3).mulVec3 v = v
  cases v
  simp [Mat3.mulVec3, Vec3.Dot]

namespace PerfectMirrorBSDF

theorem reflect_sub_self_norm (v : Vec3) :
    Math.LInfinityNorm (Math.ReflectZUp v - Math.ReflectZUp v) = 0 := by
  simp [Math.LInfinityNorm, Vec3.sub_def]

theorem smul_zero_vec (a : Vec3) : a * (0 : ℚ) = 0 := by
  rw [Vec3.smul_def, Vec3.zero_def]
  simp

theorem smul_eq_zero_iff (a : Vec3) (s : ℚ) : a * s = 0 ↔ a = 0 ∨ s = 0 := by
  rw [Vec3.smul_def, Vec3.zero_def]
  constructor
  · intro h
    simp only [Vec3.mk.injEq, mul_eq_zero] at h
    by_cases hs : s = 0
    · exact Or.inr hs
    · left
      obtain ⟨h1, h2, h3⟩ := h
      exact Vec3.vec3_ext (h1.resolve_right hs) (h2.resolve_right hs) (h3.resolve_right hs)
  · rintro (h | h)
    · rw [h]
      simp
    · rw [h]
      simp

/-- Claim C30 fails for a mirror of reflectance zero: with a correction factor of one,
`SampleAndEstimateDirectionBidir` succeeds and returns the weight zero for both transport
directions, the weight that `SampleAndEstimateDirection` returns. -/
theorem SampleAndEstimateDirectionBidir_zero_weight :
    (Sample.blackMirror.SampleAndEstimateDirection Sample.types Sample.noCorrection
        Sample.mirrorQuery (Sample.geom 0)).1 = 0 ∧
      ∃ res, Sample.blackMirror.SampleAndEstimateDirectionBidir Sample.types
          Sample.noCorrection Sample.mirrorQuery (Sample.geom 0) = some res ∧
        res.weight TransportDirection.EL = 0 ∧ res.weight TransportDirection.LE = 0 :=
  ⟨by decide!,
    match Option.isSome_iff_exists.mp
      (by decide! : (Sample.blackMirror.SampleAndEstimateDirectionBidir Sample.types
        Sample.noCorrection Sample.mirrorQuery (Sample.geom 0)).isSome = true) with
    | ⟨res, hres⟩ => ⟨res, hres, by
        unfold SampleAndEstimateDirectionBidir at hres
        simp only at hres
        split_ifs at hres
        simp only [Option.some.injEq] at hres
        rw [← hres]
        constructor <;> simp [Sample.blackMirror, smul_zero_vec, Vec3.smul_def, Vec3.zero_def]⟩⟩

/-- Claim C30, amended: for a geometry whose `worldToShading` inverts `shadingToWorld` and
`EpsLarge >= 0`, when `SampleDirection` returns the result `(wo, pdf)` for a query:
`EvaluateDirectionPDF(wi, wo)` returns the same PDF; `SampleAndEstimateDirection` writes
the same result and returns `R * s`, which is `EvaluateDirection(wi, wo) / pdf`, where
`s` is the shading-normal correction factor; and `SampleAndEstimateDirectionBidir`
succeeds exactly when `s` is not zero (when `R` is not the zero vector: exactly when the
weight `R * s` is not zero), returning the same direction, the weight `R * s` and the PDF
`pdf` for both transport directions. -/
theorem sample_evaluate_consistent (bsdf : PerfectMirrorBSDF) (T : GeneralizedBSDFType)
    (EpsLarge : ℚ)
    (ShadingNormalCorrectionFactor :
      TransportDirection → SurfaceGeometry → Vec3 → Vec3 → Vec3 → Vec3 → ℚ)
    (query : GeneralizedBSDFSampleQuery) (geom : SurfaceGeometry)
    (result : GeneralizedBSDFSampleResult)
    (hInv : ∀ v, geom.worldToShading.mulVec3 (geom.shadingToWorld.mulVec3 v) = v)
    (hEps : 0 ≤ EpsLarge) (h : bsdf.SampleDirection T query geom = some result) :
    bsdf.EvaluateDirectionPDF T EpsLarge
        ⟨query.type, query.transportDir, query.wi, result.wo⟩ geom = result.pdf ∧
      bsdf.SampleAndEstimateDirection T ShadingNormalCorrectionFactor query geom
        = (bsdf.R * ShadingNormalCorrectionFactor query.transportDir geom
            (geom.worldToShading.mulVec3 query.wi)
            (Math.ReflectZUp (geom.worldToShading.mulVec3 query.wi)) query.wi result.wo,
          some result) ∧
      bsdf.EvaluateDirection T EpsLarge ShadingNormalCorrectionFactor
          ⟨query.type, query.transportDir, query.wi, result.wo⟩ geom / result.pdf.v
        = bsdf.R * ShadingNormalCorrectionFactor query.transportDir geom
            (geom.worldToShading.mulVec3 query.wi)
            (Math.ReflectZUp (geom.worldToShading.mulVec3 query.wi)) query.wi result.wo ∧
      ((bsdf.SampleAndEstimateDirectionBidir T ShadingNormalCorrectionFactor query
            geom).isSome = true ↔
        ShadingNormalCorrectionFactor query.transportDir geom
          (geom.worldToShading.mulVec3 query.wi)
          (Math.ReflectZUp (geom.worldToShading.mulVec3 query.wi)) query.wi result.wo ≠ 0) ∧
      (bsdf.R ≠ 0 →
        ((bsdf.SampleAndEstimateDirectionBidir T ShadingNormalCorrectionFactor query
            geom).isSome = true ↔
          bsdf.R * ShadingNormalCorrectionFactor query.transportDir geom
            (geom.worldToShading.mulVec3 query.wi)
            (Math.ReflectZUp (geom.worldToShading.mulVec3 query.wi)) query.wi result.wo
            ≠ 0)) ∧
      ∀ res, bsdf.SampleAndEstimateDirectionBidir T ShadingNormalCorrectionFactor query geom
          = some res →
        res.wo = result.wo ∧ res.sampledType = result.sampledType ∧
        ∀ t, res.pdf t = result.pdf ∧
          res.weight t = bsdf.R * ShadingNormalCorrectionFactor query.transportDir geom
            (geom.worldToShading.mulVec3 query.wi)
            (Math.ReflectZUp (geom.worldToShading.mulVec3 query.wi)) query.wi result.wo := by
  unfold SampleDirection at h
  simp only at h
  split_ifs at h with hc
  push_neg at hc
  obtain ⟨hc1, hc2⟩ := hc
  simp only [Option.some.injEq] at h
  subst h
  have hcos : Math.CosThetaZUp (Math.ReflectZUp (geom.worldToShading.mulVec3 query.wi))
      = Math.CosThetaZUp (geom.worldToShading.mulVec3 query.wi) := rfl
  have hne : Math.CosThetaZUp (geom.worldToShading.mulVec3 query.wi) ≠ 0 := ne_of_gt hc2
  have hcond : ¬ (query.type &&& T.SpecularReflection = 0 ∨
      Math.CosThetaZUp (geom.worldToShading.mulVec3 query.wi) ≤ 0) := by
    push_neg
    exact ⟨hc1, hc2⟩
  have hcond3 : ¬ (query.type &&& T.SpecularReflection = 0 ∨
      Math.CosThetaZUp (geom.worldToShading.mulVec3 query.wi) ≤ 0 ∨
      Math.CosThetaZUp (Math.ReflectZUp (geom.worldToShading.mulVec3 query.wi)) ≤ 0) := by
    push_neg
    exact ⟨hc1, hc2, hc2⟩
  have hnorm : ¬ (Math.LInfinityNorm
      (Math.ReflectZUp (geom.worldToShading.mulVec3 query.wi)
        - Math.ReflectZUp (geom.worldToShading.mulVec3 query.wi)) > EpsLarge) := by
    rw [reflect_sub_self_norm]
    exact not_lt.mpr hEps
  have hbidir : ∀ s : ℚ, s = ShadingNormalCorrectionFactor query.transportDir geom
      (geom.worldToShading.mulVec3 query.wi)
      (Math.ReflectZUp (geom.worldToShading.mulVec3 query.wi)) query.wi
      (geom.shadingToWorld.mulVec3
        (Math.ReflectZUp (geom.worldToShading.mulVec3 query.wi))) →
      ((bsdf.SampleAndEstimateDirectionBidir T ShadingNormalCorrectionFactor query
        geom).isSome = true ↔ s ≠ 0) := by
    intro s hs
    unfold SampleAndEstimateDirectionBidir
    simp only
    rw [if_neg hcond, ← hs]
    by_cases h0 : s = 0
    · simp [h0]
    · simp [h0]
  refine ⟨?_, ?_, ?_, hbidir _ rfl, ?_, ?_⟩
  · unfold EvaluateDirectionPDF
    simp only [hInv]
    rw [if_neg hcond3, if_neg hnorm, hcos]
  · unfold SampleAndEstimateDirection
    simp only
    rw [if_neg hcond]
    split_ifs with h0
    · rw [h0, smul_zero_vec]
    · rfl
  · unfold EvaluateDirection
    simp only [hInv]
    rw [if_neg hcond3, if_neg hnorm, hcos]
    split_ifs with h0
    · rw [h0, smul_zero_vec, Vec3.sdiv_def, Vec3.zero_def]
      simp
    · rw [Vec3.smul_def, Vec3.smul_def, Vec3.sdiv_def]
      simp only [Vec3.mk.injEq]
      refine ⟨?_, ?_, ?_⟩ <;> field_simp
  · intro hR
    rw [hbidir _ rfl, Ne, Ne, smul_eq_zero_iff]
    tauto
  · intro res hres
    unfold SampleAndEstimateDirectionBidir at hres
    simp only at hres
    rw [if_neg hcond] at hres
    split_ifs at hres with h0
    simp only [Option.some.injEq] at hres
    subst hres
    refine ⟨rfl, rfl, ?_⟩
    intro t
    simp

/-- The sample mirror query, in the identity frame, satisfies the hypotheses of
`sample_evaluate_consistent`. -/
theorem sample_evaluate_consistent_witness :
    Sample.mirror.EvaluateDirectionPDF Sample.types (1 / 1000)
        ⟨4, TransportDirection.EL, ⟨3 / 5, 0, 4 / 5⟩, ⟨-3 / 5, 0, 4 / 5⟩⟩ (Sample.geom 0)
      = ⟨5 / 4, ProbabilityMeasure.ProjectedSolidAngle⟩ :=
  (sample_evaluate_consistent Sample.mirror Sample.types (1 / 1000) Sample.noCorrection
    Sample.mirrorQuery (Sample.geom 0)
    ⟨⟨-3 / 5, 0, 4 / 5⟩, 4, ⟨5 / 4, ProbabilityMeasure.ProjectedSolidAngle⟩⟩
    (fun v => by
      show (1 : Mat3).mulVec3 ((1 : Mat3).mulVec3 v) = v
      rw [Mat3.one_mulVec3, Mat3.one_mulVec3])
    (by norm_num) (by decide!)).1

end PerfectMirrorBSDF

namespace PSSMLTRenderer

open PSSMLTThreadContext

/-- One mutation step with a current record of positive luminance and a generator that
returns no negative number: the acceptance ratio is the quotient branch, a proposal whose
luminance is not positive is rejected, and the current record after the step has a
positive luminance. -/
theorem mutationStep_positive (env : RenderEnv) (scene : Scene) (r : PSSMLTRenderer) (B : ℚ)
    (oracle : List PSSMLTCall → ℚ) (fuel : Nat) (context context' : PSSMLTThreadContext)
    (hu : ∀ calls, 0 ≤ oracle calls)
    (h0 : 0 < env.Luminance (context.records context.current).L)
    (h : mutationStep env scene r B oracle fuel context = some context') :
    0 < env.Luminance (context'.records context'.current).L ∧
      (env.Luminance (context'.records (1 - context.current)).L ≤ 0 →
        context'.current = context.current ∧
          context'.records context'.current = context.records context.current) := by
  obtain ⟨e, L, rasterPos, mid, a, accepted, -, -, -, ha, hacc, -, c2, c3, c4, -⟩ :=
    mutationStep_some env scene r B oracle fuel context context' h
  have ha' : a = min 1 (env.Luminance L / env.Luminance (context.records context.current).L) := by
    rw [ha]
    unfold acceptanceRatio
    rw [if_pos h0]
  have hrej : env.Luminance L ≤ 0 → accepted = false := by
    intro hL
    rw [hacc, decide_eq_false_iff_not, not_lt]
    have h1 : a ≤ 0 := by
      rw [ha']
      exact le_trans (min_le_right _ _) (div_nonpos_of_nonpos_of_nonneg hL (le_of_lt h0))
    exact le_trans h1 (hu _)
  constructor
  · cases hb : accepted with
    | false =>
      rw [hb] at c2
      simp only [Bool.false_eq_true, if_false] at c2
      rw [c2, c3]
      exact h0
    | true =>
      rw [hb] at c2
      simp only [if_true] at c2
      rw [c2, c4]
      by_contra hcon
      have := hrej (not_lt.mp hcon)
      rw [hb] at this
      cases this
  · intro hL
    rw [c4] at hL
    have hb := hrej hL
    rw [hb] at c2
    simp only [Bool.false_eq_true, if_false] at c2
    rw [c2]
    exact ⟨rfl, c3⟩

/-- Claim C28: if the current record of a worker has a luminance `> 0` (the seed path) and
the uniform source returns values in `[0, 1)`, then after any number of mutation steps
the current record of the worker has a luminance `> 0`.  As the number of steps is
arbitrary, the luminance of the current record is positive before every step, where it
divides in the acceptance ratio, and after every step, where it divides in the normal
mode. -/
theorem mutationSteps_positive (env : RenderEnv) (scene : Scene) (r : PSSMLTRenderer) (B : ℚ)
    (oracle : List PSSMLTCall → ℚ) (fuel : Nat)
    (hu : ∀ calls, 0 ≤ oracle calls ∧ oracle calls < 1) :
    ∀ (n : Nat) (context context' : PSSMLTThreadContext),
      0 < env.Luminance (context.records context.current).L →
      mutationSteps env scene r B oracle fuel n context = some context' →
      0 < env.Luminance (context'.records context'.current).L := by
  intro n
  induction n with
  | zero =>
    intro context context' h0 h
    simp only [mutationSteps, Option.some.injEq] at h
    rw [← h]
    exact h0
  | succ n ih =>
    intro context context' h0 h
    unfold mutationSteps at h
    cases hs : mutationStep env scene r B oracle fuel context with
    | none => rw [hs] at h; simp at h
    | some mid =>
      rw [hs] at h
      exact ih mid context' (mutationStep_positive env scene r B oracle fuel context mid
        (fun c => (hu c).1) h0 hs).1 h

/-- Two mutation steps of the sample thread context, whose current record has the
luminance one, satisfy the hypotheses of `mutationSteps_positive`. -/
theorem mutationSteps_positive_witness :
    ∃ context', mutationSteps Sample.env Sample.litScene
        (Sample.pssmlt PSSMLTEstimatorMode.Normal) 2 Sample.pssmltOracle 5 2
        Sample.threadContext = some context' ∧
      0 < Sample.env.Luminance (context'.records context'.current).L :=
  match Option.isSome_iff_exists.mp
    (by decide! : (mutationSteps Sample.env Sample.litScene
      (Sample.pssmlt PSSMLTEstimatorMode.Normal) 2 Sample.pssmltOracle 5 2
      Sample.threadContext).isSome = true) with
  | ⟨c, hc⟩ =>
    ⟨c, hc, mutationSteps_positive Sample.env Sample.litScene
      (Sample.pssmlt PSSMLTEstimatorMode.Normal) 2 Sample.pssmltOracle 5
      (fun calls => by
        unfold Sample.pssmltOracle
        split_ifs <;> norm_num)
      2 Sample.threadContext c (by decide!) hc⟩

end PSSMLTRenderer

namespace PSSMLTRenderer

open DiscreteDistribution1D

end PSSMLTRenderer

namespace LighttraceRenderer

theorem connectToCamera_depth (env : RenderEnv) (scene : Scene) (r : LighttraceRenderer)
    (width height : Int) (st : LightPath) :
    (connectToCamera env scene r width height st).depth = st.depth := by
  unfold connectToCamera
  simp only
  split
  · split <;> rfl
  · rfl

theorem scatterStep_depth (env : RenderEnv) (scene : Scene) (st : LightPath)
    (h : (scatterStep env scene st).2 = true) :
    (scatterStep env scene st).1.depth = st.depth + 1 := by
  unfold scatterStep at h ⊢
  simp only at h ⊢
  split at h
  · simp at h
  · split at h
    · simp at h
    · split at h
      · simp at h
      · rename_i hq
        rename_i hz _ _ _
        simp only [*, if_false]
        rfl

/-- The counter `depth` is incremented twice in an iteration that goes on, and an
iteration entered with the counter `d` makes a roulette decision exactly when
`d + 1 >= rrDepth`. -/
theorem pathStep_roulette (env : RenderEnv) (scene : Scene) (r : LighttraceRenderer)
    (width height : Int) (st : LightPath) :
    ((pathStep env scene r width height st).2.1.isSome = true ↔ st.depth + 1 ≥ r.rrDepth) ∧
      ((pathStep env scene r width height st).2.2 = true →
        (pathStep env scene r width height st).1.depth = st.depth + 2) := by
  have hd := connectToCamera_depth env scene r width height st
  unfold pathStep
  simp only [hd]
  by_cases hrr : st.depth + 1 ≥ r.rrDepth
  · rw [if_pos hrr]
    split_ifs with hx
    · simp [hrr]
    · refine ⟨by simp [hrr], ?_⟩
      intro hc
      rw [scatterStep_depth env scene _ hc]
      simp only
      ring
  · rw [if_neg hrr]
    refine ⟨by simp [hrr], ?_⟩
    intro hc
    rw [scatterStep_depth env scene _ hc]
    simp only
    ring

/-- In the loop of `Render` the iteration number `k` (from zero) of a light path makes a
roulette decision exactly when `2 k + 1 >= rrDepth`. -/
theorem tracePath_roulette (env : RenderEnv) (scene : Scene) (r : LighttraceRenderer)
    (width height : Int) :
    ∀ (fuel : Nat) (st st' : LightPath) (roulettes rs : List (Option ℚ)),
      tracePath env scene r width height fuel st roulettes = some (st', rs) →
      ∃ new, rs = roulettes ++ new ∧
        ∀ (k : Nat) (x : Option ℚ), new[k]? = some x →
          (x.isSome = true ↔ st.depth + 2 * (k : Int) + 1 ≥ r.rrDepth) := by
  intro fuel
  induction fuel with
  | zero =>
    intro st st' roulettes rs h
    simp [tracePath] at h
  | succ fuel ih =>
    intro st st' roulettes rs h
    have hp := pathStep_roulette env scene r width height st
    unfold tracePath at h
    rcases hs : pathStep env scene r width height st with ⟨st1, roulette, c⟩
    rw [hs] at h hp
    simp only at hp
    cases c with
    | false =>
      simp only [Option.some.injEq, Prod.mk.injEq] at h
      refine ⟨[roulette], h.2.symm, ?_⟩
      intro k x hk
      rcases k with _ | k
      · simp only [List.getElem?_cons_zero, Option.some.injEq] at hk
        rw [← hk, hp.1]
        simp
      · simp at hk
    | true =>
      simp only at h
      obtain ⟨new, h1, h2⟩ := ih st1 st' _ rs h
      refine ⟨roulette :: new, by rw [h1, List.append_assoc]; rfl, ?_⟩
      intro k x hk
      rcases k with _ | k
      · simp only [List.getElem?_cons_zero, Option.some.injEq] at hk
        rw [← hk, hp.1]
        simp
      · simp only [List.getElem?_cons_succ] at hk
        rw [h2 k x hk, hp.2 rfl]
        push_cast
        constructor <;> intro hh <;> linarith

/-- Claim C25 on the light tracer: with `rr_depth = 3`, in a scene where every ray meets a
diffuse surface and with a generator that always returns `3/4`, the light path makes no
roulette decision in its first iteration and makes one, with the survival probability
`min(1/2, luminance(throughput)) = 1/2`, in its second iteration, where the claim allows
none before the third. -/
theorem samplePath_roulette_in_second_iteration :
    (samplePath Sample.env (Sample.scene true) Sample.lighttrace 4 4 10 []
        Sample.rngThreeQuarters).map (fun x => x.2) = some [none, some (1 / 2)] := by
  decide!

end LighttraceRenderer

namespace Vec3

theorem get_min (a b : Vec3) (i : Nat) :
    (Vec3.mk (min a.x b.x) (min a.y b.y) (min a.z b.z)).get i = min (a.get i) (b.get i) := by
  unfold Vec3.get
  split_ifs <;> rfl

theorem get_max (a b : Vec3) (i : Nat) :
    (Vec3.mk (max a.x b.x) (max a.y b.y) (max a.z b.z)).get i = max (a.get i) (b.get i) := by
  unfold Vec3.get
  split_ifs <;> rfl

end Vec3

namespace AABB

/-- A fold of point unions that starts from a box ends in a box, and each of its extreme
coordinates along an axis is that of the starting box or of a point that is folded in. -/
theorem foldl_unionPoint_attained (c : Nat → Vec3) (axis : Nat) :
    ∀ (l : List Nat) (lo hi : Vec3) (Q : Nat → Prop),
      (∃ k, Q k ∧ (c k).get axis = lo.get axis) → (∃ k, Q k ∧ (c k).get axis = hi.get axis) →
      ∃ lo2 hi2, l.foldl (fun bound k => bound.UnionPoint (c k)) (box lo hi) = box lo2 hi2 ∧
        (∃ k, (Q k ∨ k ∈ l) ∧ (c k).get axis = lo2.get axis) ∧
        (∃ k, (Q k ∨ k ∈ l) ∧ (c k).get axis = hi2.get axis) := by
  intro l
  induction l with
  | nil =>
    intro lo hi Q h1 h2
    obtain ⟨k1, q1, e1⟩ := h1
    obtain ⟨k2, q2, e2⟩ := h2
    exact ⟨lo, hi, rfl, ⟨k1, Or.inl q1, e1⟩, ⟨k2, Or.inl q2, e2⟩⟩
  | cons a l ih =>
    intro lo hi Q h1 h2
    obtain ⟨k1, q1, e1⟩ := h1
    obtain ⟨k2, q2, e2⟩ := h2
    have hstep : (box lo hi).UnionPoint (c a) =
        box ⟨min lo.x (c a).x, min lo.y (c a).y, min lo.z (c a).z⟩
          ⟨max hi.x (c a).x, max hi.y (c a).y, max hi.z (c a).z⟩ := rfl
    rw [List.foldl_cons, hstep]
    have hlo : ∃ k, (Q k ∨ k = a) ∧ (c k).get axis =
        (Vec3.mk (min lo.x (c a).x) (min lo.y (c a).y) (min lo.z (c a).z)).get axis := by
      rw [Vec3.get_min]
      rcases min_choice (lo.get axis) ((c a).get axis) with h | h
      · exact ⟨k1, Or.inl q1, by rw [h]; exact e1⟩
      · exact ⟨a, Or.inr rfl, by rw [h]⟩
    have hhi : ∃ k, (Q k ∨ k = a) ∧ (c k).get axis =
        (Vec3.mk (max hi.x (c a).x) (max hi.y (c a).y) (max hi.z (c a).z)).get axis := by
      rw [Vec3.get_max]
      rcases max_choice (hi.get axis) ((c a).get axis) with h | h
      · exact ⟨k2, Or.inl q2, by rw [h]; exact e2⟩
      · exact ⟨a, Or.inr rfl, by rw [h]⟩
    obtain ⟨lo2, hi2, hf, ⟨j1, m1, f1⟩, ⟨j2, m2, f2⟩⟩ := ih _ _ (fun k => Q k ∨ k = a) hlo hhi
    refine ⟨lo2, hi2, hf, ⟨j1, ?_, f1⟩, ⟨j2, ?_, f2⟩⟩
    · rcases m1 with (h | h) | h
      · exact Or.inl h
      · exact Or.inr (by rw [h]; exact List.mem_cons_self _ _)
      · exact Or.inr (List.mem_cons_of_mem _ h)
    · rcases m2 with (h | h) | h
      · exact Or.inl h
      · exact Or.inr (by rw [h]; exact List.mem_cons_self _ _)
      · exact Or.inr (List.mem_cons_of_mem _ h)

end AABB

namespace BVHScene

/-- The centroid bound of a non-empty range is a box, and its least and its greatest
coordinate along an axis are those of the centroids of two triangles of the range. -/
theorem rangeCentroidBound_attained (data : BVHBuildData) (idx : List Nat) (b e axis : Nat)
    (h : slice idx b e ≠ []) :
    ∃ lo hi, rangeCentroidBound data idx b e = AABB.box lo hi ∧
      (∃ k, k ∈ slice idx b e ∧ (data.triBoundCentroids.getD k 0).get axis = lo.get axis) ∧
      (∃ k, k ∈ slice idx b e ∧ (data.triBoundCentroids.getD k 0).get axis = hi.get axis) := by
  unfold rangeCentroidBound
  cases hs : slice idx b e with
  | nil => exact absurd hs h
  | cons a l =>
    rw [List.foldl_cons]
    have h0 : AABB.empty.UnionPoint (data.triBoundCentroids.getD a 0) =
        AABB.box (data.triBoundCentroids.getD a 0) (data.triBoundCentroids.getD a 0) := rfl
    rw [h0]
    obtain ⟨lo2, hi2, hf, ⟨j1, m1, f1⟩, ⟨j2, m2, f2⟩⟩ :=
      AABB.foldl_unionPoint_attained (fun k => data.triBoundCentroids.getD k 0) axis l
        (data.triBoundCentroids.getD a 0) (data.triBoundCentroids.getD a 0) (fun k => k = a)
        ⟨a, rfl, rfl⟩ ⟨a, rfl, rfl⟩
    refine ⟨lo2, hi2, hf, ⟨j1, ?_, f1⟩, ⟨j2, ?_, f2⟩⟩
    · rcases m1 with h | h
      · rw [h]; exact List.mem_cons_self _ _
      · exact List.mem_cons_of_mem _ h
    · rcases m2 with h | h
      · rw [h]; exact List.mem_cons_self _ _
      · exact List.mem_cons_of_mem _ h

/-- The least coordinate of a non-degenerate interval falls in the bucket 0. -/
theorem bucketIndex_lo (lo hi : ℚ) : bucketIndex (numBuckets : Nat) lo lo hi = 0 := by
  unfold bucketIndex castInt numBuckets
  have h0 : Rat.floor (0 : ℚ) = 0 := (Int.floor_zero : ⌊(0 : ℚ)⌋ = 0)
  simp [h0]

/-- The greatest coordinate of a non-degenerate interval falls in the last bucket. -/
theorem bucketIndex_hi (lo hi : ℚ) (h : lo ≠ hi) :
    bucketIndex (numBuckets : Nat) hi lo hi = 11 := by
  unfold bucketIndex castInt numBuckets
  have h2 : hi - lo ≠ 0 := sub_ne_zero.mpr (Ne.symm h)
  rw [div_self h2]
  have h3 : Rat.floor (((12 : Nat) : Int) : ℚ) = 12 :=
    (Int.floor_intCast (12 : ℤ) : ⌊((12 : ℤ) : ℚ)⌋ = 12)
  simp only [mul_one]
  rw [if_pos (by norm_num), h3]
  decide

/-- The index `minCostIdx` is one of the `numBuckets - 1` partitions. -/
theorem findMinCost_le (costs : List Cost) : (findMinCost costs).1 ≤ 10 := by
  unfold findMinCost
  have key : ∀ (l : List Nat) (acc : Nat × Cost), (∀ i ∈ l, i ≤ 10) → acc.1 ≤ 10 →
      (l.foldl (fun (acc : Nat × Cost) i =>
        if i = 0 then acc
        else if Cost.gt acc.2 (costs.getD i none) then (i, costs.getD i none) else acc) acc).1
        ≤ 10 := by
    intro l
    induction l with
    | nil => intro acc _ h; exact h
    | cons a l ih =>
      intro acc hl h
      rw [List.foldl_cons]
      apply ih
      · intro i hi
        exact hl i (List.mem_cons_of_mem _ hi)
      · split_ifs
        · exact h
        · exact hl a (List.mem_cons_self _ _)
        · exact h
  apply key
  · intro i hi
    rw [List.mem_range] at hi
    unfold numBuckets at hi
    omega
  · exact Nat.zero_le _

/-- A partition by a predicate that holds for one index of the range and fails for another
returns an index strictly inside the range. -/
theorem partition_mid_lt (idx : List Nat) (b e : Nat) (pred : Nat → Bool)
    (he : e ≤ idx.length) (k1 k2 : Nat) (h1 : k1 ∈ slice idx b e) (p1 : pred k1 = true)
    (h2 : k2 ∈ slice idx b e) (p2 : pred k2 = false) :
    b < (partition idx b e pred).2 ∧ (partition idx b e pred).2 < e := by
  unfold partition
  simp only
  have hlen := slice_length idx b e he
  have hsum := (List.filter_append_perm pred (slice idx b e)).length_eq
  rw [List.length_append] at hsum
  have a1 : 0 < ((slice idx b e).filter pred).length :=
    List.length_pos_of_mem (List.mem_filter.mpr ⟨h1, p1⟩)
  have a2 : 0 < ((slice idx b e).filter (fun k => !pred k)).length :=
    List.length_pos_of_mem (List.mem_filter.mpr ⟨h2, by simp [p2]⟩)
  omega

/-- The triangle of the least centroid of a non-degenerate range falls in the bucket 0 and
the one of the greatest centroid in the bucket 11. -/
theorem extreme_buckets (data : BVHBuildData) (idx : List Nat) (b e axis : Nat)
    (hbe : b < e) (he : e ≤ idx.length)
    (hnd : (rangeCentroidBound data idx b e).degenerated axis = false) :
    (∃ k, k ∈ slice idx b e ∧
      (data.triBoundCentroids.getD k 0).get axis =
        (rangeCentroidBound data idx b e).minAt axis ∧
      bucketIndex (numBuckets : Nat) ((data.triBoundCentroids.getD k 0).get axis)
        ((rangeCentroidBound data idx b e).minAt axis)
        ((rangeCentroidBound data idx b e).maxAt axis) = 0) ∧
    (∃ k, k ∈ slice idx b e ∧
      (data.triBoundCentroids.getD k 0).get axis =
        (rangeCentroidBound data idx b e).maxAt axis ∧
      bucketIndex (numBuckets : Nat) ((data.triBoundCentroids.getD k 0).get axis)
        ((rangeCentroidBound data idx b e).minAt axis)
        ((rangeCentroidBound data idx b e).maxAt axis) = 11) := by
  have hne : slice idx b e ≠ [] := by
    intro h0
    have := slice_length idx b e he
    rw [h0] at this
    simp at this
    omega
  obtain ⟨lo, hi, hcb, ⟨k1, m1, f1⟩, ⟨k2, m2, f2⟩⟩ :=
    rangeCentroidBound_attained data idx b e axis hne
  rw [hcb] at hnd ⊢
  have hlh : lo.get axis ≠ hi.get axis := by
    simpa [AABB.degenerated] using hnd
  simp only [AABB.minAt, AABB.maxAt]
  refine ⟨⟨k1, m1, f1, ?_⟩, ⟨k2, m2, f2, ?_⟩⟩
  · rw [f1]
    exact bucketIndex_lo _ _
  · rw [f2]
    exact bucketIndex_hi _ _ hlh

/-- The partition of a non-degenerate range at one of the `numBuckets - 1` splits returns
an index strictly inside the range. -/
theorem partition_strict (data : BVHBuildData) (idx : List Nat) (b e axis m : Nat)
    (hm : m ≤ 10) (hbe : b < e) (he : e ≤ idx.length)
    (hnd : (rangeCentroidBound data idx b e).degenerated axis = false) :
    b < (partition idx b e (CompareToBucket axis (numBuckets : Nat) m data
        (rangeCentroidBound data idx b e))).2 ∧
      (partition idx b e (CompareToBucket axis (numBuckets : Nat) m data
        (rangeCentroidBound data idx b e))).2 < e := by
  obtain ⟨⟨k1, m1, _, f1⟩, ⟨k2, m2, _, f2⟩⟩ := extreme_buckets data idx b e axis hbe he hnd
  apply partition_mid_lt idx b e _ he k1 k2 m1 _ m2
  · unfold CompareToBucket
    simp only
    rw [f2]
    simp only [decide_eq_false_iff_not, not_le]
    omega
  · unfold CompareToBucket
    simp only
    rw [f1]
    simp only [decide_eq_true_eq]
    omega

/-- The recursive build returns a node for every non-empty range, given a depth bound of
at least the length of the range. -/
theorem BuildNode_isSome (data : BVHBuildData) :
    ∀ (fuel : Nat) (idx : List Nat) (b e : Nat), b < e → e ≤ idx.length → e - b ≤ fuel →
      (BuildNode data fuel idx b e).isSome = true := by
  intro fuel
  induction fuel with
  | zero =>
    intro idx b e hbe _ hf
    omega
  | succ fuel ih =>
    intro idx b e hbe he hf
    simp only [BuildNode]
    split_ifs with c1 c2 c3
    · rfl
    · rfl
    · have hnd : (rangeCentroidBound data idx b e).degenerated
          (rangeCentroidBound data idx b e).LongestAxis = false := by
        simpa using c2
      have hs := partition_strict data idx b e _ _ (findMinCost_le
        ((List.range (numBuckets - 1)).map
          (partitionCost (fillBuckets data idx b e (rangeCentroidBound data idx b e).LongestAxis
            (rangeCentroidBound data idx b e)).1
            (fillBuckets data idx b e (rangeCentroidBound data idx b e).LongestAxis
            (rangeCentroidBound data idx b e)).2 (rangeBound data idx b e)))) hbe he hnd
      generalize CompareToBucket _ _ _ data _ = pred at hs ⊢
      have hperm := partition_perm idx b e pred (Nat.le_of_lt hbe)
      generalize partition idx b e pred = p at hs hperm ⊢
      have hlen0 : p.1.length = idx.length := hperm.length_eq
      obtain ⟨rl, hL⟩ := Option.isSome_iff_exists.mp
        (ih p.1 b p.2 hs.1 (by omega) (by omega))
      obtain ⟨left, idx1⟩ := rl
      rw [hL]
      simp only
      obtain ⟨pl, _, _⟩ := BuildNode_spec data fuel p.1 b p.2 left idx1 (Nat.le_of_lt hs.1)
        (by omega) hL
      have hlen1 : idx1.length = p.1.length := pl.length_eq
      obtain ⟨rr, hR⟩ := Option.isSome_iff_exists.mp
        (ih idx1 p.2 e hs.2 (by omega) (by omega))
      obtain ⟨right, idx2⟩ := rr
      rw [hR]
      rfl
    · rfl

/-- The member `Build()` returns a scene for every list of primitives with at least one
triangle, given a depth bound of at least the number of triangles. -/
theorem Build_isSome (primitives : List Primitive) (fuel : Nat)
    (hN : 1 ≤ (createTriAccels primitives).length)
    (hfuel : (createTriAccels primitives).length ≤ fuel) :
    ∃ scene, Build primitives fuel = some scene := by
  unfold Build
  simp only
  obtain ⟨r, hr⟩ := Option.isSome_iff_exists.mp
    (BuildNode_isSome (buildData (createTriAccels primitives)) fuel
      (List.range (createTriAccels primitives).length) 0 (createTriAccels primitives).length
      (by omega) (by rw [List.length_range]) (by omega))
  obtain ⟨root, idx⟩ := r
  rw [hr]
  exact ⟨_, rfl⟩

/-- Claim C26: in the recursive `Build(data, begin, end)`, for every non-empty range
`[b, e)` whose centroid bound is not degenerate along the split axis, the index
`minCostIdx` is at most 10, a triangle of the range whose centroid coordinate is the least
falls in the bucket 0 and one whose centroid coordinate is the greatest falls in the bucket
11, and the index `mid` that the partition returns satisfies `b < mid < e`; and the member
`Build()` returns a scene for every list of primitives with at least one triangle, as soon
as the depth bound is at least the number of triangles. -/
theorem partition_strict_and_Build_terminates :
    (∀ (data : BVHBuildData) (idx : List Nat) (b e axis : Nat) (costs : List Cost),
      b < e → e ≤ idx.length → (rangeCentroidBound data idx b e).degenerated axis = false →
      (findMinCost costs).1 ≤ 10 ∧
      (∃ k, k ∈ slice idx b e ∧
        (data.triBoundCentroids.getD k 0).get axis =
          (rangeCentroidBound data idx b e).minAt axis ∧
        bucketIndex (numBuckets : Nat) ((data.triBoundCentroids.getD k 0).get axis)
          ((rangeCentroidBound data idx b e).minAt axis)
          ((rangeCentroidBound data idx b e).maxAt axis) = 0) ∧
      (∃ k, k ∈ slice idx b e ∧
        (data.triBoundCentroids.getD k 0).get axis =
          (rangeCentroidBound data idx b e).maxAt axis ∧
        bucketIndex (numBuckets : Nat) ((data.triBoundCentroids.getD k 0).get axis)
          ((rangeCentroidBound data idx b e).minAt axis)
          ((rangeCentroidBound data idx b e).maxAt axis) = 11) ∧
      b < (partition idx b e (CompareToBucket axis (numBuckets : Nat) (findMinCost costs).1
        data (rangeCentroidBound data idx b e))).2 ∧
      (partition idx b e (CompareToBucket axis (numBuckets : Nat) (findMinCost costs).1
        data (rangeCentroidBound data idx b e))).2 < e) ∧
    (∀ (primitives : List Primitive) (fuel : Nat),
      1 ≤ (createTriAccels primitives).length → (createTriAccels primitives).length ≤ fuel →
      ∃ scene, Build primitives fuel = some scene) := by
  refine ⟨?_, Build_isSome⟩
  intro data idx b e axis costs hbe he hnd
  obtain ⟨x1, x2⟩ := extreme_buckets data idx b e axis hbe he hnd
  obtain ⟨y1, y2⟩ := partition_strict data idx b e axis _ (findMinCost_le costs) hbe he hnd
  exact ⟨findMinCost_le costs, x1, x2, y1, y2⟩

/-- The range `[0, 2)` of the two triangles `flatTri` and `lowTri`, whose centroids differ
along the axis 2, is split strictly inside, and `Build` returns a scene for them. -/
theorem partition_strict_and_Build_terminates_witness :
    ((findMinCost []).1 ≤ 10 ∧
      0 < (partition [0, 1] 0 2 (CompareToBucket 2 (numBuckets : Nat) (findMinCost []).1
        (buildData Sample.twoScene.triAccels)
        (rangeCentroidBound (buildData Sample.twoScene.triAccels) [0, 1] 0 2))).2 ∧
      (partition [0, 1] 0 2 (CompareToBucket 2 (numBuckets : Nat) (findMinCost []).1
        (buildData Sample.twoScene.triAccels)
        (rangeCentroidBound (buildData Sample.twoScene.triAccels) [0, 1] 0 2))).2 < 2) ∧
    ∃ scene, Build [Sample.flatTri, Sample.lowTri] 5 = some scene := by
  have h := partition_strict_and_Build_terminates
  obtain ⟨a, _, _, c, d⟩ := h.1 (buildData Sample.twoScene.triAccels) [0, 1] 0 2 2 []
    (by decide) (by decide) (by decide!)
  exact ⟨⟨a, c, d⟩, h.2 [Sample.flatTri, Sample.lowTri] 5 (by decide!) (by decide!)⟩

end BVHScene

theorem Tiles.tiles_append : ∀ (l r : List (Nat × Nat)) (b m e : Nat),
    Tiles l b m → Tiles r m e → Tiles (l ++ r) b e := by
  intro l
  induction l with
  | nil =>
    intro r b m e h1 h2
    have hb : b = m := h1
    rw [hb]
    exact h2
  | cons a l ih =>
    intro r b m e h1 h2
    obtain ⟨x1, x2, x3⟩ := h1
    exact ⟨x1, x2, ih r a.2 m e x3 h2⟩

/-- Consecutive non-empty pieces of `[b, e)` lie inside it, are non-empty, follow one
another without overlap, and hold every position of `[b, e)`. -/
theorem Tiles.tiles_spec : ∀ (rs : List (Nat × Nat)) (b e : Nat), Tiles rs b e →
    b ≤ e ∧ (∀ r ∈ rs, r.1 < r.2 ∧ b ≤ r.1 ∧ r.2 ≤ e) ∧
      rs.Pairwise (fun r s => r.2 ≤ s.1) ∧
      ∀ i, (b ≤ i ∧ i < e) ↔ ∃ r ∈ rs, r.1 ≤ i ∧ i < r.2 := by
  intro rs
  induction rs with
  | nil =>
    intro b e h
    have hb : b = e := h
    refine ⟨by omega, by simp, List.Pairwise.nil, ?_⟩
    intro i
    simp only [List.not_mem_nil, false_and, exists_false, iff_false]
    omega
  | cons a rs ih =>
    intro b e h
    obtain ⟨x1, x2, x3⟩ := h
    obtain ⟨y1, y2, y3, y4⟩ := ih a.2 e x3
    refine ⟨by omega, ?_, ?_, ?_⟩
    · intro r hr
      rcases List.mem_cons.mp hr with h | h
      · subst h
        exact ⟨x2, by omega, y1⟩
      · obtain ⟨z1, z2, z3⟩ := y2 r h
        exact ⟨z1, by omega, z3⟩
    · refine List.Pairwise.cons ?_ y3
      intro s hs
      exact (y2 s hs).2.1
    · intro i
      constructor
      · rintro ⟨h1, h2⟩
        by_cases hi : i < a.2
        · exact ⟨a, List.mem_cons_self _ _, by omega, hi⟩
        · obtain ⟨r, hr, z⟩ := (y4 i).mp ⟨by omega, h2⟩
          exact ⟨r, List.mem_cons_of_mem _ hr, z⟩
      · rintro ⟨r, hr, z1, z2⟩
        rcases List.mem_cons.mp hr with h | h
        · subst h
          omega
        · have := (y4 i).mpr ⟨r, h, z1, z2⟩
          omega

namespace BVHScene

/-- The leaves of the node that the recursive build returns for a non-empty range split
the range into consecutive non-empty pieces. -/
theorem BuildNode_tiles (data : BVHBuildData) :
    ∀ (fuel : Nat) (idx : List Nat) (b e : Nat) (node : BVHNode) (idx2 : List Nat),
      b < e → e ≤ idx.length → BuildNode data fuel idx b e = some (node, idx2) →
      Tiles node.leafRanges b e := by
  intro fuel
  induction fuel with
  | zero =>
    intro idx b e node idx2 _ _ h
    simp [BuildNode] at h
  | succ fuel ih =>
    intro idx b e node idx2 hbe he h
    have hleaf : ∀ (n : BVHNode) (j : List Nat),
        some (BVHNode.leaf b e (rangeBound data idx b e), idx) = some (n, j) →
        Tiles n.leafRanges b e := by
      intro n j hj
      simp only [Option.some.injEq, Prod.mk.injEq] at hj
      obtain ⟨h1, _⟩ := hj
      subst h1
      exact ⟨rfl, hbe, rfl⟩
    simp only [BuildNode] at h
    split_ifs at h with c1 c2 c3
    · exact hleaf _ _ h
    · exact hleaf _ _ h
    · have hnd : (rangeCentroidBound data idx b e).degenerated
          (rangeCentroidBound data idx b e).LongestAxis = false := by
        simpa using c2
      have hs := partition_strict data idx b e _ _ (findMinCost_le
        ((List.range (numBuckets - 1)).map
          (partitionCost (fillBuckets data idx b e (rangeCentroidBound data idx b e).LongestAxis
            (rangeCentroidBound data idx b e)).1
            (fillBuckets data idx b e (rangeCentroidBound data idx b e).LongestAxis
            (rangeCentroidBound data idx b e)).2 (rangeBound data idx b e)))) hbe he hnd
      generalize CompareToBucket _ _ _ data _ = pred at h hs
      have hperm := partition_perm idx b e pred (Nat.le_of_lt hbe)
      generalize partition idx b e pred = p at h hs hperm
      cases hL : BuildNode data fuel p.1 b p.2 with
      | none => rw [hL] at h; simp at h
      | some rl =>
        obtain ⟨left, idx1⟩ := rl
        rw [hL] at h
        simp only at h
        cases hR : BuildNode data fuel idx1 p.2 e with
        | none => rw [hR] at h; simp at h
        | some rr =>
          obtain ⟨right, idx3⟩ := rr
          rw [hR] at h
          simp only [Option.some.injEq, Prod.mk.injEq] at h
          obtain ⟨h1, _⟩ := h
          subst h1
          have hlen0 : p.1.length = idx.length := hperm.length_eq
          obtain ⟨pl, _, _⟩ := BuildNode_spec data fuel p.1 b p.2 left idx1
            (Nat.le_of_lt hs.1) (by omega) hL
          have hlen1 : idx1.length = p.1.length := pl.length_eq
          exact Tiles.tiles_append _ _ b p.2 e (ih p.1 b p.2 left idx1 hs.1 (by omega) hL)
            (ih idx1 p.2 e right idx3 hs.2 (by omega) hR)
    · exact hleaf _ _ h

end BVHScene

/-- The leaf ranges of a node that covers `[b, e)` lie in `[b, e)`. -/
theorem NodeOK.leafRanges_subset {data : BVHBuildData} {idx : List Nat} :
    ∀ {node : BVHNode} {b e : Nat}, NodeOK data idx node b e →
      ∀ r ∈ node.leafRanges, b ≤ r.1 ∧ r.2 ≤ e := by
  intro node
  induction node with
  | leaf b2 e2 bound =>
    intro b e h r hr
    obtain ⟨h1, h2, _⟩ := h
    simp only [BVHNode.leafRanges, List.mem_singleton] at hr
    subst hr
    simp only
    omega
  | internal ax left right bound ihl ihr =>
    intro b e h r hr
    obtain ⟨mid, m1, m2, hl, hr2, _, _⟩ := h
    simp only [BVHNode.leafRanges, List.mem_append] at hr
    rcases hr with hr | hr
    · have := ihl hl r hr
      omega
    · have := ihr hr2 r hr
      omega

/-- Every node of a tree that covers a range covers a range itself. -/
theorem NodeOK.of_mem_nodes {data : BVHBuildData} {idx : List Nat} :
    ∀ {node : BVHNode} {b e : Nat}, NodeOK data idx node b e →
      ∀ n ∈ node.nodes, ∃ b2 e2, NodeOK data idx n b2 e2 := by
  intro node
  induction node with
  | leaf b2 e2 bound =>
    intro b e h n hn
    simp only [BVHNode.nodes, List.mem_singleton] at hn
    subst hn
    exact ⟨b, e, h⟩
  | internal ax left right bound ihl ihr =>
    intro b e h n hn
    simp only [BVHNode.nodes, List.mem_cons, List.mem_append] at hn
    rcases hn with hn | hn | hn
    · subst hn
      exact ⟨b, e, h⟩
    · obtain ⟨mid, _, _, hl, _, _, _⟩ := h
      exact ihl hl n hn
    · obtain ⟨mid, _, _, _, hr, _, _⟩ := h
      exact ihr hr n hn

namespace BVHScene

/-- Claim C27: the scene that `Build` returns for `N >= 1` triangles holds the triaccels
of the primitives; its `bvhTriIndices` is a permutation of `0, ..., N - 1`; the ranges
`[begin, end)` of the leaves of its tree are non-empty, they follow one another from left
to right without overlap (so that they are pairwise disjoint), and a position lies in
`[0, N)` exactly when it lies in one of them; and the bound of every node of the tree
contains the bound of every triangle whose index `bvhTriIndices` stores at a position of
the range of a leaf of that node. -/
theorem Build_invariants (primitives : List Primitive) (fuel : Nat) (scene : BVHScene)
    (h : Build primitives fuel = some scene) (hN : 1 ≤ scene.triAccels.length) :
    scene.triAccels = createTriAccels primitives ∧
    scene.bvhTriIndices.Perm (List.range scene.triAccels.length) ∧
    (∀ r ∈ scene.root.leafRanges, r.1 < r.2) ∧
    scene.root.leafRanges.Pairwise (fun r s => r.2 ≤ s.1) ∧
    (∀ i, i < scene.triAccels.length ↔ ∃ r ∈ scene.root.leafRanges, r.1 ≤ i ∧ i < r.2) ∧
    (∀ n ∈ scene.root.nodes, ∀ r ∈ n.leafRanges, ∀ i k tri, r.1 ≤ i → i < r.2 →
      scene.bvhTriIndices[i]? = some k → scene.triAccels[k]? = some tri →
      AABB.Subset (triBound tri) n.bound) := by
  have hspec := Build_spec primitives fuel scene h
  unfold Build at h
  simp only at h
  cases hB : BuildNode (buildData (createTriAccels primitives)) fuel
      (List.range (createTriAccels primitives).length) 0 (createTriAccels primitives).length with
  | none => rw [hB] at h; simp at h
  | some r =>
    obtain ⟨root, idx⟩ := r
    rw [hB] at h
    simp only [Option.some.injEq] at h
    subst h
    simp only at hN hspec ⊢
    obtain ⟨hperm, _, _⟩ := BuildNode_spec _ fuel _ 0 _ root idx (Nat.zero_le _)
      (by rw [List.length_range]) hB
    have htiles := BuildNode_tiles _ fuel _ 0 _ root idx (by omega)
      (by rw [List.length_range]) hB
    obtain ⟨_, t2, t3, t4⟩ := Tiles.tiles_spec _ _ _ htiles
    refine ⟨trivial, hperm, fun r hr => (t2 r hr).1, t3, ?_, ?_⟩
    · intro i
      rw [← t4 i]
      omega
    · intro n hn r hr i k tri h1 h2 hk htri
      obtain ⟨b2, e2, hok⟩ := NodeOK.of_mem_nodes hspec.1 n hn
      have hsub := NodeOK.leafRanges_subset hok r hr
      have hb := NodeOK.bound_subset hok k ⟨i, by omega, by omega, hk⟩
      rw [buildData_triBounds_getD _ k tri htri] at hb
      exact hb

/-- The scene built from `flatTri` and `lowTri` satisfies the invariants of the build. -/
theorem Build_invariants_witness :
    Build [Sample.flatTri, Sample.lowTri] 5 = some Sample.twoScene ∧
    1 ≤ Sample.twoScene.triAccels.length ∧
    Sample.twoScene.triAccels = createTriAccels [Sample.flatTri, Sample.lowTri] ∧
    Sample.twoScene.bvhTriIndices.Perm (List.range Sample.twoScene.triAccels.length) ∧
    (∀ r ∈ Sample.twoScene.root.leafRanges, r.1 < r.2) ∧
    Sample.twoScene.root.leafRanges.Pairwise (fun r s => r.2 ≤ s.1) ∧
    (∀ i, i < Sample.twoScene.triAccels.length ↔
      ∃ r ∈ Sample.twoScene.root.leafRanges, r.1 ≤ i ∧ i < r.2) ∧
    (∀ n ∈ Sample.twoScene.root.nodes, ∀ r ∈ n.leafRanges, ∀ i k tri, r.1 ≤ i → i < r.2 →
      Sample.twoScene.bvhTriIndices[i]? = some k → Sample.twoScene.triAccels[k]? = some tri →
      AABB.Subset (triBound tri) n.bound) :=
  ⟨Build_twoScene, by decide,
    Build_invariants [Sample.flatTri, Sample.lowTri] 5 Sample.twoScene Build_twoScene
      (by decide)⟩

end BVHScene

namespace BVHScene

/-- The loop "Find minimum partition" over costs that are numbers returns the first index
at which the least cost is attained, and that cost. -/
theorem findMinCost_spec (costs : List Cost) (C : Nat → ℚ)
    (hC : ∀ i, i < 11 → costs.getD i none = some (C i)) :
    ∃ m, m < 11 ∧ findMinCost costs = (m, some (C m)) ∧ (∀ i, i < 11 → C m ≤ C i) ∧
      (∀ i, i < m → C m < C i) := by
  have key : ∀ n, n ≤ 11 → ∃ m, m ≤ n - 1 ∧
      (List.range n).foldl (fun (acc : Nat × Cost) i =>
        if i = 0 then acc
        else if Cost.gt acc.2 (costs.getD i none) then (i, costs.getD i none) else acc)
        (0, costs.getD 0 none) = (m, some (C m)) ∧
      (∀ i, i < n → C m ≤ C i) ∧ (∀ i, i < m → C m < C i) := by
    intro n
    induction n with
    | zero =>
      intro _
      refine ⟨0, le_refl _, ?_, ?_, ?_⟩
      · rw [List.range_zero, List.foldl_nil, hC 0 (by omega)]
      · intro i hi
        omega
      · intro i hi
        omega
    | succ n ih =>
      intro hn
      obtain ⟨m, h1, h2, h3, h4⟩ := ih (by omega)
      rw [List.range_succ, List.foldl_append, h2]
      simp only [List.foldl_cons, List.foldl_nil]
      by_cases h0 : n = 0
      · subst h0
        rw [if_pos rfl]
        have hm0 : m = 0 := by omega
        subst hm0
        refine ⟨0, by omega, rfl, ?_, h4⟩
        intro i hi
        have hi0 : i = 0 := by omega
        subst hi0
        exact le_refl _
      · rw [if_neg h0, hC n (by omega)]
        by_cases hgt : C m > C n
        · have hg : Cost.gt (some (C m)) (some (C n)) = true := by
            simp [Cost.gt, hgt]
          rw [if_pos hg]
          refine ⟨n, by omega, rfl, ?_, ?_⟩
          · intro i hi
            rcases Nat.lt_succ_iff_lt_or_eq.mp hi with h | h
            · exact le_of_lt (lt_of_lt_of_le hgt (h3 i h))
            · subst h
              exact le_refl _
          · intro i hi
            exact lt_of_lt_of_le hgt (h3 i hi)
        · have hg : ¬ (Cost.gt (some (C m)) (some (C n)) = true) := by
            simp [Cost.gt, hgt]
          rw [if_neg hg]
          refine ⟨m, by omega, rfl, ?_, h4⟩
          intro i hi
          rcases Nat.lt_succ_iff_lt_or_eq.mp hi with h | h
          · exact h3 i h
          · subst h
            exact not_lt.mp hgt
  obtain ⟨m, h1, h2, h3, h4⟩ := key 11 (le_refl _)
  exact ⟨m, by omega, h2, h3, h4⟩

/-- Every cost of a range whose bound has a non-zero surface area is a number. -/
theorem splitCosts_some (data : BVHBuildData) (idx : List Nat) (b e : Nat)
    (hSA : (rangeBound data idx b e).SurfaceArea ≠ 0) (i : Nat) (hi : i < 11) :
    ∃ c, (splitCosts data idx b e).getD i none = some c := by
  unfold splitCosts
  simp only
  have hlt : i < numBuckets - 1 := by
    unfold numBuckets
    omega
  rw [List.getD_eq_getElem?_getD, List.getElem?_map, List.getElem?_range hlt]
  simp only [Option.map_some', Option.getD_some]
  unfold partitionCost
  simp only
  rw [if_neg hSA]
  exact ⟨_, rfl⟩

/-- The two groups of a partition: the predicate holds at every position before `mid` and
fails at every position from `mid` on. -/
theorem partition_groups (idx : List Nat) (b e : Nat) (pred : Nat → Bool) (hbe : b ≤ e)
    (he : e ≤ idx.length) :
    (∀ i k, b ≤ i → i < (partition idx b e pred).2 →
      (partition idx b e pred).1[i]? = some k → pred k = true) ∧
    (∀ i k, (partition idx b e pred).2 ≤ i → i < e →
      (partition idx b e pred).1[i]? = some k → pred k = false) := by
  unfold partition
  simp only
  have hl : (idx.take b).length = b := by rw [List.length_take]; omega
  have hlen := slice_length idx b e he
  have hsum := (List.filter_append_perm pred (slice idx b e)).length_eq
  rw [List.length_append] at hsum
  constructor
  · intro i k h1 h2 h3
    rw [List.append_assoc, List.append_assoc,
      List.getElem?_append_right (by omega), List.getElem?_append_left (by omega)] at h3
    have hmem := List.mem_iff_getElem?.mpr ⟨_, h3⟩
    exact (List.mem_filter.mp hmem).2
  · intro i k h1 h2 h3
    rw [List.append_assoc, List.append_assoc,
      List.getElem?_append_right (by omega), List.getElem?_append_right (by omega),
      List.getElem?_append_left (by omega)] at h3
    have hmem := List.mem_iff_getElem?.mpr ⟨_, h3⟩
    simpa using (List.mem_filter.mp hmem).2

/-- One call of the recursive build either makes a leaf, under the leaf condition, or
partitions the range at the first split of least cost and recurses on the two sides. -/
theorem BuildNode_cases (data : BVHBuildData) (fuel : Nat) (idx : List Nat) (b e : Nat)
    (node : BVHNode) (idx2 : List Nat) (C : Nat → ℚ)
    (hbe : b < e) (he : e ≤ idx.length)
    (hC : ∀ i, i < 11 → (splitCosts data idx b e).getD i none = some (C i))
    (h : BuildNode data (fuel + 1) idx b e = some (node, idx2)) :
    ((e - b = 1 ∨ (rangeCentroidBound data idx b e).degenerated
          (rangeCentroidBound data idx b e).LongestAxis = true ∨
        (e - b ≤ 255 ∧ ∀ i, i < 11 → ((e - b : Nat) : ℚ) ≤ C i)) ∧
      node = BVHNode.leaf b e (rangeBound data idx b e) ∧ idx2 = idx) ∨
    (¬ (e - b = 1 ∨ (rangeCentroidBound data idx b e).degenerated
          (rangeCentroidBound data idx b e).LongestAxis = true ∨
        (e - b ≤ 255 ∧ ∀ i, i < 11 → ((e - b : Nat) : ℚ) ≤ C i)) ∧
      ∃ m left right idx1 p, m < 11 ∧ (∀ i, i < 11 → C m ≤ C i) ∧ (∀ i, i < m → C m < C i) ∧
        p = partition idx b e (CompareToBucket (rangeCentroidBound data idx b e).LongestAxis
          (numBuckets : Nat) m data (rangeCentroidBound data idx b e)) ∧
        (∀ i k, b ≤ i → i < p.2 → p.1[i]? = some k →
          CompareToBucket (rangeCentroidBound data idx b e).LongestAxis
            (numBuckets : Nat) m data (rangeCentroidBound data idx b e) k = true) ∧
        (∀ i k, p.2 ≤ i → i < e → p.1[i]? = some k →
          CompareToBucket (rangeCentroidBound data idx b e).LongestAxis
            (numBuckets : Nat) m data (rangeCentroidBound data idx b e) k = false) ∧
        BuildNode data fuel p.1 b p.2 = some (left, idx1) ∧
        BuildNode data fuel idx1 p.2 e = some (right, idx2) ∧
        node = BVHNode.mkInternal (rangeCentroidBound data idx b e).LongestAxis left right) := by
  obtain ⟨m, hm, hfm, hmin, hfirst⟩ := findMinCost_spec (splitCosts data idx b e) C hC
  simp only [BuildNode] at h
  generalize hg : findMinCost _ = fm at h
  have hfm2 : fm = (m, some (C m)) := by
    rw [← hg]
    exact hfm
  subst hfm2
  simp only at h
  have hleaf : ∀ (n : BVHNode) (j : List Nat),
      some (BVHNode.leaf b e (rangeBound data idx b e), idx) = some (n, j) →
      n = BVHNode.leaf b e (rangeBound data idx b e) ∧ j = idx := by
    intro n j hj
    simp only [Option.some.injEq, Prod.mk.injEq] at hj
    exact ⟨hj.1.symm, hj.2.symm⟩
  split_ifs at h with c1 c2 c3
  · exact Or.inl ⟨Or.inl c1, hleaf _ _ h⟩
  · exact Or.inl ⟨Or.inr (Or.inl c2), hleaf _ _ h⟩
  · right
    constructor
    · rintro (x | x | ⟨x1, x2⟩)
      · exact c1 x
      · exact c2 x
      · rcases c3 with c | c
        · have hlt : C m < ((e - b : Nat) : ℚ) := by
            simpa [Cost.lt] using c
          exact absurd (x2 m hm) (not_le.mpr hlt)
        · unfold maxTriInNode at c
          omega
    · have hgr := partition_groups idx b e
        (CompareToBucket (rangeCentroidBound data idx b e).LongestAxis
          (numBuckets : Nat) m data (rangeCentroidBound data idx b e)) (Nat.le_of_lt hbe) he
      generalize hp : partition idx b e _ = p at h hgr
      cases hL : BuildNode data fuel p.1 b p.2 with
      | none => rw [hL] at h; simp at h
      | some rl =>
        obtain ⟨left, idx1⟩ := rl
        rw [hL] at h
        simp only at h
        cases hR : BuildNode data fuel idx1 p.2 e with
        | none => rw [hR] at h; simp at h
        | some rr =>
          obtain ⟨right, idx3⟩ := rr
          rw [hR] at h
          simp only [Option.some.injEq, Prod.mk.injEq] at h
          obtain ⟨h1, h2⟩ := h
          subst h1
          subst h2
          exact ⟨m, left, right, idx1, p, hm, hmin, hfirst, hp.symm, hgr.1, hgr.2, hL, hR, rfl⟩
  · left
    refine ⟨Or.inr (Or.inr ⟨?_, ?_⟩), hleaf _ _ h⟩
    · unfold maxTriInNode at c3
      omega
    · intro i hi
      have hnlt : ¬ (C m < ((e - b : Nat) : ℚ)) := by
        intro hlt
        apply c3
        left
        simpa [Cost.lt] using hlt
      exact le_trans (not_lt.mp hnlt) (hmin i hi)

/-- No cost of a range whose bound has the surface area zero is a number. -/
theorem splitCosts_none (data : BVHBuildData) (idx : List Nat) (b e : Nat)
    (hSA : (rangeBound data idx b e).SurfaceArea = 0) (i : Nat) :
    (splitCosts data idx b e).getD i none = none := by
  unfold splitCosts
  simp only
  rw [List.getD_eq_getElem?_getD, List.getElem?_map]
  cases hi : (List.range (numBuckets - 1))[i]? with
  | none => rfl
  | some j =>
    simp only [Option.map_some', Option.getD_some]
    unfold partitionCost
    simp only
    rw [if_pos hSA]

/-- The loop "Find minimum partition" over costs none of which is a number keeps the index
0: every comparison `minCost > costs[i]` is false. -/
theorem findMinCost_none (costs : List Cost) (hN : ∀ i, costs.getD i none = none) :
    findMinCost costs = (0, none) := by
  unfold findMinCost
  rw [hN 0]
  have key : ∀ (l : List Nat),
      l.foldl (fun (acc : Nat × Cost) i =>
        if i = 0 then acc
        else if Cost.gt acc.2 (costs.getD i none) then (i, costs.getD i none) else acc)
        (0, none) = (0, none) := by
    intro l
    induction l with
    | nil => rfl
    | cons a l ih =>
      rw [List.foldl_cons]
      have hstep : (if a = 0 then ((0 : Nat), (none : Cost))
          else if Cost.gt ((0 : Nat), (none : Cost)).2 (costs.getD a none) then
            (a, costs.getD a none) else (0, none)) = (0, none) := by
        split_ifs with h1 h2
        · rfl
        · simp [Cost.gt] at h2
        · rfl
      rw [hstep]
      exact ih
  exact key _

/-- One call of the recursive build on a range none of whose costs is a number: a leaf
exactly when the range has one triangle, or a degenerate centroid bound, or at most 255
triangles; otherwise a partition at the split 0. -/
theorem BuildNode_cases_none (data : BVHBuildData) (fuel : Nat) (idx : List Nat) (b e : Nat)
    (node : BVHNode) (idx2 : List Nat)
    (hbe : b < e) (he : e ≤ idx.length)
    (hN : ∀ i, (splitCosts data idx b e).getD i none = none)
    (h : BuildNode data (fuel + 1) idx b e = some (node, idx2)) :
    ((e - b = 1 ∨ (rangeCentroidBound data idx b e).degenerated
          (rangeCentroidBound data idx b e).LongestAxis = true ∨ e - b ≤ 255) ∧
      node = BVHNode.leaf b e (rangeBound data idx b e) ∧ idx2 = idx) ∨
    (¬ (e - b = 1 ∨ (rangeCentroidBound data idx b e).degenerated
          (rangeCentroidBound data idx b e).LongestAxis = true ∨ e - b ≤ 255) ∧
      ∃ left right idx1 p,
        p = partition idx b e (CompareToBucket (rangeCentroidBound data idx b e).LongestAxis
          (numBuckets : Nat) ((0 : Nat) : Int) data (rangeCentroidBound data idx b e)) ∧
        (∀ i k, b ≤ i → i < p.2 → p.1[i]? = some k →
          CompareToBucket (rangeCentroidBound data idx b e).LongestAxis
            (numBuckets : Nat) ((0 : Nat) : Int) data (rangeCentroidBound data idx b e) k
              = true) ∧
        (∀ i k, p.2 ≤ i → i < e → p.1[i]? = some k →
          CompareToBucket (rangeCentroidBound data idx b e).LongestAxis
            (numBuckets : Nat) ((0 : Nat) : Int) data (rangeCentroidBound data idx b e) k
              = false) ∧
        BuildNode data fuel p.1 b p.2 = some (left, idx1) ∧
        BuildNode data fuel idx1 p.2 e = some (right, idx2) ∧
        node = BVHNode.mkInternal (rangeCentroidBound data idx b e).LongestAxis left right) := by
  have hfm := findMinCost_none (splitCosts data idx b e) hN
  simp only [BuildNode] at h
  generalize hg : findMinCost _ = fm at h
  have hfm2 : fm = (0, none) := by
    rw [← hg]
    exact hfm
  subst hfm2
  simp only at h
  have hleaf : ∀ (n : BVHNode) (j : List Nat),
      some (BVHNode.leaf b e (rangeBound data idx b e), idx) = some (n, j) →
      n = BVHNode.leaf b e (rangeBound data idx b e) ∧ j = idx := by
    intro n j hj
    simp only [Option.some.injEq, Prod.mk.injEq] at hj
    exact ⟨hj.1.symm, hj.2.symm⟩
  split_ifs at h with c1 c2 c3
  · exact Or.inl ⟨Or.inl c1, hleaf _ _ h⟩
  · exact Or.inl ⟨Or.inr (Or.inl c2), hleaf _ _ h⟩
  · right
    constructor
    · rintro (x | x | x)
      · exact c1 x
      · exact c2 x
      · rcases c3 with c | c
        · simp [Cost.lt] at c
        · unfold maxTriInNode at c
          omega
    · have hgr := partition_groups idx b e
        (CompareToBucket (rangeCentroidBound data idx b e).LongestAxis
          (numBuckets : Nat) ((0 : Nat) : Int) data (rangeCentroidBound data idx b e))
        (Nat.le_of_lt hbe) he
      generalize hp : partition idx b e _ = p at h hgr
      cases hL : BuildNode data fuel p.1 b p.2 with
      | none => rw [hL] at h; simp at h
      | some rl =>
        obtain ⟨left, idx1⟩ := rl
        rw [hL] at h
        simp only at h
        cases hR : BuildNode data fuel idx1 p.2 e with
        | none => rw [hR] at h; simp at h
        | some rr =>
          obtain ⟨right, idx3⟩ := rr
          rw [hR] at h
          simp only [Option.some.injEq, Prod.mk.injEq] at h
          obtain ⟨h1, h2⟩ := h
          subst h1
          subst h2
          exact ⟨left, right, idx1, p, rfl, hgr.1, hgr.2, hL, hR, rfl⟩
  · left
    refine ⟨Or.inr (Or.inr ?_), hleaf _ _ h⟩
    unfold maxTriInNode at c3
    omega

/-- Claim C24, as stated, fails: for the two triangles that are the points `(0, 0, 0)` and
`(1, 0, 0)`, the range has `N = 2` triangles, its centroid bound is not degenerate along
its longest axis 0, its bound has the surface area zero, so that none of the 11 costs is a
number and none is `>= N`; yet the call makes a leaf of the two, and so does `Build`. -/
theorem BuildNode_leaf_at_zero_area :
    (rangeBound (buildData (createTriAccels [Sample.pointTri0, Sample.pointTri1]))
      [0, 1] 0 2).SurfaceArea = 0 ∧
    (rangeCentroidBound (buildData (createTriAccels [Sample.pointTri0, Sample.pointTri1]))
      [0, 1] 0 2).LongestAxis = 0 ∧
    (rangeCentroidBound (buildData (createTriAccels [Sample.pointTri0, Sample.pointTri1]))
      [0, 1] 0 2).degenerated 0 = false ∧
    splitCosts (buildData (createTriAccels [Sample.pointTri0, Sample.pointTri1])) [0, 1] 0 2 =
      List.replicate 11 none ∧
    BuildNode (buildData (createTriAccels [Sample.pointTri0, Sample.pointTri1])) 5 [0, 1] 0 2 =
      some (BVHNode.leaf 0 2 (AABB.box ⟨0, 0, 0⟩ ⟨1, 0, 0⟩), [0, 1]) ∧
    (Build [Sample.pointTri0, Sample.pointTri1] 5).map (fun scene => scene.root) =
      some (BVHNode.leaf 0 2 (AABB.box ⟨0, 0, 0⟩ ⟨1, 0, 0⟩)) := by
  decide!

/-- Claim C24, amended: one call `Build(data, b, e)` on a non-empty range of `N = e - b`
triangles.  When the bound of the range has a non-zero surface area, each of the 11 costs
`C i` of `costs` is a number; the call returns a leaf exactly when `N = 1`, or the centroid
bound is degenerate along its longest axis, or `N <= 255` and every cost is at least `N`;
otherwise, with `m` the first split of least cost, the indices are partitioned so that the
positions `[b, mid)` hold the indices whose bucket is at most `m` and the positions
`[mid, e)` those whose bucket is greater, and the node is the internal node of the two
recursive calls on `[b, mid)` and `[mid, e)`.  When the bound has the surface area zero, no
cost is a number, every comparison with a cost is false, and the call returns a leaf exactly
when `N = 1`, or the centroid bound is degenerate along its longest axis, or `N <= 255`;
otherwise it partitions at the split 0 in the same way.  A leaf is over `[b, e)` and leaves
the indices unchanged. -/
theorem BuildNode_leaf_iff (data : BVHBuildData) (fuel : Nat) (idx : List Nat) (b e : Nat)
    (node : BVHNode) (idx2 : List Nat) (cb : AABB) (axis : Nat)
    (hbe : b < e) (he : e ≤ idx.length)
    (hcb : cb = rangeCentroidBound data idx b e) (haxis : axis = cb.LongestAxis)
    (h : BuildNode data (fuel + 1) idx b e = some (node, idx2)) :
    ((rangeBound data idx b e).SurfaceArea ≠ 0 →
      ∃ C : Nat → ℚ,
        (∀ i, i < 11 → (splitCosts data idx b e).getD i none = some (C i)) ∧
        ((∃ b2 e2 bound, node = BVHNode.leaf b2 e2 bound) ↔
          (e - b = 1 ∨ cb.degenerated axis = true ∨
            (e - b ≤ 255 ∧ ∀ i, i < 11 → ((e - b : Nat) : ℚ) ≤ C i))) ∧
        ((∃ b2 e2 bound, node = BVHNode.leaf b2 e2 bound) →
          node = BVHNode.leaf b e (rangeBound data idx b e) ∧ idx2 = idx) ∧
        ((¬ ∃ b2 e2 bound, node = BVHNode.leaf b2 e2 bound) →
          ∃ m left right idx1 p,
            m < 11 ∧ (∀ i, i < 11 → C m ≤ C i) ∧ (∀ i, i < m → C m < C i) ∧
            p = partition idx b e (CompareToBucket axis (numBuckets : Nat) m data cb) ∧
            (∀ i k, b ≤ i → i < p.2 → p.1[i]? = some k →
              bucketIndex (numBuckets : Nat) ((data.triBoundCentroids.getD k 0).get axis)
                (cb.minAt axis) (cb.maxAt axis) ≤ m) ∧
            (∀ i k, p.2 ≤ i → i < e → p.1[i]? = some k →
              (m : Int) < bucketIndex (numBuckets : Nat)
                ((data.triBoundCentroids.getD k 0).get axis) (cb.minAt axis) (cb.maxAt axis)) ∧
            BuildNode data fuel p.1 b p.2 = some (left, idx1) ∧
            BuildNode data fuel idx1 p.2 e = some (right, idx2) ∧
            node = BVHNode.mkInternal axis left right)) ∧
    ((rangeBound data idx b e).SurfaceArea = 0 →
      (∀ i, (splitCosts data idx b e).getD i none = none) ∧
      ((∃ b2 e2 bound, node = BVHNode.leaf b2 e2 bound) ↔
        (e - b = 1 ∨ cb.degenerated axis = true ∨ e - b ≤ 255)) ∧
      ((∃ b2 e2 bound, node = BVHNode.leaf b2 e2 bound) →
        node = BVHNode.leaf b e (rangeBound data idx b e) ∧ idx2 = idx) ∧
      ((¬ ∃ b2 e2 bound, node = BVHNode.leaf b2 e2 bound) →
        ∃ left right idx1 p,
          p = partition idx b e
            (CompareToBucket axis (numBuckets : Nat) ((0 : Nat) : Int) data cb) ∧
          (∀ i k, b ≤ i → i < p.2 → p.1[i]? = some k →
            bucketIndex (numBuckets : Nat) ((data.triBoundCentroids.getD k 0).get axis)
              (cb.minAt axis) (cb.maxAt axis) ≤ 0) ∧
          (∀ i k, p.2 ≤ i → i < e → p.1[i]? = some k →
            0 < bucketIndex (numBuckets : Nat)
              ((data.triBoundCentroids.getD k 0).get axis) (cb.minAt axis) (cb.maxAt axis)) ∧
          BuildNode data fuel p.1 b p.2 = some (left, idx1) ∧
          BuildNode data fuel idx1 p.2 e = some (right, idx2) ∧
          node = BVHNode.mkInternal axis left right)) := by
  subst haxis
  subst hcb
  constructor
  · intro hSA
    have hC : ∀ i, i < 11 → (splitCosts data idx b e).getD i none =
        some (((splitCosts data idx b e).getD i none).getD 0) := by
      intro i hi
      obtain ⟨c, hc⟩ := splitCosts_some data idx b e hSA i hi
      rw [hc]
      rfl
    refine ⟨fun i => ((splitCosts data idx b e).getD i none).getD 0, hC, ?_⟩
    rcases BuildNode_cases data fuel idx b e node idx2 _ hbe he hC h with
      ⟨hc, hn, hi⟩ | ⟨hc, m, left, right, idx1, p, hm, hmin, hfirst, hp, g1, g2, hL, hR, hn⟩
    · exact ⟨⟨fun _ => hc, fun _ => ⟨b, e, _, hn⟩⟩, fun _ => ⟨hn, hi⟩,
        fun hx => absurd ⟨b, e, _, hn⟩ hx⟩
    · have hnl : ¬ ∃ b2 e2 bound, node = BVHNode.leaf b2 e2 bound := by
        rintro ⟨b2, e2, bound, hx⟩
        rw [hn] at hx
        exact BVHNode.noConfusion hx
      refine ⟨⟨fun x => absurd x hnl, fun x => absurd x hc⟩, fun x => absurd x hnl, ?_⟩
      intro _
      refine ⟨m, left, right, idx1, p, hm, hmin, hfirst, hp, ?_, ?_, hL, hR, hn⟩
      · intro i k h1 h2 h3
        have hk := g1 i k h1 h2 h3
        unfold CompareToBucket at hk
        exact of_decide_eq_true hk
      · intro i k h1 h2 h3
        have hk := g2 i k h1 h2 h3
        unfold CompareToBucket at hk
        exact not_le.mp (of_decide_eq_false hk)
  · intro hSA
    have hN := splitCosts_none data idx b e hSA
    refine ⟨hN, ?_⟩
    rcases BuildNode_cases_none data fuel idx b e node idx2 hbe he hN h with
      ⟨hc, hn, hi⟩ | ⟨hc, left, right, idx1, p, hp, g1, g2, hL, hR, hn⟩
    · exact ⟨⟨fun _ => hc, fun _ => ⟨b, e, _, hn⟩⟩, fun _ => ⟨hn, hi⟩,
        fun hx => absurd ⟨b, e, _, hn⟩ hx⟩
    · have hnl : ¬ ∃ b2 e2 bound, node = BVHNode.leaf b2 e2 bound := by
        rintro ⟨b2, e2, bound, hx⟩
        rw [hn] at hx
        exact BVHNode.noConfusion hx
      refine ⟨⟨fun x => absurd x hnl, fun x => absurd x hc⟩, fun x => absurd x hnl, ?_⟩
      intro _
      refine ⟨left, right, idx1, p, hp, ?_, ?_, hL, hR, hn⟩
      · intro i k h1 h2 h3
        have hk := g1 i k h1 h2 h3
        unfold CompareToBucket at hk
        simpa using of_decide_eq_true hk
      · intro i k h1 h2 h3
        have hk := g2 i k h1 h2 h3
        unfold CompareToBucket at hk
        simpa using not_le.mp (of_decide_eq_false hk)

/-- The call on the range `[0, 2)` of the two triangles of `twoScene`, whose bound has the
surface area 6: every cost is `19 / 24 < 2`, the node is internal, and the indices are
partitioned at the split 0 along the axis 2. -/
theorem BuildNode_leaf_iff_witness :
    (BuildNode Sample.twoData 5 [0, 1] 0 2 = some (Sample.twoScene.root, [1, 0]) ∧
      (rangeBound Sample.twoData [0, 1] 0 2).SurfaceArea ≠ 0) ∧
    ∃ C : Nat → ℚ,
      (∀ i, i < 11 → (splitCosts Sample.twoData [0, 1] 0 2).getD i none = some (C i)) ∧
      ((∃ b2 e2 bound, Sample.twoScene.root = BVHNode.leaf b2 e2 bound) ↔
        (2 - 0 = 1 ∨ (rangeCentroidBound Sample.twoData [0, 1] 0 2).degenerated 2 = true ∨
          (2 - 0 ≤ 255 ∧ ∀ i, i < 11 → ((2 - 0 : Nat) : ℚ) ≤ C i))) ∧
      ((∃ b2 e2 bound, Sample.twoScene.root = BVHNode.leaf b2 e2 bound) →
        Sample.twoScene.root = BVHNode.leaf 0 2 (rangeBound Sample.twoData [0, 1] 0 2) ∧
          [1, 0] = [0, 1]) ∧
      ((¬ ∃ b2 e2 bound, Sample.twoScene.root = BVHNode.leaf b2 e2 bound) →
        ∃ m left right idx1 p,
          m < 11 ∧ (∀ i, i < 11 → C m ≤ C i) ∧ (∀ i, i < m → C m < C i) ∧
          p = partition [0, 1] 0 2 (CompareToBucket 2 (numBuckets : Nat) m Sample.twoData
            (rangeCentroidBound Sample.twoData [0, 1] 0 2)) ∧
          (∀ i k, 0 ≤ i → i < p.2 → p.1[i]? = some k →
            bucketIndex (numBuckets : Nat) ((Sample.twoData.triBoundCentroids.getD k 0).get 2)
              ((rangeCentroidBound Sample.twoData [0, 1] 0 2).minAt 2)
              ((rangeCentroidBound Sample.twoData [0, 1] 0 2).maxAt 2) ≤ m) ∧
          (∀ i k, p.2 ≤ i → i < 2 → p.1[i]? = some k →
            (m : Int) < bucketIndex (numBuckets : Nat)
              ((Sample.twoData.triBoundCentroids.getD k 0).get 2)
              ((rangeCentroidBound Sample.twoData [0, 1] 0 2).minAt 2)
              ((rangeCentroidBound Sample.twoData [0, 1] 0 2).maxAt 2)) ∧
          BuildNode Sample.twoData 4 p.1 0 p.2 = some (left, idx1) ∧
          BuildNode Sample.twoData 4 idx1 p.2 2 = some (right, [1, 0]) ∧
          Sample.twoScene.root = BVHNode.mkInternal 2 left right) :=
  ⟨⟨by decide!, by decide!⟩,
    (BuildNode_leaf_iff Sample.twoData 4 [0, 1] 0 2 Sample.twoScene.root [1, 0]
      (rangeCentroidBound Sample.twoData [0, 1] 0 2) 2 (by decide) (by decide) rfl
      (by decide!) (by decide!)).1 (by decide!)⟩

end BVHScene

end Lightmetrica
